import Mathlib

/-!
# Mixed-harmonics correlator engine (AliFlowAnalysisWithMixedHarmonics)

Shallow embedding of `AliFlowAnalysisWithMixedHarmonics.cxx`.

* `Double_t` is an ordered field `K` (exact arithmetic: no rounding, no NaN, no infinities);
  the theorems about angles take `K = ℝ` with `Real.cos` and `Real.sin`.
* `Int_t` is `Int`; the only conversions from `Double_t` to `Int_t` are the cast `(Int_t)x`
  (`toInt`, truncation toward zero) and `(Int_t)TMath::Floor(x)` (`Int.floor`).
* ROOT objects (`TAxis`, `TProfile`, `TProfile2D`, `TH1D`, `TMatrixD`) are library code; they are
  embedded by what the analysis uses of them: a profile is the log of its `Fill` calls together
  with its axis, and the bin statistics are computed from the log.  Bin errors are not embedded.
* A null track pointer is `none`; dereferencing it makes the enclosing loop return `none`.
-/

set_option linter.unusedSectionVars false

namespace MixedHarmonics

/-! ## Library layer: TMath, TAxis, TProfile, TProfile2D, TH1D -/

/-- The functions and constants of `TMath` used by the analysis. -/
structure TMath (K : Type) where
  Cos : K → K
  Sin : K → K
  TwoPi : K

/-- The real-number `TMath`. -/
noncomputable def realTMath : TMath ℝ := ⟨Real.cos, Real.sin, 2 * Real.pi⟩

section Definitions

variable {K : Type} [LinearOrderedField K] [FloorRing K]

/-- The C cast `(Int_t)x` of a `Double_t`: truncation toward zero. -/
def toInt (x : K) : Int := if 0 ≤ x then ⌊x⌋ else ⌈x⌉

/-- A `TAxis` with fixed-width bins: `fNbins` bins over `[fXmin, fXmax)`. -/
structure TAxis (K : Type) where
  fNbins : Int
  fXmin : K
  fXmax : K

/-- `TAxis::FindBin(x)`: 0 is the underflow bin, `fNbins+1` the overflow bin, otherwise
`1 + int(fNbins*(x-fXmin)/(fXmax-fXmin))`. -/
def TAxis.FindBin (a : TAxis K) (x : K) : Int :=
  if x < a.fXmin then 0
  else if ¬ (x < a.fXmax) then a.fNbins + 1
  else 1 + toInt ((a.fNbins : K) * (x - a.fXmin) / (a.fXmax - a.fXmin))

/-- A `TProfile`: its x axis and the log of the calls `Fill(x,y,w)`, oldest first. -/
structure TProfile (K : Type) where
  fXaxis : TAxis K
  fills : List (K × K × K)

/-- `TProfile(name,title,nbins,xlow,xup)`: an empty profile.  (ROOT replaces `nbins ≤ 0` by 1;
the bookings of the analysis are used with a positive number of bins.) -/
def TProfile.book (nbins : Int) (xlow xup : K) : TProfile K :=
  ⟨⟨nbins, xlow, xup⟩, []⟩

/-- `TProfile::Fill(x,y,w)`. -/
def TProfile.Fill (p : TProfile K) (x y w : K) : TProfile K :=
  { p with fills := p.fills ++ [(x, y, w)] }

/-- `TProfile::Reset()`. -/
def TProfile.Reset (p : TProfile K) : TProfile K :=
  { p with fills := [] }

/-- The fills that went to bin `b`. -/
def TProfile.binFills (p : TProfile K) (b : Int) : List (K × K × K) :=
  p.fills.filter (fun f => decide (p.fXaxis.FindBin f.1 = b))

/-- `TProfile::GetBinEntries(b)`: the sum of the weights filled into bin `b`. -/
def TProfile.GetBinEntries (p : TProfile K) (b : Int) : K :=
  ((p.binFills b).map (fun f => f.2.2)).sum

/-- The accumulated weighted sum of bin `b` (ROOT keeps it in `fArray[b]`). -/
def TProfile.binSumwy (p : TProfile K) (b : Int) : K :=
  ((p.binFills b).map (fun f => f.2.2 * f.2.1)).sum

/-- `TProfile::GetBinContent(b)`: weighted mean of bin `b`, 0 for a bin without entries. -/
def TProfile.GetBinContent (p : TProfile K) (b : Int) : K :=
  if p.GetBinEntries b = 0 then 0 else p.binSumwy b / p.GetBinEntries b

/-- A `TProfile2D`: two axes and the log of the calls `Fill(x,y,z,w)`, oldest first. -/
structure TProfile2D (K : Type) where
  fXaxis : TAxis K
  fYaxis : TAxis K
  fills : List (K × K × K × K)

/-- `TProfile2D(name,title,nx,xlow,xup,ny,ylow,yup)`: an empty profile. -/
def TProfile2D.book (nx : Int) (xlow xup : K) (ny : Int) (ylow yup : K) : TProfile2D K :=
  ⟨⟨nx, xlow, xup⟩, ⟨ny, ylow, yup⟩, []⟩

/-- `TProfile2D::Fill(x,y,z,w)`. -/
def TProfile2D.Fill (p : TProfile2D K) (x y z w : K) : TProfile2D K :=
  { p with fills := p.fills ++ [(x, y, z, w)] }

/-- The fills that went to the cell `(bx, by)`. -/
def TProfile2D.binFills (p : TProfile2D K) (bx bY : Int) : List (K × K × K × K) :=
  p.fills.filter
    (fun f => decide (p.fXaxis.FindBin f.1 = bx) && decide (p.fYaxis.FindBin f.2.1 = bY))

/-- Sum of the weights filled into the cell `(bx, by)`. -/
def TProfile2D.GetBinEntries (p : TProfile2D K) (bx bY : Int) : K :=
  ((p.binFills bx bY).map (fun f => f.2.2.2)).sum

/-- Accumulated weighted sum of the cell `(bx, by)`. -/
def TProfile2D.binSumwz (p : TProfile2D K) (bx bY : Int) : K :=
  ((p.binFills bx bY).map (fun f => f.2.2.2 * f.2.2.1)).sum

/-- The composition `GetBinContent(GetBin(bx,by))` of `TProfile2D`: weighted mean of the cell
`(bx, by)`, 0 for a cell without entries. -/
def TProfile2D.GetBinContent (p : TProfile2D K) (bx bY : Int) : K :=
  if p.GetBinEntries bx bY = 0 then 0 else p.binSumwz bx bY / p.GetBinEntries bx bY

/-- A `TH1D` as far as the analysis uses it: the bin contents. -/
structure TH1D (K : Type) where
  content : Int → K

/-- `TH1D::SetBinContent(b,v)`. -/
def TH1D.SetBinContent (h : TH1D K) (b : Int) (v : K) : TH1D K :=
  ⟨fun c => if c = b then v else h.content c⟩

/-- `TH1D::GetBinContent(b)`. -/
def TH1D.GetBinContent (h : TH1D K) (b : Int) : K := h.content b

/-! ## Data model of the analysis -/

/-- What `Make` reads of an `AliFlowTrackSimple`. -/
structure AliFlowTrackSimple (K : Type) where
  Phi : K
  Pt : K
  Eta : K
  Charge : Int
  InRPSelection : Bool
  InPOISelection : Bool

/-- What `Make` reads of an `AliFlowEventSimple`: the track array (`GetTrack(i)` may be a null
pointer, `NumberOfTracks()` is the length) and the stored counter `GetEventNSelTracksRP()`. -/
structure AliFlowEventSimple (K : Type) where
  tracks : List (Option (AliFlowTrackSimple K))
  GetEventNSelTracksRP : Int

/-- The data members holding the configuration: user settings, the common constants read by
`AccessConstants`, and the weight histograms (a null pointer is `none`, a histogram is its
`GetBinContent`). -/
structure Settings (K : Type) where
  fHarmonic : Int
  fNoOfMultipicityBins : Int
  fMultipicityBinWidth : K
  fMinMultiplicity : K
  fOppositeChargesPOI : Bool
  fEvaluateDifferential3pCorrelator : Bool
  fCorrectForDetectorEffects : Bool
  fPrintOnTheScreen : Bool
  fnBinsPhi : Int
  fnBinsPt : Int
  fPtMin : K
  fPtMax : K
  fPtBinWidth : K
  fnBinsEta : Int
  fEtaMin : K
  fEtaBinWidth : K
  fUsePhiWeights : Bool
  fUsePtWeights : Bool
  fUseEtaWeights : Bool
  fPhiWeights : Option (Int → K)
  fPtWeights : Option (Int → K)
  fEtaWeights : Option (Int → K)

/-- The data members mutated by `Make` and `Finish`.  The matrices `fReQnk`, `fImQnk`, `fSpk`
are their entry functions; `fRePEBE[sd]`, `fImPEBE[sd]`, `fOverlapEBE[fs][sd]` and
`f3pCorrelatorVsPtSumDiffPro[sd]` are functions of the array indices. -/
structure State (K : Type) where
  fReQnk : Nat → Nat → K
  fImQnk : Nat → Nat → K
  fSpk : Nat → Nat → K
  fRePEBE : Nat → TProfile K
  fImPEBE : Nat → TProfile K
  fOverlapEBE : Nat → Nat → TProfile K
  f3pCorrelatorPro : TProfile K
  fNonIsotropicTermsPro : TProfile K
  f3pCorrelatorVsMPro : TProfile K
  fNonIsotropicTermsVsMPro : TProfile2D K
  f3pCorrelatorVsPtSumDiffPro : Nat → TProfile K
  f3pCorrelatorHist : TH1D K
  fDetectorBiasHist : TH1D K
  f3pCorrelatorVsMHist : TH1D K
  fDetectorBiasVsMHist : TH1D K

/-- The state after `Init`: matrices zero (`TMatrixD` is zero-initialised), profiles booked as in
`BookAllEventByEventQuantities` and `BookAllAllEventQuantities` and empty, histograms zero.  The
per-event pair profiles and `f3pCorrelatorVsPtSumDiffPro` exist in the source only when
`fEvaluateDifferential3pCorrelator` is set; here they are booked in both modes and stay unused
when the mode is off. -/
def State.init (cfg : Settings K) : State K where
  fReQnk := fun _ _ => 0
  fImQnk := fun _ _ => 0
  fSpk := fun _ _ => 0
  fRePEBE := fun _ => TProfile.book cfg.fnBinsPt 0 cfg.fPtMax
  fImPEBE := fun _ => TProfile.book cfg.fnBinsPt 0 cfg.fPtMax
  fOverlapEBE := fun _ _ => TProfile.book cfg.fnBinsPt 0 cfg.fPtMax
  f3pCorrelatorPro := TProfile.book 1 0 1
  fNonIsotropicTermsPro := TProfile.book 8 0 8
  f3pCorrelatorVsMPro :=
    TProfile.book (cfg.fNoOfMultipicityBins + 2) 0 ((cfg.fNoOfMultipicityBins + 2 : Int) : K)
  fNonIsotropicTermsVsMPro :=
    TProfile2D.book 8 0 8 (cfg.fNoOfMultipicityBins + 2) 0
      ((cfg.fNoOfMultipicityBins + 2 : Int) : K)
  f3pCorrelatorVsPtSumDiffPro := fun _ => TProfile.book cfg.fnBinsPt 0 cfg.fPtMax
  f3pCorrelatorHist := ⟨fun _ => 0⟩
  fDetectorBiasHist := ⟨fun _ => 0⟩
  f3pCorrelatorVsMHist := ⟨fun _ => 0⟩
  fDetectorBiasVsMHist := ⟨fun _ => 0⟩

/-- The test `fUsePhiWeights || fUsePtWeights || fUseEtaWeights` of the three reducers. -/
def Settings.usesParticleWeights (cfg : Settings K) : Bool :=
  cfg.fUsePhiWeights || cfg.fUsePtWeights || cfg.fUseEtaWeights

/-! ## Calculate3pCorrelator -/

/-- The x position of the multiplicity bin: the `if / else if / else` chain that
`Calculate3pCorrelator` and `CalculateNonIsotropicTerms` repeat before each vs-M fill
(`0.5`, `0.5+fNoOfMultipicityBins+1`, `1.5+(Int_t)((dMult-fMinMultiplicity)/fMultipicityBinWidth)`),
with the branch tests, the quotient and the truncation taken in the exact arithmetic of the
field `K`.  The same chain with every operation rounded as in `Double_t` is
`vsMPositionBinary64`; the two select different bins where rounding moves the quotient across
an integer. -/
def vsMPosition (cfg : Settings K) (dMult : K) : K :=
  if dMult < cfg.fMinMultiplicity then 1 / 2
  else if dMult ≥ cfg.fMinMultiplicity + (cfg.fNoOfMultipicityBins : K) * cfg.fMultipicityBinWidth
  then 1 / 2 + (cfg.fNoOfMultipicityBins : K) + 1
  else 3 / 2 + ((toInt ((dMult - cfg.fMinMultiplicity) / cfg.fMultipicityBinWidth) : Int) : K)

/-- The local `three1n1n2n` of `Calculate3pCorrelator`. -/
def three1n1n2n (dReQ1n dImQ1n dReQ2n dImQ2n dMult : K) : K :=
  (dReQ1n ^ 2 * dReQ2n + 2 * dReQ1n * dImQ1n * dImQ2n - dImQ1n ^ 2 * dReQ2n
    - 2 * (dReQ1n ^ 2 + dImQ1n ^ 2)
    - (dReQ2n ^ 2 + dImQ2n ^ 2) + 2 * dMult)
    / (dMult * (dMult - 1) * (dMult - 2))

/-- `Calculate3pCorrelator()`: the unweighted branch fills the integrated and the vs-M profile,
the weighted branch is empty. -/
def Calculate3pCorrelator (cfg : Settings K) (s : State K) : State K :=
  if !cfg.usesParticleWeights then
    let dMult := s.fSpk 0 0
    let dReQ1n := s.fReQnk 0 0
    let dReQ2n := s.fReQnk 1 0
    let dImQ1n := s.fImQnk 0 0
    let dImQ2n := s.fImQnk 1 0
    let v := three1n1n2n dReQ1n dImQ1n dReQ2n dImQ2n dMult
    { s with
      f3pCorrelatorPro := s.f3pCorrelatorPro.Fill (1 / 2) v (dMult * (dMult - 1) * (dMult - 2))
      f3pCorrelatorVsMPro :=
        s.f3pCorrelatorVsMPro.Fill (vsMPosition cfg dMult) v (dMult * (dMult - 1) * (dMult - 2)) }
  else s

/-! ## CalculateNonIsotropicTerms -/

/-- `CalculateNonIsotropicTerms()`: in the unweighted branch the four 1-particle terms are filled
when `dMult>0` and the four 2-particle terms when `dMult>1`, each into `fNonIsotropicTermsPro`
and into `fNonIsotropicTermsVsMPro`; the weighted branch is empty. -/
def CalculateNonIsotropicTerms (cfg : Settings K) (s : State K) : State K :=
  if !cfg.usesParticleWeights then
    let dMult := s.fSpk 0 0
    let dReQ1n := s.fReQnk 0 0
    let dReQ2n := s.fReQnk 1 0
    let dImQ1n := s.fImQnk 0 0
    let dImQ2n := s.fImQnk 1 0
    let s1 : State K :=
      if dMult > 0 then
        let cosP1n := dReQ1n / dMult
        let sinP1n := dImQ1n / dMult
        let cosP2n := dReQ2n / dMult
        let sinP2n := dImQ2n / dMult
        { s with
          fNonIsotropicTermsPro :=
            (((s.fNonIsotropicTermsPro.Fill (1 / 2) cosP1n dMult).Fill (3 / 2) sinP1n dMult).Fill
              (5 / 2) cosP2n dMult).Fill (7 / 2) sinP2n dMult
          fNonIsotropicTermsVsMPro :=
            (((s.fNonIsotropicTermsVsMPro.Fill (1 / 2) (vsMPosition cfg dMult) cosP1n dMult).Fill
              (3 / 2) (vsMPosition cfg dMult) sinP1n dMult).Fill
              (5 / 2) (vsMPosition cfg dMult) cosP2n dMult).Fill
              (7 / 2) (vsMPosition cfg dMult) sinP2n dMult }
      else s
    if dMult > 1 then
      let cosP1nP1n := (dReQ1n ^ 2 - dImQ1n ^ 2 - dReQ2n) / (dMult * (dMult - 1))
      let sinP1nP1n := (2 * dReQ1n * dImQ1n - dImQ2n) / (dMult * (dMult - 1))
      let cosP2nM1n := (dReQ2n * dReQ1n + dImQ2n * dImQ1n - dReQ1n) / (dMult * (dMult - 1))
      let sinP2nM1n := (dImQ2n * dReQ1n - dReQ2n * dImQ1n - dImQ1n) / (dMult * (dMult - 1))
      { s1 with
        fNonIsotropicTermsPro :=
          (((s1.fNonIsotropicTermsPro.Fill (9 / 2) cosP1nP1n (dMult * (dMult - 1))).Fill
            (11 / 2) sinP1nP1n (dMult * (dMult - 1))).Fill
            (13 / 2) cosP2nM1n (dMult * (dMult - 1))).Fill
            (15 / 2) sinP2nM1n (dMult * (dMult - 1))
        fNonIsotropicTermsVsMPro :=
          (((s1.fNonIsotropicTermsVsMPro.Fill (9 / 2) (vsMPosition cfg dMult) cosP1nP1n
              (dMult * (dMult - 1))).Fill
            (11 / 2) (vsMPosition cfg dMult) sinP1nP1n (dMult * (dMult - 1))).Fill
            (13 / 2) (vsMPosition cfg dMult) cosP2nM1n (dMult * (dMult - 1))).Fill
            (15 / 2) (vsMPosition cfg dMult) sinP2nM1n (dMult * (dMult - 1)) }
    else s1
  else s

/-! ## CalculateDifferential3pCorrelator -/

/-- The bin numbers `1, 2, ..., n` of a loop `for(Int_t b=1;b<=n;b++)`. -/
def binLoop (n : Int) : List Int := (List.range n.toNat).map (fun (i : Nat) => (i : Int) + 1)

/-- The local `weight` of `CalculateDifferential3pCorrelator` for variable `sd` and bin `b`. -/
def diffWeight (s : State K) (sd : Nat) (b : Int) : K :=
  let dMult := s.fSpk 0 0
  let mp := (s.fRePEBE sd).GetBinEntries b
  let mOverlap1 := (s.fOverlapEBE 0 sd).GetBinEntries b
  let mOverlap2 := (s.fOverlapEBE 1 sd).GetBinEntries b
  mp * dMult - mOverlap1 - mOverlap2

/-- The local `cosP2nphi1M1npsi2M1npsi2` of `CalculateDifferential3pCorrelator` for variable `sd`
and bin `b`: 0 unless `weight>0`. -/
def diffValue (s : State K) (sd : Nat) (b : Int) : K :=
  let dReQ2n := s.fReQnk 1 0
  let dImQ2n := s.fImQnk 1 0
  let p1nRe := (s.fRePEBE sd).GetBinContent b * (s.fRePEBE sd).GetBinEntries b
  let p1nIm := (s.fImPEBE sd).GetBinContent b * (s.fImPEBE sd).GetBinEntries b
  let overlap1 := (s.fOverlapEBE 0 sd).GetBinContent b * (s.fOverlapEBE 0 sd).GetBinEntries b
  let overlap2 := (s.fOverlapEBE 1 sd).GetBinContent b * (s.fOverlapEBE 1 sd).GetBinEntries b
  let weight := diffWeight s sd b
  if weight > 0 then (p1nRe * dReQ2n + p1nIm * dImQ2n - overlap1 - overlap2) / weight else 0

/-- One pass of the loop over `b` in `CalculateDifferential3pCorrelator`: the fill of
`f3pCorrelatorVsPtSumDiffPro[sd]` for bin `b`. -/
def diffBinStep (cfg : Settings K) (s : State K) (sd : Nat) (pro : TProfile K) (b : Int) :
    TProfile K :=
  pro.Fill (cfg.fPtMin + ((b - 1 : Int) : K) * cfg.fPtBinWidth) (diffValue s sd b)
    (diffWeight s sd b)

/-- `CalculateDifferential3pCorrelator()`: in the unweighted branch, for `sd = 0, 1` and
`b = 1 .. fnBinsPt`, one fill of `f3pCorrelatorVsPtSumDiffPro[sd]`; the weighted branch is empty. -/
def CalculateDifferential3pCorrelator (cfg : Settings K) (s : State K) : State K :=
  if !cfg.usesParticleWeights then
    { s with
      f3pCorrelatorVsPtSumDiffPro := fun sd =>
        if sd < 2 then
          (binLoop cfg.fnBinsPt).foldl (diffBinStep cfg s sd) (s.f3pCorrelatorVsPtSumDiffPro sd)
        else s.f3pCorrelatorVsPtSumDiffPro sd }
  else s

/-! ## ResetEventByEventQuantities -/

/-- `ResetEventByEventQuantities()`. -/
def ResetEventByEventQuantities (cfg : Settings K) (s : State K) : State K :=
  let s1 : State K :=
    { s with fReQnk := fun _ _ => 0, fImQnk := fun _ _ => 0, fSpk := fun _ _ => 0 }
  if !cfg.fEvaluateDifferential3pCorrelator then s1
  else
    { s1 with
      fRePEBE := fun sd => if sd < 2 then (s1.fRePEBE sd).Reset else s1.fRePEBE sd
      fImPEBE := fun sd => if sd < 2 then (s1.fImPEBE sd).Reset else s1.fImPEBE sd
      fOverlapEBE := fun fs sd =>
        if fs < 2 ∧ sd < 2 then (s1.fOverlapEBE fs sd).Reset else s1.fOverlapEBE fs sd }

/-! ## Make -/

/-- `anEvent->GetTrack(i)`; `none` is the null pointer. -/
def GetTrack (ev : AliFlowEventSimple K) (i : Nat) : Option (AliFlowTrackSimple K) :=
  (ev.tracks[i]?).join

/-- The local `wPhi` of `Make` when an RP track is accumulated.  The guard
`fUsePhiWeights && fPhiWeights && fnBinsPhi` does not depend on the track, so the local either
keeps its initial value 1 or is overwritten at every RP track. -/
def wPhi (tm : TMath K) (cfg : Settings K) (t : AliFlowTrackSimple K) : K :=
  match cfg.fPhiWeights with
  | some h =>
    if cfg.fUsePhiWeights = true ∧ cfg.fnBinsPhi ≠ 0 then
      h (1 + ⌊t.Phi * (cfg.fnBinsPhi : K) / tm.TwoPi⌋)
    else 1
  | none => 1

/-- The local `wPt` of `Make` when an RP track is accumulated. -/
def wPt (cfg : Settings K) (t : AliFlowTrackSimple K) : K :=
  match cfg.fPtWeights with
  | some h =>
    if cfg.fUsePtWeights = true ∧ cfg.fnBinsPt ≠ 0 then
      h (1 + ⌊(t.Pt - cfg.fPtMin) / cfg.fPtBinWidth⌋)
    else 1
  | none => 1

/-- The local `wEta` of `Make` when an RP track is accumulated. -/
def wEta (cfg : Settings K) (t : AliFlowTrackSimple K) : K :=
  match cfg.fEtaWeights with
  | some h =>
    if cfg.fUseEtaWeights = true ∧ cfg.fEtaBinWidth ≠ 0 then
      h (1 + ⌊(t.Eta - cfg.fEtaMin) / cfg.fEtaBinWidth⌋)
    else 1
  | none => 1

/-- The product `wPhi*wPt*wEta` used for an RP track. -/
def trackWeight (tm : TMath K) (cfg : Settings K) (t : AliFlowTrackSimple K) : K :=
  wPhi tm cfg t * wPt cfg t * wEta cfg t

/-- The summand `pow(wPhi*wPt*wEta,k)*TMath::Cos((m+1)*n*dPhi)` of `(*fReQnk)(m,k)`. -/
def reQTerm (tm : TMath K) (cfg : Settings K) (m k : Nat) (t : AliFlowTrackSimple K) : K :=
  trackWeight tm cfg t ^ k * tm.Cos (((((m : Int) + 1) * cfg.fHarmonic : Int) : K) * t.Phi)

/-- The summand `pow(wPhi*wPt*wEta,k)*TMath::Sin((m+1)*n*dPhi)` of `(*fImQnk)(m,k)`. -/
def imQTerm (tm : TMath K) (cfg : Settings K) (m k : Nat) (t : AliFlowTrackSimple K) : K :=
  trackWeight tm cfg t ^ k * tm.Sin (((((m : Int) + 1) * cfg.fHarmonic : Int) : K) * t.Phi)

/-- The body of `if(aftsTrack->InRPSelection())` in `Make`: the loops over `m<2, k<4` adding to
`fReQnk`, `fImQnk` and over `p<4, k<4` adding `pow(wPhi*wPt*wEta,k)` to `fSpk`. -/
def accumulateRP (tm : TMath K) (cfg : Settings K) (t : AliFlowTrackSimple K) (s : State K) :
    State K :=
  { s with
    fReQnk := fun m k => if m < 2 ∧ k < 4 then s.fReQnk m k + reQTerm tm cfg m k t else s.fReQnk m k
    fImQnk := fun m k => if m < 2 ∧ k < 4 then s.fImQnk m k + imQTerm tm cfg m k t else s.fImQnk m k
    fSpk := fun p k =>
      if p < 4 ∧ k < 4 then s.fSpk p k + trackWeight tm cfg t ^ k else s.fSpk p k }

/-- The x value of a pair fill: `(dPt1+dPt2)/2.` for `sd = 0`, `TMath::Abs(dPt1-dPt2)` for
`sd = 1`. -/
def pairX (sd : Nat) (t1 t2 : AliFlowTrackSimple K) : K :=
  if sd = 0 then (t1.Pt + t2.Pt) / 2 else |t1.Pt - t2.Pt|

/-- The fills below the comment `// Fill:` in `Make` for the 1st POI `t1` and the 2nd POI `t2`:
`fRePEBE[sd]`, `fImPEBE[sd]` always, `fOverlapEBE[0][sd]` if the 1st POI is also an RP,
`fOverlapEBE[1][sd]` if the 2nd POI is also an RP. -/
def fillPair (tm : TMath K) (cfg : Settings K) (t1 t2 : AliFlowTrackSimple K) (s : State K) :
    State K :=
  let n : K := ((cfg.fHarmonic : Int) : K)
  let b1stPOIisAlsoRP := t1.InRPSelection
  let b2ndPOIisAlsoRP := t2.InRPSelection
  { s with
    fRePEBE := fun sd =>
      if sd < 2 then (s.fRePEBE sd).Fill (pairX sd t1 t2) (tm.Cos (n * (t1.Phi + t2.Phi))) 1
      else s.fRePEBE sd
    fImPEBE := fun sd =>
      if sd < 2 then (s.fImPEBE sd).Fill (pairX sd t1 t2) (tm.Sin (n * (t1.Phi + t2.Phi))) 1
      else s.fImPEBE sd
    fOverlapEBE := fun fs sd =>
      if sd < 2 ∧ ((fs = 0 ∧ b1stPOIisAlsoRP = true) ∨ (fs = 1 ∧ b2ndPOIisAlsoRP = true)) then
        (s.fOverlapEBE fs sd).Fill (pairX sd t1 t2) (tm.Cos (n * (t1.Phi - t2.Phi))) 1
      else s.fOverlapEBE fs sd }

/-- One pass of the loop over `j` in `Make` for the 1st POI `t1` at index `i`.  The track `j` is
dereferenced without a null check: a null pointer gives `none`. -/
def pairStep (tm : TMath K) (cfg : Settings K) (ev : AliFlowEventSimple K) (i : Nat)
    (t1 : AliFlowTrackSimple K) (s : State K) (j : Nat) : Option (State K) :=
  if j = i then some s
  else
    match GetTrack ev j with
    | none => none
    | some t2 =>
      if t2.InPOISelection then
        if cfg.fOppositeChargesPOI = true ∧ t1.Charge = t2.Charge then some s
        else some (fillPair tm cfg t1 t2 s)
      else some s

/-- One pass of the loop over `i` in `Make`. -/
def trackStep (tm : TMath K) (cfg : Settings K) (ev : AliFlowEventSimple K) (s : State K)
    (i : Nat) : Option (State K) :=
  match GetTrack ev i with
  | none => some s
  | some t =>
    if !(t.InRPSelection || t.InPOISelection) then some s
    else
      let s1 := if t.InRPSelection then accumulateRP tm cfg t s else s
      if cfg.fEvaluateDifferential3pCorrelator then
        if t.InPOISelection then
          (List.range ev.tracks.length).foldlM (pairStep tm cfg ev i t) s1
        else some s1
      else some s1

/-- The loop over `i < nPrim` in `Make` (step d). -/
def trackLoop (tm : TMath K) (cfg : Settings K) (ev : AliFlowEventSimple K) (s : State K) :
    Option (State K) :=
  (List.range ev.tracks.length).foldlM (trackStep tm cfg ev) s

/-- The loop after the track loop: `(*fSpk)(p,k)=pow((*fSpk)(p,k),p+1)` for `p<4, k<4`. -/
def finalizeSpk (s : State K) : State K :=
  { s with fSpk := fun p k => if p < 4 ∧ k < 4 then s.fSpk p k ^ (p + 1) else s.fSpk p k }

/-- The state in which the reducers run: after the track loop and the finalisation of `fSpk`. -/
def accumulate (tm : TMath K) (cfg : Settings K) (ev : AliFlowEventSimple K) (s : State K) :
    Option (State K) :=
  (trackLoop tm cfg ev s).map finalizeSpk

/-- Steps e), f), g) of `Make`, run on the state left by step d) and the finalisation. -/
def reduceAndReset (cfg : Settings K) (ev : AliFlowEventSimple K) (s2 : State K) : State K :=
  let s3 := if ev.GetEventNSelTracksRP ≥ 3 then Calculate3pCorrelator cfg s2 else s2
  let s4 := if ev.GetEventNSelTracksRP ≥ 0 then CalculateNonIsotropicTerms cfg s3 else s3
  let s5 :=
    if cfg.fEvaluateDifferential3pCorrelator = true ∧ ev.GetEventNSelTracksRP ≥ 1 then
      CalculateDifferential3pCorrelator cfg s4
    else s4
  ResetEventByEventQuantities cfg s5

/-- `Make(anEvent)`; `none` when a null track is dereferenced.  The pointer checks of step a)
and the common control histograms of step c) are not part of the embedding. -/
def Make (tm : TMath K) (cfg : Settings K) (ev : AliFlowEventSimple K) (s : State K) :
    Option (State K) :=
  (accumulate tm cfg ev s).map (reduceAndReset cfg ev)

/-! ## CorrectForDetectorEffects and CorrectForDetectorEffectsVsM -/

/-- The local `corrected3pCorrelator` of `CorrectForDetectorEffects`. -/
def corrected3pCorrelator (measured3pCorrelator : K) (nonIsotropicTerms : Nat → K) : K :=
  measured3pCorrelator
    - nonIsotropicTerms 2 * nonIsotropicTerms 4
    - nonIsotropicTerms 3 * nonIsotropicTerms 5
    - 2 * nonIsotropicTerms 0 * nonIsotropicTerms 6
    - 2 * nonIsotropicTerms 1 * nonIsotropicTerms 7
    + 2 * nonIsotropicTerms 2 * (nonIsotropicTerms 0 ^ 2 - nonIsotropicTerms 1 ^ 2)
    + 4 * nonIsotropicTerms 3 * nonIsotropicTerms 0 * nonIsotropicTerms 1

/-- `CorrectForDetectorEffects()`. -/
def CorrectForDetectorEffects (s : State K) : State K :=
  let measured3pCorrelator := s.f3pCorrelatorPro.GetBinContent 1
  let nonIsotropicTerms : Nat → K := fun nit =>
    if nit < 10 then s.fNonIsotropicTermsPro.GetBinContent ((nit : Int) + 1) else 0
  let corrected := corrected3pCorrelator measured3pCorrelator nonIsotropicTerms
  let s1 : State K := { s with f3pCorrelatorHist := s.f3pCorrelatorHist.SetBinContent 1 corrected }
  if measured3pCorrelator ≠ 0 then
    { s1 with
      fDetectorBiasHist := s1.fDetectorBiasHist.SetBinContent 1 (corrected / measured3pCorrelator) }
  else s1

/-- The local `corrected3pCorrelator` of `CorrectForDetectorEffectsVsM` (the formula is written
out a second time there). -/
def corrected3pCorrelatorVsM (measured3pCorrelator : K) (nonIsotropicTerms : Nat → K) : K :=
  measured3pCorrelator
    - nonIsotropicTerms 2 * nonIsotropicTerms 4
    - nonIsotropicTerms 3 * nonIsotropicTerms 5
    - 2 * nonIsotropicTerms 0 * nonIsotropicTerms 6
    - 2 * nonIsotropicTerms 1 * nonIsotropicTerms 7
    + 2 * nonIsotropicTerms 2 * (nonIsotropicTerms 0 ^ 2 - nonIsotropicTerms 1 ^ 2)
    + 4 * nonIsotropicTerms 3 * nonIsotropicTerms 0 * nonIsotropicTerms 1

/-- One pass of the loop over `b` in `CorrectForDetectorEffectsVsM`. -/
def correctVsMStep (s : State K) (b : Int) : State K :=
  let measured3pCorrelator := s.f3pCorrelatorVsMPro.GetBinContent b
  let nonIsotropicTerms : Nat → K := fun nit =>
    if nit < 10 then s.fNonIsotropicTermsVsMPro.GetBinContent ((nit : Int) + 1) b else 0
  let corrected := corrected3pCorrelatorVsM measured3pCorrelator nonIsotropicTerms
  let s1 : State K :=
    { s with f3pCorrelatorVsMHist := s.f3pCorrelatorVsMHist.SetBinContent b corrected }
  if measured3pCorrelator ≠ 0 then
    { s1 with
      fDetectorBiasVsMHist :=
        s1.fDetectorBiasVsMHist.SetBinContent b (corrected / measured3pCorrelator) }
  else s1

/-- `CorrectForDetectorEffectsVsM()`: the loop `for(Int_t b=1;b<=fNoOfMultipicityBins+2;b++)`. -/
def CorrectForDetectorEffectsVsM (cfg : Settings K) (s : State K) : State K :=
  (binLoop (cfg.fNoOfMultipicityBins + 2)).foldl correctVsMStep s

/-! ## Reference quantities: the reference particles of an event and the nested-loop averages -/

/-- The tracks of the event flagged as reference particles, in track order (null pointers are
no tracks). -/
def rpTracks (ev : AliFlowEventSimple K) : List (AliFlowTrackSimple K) :=
  ev.tracks.filterMap (fun o => o.filter (fun t => t.InRPSelection))

/-- The azimuthal angles `phi_1, ..., phi_M` of the reference particles. -/
def rpPhis (ev : AliFlowEventSimple K) : List K :=
  (rpTracks ev).map (fun t => t.Phi)

/-- The nested-loop 3-particle average: the sum of `cos[n(phi_i+phi_j-2phi_k)]` over all ordered
triples of pairwise distinct indices, divided by `M(M-1)(M-2)`. -/
def naive3pCorrelator (tm : TMath K) (n : Int) (phis : List K) : K :=
  (∑ i : Fin phis.length, ∑ j : Fin phis.length, ∑ k : Fin phis.length,
      if i ≠ j ∧ i ≠ k ∧ j ≠ k then
        tm.Cos ((n : K) * (phis[i.1] + phis[j.1] - 2 * phis[k.1]))
      else 0)
    / ((phis.length : K) * ((phis.length : K) - 1) * ((phis.length : K) - 2))

/-- The nested-loop 2-particle average of `f(phi_i, phi_j)` over all ordered pairs of distinct
indices: the double sum divided by `M(M-1)`. -/
def naivePairAverage (f : K → K → K) (phis : List K) : K :=
  (∑ i : Fin phis.length, ∑ j : Fin phis.length,
      if i ≠ j then f phis[i.1] phis[j.1] else 0)
    / ((phis.length : K) * ((phis.length : K) - 1))

/-- The track at index `i`, a null pointer (or an index past the end) read as a track that is
in neither selection. -/
def trackAt (ev : AliFlowEventSimple K) (i : Nat) : AliFlowTrackSimple K :=
  (GetTrack ev i).getD ⟨0, 0, 0, 0, false, false⟩

/-- The ordered pair of tracks `(i, j)` is a pair of distinct particles of interest that passes
the charge cut (`fOppositeChargesPOI` rejects equal charges). -/
def pairPasses (cfg : Settings K) (ev : AliFlowEventSimple K) (i j : Nat) : Bool :=
  decide (j ≠ i) && (trackAt ev i).InPOISelection && (trackAt ev j).InPOISelection
    && !(cfg.fOppositeChargesPOI && decide ((trackAt ev i).Charge = (trackAt ev j).Charge))

/-- The axis with which the per-event pair profiles are booked. -/
def pairAxis (cfg : Settings K) : TAxis K := ⟨cfg.fnBinsPt, 0, cfg.fPtMax⟩

/-- The triple `(i, j, k)` counts for bin `b` of the pair variable `sd`: `(i, j)` is an ordered
pair of distinct POIs passing the charge cut whose pair variable falls in bin `b`, and `k` is a
reference particle different from both. -/
def tripleCounts (cfg : Settings K) (ev : AliFlowEventSimple K) (sd : Nat) (b : Int)
    (i j k : Nat) : Bool :=
  pairPasses cfg ev i j
    && decide ((pairAxis cfg).FindBin (pairX sd (trackAt ev i) (trackAt ev j)) = b)
    && (trackAt ev k).InRPSelection && decide (k ≠ i) && decide (k ≠ j)

/-- The nested-loop sum of `cos[n(psi_i + psi_j - 2 phi_k)]` over the triples counted for bin
`b` of the pair variable `sd`. -/
def naiveDiffSum (tm : TMath K) (cfg : Settings K) (ev : AliFlowEventSimple K) (sd : Nat)
    (b : Int) : K :=
  ∑ i ∈ Finset.range ev.tracks.length, ∑ j ∈ Finset.range ev.tracks.length,
    ∑ k ∈ Finset.range ev.tracks.length,
      if tripleCounts cfg ev sd b i j k = true then
        tm.Cos ((cfg.fHarmonic : K)
          * ((trackAt ev i).Phi + (trackAt ev j).Phi - 2 * (trackAt ev k).Phi))
      else 0

/-- The number of triples counted for bin `b` of the pair variable `sd`. -/
def naiveDiffCount (cfg : Settings K) (ev : AliFlowEventSimple K) (sd : Nat) (b : Int) : K :=
  ∑ i ∈ Finset.range ev.tracks.length, ∑ j ∈ Finset.range ev.tracks.length,
    ∑ k ∈ Finset.range ev.tracks.length,
      if tripleCounts cfg ev sd b i j k = true then 1 else 0

/-- The nested-loop differential average: sum over the counted triples divided by their
number. -/
def naiveDiffCorrelator (tm : TMath K) (cfg : Settings K) (ev : AliFlowEventSimple K) (sd : Nat)
    (b : Int) : K :=
  naiveDiffSum tm cfg ev sd b / naiveDiffCount cfg ev sd b

/-! ## Auxiliary descriptions of the pair loop (used in the proofs) -/

/-- The four families of per-event pair profiles under one name: `w = 0` is `fRePEBE[sd]`,
`w = 1` is `fImPEBE[sd]`, `w = 2` is `fOverlapEBE[0][sd]`, any other `w` is
`fOverlapEBE[1][sd]`. -/
def pairProfile (s : State K) (w sd : Nat) : TProfile K :=
  match w with
  | 0 => s.fRePEBE sd
  | 1 => s.fImPEBE sd
  | 2 => s.fOverlapEBE 0 sd
  | _ => s.fOverlapEBE 1 sd

/-- The fills that `fillPair` appends to the profile `pairProfile _ w sd`. -/
def pairEntry (tm : TMath K) (cfg : Settings K) (w sd : Nat) (t1 t2 : AliFlowTrackSimple K) :
    List (K × K × K) :=
  match w with
  | 0 => [(pairX sd t1 t2, tm.Cos ((cfg.fHarmonic : K) * (t1.Phi + t2.Phi)), 1)]
  | 1 => [(pairX sd t1 t2, tm.Sin ((cfg.fHarmonic : K) * (t1.Phi + t2.Phi)), 1)]
  | 2 =>
    if t1.InRPSelection = true then
      [(pairX sd t1 t2, tm.Cos ((cfg.fHarmonic : K) * (t1.Phi - t2.Phi)), 1)]
    else []
  | _ =>
    if t2.InRPSelection = true then
      [(pairX sd t1 t2, tm.Cos ((cfg.fHarmonic : K) * (t1.Phi - t2.Phi)), 1)]
    else []

/-- The fills that the passes `(i, j)` of the two track loops append to `pairProfile _ w sd`. -/
def loopEntries (tm : TMath K) (cfg : Settings K) (ev : AliFlowEventSimple K) (w sd : Nat)
    (i j : Nat) : List (K × K × K) :=
  if pairPasses cfg ev i j = true then pairEntry tm cfg w sd (trackAt ev i) (trackAt ev j)
  else []

/-- The fills appended to `pairProfile _ w sd` by the outer passes `idx` with inner passes
`js`. -/
def pairLog (tm : TMath K) (cfg : Settings K) (ev : AliFlowEventSimple K) (w sd : Nat)
    (idx js : List Nat) : List (K × K × K) :=
  idx.flatMap (fun i => js.flatMap (fun j => loopEntries tm cfg ev w sd i j))

/-! ## Concrete inputs -/

/-- Example settings: the constructor defaults for the multiplicity binning, harmonic 2, no
particle weights, differential mode on, 100 pt bins over `[0, 10)`. -/
def exampleSettings (K : Type) [LinearOrderedField K] : Settings K where
  fHarmonic := 2
  fNoOfMultipicityBins := 10
  fMultipicityBinWidth := 2
  fMinMultiplicity := 1
  fOppositeChargesPOI := false
  fEvaluateDifferential3pCorrelator := true
  fCorrectForDetectorEffects := true
  fPrintOnTheScreen := true
  fnBinsPhi := 72
  fnBinsPt := 100
  fPtMin := 0
  fPtMax := 10
  fPtBinWidth := 1 / 10
  fnBinsEta := 80
  fEtaMin := -4
  fEtaBinWidth := 1 / 10
  fUsePhiWeights := false
  fUsePtWeights := false
  fUseEtaWeights := false
  fPhiWeights := none
  fPtWeights := none
  fEtaWeights := none

/-- Example state in which the reducers run: `Q[0][0] = Q[1][0] = 4`, `S[p][0] = 4^(p+1)`, all
profiles booked and empty. -/
def exampleState (K : Type) [LinearOrderedField K] : State K :=
  { State.init (exampleSettings K) with
    fReQnk := fun m k => if m < 2 ∧ k = 0 then 4 else 0
    fSpk := fun p k => if k = 0 then 4 ^ (p + 1) else 0 }

/-- Example event: five tracks at `phi = 0`, four of them reference particles (one of these also
a particle of interest) and one particle of interest only. -/
def exampleEvent (K : Type) [LinearOrderedField K] : AliFlowEventSimple K where
  tracks :=
    [some ⟨0, 1 / 2, 0, 1, true, false⟩, some ⟨0, 3 / 2, 0, -1, true, true⟩,
     some ⟨0, 1, 0, 1, true, false⟩, some ⟨0, 5 / 2, 0, 1, false, true⟩,
     some ⟨0, 2, 0, -1, true, false⟩]
  GetEventNSelTracksRP := 4

/-- Example state with vanishing flow vectors and `M = 4`: `S[p][0] = 4^(p+1)`, all `Q` zero. -/
def exampleIsotropicState (K : Type) [LinearOrderedField K] : State K :=
  { State.init (exampleSettings K) with fSpk := fun p k => if k = 0 then 4 ^ (p + 1) else 0 }

/-! ## Runs of events and the logs of the all-event profiles (used in the proofs) -/

section RunDefinitions

variable {K : Type} [LinearOrderedField K] [FloorRing K]

/-- A run of the analysis on a list of events: `Make` is called for each event in turn; `none`
as soon as one call dereferences a null track. -/
def processEvents (tm : TMath K) (cfg : Settings K) (evs : List (AliFlowEventSimple K))
    (s : State K) : Option (State K) :=
  evs.foldlM (fun s ev => Make tm cfg ev s) s

/-- The all-event quantities of `a` (axes, histograms and fills) with the fills of the all-event
profiles of `s` appended to those of `a`, and the per-event quantities of `s`: the state in which
what is logged in `s` happened after what is logged in `a`. -/
def State.prependFills (a s : State K) : State K :=
  { s with
    f3pCorrelatorPro :=
      ⟨a.f3pCorrelatorPro.fXaxis, a.f3pCorrelatorPro.fills ++ s.f3pCorrelatorPro.fills⟩
    fNonIsotropicTermsPro :=
      ⟨a.fNonIsotropicTermsPro.fXaxis,
        a.fNonIsotropicTermsPro.fills ++ s.fNonIsotropicTermsPro.fills⟩
    f3pCorrelatorVsMPro :=
      ⟨a.f3pCorrelatorVsMPro.fXaxis, a.f3pCorrelatorVsMPro.fills ++ s.f3pCorrelatorVsMPro.fills⟩
    fNonIsotropicTermsVsMPro :=
      ⟨a.fNonIsotropicTermsVsMPro.fXaxis, a.fNonIsotropicTermsVsMPro.fYaxis,
        a.fNonIsotropicTermsVsMPro.fills ++ s.fNonIsotropicTermsVsMPro.fills⟩
    f3pCorrelatorVsPtSumDiffPro := fun sd =>
      ⟨(a.f3pCorrelatorVsPtSumDiffPro sd).fXaxis,
        (a.f3pCorrelatorVsPtSumDiffPro sd).fills ++ (s.f3pCorrelatorVsPtSumDiffPro sd).fills⟩
    f3pCorrelatorHist := a.f3pCorrelatorHist
    fDetectorBiasHist := a.fDetectorBiasHist
    f3pCorrelatorVsMHist := a.f3pCorrelatorVsMHist
    fDetectorBiasVsMHist := a.fDetectorBiasVsMHist }

end RunDefinitions

section AllEventDefinitions

variable {K : Type} [LinearOrderedField K] [FloorRing K]

/-- The all-event quantities of a state: the five families of profiles and the four histograms
of `Finish`. -/
def State.allEvent (s : State K) :
    TProfile K × TProfile K × TProfile K × TProfile2D K × (Nat → TProfile K)
      × TH1D K × TH1D K × TH1D K × TH1D K :=
  (s.f3pCorrelatorPro, s.fNonIsotropicTermsPro, s.f3pCorrelatorVsMPro,
    s.fNonIsotropicTermsVsMPro, s.f3pCorrelatorVsPtSumDiffPro, s.f3pCorrelatorHist,
    s.fDetectorBiasHist, s.f3pCorrelatorVsMHist, s.fDetectorBiasVsMHist)

/-- Example settings with the phi-weight flag set (no weight histogram is attached). -/
def exampleWeightedSettings (K : Type) [LinearOrderedField K] : Settings K :=
  { exampleSettings K with fUsePhiWeights := true }

end AllEventDefinitions

/-- Example event of four reference particles at `phi = 0, pi/2, pi, 3pi/2`. -/
noncomputable def exampleSquareEvent : AliFlowEventSimple ℝ where
  tracks :=
    [some ⟨0, 1, 0, 1, true, false⟩, some ⟨Real.pi / 2, 1, 0, 1, true, false⟩,
     some ⟨Real.pi, 1, 0, 1, true, false⟩, some ⟨3 * Real.pi / 2, 1, 0, 1, true, false⟩]
  GetEventNSelTracksRP := 4
/-- Example event whose stored counter `GetEventNSelTracksRP` is 3 while only two of its tracks
are flagged as reference particles. -/
def exampleMiscountedEvent (K : Type) [LinearOrderedField K] : AliFlowEventSimple K where
  tracks := [some ⟨0, 1, 0, 1, true, false⟩, some ⟨0, 1, 0, 1, true, false⟩]
  GetEventNSelTracksRP := 3

/-- Example event with three reference particles at `phi = 0` whose stored counter
`GetEventNSelTracksRP` is 0. -/
def exampleUncountedEvent (K : Type) [LinearOrderedField K] : AliFlowEventSimple K where
  tracks :=
    [some ⟨0, 1, 0, 1, true, false⟩, some ⟨0, 1, 0, 1, true, false⟩,
     some ⟨0, 1, 0, 1, true, false⟩]
  GetEventNSelTracksRP := 0

section RunReference

variable {K : Type} [LinearOrderedField K] [FloorRing K]

/-- The number `M(M-1)(M-2)` of ordered triples of pairwise distinct reference particles of an
event with `M` reference particles. -/
def eventWeight3p (ev : AliFlowEventSimple K) : K :=
  ((rpPhis ev).length : K) * (((rpPhis ev).length : K) - 1) * (((rpPhis ev).length : K) - 2)

/-- The running average of the specification for a list of events: the sum of `W_e * c_e` over
the events with at least 3 reference particles divided by the sum of `W_e` over those events,
`c_e` the nested-loop 3-particle average of the event and `W_e = M_e(M_e-1)(M_e-2)`. -/
def naiveRunAverage (tm : TMath K) (n : Int) (evs : List (AliFlowEventSimple K)) : K :=
  ((evs.filter (fun ev => decide (3 ≤ (rpPhis ev).length))).map
      (fun ev => eventWeight3p ev * naive3pCorrelator tm n (rpPhis ev))).sum
    / ((evs.filter (fun ev => decide (3 ≤ (rpPhis ev).length))).map eventWeight3p).sum

end RunReference

/-- Example settings with a pt range that does not start at 0: 2 pt bins over `[1, 2)`, so that
`fPtBinWidth = (fPtMax-fPtMin)/fnBinsPt = 1/2` as `AccessConstants` computes it. -/
def exampleShiftedSettings (K : Type) [LinearOrderedField K] : Settings K :=
  { exampleSettings K with fnBinsPt := 2, fPtMin := 1, fPtMax := 2, fPtBinWidth := 1 / 2 }

/-- Example event for the shifted pt range: one reference particle and two particles of interest
with `pt = 6/5` and `pt = 13/10`, all at `phi = 0`. -/
def exampleShiftedEvent (K : Type) [LinearOrderedField K] : AliFlowEventSimple K where
  tracks :=
    [some ⟨0, 1, 0, 1, true, false⟩, some ⟨0, 6 / 5, 0, 1, false, true⟩,
     some ⟨0, 13 / 10, 0, 1, false, true⟩]
  GetEventNSelTracksRP := 1

/-- The event with every azimuthal angle `phi_i` replaced by `phi_i + alpha`: the input
transformation of the rotation-invariance property (null pointers, transverse momenta,
pseudorapidities, charges, selection flags and the stored counter are kept). -/
def rotateEvent (alpha : K) (ev : AliFlowEventSimple K) : AliFlowEventSimple K where
  tracks := ev.tracks.map (Option.map (fun t => { t with Phi := t.Phi + alpha }))
  GetEventNSelTracksRP := ev.GetEventNSelTracksRP

/-! ## Particle-weight tables: concrete inputs -/

/-- Example settings with a pt-weight table: the pt-weight flag is set and `fPtWeights` is a
histogram of `fnBinsPt = 100` bins over `[0, 10)` whose bins 1..100 hold the weight 2 and whose
underflow and overflow bins are empty (`GetBinContent` of a bin number past the last bin is the
content of the overflow bin). -/
def exampleTableSettings (K : Type) [LinearOrderedField K] : Settings K :=
  { exampleSettings K with
    fUsePtWeights := true
    fPtWeights := some (fun b => if 1 ≤ b ∧ b ≤ 100 then 2 else 0) }

/-- Example reference particle with `pt = 12`, above the pt range `[0, 10)` of the example
settings. -/
def exampleFastTrack (K : Type) [LinearOrderedField K] : AliFlowTrackSimple K :=
  ⟨0, 12, 0, 1, true, false⟩

/-! ## The profile holding the settings -/

/-- The value that `Fill(x,(Int_t)flag)` receives for a `Bool_t` flag. -/
def boolToDouble (b : Bool) : K := if b then 1 else 0

/-- `BookProfileHoldingSettings()`: the profile `fAnalysisSettings` booked with 8 bins over
`[0, 8)` and the eight calls `Fill(x, value)` (weight 1) in source order.  The eighth fill, under
the bin label `fEvaluateDifferential3pCorrelator`, takes `fOppositeChargesPOI` as the source
has it. -/
def BookProfileHoldingSettings (cfg : Settings K) : TProfile K :=
  ((((((((TProfile.book 8 0 8).Fill (1 / 2) (boolToDouble cfg.fCorrectForDetectorEffects) 1).Fill
    (3 / 2) (cfg.fNoOfMultipicityBins : K) 1).Fill
    (5 / 2) cfg.fMultipicityBinWidth 1).Fill
    (7 / 2) cfg.fMinMultiplicity 1).Fill
    (9 / 2) (boolToDouble cfg.fPrintOnTheScreen) 1).Fill
    (11 / 2) (cfg.fHarmonic : K) 1).Fill
    (13 / 2) (boolToDouble cfg.fOppositeChargesPOI) 1).Fill
    (15 / 2) (boolToDouble cfg.fOppositeChargesPOI) 1

/-- `AccessSettings()`: the eight data members are overwritten with the contents of bins 1..8 of
`fAnalysisSettings`; `(Bool_t)x` is `x ≠ 0` and `(Int_t)x` truncates. -/
def AccessSettings (fAnalysisSettings : TProfile K) (cfg : Settings K) : Settings K :=
  { cfg with
    fCorrectForDetectorEffects := decide (fAnalysisSettings.GetBinContent 1 ≠ 0)
    fNoOfMultipicityBins := toInt (fAnalysisSettings.GetBinContent 2)
    fMultipicityBinWidth := fAnalysisSettings.GetBinContent 3
    fMinMultiplicity := fAnalysisSettings.GetBinContent 4
    fPrintOnTheScreen := decide (fAnalysisSettings.GetBinContent 5 ≠ 0)
    fHarmonic := toInt (fAnalysisSettings.GetBinContent 6)
    fOppositeChargesPOI := decide (fAnalysisSettings.GetBinContent 7 ≠ 0)
    fEvaluateDifferential3pCorrelator := decide (fAnalysisSettings.GetBinContent 8 ≠ 0) }

/-! ## Bounds of the tables `fReQnk`, `fImQnk`, `fSpk` -/

/-- The numbers of rows and columns with which `BookAllEventByEventQuantities` allocates
`fReQnk` and `fImQnk`: `new TMatrixD(2*n,9)` with `n = fHarmonic`. -/
def qnkDims (cfg : Settings K) : Int × Int := (2 * cfg.fHarmonic, 9)

/-- The numbers of rows and columns of `fSpk`: `new TMatrixD(4,4)`. -/
def spkDims : Int × Int := (4, 4)

/-- The element `(r, c)` exists in a `TMatrixD` of the given numbers of rows and columns (the
test made by `TMatrixD::operator()`). -/
def inBounds (dims : Int × Int) (rc : Int × Int) : Bool :=
  decide (0 ≤ rc.1 ∧ rc.1 < dims.1 ∧ 0 ≤ rc.2 ∧ rc.2 < dims.2)

/-- The index pairs `(m, k)` of the loops `for(Int_t m=0;m<2;m++) for(Int_t k=0;k<4;k++)` of
`Make`, in which `(*fReQnk)(m,k)` and `(*fImQnk)(m,k)` are read and written. -/
def makeQnkIndices : List (Int × Int) :=
  (List.range 2).flatMap (fun m => (List.range 4).map (fun k => ((m : Int), (k : Int))))

/-- The index pairs `(p, k)` of the loops `for(Int_t p=0;p<4;p++) for(Int_t k=0;k<4;k++)` of
`Make` (the accumulation and the final power), in which `(*fSpk)(p,k)` is read and written. -/
def makeSpkIndices : List (Int × Int) :=
  (List.range 4).flatMap (fun p => (List.range 4).map (fun k => ((p : Int), (k : Int))))

/-- The elements of `fReQnk` and `fImQnk` read by `Calculate3pCorrelator` and by
`CalculateNonIsotropicTerms` (`(0,0)` and `(1,0)` of each) and by
`CalculateDifferential3pCorrelator` (`(1,0)` of each). -/
def reducerQnkIndices : List (Int × Int) := [(0, 0), (1, 0)]

/-- The element of `fSpk` read by the three reducers: `(*fSpk)(0,0)`. -/
def reducerSpkIndices : List (Int × Int) := [(0, 0)]

/-! ## Finish -/

/-- Which of the data members that `Finish` reads or writes point to an object: `true` is a
valid pointer, `false` the null pointer.  (After `Init` all are set; after `GetOutputHistograms`
a member is set only if the object was found in the file.) -/
structure FinishPointers where
  fAnalysisSettings : Bool
  f3pCorrelatorPro : Bool
  fNonIsotropicTermsPro : Bool
  f3pCorrelatorVsMPro : Bool
  f3pCorrelatorVsMHist : Bool
  fNonIsotropicTermsVsMPro : Bool
  f3pCorrelatorHist : Bool
  fDetectorBiasHist : Bool
  fDetectorBiasVsMHist : Bool
  f3pCorrelatorVsPtSumDiffPro : Nat → Bool

/-- `CheckPointersUsedInFinish()`: `true` when the method returns, `false` when it calls
`exit(0)`.  Eight members are tested in turn; the test of `fDetectorBiasVsMHist` stands inside a
comment (`to be improved - enabled eventually`) in the source and is not made; the two
`f3pCorrelatorVsPtSumDiffPro[sd]` are tested only when `fEvaluateDifferential3pCorrelator` is
set. -/
def CheckPointersUsedInFinish (cfg : Settings K) (p : FinishPointers) : Bool :=
  if !p.fAnalysisSettings then false
  else if !p.f3pCorrelatorPro then false
  else if !p.fNonIsotropicTermsPro then false
  else if !p.f3pCorrelatorVsMPro then false
  else if !p.f3pCorrelatorVsMHist then false
  else if !p.fNonIsotropicTermsVsMPro then false
  else if !p.f3pCorrelatorHist then false
  else if !p.fDetectorBiasHist then false
  else if !cfg.fEvaluateDifferential3pCorrelator then true
  else if !p.f3pCorrelatorVsPtSumDiffPro 0 then false
  else if !p.f3pCorrelatorVsPtSumDiffPro 1 then false
  else true

/-- One pass of the loop over `b` in `CorrectForDetectorEffectsVsM` when `fDetectorBiasVsMHist`
may be the null pointer (`allocated = false`): the corrected value is stored in
`f3pCorrelatorVsMHist`, and when the measured value is non-zero the call
`fDetectorBiasVsMHist->SetBinContent(b,bias)` either stores the bias or dereferences the null
pointer; `Except.error` carries the state at that moment. -/
def correctVsMStepChecked (allocated : Bool) (s : State K) (b : Int) :
    Except (State K) (State K) :=
  let measured3pCorrelator := s.f3pCorrelatorVsMPro.GetBinContent b
  let nonIsotropicTerms : Nat → K := fun nit =>
    if nit < 10 then s.fNonIsotropicTermsVsMPro.GetBinContent ((nit : Int) + 1) b else 0
  let corrected := corrected3pCorrelatorVsM measured3pCorrelator nonIsotropicTerms
  let s1 : State K :=
    { s with f3pCorrelatorVsMHist := s.f3pCorrelatorVsMHist.SetBinContent b corrected }
  if measured3pCorrelator ≠ 0 then
    if allocated then
      Except.ok { s1 with
        fDetectorBiasVsMHist :=
          s1.fDetectorBiasVsMHist.SetBinContent b (corrected / measured3pCorrelator) }
    else Except.error s1
  else Except.ok s1

/-- `CorrectForDetectorEffectsVsM()` when `fDetectorBiasVsMHist` may be the null pointer. -/
def CorrectForDetectorEffectsVsMChecked (allocated : Bool) (cfg : Settings K) (s : State K) :
    Except (State K) (State K) :=
  (binLoop (cfg.fNoOfMultipicityBins + 2)).foldlM (correctVsMStepChecked allocated) s

/-- How a call of `Finish` ends: with `exit(0)` in `CheckPointersUsedInFinish` (nothing has been
computed), with the dereference of a null pointer (the state reached at that moment), or
normally with the settings read back and the final state. -/
inductive FinishResult (K : Type) where
  | exited : FinishResult K
  | nullDereference : State K → FinishResult K
  | finished : Settings K → State K → FinishResult K

/-- `Finish()`: the pointer check, `AccessSettings`, and, when `fCorrectForDetectorEffects` is
set, `CorrectForDetectorEffects` followed by `CorrectForDetectorEffectsVsM`.  When the check
passes, the only member used by the two corrections that can still be null is
`fDetectorBiasVsMHist`.  The printout of `PrintOnTheScreen` is not part of the embedding. -/
def Finish (cfg : Settings K) (p : FinishPointers) (fAnalysisSettings : TProfile K)
    (s : State K) : FinishResult K :=
  if CheckPointersUsedInFinish cfg p then
    let cfg1 := AccessSettings fAnalysisSettings cfg
    if cfg1.fCorrectForDetectorEffects then
      match CorrectForDetectorEffectsVsMChecked p.fDetectorBiasVsMHist cfg1
          (CorrectForDetectorEffects s) with
      | Except.error s2 => FinishResult.nullDereference s2
      | Except.ok s2 => FinishResult.finished cfg1 s2
    else FinishResult.finished cfg1 s
  else FinishResult.exited

/-- Example pointers: every member set except `fDetectorBiasVsMHist`. -/
def exampleFinishPointers : FinishPointers where
  fAnalysisSettings := true
  f3pCorrelatorPro := true
  fNonIsotropicTermsPro := true
  f3pCorrelatorVsMPro := true
  f3pCorrelatorVsMHist := true
  fNonIsotropicTermsVsMPro := true
  f3pCorrelatorHist := true
  fDetectorBiasHist := true
  fDetectorBiasVsMHist := false
  f3pCorrelatorVsPtSumDiffPro := fun _ => true

/-! ## Library layer: `Double_t` arithmetic (IEEE 754 binary64, round to nearest, ties to even)

The embedding above reads `Double_t` as an exact ordered field.  The definitions of this part
read it as binary64, for the places where rounding decides a discrete outcome (the multiplicity
bin) or the last bit of a sum (the overlap profiles). -/

/-- The number of binary digits of `n` (0 for `n = 0`), for `n < 2^8191`. -/
def bitLength (n : Nat) : Nat :=
  if n = 0 then 0
  else
    1 + [4096, 2048, 1024, 512, 256, 128, 64, 32, 16, 8, 4, 2, 1].foldl
      (fun k step => if 2 ^ (k + step) ≤ n then k + step else k) 0

/-- A finite `Double_t`: the value `m * 2^e`.  The operations below return the normal form with
`m` odd (or `m = 0`, `e = 0`), in which two values are equal exactly when their representations
are.  The exponent range is not modelled (no overflow to infinity, no subnormal numbers, no
NaN); the values met in the analysis at the inputs used below are far from both ends. -/
structure Binary64 where
  m : Int
  e : Int

instance : DecidableEq Binary64 := fun a b =>
  decidable_of_iff (a.m = b.m ∧ a.e = b.e) (by cases a; cases b; simp)

/-- The exact value of a `Double_t` as a rational number. -/
def Binary64.toRat (a : Binary64) : ℚ := (a.m : ℚ) * 2 ^ a.e

/-- The normal form of `m * 2^e`: trailing zero bits of `m` are moved into the exponent. -/
def Binary64.normalize (m e : Int) : Binary64 :=
  if m = 0 then ⟨0, 0⟩
  else
    let n := m.natAbs
    let tz := bitLength (n ^^^ (n - 1)) - 1
    ⟨m / ((2 ^ tz : Nat) : Int), e + (tz : Int)⟩

/-- Rounding of the exact value `m * 2^e` to 53 significant bits, to nearest, ties to even. -/
def Binary64.round (m e : Int) : Binary64 :=
  let n := m.natAbs
  let bits := bitLength n
  if bits ≤ 53 then Binary64.normalize m e
  else
    let sh := bits - 53
    let q := n / 2 ^ sh
    let r := n % 2 ^ sh
    let half := 2 ^ (sh - 1)
    let q1 := if r > half ∨ (r = half ∧ q % 2 = 1) then q + 1 else q
    Binary64.normalize (if m < 0 then -(q1 : Int) else (q1 : Int)) (e + (sh : Int))

/-- The `Double_t` nearest to the exact quotient `(p / q) * 2^e`, `q > 0`: the quotient is taken
with 128 extra bits and a sticky bit for the remainder, then rounded (`|p| < 2^8000 q`). -/
def Binary64.ofFrac (p : Int) (q : Nat) (e : Int) : Binary64 :=
  let n := p.natAbs * 2 ^ 128
  let n1 := 2 * (n / q) + (if n % q = 0 then 0 else 1)
  Binary64.round (if p < 0 then -(n1 : Int) else (n1 : Int)) (e - 129)

/-- The conversion of an `Int_t` to `Double_t` (exact for 32-bit integers). -/
def Binary64.ofInt (n : Int) : Binary64 := Binary64.round n 0

/-- `a + b` in `Double_t`. -/
def Binary64.add (a b : Binary64) : Binary64 :=
  let e := min a.e b.e
  Binary64.round
    (a.m * ((2 ^ (a.e - e).toNat : Nat) : Int) + b.m * ((2 ^ (b.e - e).toNat : Nat) : Int)) e

/-- `-a` in `Double_t`. -/
def Binary64.neg (a : Binary64) : Binary64 := ⟨-a.m, a.e⟩

/-- `a - b` in `Double_t`. -/
def Binary64.sub (a b : Binary64) : Binary64 := Binary64.add a (Binary64.neg b)

/-- `a * b` in `Double_t`. -/
def Binary64.mul (a b : Binary64) : Binary64 := Binary64.round (a.m * b.m) (a.e + b.e)

/-- `a / b` in `Double_t`, `b` non-zero. -/
def Binary64.div (a b : Binary64) : Binary64 :=
  Binary64.ofFrac (if b.m < 0 then -a.m else a.m) b.m.natAbs (a.e - b.e)

/-- `TMath::Abs(a)`. -/
def Binary64.abs (a : Binary64) : Binary64 := ⟨(a.m.natAbs : Int), a.e⟩

/-- The comparison `a < b` of two `Double_t` (exact); `a >= b` is its negation. -/
def Binary64.lt (a b : Binary64) : Bool :=
  let e := min a.e b.e
  decide (a.m * ((2 ^ (a.e - e).toNat : Nat) : Int) < b.m * ((2 ^ (b.e - e).toNat : Nat) : Int))

/-- The C cast `(Int_t)a` of a `Double_t`: truncation toward zero. -/
def Binary64.toInt (a : Binary64) : Int :=
  if 0 ≤ a.e then a.m * ((2 ^ a.e.toNat : Nat) : Int)
  else
    let q := a.m.natAbs / 2 ^ (-a.e).toNat
    if a.m < 0 then -(q : Int) else (q : Int)

/-- The numerator over the denominator `2^(2Ns) (2N)!` of the Taylor polynomial of degree `2N` of
the cosine at `m / 2^s`. -/
def cosNumerator (m : Int) (s N : Nat) : Int :=
  (List.range (N + 1)).foldl
    (fun acc k => acc + (if k % 2 = 0 then 1 else -1)
      * (m ^ (2 * k) * ((2 ^ (2 * (N - k) * s) * ((2 * N).factorial / (2 * k).factorial) : Nat)
          : Int))) 0

/-- `TMath::Cos(a)`, the cosine of the C library, read as the correctly rounded cosine: the
Taylor polynomial of degree 40 is evaluated exactly and rounded once.  For `|a| ≤ 2` the
polynomial differs from the cosine by less than `2^42/42! < 2^-127`, so the result is the
`Double_t` nearest to `cos a` unless `cos a` lies that close to the midpoint of two
neighbouring `Double_t`. -/
def Binary64.cos (a : Binary64) : Binary64 :=
  let s := (-a.e).toNat
  let m := a.m * ((2 ^ a.e.toNat : Nat) : Int)
  Binary64.ofFrac (cosNumerator m s 20) (2 ^ (2 * 20 * s) * (2 * 20).factorial) 0

/-- `TAxis::FindBin(x)` of an axis with `fNbins` fixed-width bins over `[fXmin, fXmax)` in
`Double_t` arithmetic: 0 below the axis, `fNbins+1` at or above its end, otherwise
`1 + int(fNbins*(x-fXmin)/(fXmax-fXmin))`. -/
def FindBinBinary64 (fNbins : Int) (fXmin fXmax x : Binary64) : Int :=
  if Binary64.lt x fXmin then 0
  else if !(Binary64.lt x fXmax) then fNbins + 1
  else
    1 + Binary64.toInt
      (Binary64.div (Binary64.mul (Binary64.ofInt fNbins) (Binary64.sub x fXmin))
        (Binary64.sub fXmax fXmin))

/-- The arrays `(fArray[b], fBinEntries[b])` of bin `b` of a `TProfile` booked with
`(fNbins, fXmin, fXmax)` after the calls `Fill(x,y,w)` of the list, oldest first: each fill into
bin `b` does `fArray[b] += w*y` and `fBinEntries[b] += w` in `Double_t` arithmetic. -/
def binArraysBinary64 (fNbins : Int) (fXmin fXmax : Binary64)
    (fills : List (Binary64 × Binary64 × Binary64)) (b : Int) : Binary64 × Binary64 :=
  fills.foldl
    (fun acc f =>
      if FindBinBinary64 fNbins fXmin fXmax f.1 = b then
        (Binary64.add acc.1 (Binary64.mul f.2.2 f.2.1), Binary64.add acc.2 f.2.2)
      else acc)
    (⟨0, 0⟩, ⟨0, 0⟩)

/-! ## The multiplicity bin and the overlap fills in `Double_t` arithmetic -/

/-- The x position of the multiplicity bin in `Double_t` arithmetic: the `if / else if / else`
chain of `Calculate3pCorrelator` and `CalculateNonIsotropicTerms` with every operation rounded:
`0.5` if `dMult<fMinMultiplicity`, `0.5+fNoOfMultipicityBins+1` if
`dMult>=fMinMultiplicity+fNoOfMultipicityBins*fMultipicityBinWidth`, otherwise
`1.5+(Int_t)((dMult-fMinMultiplicity)/fMultipicityBinWidth)`. -/
def vsMPositionBinary64 (fMinMultiplicity fMultipicityBinWidth : Binary64)
    (fNoOfMultipicityBins : Int) (dMult : Binary64) : Binary64 :=
  if Binary64.lt dMult fMinMultiplicity then ⟨1, -1⟩
  else if !(Binary64.lt dMult
      (Binary64.add fMinMultiplicity
        (Binary64.mul (Binary64.ofInt fNoOfMultipicityBins) fMultipicityBinWidth))) then
    Binary64.add (Binary64.add ⟨1, -1⟩ (Binary64.ofInt fNoOfMultipicityBins)) (Binary64.ofInt 1)
  else
    Binary64.add ⟨3, -1⟩
      (Binary64.ofInt
        (Binary64.toInt
          (Binary64.div (Binary64.sub dMult fMinMultiplicity) fMultipicityBinWidth)))

/-- What the pair loop of `Make` reads of a (non-null) track, in `Double_t`. -/
structure TrackBinary64 where
  Phi : Binary64
  Pt : Binary64
  Charge : Int
  InRPSelection : Bool
  InPOISelection : Bool

/-- The x value of a pair fill in `Double_t` arithmetic: `(dPt1+dPt2)/2.` for `sd = 0`,
`TMath::Abs(dPt1-dPt2)` for `sd = 1`. -/
def pairXBinary64 (sd : Nat) (dPt1 dPt2 : Binary64) : Binary64 :=
  if sd = 0 then Binary64.div (Binary64.add dPt1 dPt2) (Binary64.ofInt 2)
  else Binary64.abs (Binary64.sub dPt1 dPt2)

/-- The calls `fOverlapEBE[fs][sd]->Fill(x,TMath::Cos(n*(dPsi1-dPsi2)),1.)` made by the two
track loops of `Make` for an event without null tracks, in the order in which they are made and
in `Double_t` arithmetic: the outer loop takes the 1st POI `i`, the inner loop every `j ≠ i` that
is a POI and passes the charge cut; the profile `fs = 0` is filled when the 1st POI is also an RP,
the profile `fs = 1` when the 2nd POI is. -/
def overlapFillsBinary64 (fHarmonic : Int) (fOppositeChargesPOI : Bool)
    (tracks : List TrackBinary64) (fs sd : Nat) : List (Binary64 × Binary64 × Binary64) :=
  (List.range tracks.length).flatMap (fun i =>
    match tracks[i]? with
    | none => []
    | some t1 =>
      if t1.InPOISelection then
        (List.range tracks.length).flatMap (fun j =>
          if j = i then []
          else
            match tracks[j]? with
            | none => []
            | some t2 =>
              if t2.InPOISelection then
                if fOppositeChargesPOI = true ∧ t1.Charge = t2.Charge then []
                else if (fs = 0 ∧ t1.InRPSelection = true) ∨ (fs = 1 ∧ t2.InRPSelection = true)
                then
                  [(pairXBinary64 sd t1.Pt t2.Pt,
                    Binary64.cos
                      (Binary64.mul (Binary64.ofInt fHarmonic) (Binary64.sub t1.Phi t2.Phi)),
                    Binary64.ofInt 1)]
                else []
              else [])
      else [])

/-- The `Double_t` of the decimal literal `0.3`. -/
def exampleBinary64Mmin : Binary64 := Binary64.div (Binary64.ofInt 3) (Binary64.ofInt 10)

/-- The `Double_t` of the decimal literal `1.1`. -/
def exampleBinary64Width : Binary64 := Binary64.div (Binary64.ofInt 11) (Binary64.ofInt 10)

/-- Example event in `Double_t`: three particles of interest with `phi = 0.1, 0.2, 0.4` and
`pt = 1`, the first and the third also reference particles. -/
def exampleTracksBinary64 : List TrackBinary64 :=
  [⟨Binary64.div (Binary64.ofInt 1) (Binary64.ofInt 10), Binary64.ofInt 1, 1, true, true⟩,
   ⟨Binary64.div (Binary64.ofInt 2) (Binary64.ofInt 10), Binary64.ofInt 1, 1, false, true⟩,
   ⟨Binary64.div (Binary64.ofInt 4) (Binary64.ofInt 10), Binary64.ofInt 1, 1, true, true⟩]

end Definitions

section Theorems

variable {K : Type} [LinearOrderedField K] [FloorRing K]

/-! ## Bins of half-integer positions -/

lemma toInt_of_nonneg {x : K} (hx : 0 ≤ x) : toInt x = ⌊x⌋ := by
  simp [toInt, hx]

lemma floor_intCast_add_half (i : Int) : ⌊(i : K) + 1 / 2⌋ = i := by
  rw [Int.floor_eq_iff]
  constructor <;> linarith

/-- On an axis with `n` unit bins over `[0, n)` the position `i + 1/2` lies in bin `i + 1`. -/
lemma TAxis.FindBin_half (a : TAxis K) (h0 : a.fXmin = 0) (h1 : a.fXmax = (a.fNbins : K))
    (i : Int) (hi0 : 0 ≤ i) (hi1 : i < a.fNbins) : a.FindBin ((i : K) + 1 / 2) = i + 1 := by
  have hiK : (0 : K) ≤ (i : K) := by exact_mod_cast hi0
  have hle : (i : K) + 1 ≤ (a.fNbins : K) := by exact_mod_cast hi1
  have hn : (0 : K) < (a.fNbins : K) := by linarith
  have hx : ¬ ((i : K) + 1 / 2 < 0) := by
    have : (0 : K) ≤ (i : K) + 1 / 2 := by linarith
    exact not_lt.mpr this
  have hx1 : (i : K) + 1 / 2 < (a.fNbins : K) := by linarith
  have hq : (a.fNbins : K) * ((i : K) + 1 / 2 - 0) / ((a.fNbins : K) - 0) = (i : K) + 1 / 2 := by
    field_simp
    ring
  unfold TAxis.FindBin
  rw [h0, h1, if_neg hx, if_neg (not_not.mpr hx1), hq, toInt_of_nonneg (by linarith),
    floor_intCast_add_half]
  ring

/-- The vs-M position is a half-integer: the bin number minus one half. -/
lemma vsMPosition_eq (cfg : Settings K) (dMult : K) (hw : 0 < cfg.fMultipicityBinWidth) :
    vsMPosition cfg dMult =
      (((if dMult < cfg.fMinMultiplicity then 1
        else if dMult ≥ cfg.fMinMultiplicity
            + (cfg.fNoOfMultipicityBins : K) * cfg.fMultipicityBinWidth
          then cfg.fNoOfMultipicityBins + 2
          else 2 + ⌊(dMult - cfg.fMinMultiplicity) / cfg.fMultipicityBinWidth⌋) - 1 : Int) : K)
        + 1 / 2 := by
  unfold vsMPosition
  by_cases h1 : dMult < cfg.fMinMultiplicity
  · simp [h1]
  · by_cases h2 : dMult ≥ cfg.fMinMultiplicity
        + (cfg.fNoOfMultipicityBins : K) * cfg.fMultipicityBinWidth
    · rw [if_neg h1, if_pos h2, if_neg h1, if_pos h2]
      push_cast
      ring
    · rw [if_neg h1, if_neg h2, if_neg h1, if_neg h2]
      have hq : 0 ≤ (dMult - cfg.fMinMultiplicity) / cfg.fMultipicityBinWidth :=
        div_nonneg (by linarith [not_lt.mp h1]) hw.le
      rw [toInt_of_nonneg hq]
      push_cast
      ring

/-- In the regular range the truncated quotient is a valid regular bin index. -/
lemma regular_index_bounds (cfg : Settings K) (dMult : K) (hw : 0 < cfg.fMultipicityBinWidth)
    (h1 : ¬ dMult < cfg.fMinMultiplicity)
    (h2 : ¬ dMult ≥ cfg.fMinMultiplicity
      + (cfg.fNoOfMultipicityBins : K) * cfg.fMultipicityBinWidth) :
    0 ≤ ⌊(dMult - cfg.fMinMultiplicity) / cfg.fMultipicityBinWidth⌋ ∧
      ⌊(dMult - cfg.fMinMultiplicity) / cfg.fMultipicityBinWidth⌋ < cfg.fNoOfMultipicityBins := by
  have hq : 0 ≤ (dMult - cfg.fMinMultiplicity) / cfg.fMultipicityBinWidth :=
    div_nonneg (by linarith [not_lt.mp h1]) hw.le
  refine ⟨Int.floor_nonneg.mpr hq, ?_⟩
  rw [Int.floor_lt, div_lt_iff₀ hw]
  linarith [not_le.mp h2]

/-- The multiplicity bin of a profile booked with `fNoOfMultipicityBins+2` unit bins. -/
lemma vsM_FindBin (cfg : Settings K) (a : TAxis K) (dMult : K)
    (hw : 0 < cfg.fMultipicityBinWidth) (hn : 0 ≤ cfg.fNoOfMultipicityBins)
    (ha : a = ⟨cfg.fNoOfMultipicityBins + 2, 0, ((cfg.fNoOfMultipicityBins + 2 : Int) : K)⟩) :
    a.FindBin (vsMPosition cfg dMult) =
      if dMult < cfg.fMinMultiplicity then 1
      else if dMult ≥ cfg.fMinMultiplicity
          + (cfg.fNoOfMultipicityBins : K) * cfg.fMultipicityBinWidth
        then cfg.fNoOfMultipicityBins + 2
        else 2 + ⌊(dMult - cfg.fMinMultiplicity) / cfg.fMultipicityBinWidth⌋ := by
  rw [vsMPosition_eq cfg dMult hw, TAxis.FindBin_half a (by rw [ha]) (by rw [ha])]
  · ring
  · by_cases h1 : dMult < cfg.fMinMultiplicity
    · simp [h1]
    · by_cases h2 : dMult ≥ cfg.fMinMultiplicity
          + (cfg.fNoOfMultipicityBins : K) * cfg.fMultipicityBinWidth
      · rw [if_neg h1, if_pos h2]; omega
      · rw [if_neg h1, if_neg h2]
        have := (regular_index_bounds cfg dMult hw h1 h2).1
        omega
  · rw [ha]
    by_cases h1 : dMult < cfg.fMinMultiplicity
    · simp [h1]; omega
    · by_cases h2 : dMult ≥ cfg.fMinMultiplicity
          + (cfg.fNoOfMultipicityBins : K) * cfg.fMultipicityBinWidth
      · rw [if_neg h1, if_pos h2]; simp
      · rw [if_neg h1, if_neg h2]
        have := (regular_index_bounds cfg dMult hw h1 h2).2
        simp only
        omega

/-! ## Calculate3pCorrelator: the integrated fill and the multiplicity bin -/

/-- C2: with no particle weights enabled, `Calculate3pCorrelator` appends exactly one fill to the
integrated profile `f3pCorrelatorPro`, at x = 1/2 (its only bin, number 1), with the value
`[Re(Q1n)^2 Re(Q2n) + 2 Re(Q1n) Im(Q1n) Im(Q2n) - Im(Q1n)^2 Re(Q2n) - 2 (Re(Q1n)^2 + Im(Q1n)^2)
- (Re(Q2n)^2 + Im(Q2n)^2) + 2M] / [M(M-1)(M-2)]` and the weight `M(M-1)(M-2)`, where
`Q1n = Q[0][0]`, `Q2n = Q[1][0]`, `M = S[0][0]`. -/
theorem Calculate3pCorrelator_integrated_fill (cfg : Settings K) (s : State K)
    (hPhi : cfg.fUsePhiWeights = false) (hPt : cfg.fUsePtWeights = false)
    (hEta : cfg.fUseEtaWeights = false) :
    (Calculate3pCorrelator cfg s).f3pCorrelatorPro.fills =
      s.f3pCorrelatorPro.fills ++
        [(1 / 2,
          (s.fReQnk 0 0 ^ 2 * s.fReQnk 1 0 + 2 * s.fReQnk 0 0 * s.fImQnk 0 0 * s.fImQnk 1 0
            - s.fImQnk 0 0 ^ 2 * s.fReQnk 1 0
            - 2 * (s.fReQnk 0 0 ^ 2 + s.fImQnk 0 0 ^ 2)
            - (s.fReQnk 1 0 ^ 2 + s.fImQnk 1 0 ^ 2) + 2 * s.fSpk 0 0)
            / (s.fSpk 0 0 * (s.fSpk 0 0 - 1) * (s.fSpk 0 0 - 2)),
          s.fSpk 0 0 * (s.fSpk 0 0 - 1) * (s.fSpk 0 0 - 2))] ∧
    (Calculate3pCorrelator cfg s).f3pCorrelatorPro.fXaxis = s.f3pCorrelatorPro.fXaxis ∧
    (⟨1, 0, 1⟩ : TAxis K).FindBin (1 / 2) = 1 := by
  refine ⟨?_, ?_, ?_⟩
  · simp [Calculate3pCorrelator, Settings.usesParticleWeights, hPhi, hPt, hEta, TProfile.Fill,
      three1n1n2n]
  · simp [Calculate3pCorrelator, Settings.usesParticleWeights, hPhi, hPt, hEta, TProfile.Fill]
  · have h := TAxis.FindBin_half (⟨1, 0, 1⟩ : TAxis K) rfl (by simp) 0 le_rfl (by simp)
    simpa using h

/-- Witness for C2 on the example state (`Q1n = Q2n = 4`, `M = 4`). -/
theorem Calculate3pCorrelator_integrated_fill_witness :
    (exampleSettings ℚ).fUsePhiWeights = false ∧ (exampleSettings ℚ).fUsePtWeights = false ∧
    (exampleSettings ℚ).fUseEtaWeights = false ∧
    (Calculate3pCorrelator (exampleSettings ℚ) (exampleState ℚ)).f3pCorrelatorPro.fills
      = [(1 / 2, 1, 24)] := by
  refine ⟨rfl, rfl, rfl, ?_⟩
  have h := (Calculate3pCorrelator_integrated_fill (exampleSettings ℚ) (exampleState ℚ)
    rfl rfl rfl).1
  rw [h]
  norm_num [exampleState, State.init, TProfile.book]

/-- C3 (amended): over exact arithmetic (any ordered field with a floor function, such as the
reals), with no particle weights, a bin width `dM > 0` and `nBins ≥ 0`, on a vs-M profile booked
with `nBins+2` unit bins `Calculate3pCorrelator` makes exactly one fill of `f3pCorrelatorVsMPro`
(value `three1n1n2n`, weight `M(M-1)(M-2)`), and that fill goes to bin 1 (underflow bin) if
`M < Mmin`, to bin `nBins+2` (overflow bin) if `M ≥ Mmin + nBins*dM`, and otherwise to bin
`2 + floor((M-Mmin)/dM)`, the regular bin of index `floor((M-Mmin)/dM)` counted from 0 after the
underflow bin.  For `Mmin = 1`, `dM = 2`, `nBins = 10` the bins of `M = 0, 1, 20, 21` are
1 (underflow), 2 (regular index 0), 11 (regular index 9, the last one) and 12 (overflow). -/
theorem Calculate3pCorrelator_vsM_bin (cfg : Settings K) (s : State K)
    (hPhi : cfg.fUsePhiWeights = false) (hPt : cfg.fUsePtWeights = false)
    (hEta : cfg.fUseEtaWeights = false)
    (hw : 0 < cfg.fMultipicityBinWidth) (hn : 0 ≤ cfg.fNoOfMultipicityBins)
    (hbook : s.f3pCorrelatorVsMPro.fXaxis =
      ⟨cfg.fNoOfMultipicityBins + 2, 0, ((cfg.fNoOfMultipicityBins + 2 : Int) : K)⟩) :
    (∃ x : K,
      (Calculate3pCorrelator cfg s).f3pCorrelatorVsMPro.fills =
        s.f3pCorrelatorVsMPro.fills ++
          [(x, three1n1n2n (s.fReQnk 0 0) (s.fImQnk 0 0) (s.fReQnk 1 0) (s.fImQnk 1 0)
              (s.fSpk 0 0),
            s.fSpk 0 0 * (s.fSpk 0 0 - 1) * (s.fSpk 0 0 - 2))] ∧
      (Calculate3pCorrelator cfg s).f3pCorrelatorVsMPro.fXaxis = s.f3pCorrelatorVsMPro.fXaxis ∧
      s.f3pCorrelatorVsMPro.fXaxis.FindBin x =
        if s.fSpk 0 0 < cfg.fMinMultiplicity then 1
        else if s.fSpk 0 0 ≥ cfg.fMinMultiplicity
            + (cfg.fNoOfMultipicityBins : K) * cfg.fMultipicityBinWidth
          then cfg.fNoOfMultipicityBins + 2
          else 2 + ⌊(s.fSpk 0 0 - cfg.fMinMultiplicity) / cfg.fMultipicityBinWidth⌋) ∧
    (cfg.fMinMultiplicity = 1 → cfg.fMultipicityBinWidth = 2 → cfg.fNoOfMultipicityBins = 10 →
      s.f3pCorrelatorVsMPro.fXaxis.FindBin (vsMPosition cfg 0) = 1 ∧
      s.f3pCorrelatorVsMPro.fXaxis.FindBin (vsMPosition cfg 1) = 2 ∧
      s.f3pCorrelatorVsMPro.fXaxis.FindBin (vsMPosition cfg 20) = 11 ∧
      s.f3pCorrelatorVsMPro.fXaxis.FindBin (vsMPosition cfg 21) = 12) := by
  constructor
  · refine ⟨vsMPosition cfg (s.fSpk 0 0), ?_, ?_, ?_⟩
    · simp [Calculate3pCorrelator, Settings.usesParticleWeights, hPhi, hPt, hEta, TProfile.Fill]
    · simp [Calculate3pCorrelator, Settings.usesParticleWeights, hPhi, hPt, hEta, TProfile.Fill]
    · exact vsM_FindBin cfg _ _ hw hn hbook
  · intro hmin hwid hnb
    have e0 := vsM_FindBin cfg _ (0 : K) hw hn hbook
    have e1 := vsM_FindBin cfg _ (1 : K) hw hn hbook
    have e20 := vsM_FindBin cfg _ (20 : K) hw hn hbook
    have e21 := vsM_FindBin cfg _ (21 : K) hw hn hbook
    rw [hmin, hwid, hnb] at e0 e1 e20 e21
    have f20 : ⌊((20 : K) - 1) / 2⌋ = 9 := by
      rw [Int.floor_eq_iff]; constructor <;> norm_num
    refine ⟨?_, ?_, ?_, ?_⟩
    · rw [e0]; norm_num
    · rw [e1]; norm_num
    · rw [e20, f20]; norm_num
    · rw [e21]; norm_num

/-- Witness for C3 on the example state: `M = 4` goes to bin 3 (regular index 1). -/
theorem Calculate3pCorrelator_vsM_bin_witness :
    ∃ x : ℚ,
      (Calculate3pCorrelator (exampleSettings ℚ) (exampleState ℚ)).f3pCorrelatorVsMPro.fills
        = [(x, 1, 24)] ∧
      (exampleState ℚ).f3pCorrelatorVsMPro.fXaxis.FindBin x = 3 := by
  obtain ⟨x, h1, -, h3⟩ := (Calculate3pCorrelator_vsM_bin (exampleSettings ℚ) (exampleState ℚ)
    rfl rfl rfl (by norm_num [exampleSettings]) (by norm_num [exampleSettings]) rfl).1
  refine ⟨x, ?_, ?_⟩
  · rw [h1]
    norm_num [exampleState, State.init, TProfile.book, three1n1n2n]
  · rw [h3]
    have f : ⌊((4 : ℚ) - 1) / 2⌋ = 1 := by
      rw [Int.floor_eq_iff]; constructor <;> norm_num
    norm_num [exampleState, exampleSettings, f]

/-! ## CorrectForDetectorEffects -/

/-- C4: `CorrectForDetectorEffects` stores in bin 1 of `f3pCorrelatorHist` the value
`meas - t2 t4 - t3 t5 - 2 t0 t6 - 2 t1 t7 + 2 t2 (t0^2 - t1^2) + 4 t3 t0 t1`, where `meas` is
bin 1 of `f3pCorrelatorPro` and `t_k` is bin `k+1` of `fNonIsotropicTermsPro`; on the 8-bin axis
of that profile bin `k+1` is the bin of the position `k + 1/2`, the position at which
`CalculateNonIsotropicTerms` fills term number `k` in the order cos n phi1, sin n phi1,
cos 2n phi1, sin 2n phi1, cos n(phi1+phi2), sin n(phi1+phi2), cos n(2phi1-phi2),
sin n(2phi1-phi2). -/
theorem CorrectForDetectorEffects_corrected (s : State K) :
    (CorrectForDetectorEffects s).f3pCorrelatorHist.GetBinContent 1 =
      s.f3pCorrelatorPro.GetBinContent 1
        - s.fNonIsotropicTermsPro.GetBinContent 3 * s.fNonIsotropicTermsPro.GetBinContent 5
        - s.fNonIsotropicTermsPro.GetBinContent 4 * s.fNonIsotropicTermsPro.GetBinContent 6
        - 2 * s.fNonIsotropicTermsPro.GetBinContent 1 * s.fNonIsotropicTermsPro.GetBinContent 7
        - 2 * s.fNonIsotropicTermsPro.GetBinContent 2 * s.fNonIsotropicTermsPro.GetBinContent 8
        + 2 * s.fNonIsotropicTermsPro.GetBinContent 3
            * (s.fNonIsotropicTermsPro.GetBinContent 1 ^ 2
              - s.fNonIsotropicTermsPro.GetBinContent 2 ^ 2)
        + 4 * s.fNonIsotropicTermsPro.GetBinContent 4 * s.fNonIsotropicTermsPro.GetBinContent 1
            * s.fNonIsotropicTermsPro.GetBinContent 2 ∧
    (∀ k : Int, 0 ≤ k → k < 8 → (⟨8, 0, 8⟩ : TAxis K).FindBin ((k : K) + 1 / 2) = k + 1) := by
  constructor
  · unfold CorrectForDetectorEffects
    by_cases h : s.f3pCorrelatorPro.GetBinContent 1 = 0
    · simp [h, TH1D.SetBinContent, TH1D.GetBinContent, corrected3pCorrelator]
    · simp [h, TH1D.SetBinContent, TH1D.GetBinContent, corrected3pCorrelator]
  · intro k hk0 hk8
    exact TAxis.FindBin_half (⟨8, 0, 8⟩ : TAxis K) rfl (by simp) k hk0 hk8

/-! ## CalculateNonIsotropicTerms: the fills -/

/-- C8: with no particle weights enabled, `CalculateNonIsotropicTerms` fills the 1-particle terms
exactly when `M = S[0][0] > 0`: then the integrated profile receives, right after its old
fills, the values `Re(Q1n)/M`, `Im(Q1n)/M`, `Re(Q2n)/M`, `Im(Q2n)/M` at the positions
1/2, 3/2, 5/2, 7/2 (term slots 0..3) with weight `M`, followed only by fills at positions
from 9/2 on, and the vs-M profile receives the same four fills at the single y position
selected for `M`; when `M ≤ 0` neither profile receives any fill.  Slot `k` is bin `k+1` of
the 8-bin term axis, and for `dM > 0`, `nBins ≥ 0` the y position is in the multiplicity bin
of `M` (1 below `Mmin`, `nBins+2` from `Mmin + nBins*dM` on, else `2 + floor((M-Mmin)/dM)`). -/
theorem CalculateNonIsotropicTerms_one_particle (cfg : Settings K) (s : State K)
    (hPhi : cfg.fUsePhiWeights = false) (hPt : cfg.fUsePtWeights = false)
    (hEta : cfg.fUseEtaWeights = false) :
    (0 < s.fSpk 0 0 →
      ∃ (rest : List (K × K × K)) (restVsM : List (K × K × K × K)),
        (CalculateNonIsotropicTerms cfg s).fNonIsotropicTermsPro.fills =
          s.fNonIsotropicTermsPro.fills ++
            [(1 / 2, s.fReQnk 0 0 / s.fSpk 0 0, s.fSpk 0 0),
             (3 / 2, s.fImQnk 0 0 / s.fSpk 0 0, s.fSpk 0 0),
             (5 / 2, s.fReQnk 1 0 / s.fSpk 0 0, s.fSpk 0 0),
             (7 / 2, s.fImQnk 1 0 / s.fSpk 0 0, s.fSpk 0 0)] ++ rest ∧
        (∀ f ∈ rest, 9 / 2 ≤ f.1) ∧
        (CalculateNonIsotropicTerms cfg s).fNonIsotropicTermsVsMPro.fills =
          s.fNonIsotropicTermsVsMPro.fills ++
            [(1 / 2, vsMPosition cfg (s.fSpk 0 0), s.fReQnk 0 0 / s.fSpk 0 0, s.fSpk 0 0),
             (3 / 2, vsMPosition cfg (s.fSpk 0 0), s.fImQnk 0 0 / s.fSpk 0 0, s.fSpk 0 0),
             (5 / 2, vsMPosition cfg (s.fSpk 0 0), s.fReQnk 1 0 / s.fSpk 0 0, s.fSpk 0 0),
             (7 / 2, vsMPosition cfg (s.fSpk 0 0), s.fImQnk 1 0 / s.fSpk 0 0, s.fSpk 0 0)]
            ++ restVsM ∧
        (∀ f ∈ restVsM, 9 / 2 ≤ f.1 ∧ f.2.1 = vsMPosition cfg (s.fSpk 0 0))) ∧
    (s.fSpk 0 0 ≤ 0 →
      (CalculateNonIsotropicTerms cfg s).fNonIsotropicTermsPro.fills
        = s.fNonIsotropicTermsPro.fills ∧
      (CalculateNonIsotropicTerms cfg s).fNonIsotropicTermsVsMPro.fills
        = s.fNonIsotropicTermsVsMPro.fills) ∧
    (∀ k : Int, 0 ≤ k → k < 8 → (⟨8, 0, 8⟩ : TAxis K).FindBin ((k : K) + 1 / 2) = k + 1) ∧
    (0 < cfg.fMultipicityBinWidth → 0 ≤ cfg.fNoOfMultipicityBins →
      (⟨cfg.fNoOfMultipicityBins + 2, 0, ((cfg.fNoOfMultipicityBins + 2 : Int) : K)⟩ :
          TAxis K).FindBin (vsMPosition cfg (s.fSpk 0 0)) =
        if s.fSpk 0 0 < cfg.fMinMultiplicity then 1
        else if s.fSpk 0 0 ≥ cfg.fMinMultiplicity
            + (cfg.fNoOfMultipicityBins : K) * cfg.fMultipicityBinWidth
          then cfg.fNoOfMultipicityBins + 2
          else 2 + ⌊(s.fSpk 0 0 - cfg.fMinMultiplicity) / cfg.fMultipicityBinWidth⌋) := by
  refine ⟨?_, ?_, ?_, ?_⟩
  · intro hM
    by_cases h1 : s.fSpk 0 0 > 1
    · refine ⟨[(9 / 2, (s.fReQnk 0 0 ^ 2 - s.fImQnk 0 0 ^ 2 - s.fReQnk 1 0)
            / (s.fSpk 0 0 * (s.fSpk 0 0 - 1)), s.fSpk 0 0 * (s.fSpk 0 0 - 1)),
          (11 / 2, (2 * s.fReQnk 0 0 * s.fImQnk 0 0 - s.fImQnk 1 0)
            / (s.fSpk 0 0 * (s.fSpk 0 0 - 1)), s.fSpk 0 0 * (s.fSpk 0 0 - 1)),
          (13 / 2, (s.fReQnk 1 0 * s.fReQnk 0 0 + s.fImQnk 1 0 * s.fImQnk 0 0 - s.fReQnk 0 0)
            / (s.fSpk 0 0 * (s.fSpk 0 0 - 1)), s.fSpk 0 0 * (s.fSpk 0 0 - 1)),
          (15 / 2, (s.fImQnk 1 0 * s.fReQnk 0 0 - s.fReQnk 1 0 * s.fImQnk 0 0 - s.fImQnk 0 0)
            / (s.fSpk 0 0 * (s.fSpk 0 0 - 1)), s.fSpk 0 0 * (s.fSpk 0 0 - 1))],
        [(9 / 2, vsMPosition cfg (s.fSpk 0 0),
            (s.fReQnk 0 0 ^ 2 - s.fImQnk 0 0 ^ 2 - s.fReQnk 1 0)
            / (s.fSpk 0 0 * (s.fSpk 0 0 - 1)), s.fSpk 0 0 * (s.fSpk 0 0 - 1)),
          (11 / 2, vsMPosition cfg (s.fSpk 0 0),
            (2 * s.fReQnk 0 0 * s.fImQnk 0 0 - s.fImQnk 1 0)
            / (s.fSpk 0 0 * (s.fSpk 0 0 - 1)), s.fSpk 0 0 * (s.fSpk 0 0 - 1)),
          (13 / 2, vsMPosition cfg (s.fSpk 0 0),
            (s.fReQnk 1 0 * s.fReQnk 0 0 + s.fImQnk 1 0 * s.fImQnk 0 0 - s.fReQnk 0 0)
            / (s.fSpk 0 0 * (s.fSpk 0 0 - 1)), s.fSpk 0 0 * (s.fSpk 0 0 - 1)),
          (15 / 2, vsMPosition cfg (s.fSpk 0 0),
            (s.fImQnk 1 0 * s.fReQnk 0 0 - s.fReQnk 1 0 * s.fImQnk 0 0 - s.fImQnk 0 0)
            / (s.fSpk 0 0 * (s.fSpk 0 0 - 1)), s.fSpk 0 0 * (s.fSpk 0 0 - 1))],
        ?_, ?_, ?_, ?_⟩
      · simp [CalculateNonIsotropicTerms, Settings.usesParticleWeights, hPhi, hPt, hEta,
          TProfile.Fill, hM, h1]
      · intro f hf
        simp only [List.mem_cons, List.mem_singleton, List.not_mem_nil, or_false] at hf
        rcases hf with rfl | rfl | rfl | rfl <;> norm_num
      · simp [CalculateNonIsotropicTerms, Settings.usesParticleWeights, hPhi, hPt, hEta,
          TProfile2D.Fill, hM, h1]
      · intro f hf
        simp only [List.mem_cons, List.mem_singleton, List.not_mem_nil, or_false] at hf
        rcases hf with rfl | rfl | rfl | rfl <;> norm_num
    · refine ⟨[], [], ?_, ?_, ?_, ?_⟩
      · simp [CalculateNonIsotropicTerms, Settings.usesParticleWeights, hPhi, hPt, hEta,
          TProfile.Fill, hM, h1]
      · simp
      · simp [CalculateNonIsotropicTerms, Settings.usesParticleWeights, hPhi, hPt, hEta,
          TProfile2D.Fill, hM, h1]
      · simp
  · intro hM
    have h0 : ¬ s.fSpk 0 0 > 0 := not_lt.mpr hM
    have h1 : ¬ s.fSpk 0 0 > 1 := not_lt.mpr (hM.trans zero_le_one)
    constructor <;>
      simp [CalculateNonIsotropicTerms, Settings.usesParticleWeights, hPhi, hPt, hEta, h0, h1]
  · intro k hk0 hk8
    exact TAxis.FindBin_half (⟨8, 0, 8⟩ : TAxis K) rfl (by simp) k hk0 hk8
  · intro hw hn
    exact vsM_FindBin cfg _ _ hw hn rfl

/-- Witness for C8 on the example state (`Q1n = Q2n = 4`, `M = 4`): the four 1-particle fills. -/
theorem CalculateNonIsotropicTerms_one_particle_witness :
    ∃ rest : List (ℚ × ℚ × ℚ),
      (CalculateNonIsotropicTerms (exampleSettings ℚ) (exampleState ℚ)).fNonIsotropicTermsPro.fills
        = [(1 / 2, 1, 4), (3 / 2, 0, 4), (5 / 2, 1, 4), (7 / 2, 0, 4)] ++ rest := by
  obtain ⟨rest, -, h, -⟩ := (CalculateNonIsotropicTerms_one_particle (exampleSettings ℚ)
    (exampleState ℚ) rfl rfl rfl).1 (by norm_num [exampleState])
  refine ⟨rest, ?_⟩
  rw [h]
  norm_num [exampleState, State.init, TProfile.book]

/-! ## CorrectForDetectorEffectsVsM -/

lemma mem_binLoop (n b : Int) : b ∈ binLoop n ↔ 1 ≤ b ∧ b ≤ n := by
  simp only [binLoop, List.mem_map, List.mem_range]
  constructor
  · rintro ⟨i, hi, rfl⟩
    have h := Int.lt_toNat.mp hi
    constructor <;> linarith [Int.natCast_nonneg i]
  · rintro ⟨h1, h2⟩
    refine ⟨(b - 1).toNat, ?_, ?_⟩
    · rw [Int.lt_toNat, Int.toNat_of_nonneg (by linarith)]
      linarith
    · rw [Int.toNat_of_nonneg (by linarith)]
      ring

lemma correctVsMStep_pro (s : State K) (b : Int) :
    (correctVsMStep s b).f3pCorrelatorVsMPro = s.f3pCorrelatorVsMPro ∧
    (correctVsMStep s b).fNonIsotropicTermsVsMPro = s.fNonIsotropicTermsVsMPro := by
  unfold correctVsMStep
  by_cases h : s.f3pCorrelatorVsMPro.GetBinContent b = 0 <;> simp [h]

lemma correctVsMStep_hist_self (s : State K) (b : Int) :
    (correctVsMStep s b).f3pCorrelatorVsMHist.GetBinContent b =
      corrected3pCorrelatorVsM (s.f3pCorrelatorVsMPro.GetBinContent b)
        (fun nit => if nit < 10 then
          s.fNonIsotropicTermsVsMPro.GetBinContent ((nit : Int) + 1) b else 0) := by
  unfold correctVsMStep
  by_cases h : s.f3pCorrelatorVsMPro.GetBinContent b = 0 <;>
    simp [h, TH1D.SetBinContent, TH1D.GetBinContent]

lemma correctVsMStep_hist_other (s : State K) (a b : Int) (hab : b ≠ a) :
    (correctVsMStep s a).f3pCorrelatorVsMHist.GetBinContent b
      = s.f3pCorrelatorVsMHist.GetBinContent b := by
  unfold correctVsMStep
  by_cases h : s.f3pCorrelatorVsMPro.GetBinContent a = 0 <;>
    simp [h, TH1D.SetBinContent, TH1D.GetBinContent, hab]

lemma foldl_correctVsMStep_pro (l : List Int) (s : State K) :
    (l.foldl correctVsMStep s).f3pCorrelatorVsMPro = s.f3pCorrelatorVsMPro ∧
    (l.foldl correctVsMStep s).fNonIsotropicTermsVsMPro = s.fNonIsotropicTermsVsMPro := by
  induction l generalizing s with
  | nil => simp
  | cons a l ih =>
    rw [List.foldl_cons]
    obtain ⟨h1, h2⟩ := ih (correctVsMStep s a)
    obtain ⟨g1, g2⟩ := correctVsMStep_pro s a
    exact ⟨h1.trans g1, h2.trans g2⟩

lemma foldl_correctVsMStep_hist_not_mem (l : List Int) (s : State K) (b : Int) (hb : b ∉ l) :
    (l.foldl correctVsMStep s).f3pCorrelatorVsMHist.GetBinContent b
      = s.f3pCorrelatorVsMHist.GetBinContent b := by
  induction l generalizing s with
  | nil => simp
  | cons a l ih =>
    rw [List.foldl_cons]
    rw [List.mem_cons, not_or] at hb
    rw [ih (correctVsMStep s a) hb.2, correctVsMStep_hist_other s a b hb.1]

lemma foldl_correctVsMStep_hist_mem (l : List Int) (s : State K) (b : Int) (hb : b ∈ l) :
    (l.foldl correctVsMStep s).f3pCorrelatorVsMHist.GetBinContent b =
      corrected3pCorrelatorVsM (s.f3pCorrelatorVsMPro.GetBinContent b)
        (fun nit => if nit < 10 then
          s.fNonIsotropicTermsVsMPro.GetBinContent ((nit : Int) + 1) b else 0) := by
  induction l generalizing s with
  | nil => simp at hb
  | cons a l ih =>
    rw [List.foldl_cons]
    by_cases hbl : b ∈ l
    · rw [ih (correctVsMStep s a) hbl, (correctVsMStep_pro s a).1, (correctVsMStep_pro s a).2]
    · have hba : b = a := by
        rcases List.mem_cons.mp hb with h | h
        · exact h
        · exact absurd h hbl
      subst hba
      rw [foldl_correctVsMStep_hist_not_mem l _ b hbl, correctVsMStep_hist_self]

/-- C10: for every multiplicity bin `b` with `1 ≤ b ≤ nBins+2`, after
`CorrectForDetectorEffectsVsM` bin `b` of `f3pCorrelatorVsMHist` holds the value that the
formula of `CorrectForDetectorEffects` (`corrected3pCorrelator`) gives for the measured
correlator of bin `b` of `f3pCorrelatorVsMPro` and the terms `t_k` read from the cells
`(k+1, b)` of `fNonIsotropicTermsVsMPro`; hence two runs whose profiles agree on bin `b`
(measured value and the eight terms) store the same value in bin `b`, whatever the other bins
hold. -/
theorem CorrectForDetectorEffectsVsM_bin (cfg : Settings K) (s : State K) (b : Int)
    (hb1 : 1 ≤ b) (hb2 : b ≤ cfg.fNoOfMultipicityBins + 2) :
    (CorrectForDetectorEffectsVsM cfg s).f3pCorrelatorVsMHist.GetBinContent b =
      corrected3pCorrelator (s.f3pCorrelatorVsMPro.GetBinContent b)
        (fun k => s.fNonIsotropicTermsVsMPro.GetBinContent ((k : Int) + 1) b) ∧
    (∀ s2 : State K,
      s2.f3pCorrelatorVsMPro.GetBinContent b = s.f3pCorrelatorVsMPro.GetBinContent b →
      (∀ k : Nat, k < 8 → s2.fNonIsotropicTermsVsMPro.GetBinContent ((k : Int) + 1) b
        = s.fNonIsotropicTermsVsMPro.GetBinContent ((k : Int) + 1) b) →
      (CorrectForDetectorEffectsVsM cfg s2).f3pCorrelatorVsMHist.GetBinContent b
        = (CorrectForDetectorEffectsVsM cfg s).f3pCorrelatorVsMHist.GetBinContent b) := by
  have hmem : b ∈ binLoop (cfg.fNoOfMultipicityBins + 2) := (mem_binLoop _ _).mpr ⟨hb1, hb2⟩
  have key : ∀ t : State K,
      (CorrectForDetectorEffectsVsM cfg t).f3pCorrelatorVsMHist.GetBinContent b =
        corrected3pCorrelator (t.f3pCorrelatorVsMPro.GetBinContent b)
          (fun k => t.fNonIsotropicTermsVsMPro.GetBinContent ((k : Int) + 1) b) := by
    intro t
    unfold CorrectForDetectorEffectsVsM
    rw [foldl_correctVsMStep_hist_mem _ t b hmem]
    simp [corrected3pCorrelatorVsM, corrected3pCorrelator]
  refine ⟨key s, ?_⟩
  intro s2 hmeas hterms
  rw [key s2, key s, hmeas]
  simp only [corrected3pCorrelator]
  have e0 := hterms 0 (by norm_num)
  have e1 := hterms 1 (by norm_num)
  have e2 := hterms 2 (by norm_num)
  have e3 := hterms 3 (by norm_num)
  have e4 := hterms 4 (by norm_num)
  have e5 := hterms 5 (by norm_num)
  have e6 := hterms 6 (by norm_num)
  have e7 := hterms 7 (by norm_num)
  rw [e0, e1, e2, e3, e4, e5, e6, e7]

/-- Witness for C10: bin 3 of the default binning (`nBins = 10`) on the example state. -/
theorem CorrectForDetectorEffectsVsM_bin_witness :
    (1 : Int) ≤ 3 ∧ (3 : Int) ≤ (exampleSettings ℚ).fNoOfMultipicityBins + 2 ∧
    (CorrectForDetectorEffectsVsM (exampleSettings ℚ)
        (exampleState ℚ)).f3pCorrelatorVsMHist.GetBinContent 3 =
      corrected3pCorrelator ((exampleState ℚ).f3pCorrelatorVsMPro.GetBinContent 3)
        (fun k => (exampleState ℚ).fNonIsotropicTermsVsMPro.GetBinContent ((k : Int) + 1) 3) :=
  ⟨by decide, by decide,
    (CorrectForDetectorEffectsVsM_bin (exampleSettings ℚ) (exampleState ℚ) 3 (by decide)
      (by decide)).1⟩

/-! ## Make: the track loop and the matrices -/

lemma foldlM_some_of_forall {α β : Type} (f : β → α → Option β) (l : List α)
    (h : ∀ b, ∀ a ∈ l, ∃ c, f b a = some c) (b : β) : ∃ c, l.foldlM f b = some c := by
  induction l generalizing b with
  | nil => exact ⟨b, rfl⟩
  | cons a l ih =>
    obtain ⟨c, hc⟩ := h b a (List.mem_cons_self a l)
    obtain ⟨d, hd⟩ := ih (fun b x hx => h b x (List.mem_cons_of_mem a hx)) c
    exact ⟨d, by simp [List.foldlM_cons, hc, hd]⟩

lemma pairStep_matrices (tm : TMath K) (cfg : Settings K) (ev : AliFlowEventSimple K) (i : Nat)
    (t1 : AliFlowTrackSimple K) (s s2 : State K) (j : Nat)
    (h : pairStep tm cfg ev i t1 s j = some s2) :
    s2.fReQnk = s.fReQnk ∧ s2.fImQnk = s.fImQnk ∧ s2.fSpk = s.fSpk := by
  unfold pairStep at h
  split_ifs at h with h1
  · cases h; exact ⟨rfl, rfl, rfl⟩
  · split at h
    · cases h
    · split_ifs at h <;> cases h <;> exact ⟨rfl, rfl, rfl⟩

lemma foldlM_pairStep_matrices (tm : TMath K) (cfg : Settings K) (ev : AliFlowEventSimple K)
    (i : Nat) (t1 : AliFlowTrackSimple K) (js : List Nat) (s s2 : State K)
    (h : js.foldlM (pairStep tm cfg ev i t1) s = some s2) :
    s2.fReQnk = s.fReQnk ∧ s2.fImQnk = s.fImQnk ∧ s2.fSpk = s.fSpk := by
  induction js generalizing s with
  | nil =>
    simp only [List.foldlM_nil, Option.pure_def, Option.some.injEq] at h
    subst h; exact ⟨rfl, rfl, rfl⟩
  | cons j js ih =>
    simp only [List.foldlM_cons, Option.bind_eq_bind, Option.bind_eq_some] at h
    obtain ⟨sm, h1, h2⟩ := h
    obtain ⟨a1, a2, a3⟩ := pairStep_matrices tm cfg ev i t1 s sm j h1
    obtain ⟨b1, b2, b3⟩ := ih sm h2
    exact ⟨b1.trans a1, b2.trans a2, b3.trans a3⟩

/-- The RP track, if any, that the pass `i` of the track loop accumulates. -/
lemma trackStep_matrices (tm : TMath K) (cfg : Settings K) (ev : AliFlowEventSimple K)
    (s s2 : State K) (i : Nat) (h : trackStep tm cfg ev s i = some s2) :
    (∀ m k, m < 2 → k < 4 → s2.fReQnk m k = s.fReQnk m k +
      ((((GetTrack ev i).filter (fun t => t.InRPSelection)).toList).map (reQTerm tm cfg m k)).sum)
    ∧ (∀ m k, m < 2 → k < 4 → s2.fImQnk m k = s.fImQnk m k +
      ((((GetTrack ev i).filter (fun t => t.InRPSelection)).toList).map (imQTerm tm cfg m k)).sum)
    ∧ (∀ p k, p < 4 → k < 4 → s2.fSpk p k = s.fSpk p k +
      ((((GetTrack ev i).filter (fun t => t.InRPSelection)).toList).map
        (fun t => trackWeight tm cfg t ^ k)).sum) := by
  unfold trackStep at h
  cases hT : GetTrack ev i with
  | none =>
    rw [hT] at h
    simp only [Option.some.injEq] at h
    subst h
    simp [Option.filter]
  | some t =>
    rw [hT] at h
    simp only at h
    cases hrp : t.InRPSelection with
    | true =>
      have key : s2.fReQnk = (accumulateRP tm cfg t s).fReQnk ∧
          s2.fImQnk = (accumulateRP tm cfg t s).fImQnk ∧
          s2.fSpk = (accumulateRP tm cfg t s).fSpk := by
        simp only [hrp, Bool.true_or, Bool.not_true, Bool.false_eq_true, if_false, if_true] at h
        split_ifs at h
        all_goals first
          | exact foldlM_pairStep_matrices tm cfg ev i t _ (accumulateRP tm cfg t s) s2 h
          | (cases h; exact ⟨rfl, rfl, rfl⟩)
      obtain ⟨k1, k2, k3⟩ := key
      rw [k1, k2, k3]
      refine ⟨?_, ?_, ?_⟩ <;> intro m k hm hk <;>
        simp [Option.filter, hrp, accumulateRP, hm, hk]
    | false =>
      have key : s2.fReQnk = s.fReQnk ∧ s2.fImQnk = s.fImQnk ∧ s2.fSpk = s.fSpk := by
        simp only [hrp, Bool.false_or, Bool.false_eq_true, if_false] at h
        split_ifs at h
        all_goals first
          | exact foldlM_pairStep_matrices tm cfg ev i t _ s s2 h
          | (cases h; exact ⟨rfl, rfl, rfl⟩)
      obtain ⟨k1, k2, k3⟩ := key
      rw [k1, k2, k3]
      refine ⟨?_, ?_, ?_⟩ <;> intro m k _ _ <;> simp [Option.filter, hrp]

/-- The matrices after the track loop over the indices `idx`. -/
lemma foldlM_trackStep_matrices (tm : TMath K) (cfg : Settings K) (ev : AliFlowEventSimple K)
    (idx : List Nat) (s s2 : State K) (h : idx.foldlM (trackStep tm cfg ev) s = some s2) :
    (∀ m k, m < 2 → k < 4 → s2.fReQnk m k = s.fReQnk m k +
      ((idx.filterMap (fun i => (GetTrack ev i).filter (fun t => t.InRPSelection))).map
        (reQTerm tm cfg m k)).sum)
    ∧ (∀ m k, m < 2 → k < 4 → s2.fImQnk m k = s.fImQnk m k +
      ((idx.filterMap (fun i => (GetTrack ev i).filter (fun t => t.InRPSelection))).map
        (imQTerm tm cfg m k)).sum)
    ∧ (∀ p k, p < 4 → k < 4 → s2.fSpk p k = s.fSpk p k +
      ((idx.filterMap (fun i => (GetTrack ev i).filter (fun t => t.InRPSelection))).map
        (fun t => trackWeight tm cfg t ^ k)).sum) := by
  induction idx generalizing s with
  | nil =>
    simp only [List.foldlM_nil, Option.pure_def, Option.some.injEq] at h
    subst h
    simp
  | cons i idx ih =>
    simp only [List.foldlM_cons, Option.bind_eq_bind, Option.bind_eq_some] at h
    obtain ⟨sm, h1, h2⟩ := h
    obtain ⟨a1, a2, a3⟩ := trackStep_matrices tm cfg ev s sm i h1
    obtain ⟨b1, b2, b3⟩ := ih sm h2
    refine ⟨?_, ?_, ?_⟩
    · intro m k hm hk
      rw [b1 m k hm hk, a1 m k hm hk]
      cases hT : (GetTrack ev i).filter (fun t => t.InRPSelection) <;>
        simp [List.filterMap_cons, hT, add_assoc]
    · intro m k hm hk
      rw [b2 m k hm hk, a2 m k hm hk]
      cases hT : (GetTrack ev i).filter (fun t => t.InRPSelection) <;>
        simp [List.filterMap_cons, hT, add_assoc]
    · intro p k hp hk
      rw [b3 p k hp hk, a3 p k hp hk]
      cases hT : (GetTrack ev i).filter (fun t => t.InRPSelection) <;>
        simp [List.filterMap_cons, hT, add_assoc]

lemma map_GetTrack_range (ev : AliFlowEventSimple K) :
    (List.range ev.tracks.length).map (GetTrack ev) = ev.tracks := by
  apply List.ext_getElem
  · simp
  · intro n h1 h2
    simp [GetTrack, List.getElem?_eq_getElem h2]

/-- The RP tracks met by the track loop are the reference particles of the event. -/
lemma filterMap_range_eq_rpTracks (ev : AliFlowEventSimple K) :
    (List.range ev.tracks.length).filterMap
        (fun i => (GetTrack ev i).filter (fun t => t.InRPSelection)) = rpTracks ev := by
  have h := List.filterMap_map (GetTrack ev)
    (fun o : Option (AliFlowTrackSimple K) => o.filter (fun t => t.InRPSelection))
    (List.range ev.tracks.length)
  rw [map_GetTrack_range] at h
  rw [rpTracks, h]
  rfl

/-- The matrices at the end of the track loop of `Make`. -/
lemma trackLoop_matrices (tm : TMath K) (cfg : Settings K) (ev : AliFlowEventSimple K)
    (s s2 : State K) (h : trackLoop tm cfg ev s = some s2) :
    (∀ m k, m < 2 → k < 4 → s2.fReQnk m k = s.fReQnk m k +
      ((rpTracks ev).map (reQTerm tm cfg m k)).sum)
    ∧ (∀ m k, m < 2 → k < 4 → s2.fImQnk m k = s.fImQnk m k +
      ((rpTracks ev).map (imQTerm tm cfg m k)).sum)
    ∧ (∀ p k, p < 4 → k < 4 → s2.fSpk p k = s.fSpk p k +
      ((rpTracks ev).map (fun t => trackWeight tm cfg t ^ k)).sum) := by
  have := foldlM_trackStep_matrices tm cfg ev _ s s2 h
  rwa [filterMap_range_eq_rpTracks] at this

lemma pairStep_some_of_ne_none (tm : TMath K) (cfg : Settings K) (ev : AliFlowEventSimple K)
    (i : Nat) (t1 : AliFlowTrackSimple K) (s : State K) (j : Nat)
    (hj : j = i ∨ GetTrack ev j ≠ none) : ∃ s2, pairStep tm cfg ev i t1 s j = some s2 := by
  unfold pairStep
  by_cases hji : j = i
  · exact ⟨s, by simp [hji]⟩
  · rcases hj with hj | hj
    · exact absurd hj hji
    · cases hT : GetTrack ev j with
      | none => exact absurd hT hj
      | some t2 =>
        simp only [hji, if_false]
        split_ifs <;> exact ⟨_, rfl⟩

lemma GetTrack_ne_none (ev : AliFlowEventSimple K) (hnull : ∀ o ∈ ev.tracks, o ≠ none) (j : Nat)
    (hj : j < ev.tracks.length) : GetTrack ev j ≠ none := by
  have hmem : ev.tracks[j] ∈ ev.tracks := List.getElem_mem hj
  have := hnull _ hmem
  simpa [GetTrack, List.getElem?_eq_getElem hj] using this

/-- The track loop of `Make` runs to its end when the differential mode is off or the event has
no null track. -/
lemma trackLoop_some (tm : TMath K) (cfg : Settings K) (ev : AliFlowEventSimple K) (s : State K)
    (h : cfg.fEvaluateDifferential3pCorrelator = false ∨ ∀ o ∈ ev.tracks, o ≠ none) :
    ∃ s2, trackLoop tm cfg ev s = some s2 := by
  apply foldlM_some_of_forall
  intro b i _
  unfold trackStep
  cases hT : GetTrack ev i with
  | none => exact ⟨b, rfl⟩
  | some t =>
    simp only
    rcases h with h | h
    · simp only [h, Bool.false_eq_true, if_false]
      split_ifs <;> exact ⟨_, rfl⟩
    · have inner : ∀ c : State K,
          ∃ d, (List.range ev.tracks.length).foldlM (pairStep tm cfg ev i t) c = some d := by
        intro c
        apply foldlM_some_of_forall
        intro c j hj
        exact pairStep_some_of_ne_none tm cfg ev i t c j
          (Or.inr (GetTrack_ne_none ev h j (List.mem_range.mp hj)))
      split_ifs
      all_goals first
        | exact ⟨_, rfl⟩
        | exact inner _

lemma sum_map_filterMap_filter {α : Type} (l : List (Option α)) (q : α → Bool) (f : α → K) :
    ((l.filterMap (fun o => o.filter q)).map f).sum =
      (l.map (fun o => match o with
        | some t => if q t = true then f t else 0
        | none => 0)).sum := by
  induction l with
  | nil => simp
  | cons o l ih =>
    rw [List.map_cons, List.sum_cons, ← ih]
    cases o with
    | none => simp [List.filterMap_cons, Option.filter]
    | some t =>
      by_cases hq : q t = true
      · simp [List.filterMap_cons, Option.filter, hq]
      · simp [List.filterMap_cons, Option.filter, hq]

lemma length_filterMap_filter {α : Type} (l : List (Option α)) (q : α → Bool) :
    (l.filterMap (fun o => o.filter q)).length =
      (l.filter (fun o => match o with
        | some t => q t
        | none => false)).length := by
  induction l with
  | nil => rfl
  | cons o l ih =>
    cases o with
    | none => simpa [List.filterMap_cons, Option.filter] using ih
    | some t =>
      cases hq : q t
      · simpa [List.filterMap_cons, Option.filter, List.filter_cons, hq] using ih
      · simpa [List.filterMap_cons, Option.filter, List.filter_cons, hq] using ih

lemma rpTracks_exampleEvent (K : Type) [LinearOrderedField K] :
    rpTracks (exampleEvent K) =
      [⟨0, 1 / 2, 0, 1, true, false⟩, ⟨0, 3 / 2, 0, -1, true, true⟩,
       ⟨0, 1, 0, 1, true, false⟩, ⟨0, 2, 0, -1, true, false⟩] := rfl

/-- C5: starting from zeroed tables, at the end of the track loop of `Make` and for `m < 2`,
`k < 4`, `Re Q[m][k]` is the sum of `w^k cos((m+1) n phi)` and `Im Q[m][k]` the sum of
`w^k sin((m+1) n phi)` over the tracks flagged as reference particles, `w = wPhi*wPt*wEta`
being the product of the three weights of the track; written as a sum over all tracks of the
event, a track flagged RP contributes its term once (whatever its POI flag) and any other
track, or a null pointer, contributes 0.  The loop reaches its end when the differential mode
is off or the event has no null track. -/
theorem Make_trackLoop_flow_vectors (tm : TMath K) (cfg : Settings K)
    (ev : AliFlowEventSimple K) (s : State K)
    (hRe : ∀ m k, s.fReQnk m k = 0) (hIm : ∀ m k, s.fImQnk m k = 0)
    (m k : Nat) (hm : m < 2) (hk : k < 4) :
    ((cfg.fEvaluateDifferential3pCorrelator = false ∨ ∀ o ∈ ev.tracks, o ≠ none) →
      ∃ s2, trackLoop tm cfg ev s = some s2) ∧
    (∀ s2, trackLoop tm cfg ev s = some s2 →
      s2.fReQnk m k =
        ((rpTracks ev).map (fun t => (wPhi tm cfg t * wPt cfg t * wEta cfg t) ^ k
          * tm.Cos (((((m : Int) + 1) * cfg.fHarmonic : Int) : K) * t.Phi))).sum ∧
      s2.fImQnk m k =
        ((rpTracks ev).map (fun t => (wPhi tm cfg t * wPt cfg t * wEta cfg t) ^ k
          * tm.Sin (((((m : Int) + 1) * cfg.fHarmonic : Int) : K) * t.Phi))).sum ∧
      s2.fReQnk m k =
        (ev.tracks.map (fun o => match o with
          | some t =>
            if t.InRPSelection = true then
              (wPhi tm cfg t * wPt cfg t * wEta cfg t) ^ k
                * tm.Cos (((((m : Int) + 1) * cfg.fHarmonic : Int) : K) * t.Phi)
            else 0
          | none => 0)).sum ∧
      s2.fImQnk m k =
        (ev.tracks.map (fun o => match o with
          | some t =>
            if t.InRPSelection = true then
              (wPhi tm cfg t * wPt cfg t * wEta cfg t) ^ k
                * tm.Sin (((((m : Int) + 1) * cfg.fHarmonic : Int) : K) * t.Phi)
            else 0
          | none => 0)).sum) := by
  refine ⟨trackLoop_some tm cfg ev s, ?_⟩
  intro s2 h2
  obtain ⟨a1, a2, -⟩ := trackLoop_matrices tm cfg ev s s2 h2
  have e1 := a1 m k hm hk
  have e2 := a2 m k hm hk
  rw [hRe, zero_add] at e1
  rw [hIm, zero_add] at e2
  refine ⟨e1, e2, ?_, ?_⟩
  · rw [e1, rpTracks, sum_map_filterMap_filter]
    congr 1
    apply List.map_congr_left
    intro o _
    cases o <;> rfl
  · rw [e2, rpTracks, sum_map_filterMap_filter]
    congr 1
    apply List.map_congr_left
    intro o _
    cases o <;> rfl

/-- Witness for C5: on the example event (four RPs at `phi = 0`) the loop ends with
`Re Q[0][0] = 4` and `Im Q[0][0] = 0`. -/
theorem Make_trackLoop_flow_vectors_witness :
    ∃ s2, trackLoop realTMath (exampleSettings ℝ) (exampleEvent ℝ)
        (State.init (exampleSettings ℝ)) = some s2 ∧
      s2.fReQnk 0 0 = 4 ∧ s2.fImQnk 0 0 = 0 := by
  have T := Make_trackLoop_flow_vectors realTMath (exampleSettings ℝ) (exampleEvent ℝ)
    (State.init (exampleSettings ℝ)) (fun _ _ => rfl) (fun _ _ => rfl) 0 0 (by decide) (by decide)
  obtain ⟨s2, h2⟩ := T.1 (Or.inr (by simp [exampleEvent]))
  obtain ⟨e1, e2, -, -⟩ := T.2 s2 h2
  refine ⟨s2, h2, ?_, ?_⟩
  · rw [e1, rpTracks_exampleEvent]
    norm_num [realTMath]
  · rw [e2, rpTracks_exampleEvent]
    norm_num [realTMath]

/-- The state in which the reducers run exists whenever the track loop ends, and conversely. -/
lemma accumulate_eq_some (tm : TMath K) (cfg : Settings K) (ev : AliFlowEventSimple K)
    (s s2 : State K) :
    accumulate tm cfg ev s = some s2 ↔ ∃ s1, trackLoop tm cfg ev s = some s1 ∧ finalizeSpk s1 = s2 := by
  simp [accumulate, Option.map_eq_some]

/-- C6: starting from a zeroed `S` table, in the state left by the track loop and the
finalisation step of `Make` (the state the reducers read), `S[p][k] = (sum over the RP tracks of
w^k)^(p+1)` for all `p, k < 4`, and `M = S[0][0]` is the number of non-null tracks flagged as
reference particles, for any particle weights.  That state exists when the differential mode is
off or the event has no null track. -/
theorem Make_finalized_multiplicities (tm : TMath K) (cfg : Settings K)
    (ev : AliFlowEventSimple K) (s : State K) (hS : ∀ p k, s.fSpk p k = 0) :
    ((cfg.fEvaluateDifferential3pCorrelator = false ∨ ∀ o ∈ ev.tracks, o ≠ none) →
      ∃ s2, accumulate tm cfg ev s = some s2) ∧
    (∀ s2, accumulate tm cfg ev s = some s2 →
      (∀ p k, p < 4 → k < 4 →
        s2.fSpk p k =
          (((rpTracks ev).map (fun t => (wPhi tm cfg t * wPt cfg t * wEta cfg t) ^ k)).sum)
            ^ (p + 1)) ∧
      s2.fSpk 0 0 = ((rpTracks ev).length : K) ∧
      (rpTracks ev).length =
        (ev.tracks.filter (fun o => match o with
          | some t => t.InRPSelection
          | none => false)).length) := by
  constructor
  · intro h
    obtain ⟨s1, h1⟩ := trackLoop_some tm cfg ev s h
    exact ⟨finalizeSpk s1, (accumulate_eq_some tm cfg ev s _).mpr ⟨s1, h1, rfl⟩⟩
  · intro s2 h2
    obtain ⟨s1, h1, rfl⟩ := (accumulate_eq_some tm cfg ev s s2).mp h2
    obtain ⟨-, -, a3⟩ := trackLoop_matrices tm cfg ev s s1 h1
    have key : ∀ p k, p < 4 → k < 4 → (finalizeSpk s1).fSpk p k =
        (((rpTracks ev).map (fun t => (wPhi tm cfg t * wPt cfg t * wEta cfg t) ^ k)).sum)
          ^ (p + 1) := by
      intro p k hp hk
      have e := a3 p k hp hk
      rw [hS, zero_add] at e
      simp only [finalizeSpk, hp, hk, and_self, if_true, e]
      rfl
    refine ⟨key, ?_, ?_⟩
    · rw [key 0 0 (by norm_num) (by norm_num)]
      simp
    · rw [rpTracks, length_filterMap_filter]
      congr 2
      funext o
      cases o <;> rfl

/-- Witness for C6: on the example event `M = S[0][0] = 4`. -/
theorem Make_finalized_multiplicities_witness :
    ∃ s2, accumulate realTMath (exampleSettings ℝ) (exampleEvent ℝ)
        (State.init (exampleSettings ℝ)) = some s2 ∧ s2.fSpk 0 0 = 4 := by
  have T := Make_finalized_multiplicities realTMath (exampleSettings ℝ) (exampleEvent ℝ)
    (State.init (exampleSettings ℝ)) (fun _ _ => rfl)
  obtain ⟨s2, h2⟩ := T.1 (Or.inr (by simp [exampleEvent]))
  refine ⟨s2, h2, ?_⟩
  rw [(T.2 s2 h2).2.1, rpTracks_exampleEvent]
  norm_num

end Theorems

/-! ## Sums over distinct indices and the trigonometric identities behind the reducers -/

section FinsetSums
variable {ι : Type} [Fintype ι] [DecidableEq ι]

lemma sum_ite_eq_left (i : ι) (g : ι → ℝ) :
    (∑ j, if i = j then g j else 0) = g i := by
  simp [Finset.sum_ite_eq]

lemma sum_off_diagonal (f : ι → ι → ℝ) :
    (∑ i, ∑ j, if i ≠ j then f i j else 0) = (∑ i, ∑ j, f i j) - ∑ i, f i i := by
  have h : ∀ i j, (if i ≠ j then f i j else 0) = f i j - (if i = j then f i j else 0) := by
    intro i j
    by_cases hij : i = j <;> simp [hij]
  simp only [h, Finset.sum_sub_distrib, sum_ite_eq_left]

lemma sum_distinct_triples (F : ι → ι → ι → ℝ) :
    (∑ i, ∑ j, ∑ k, if i ≠ j ∧ i ≠ k ∧ j ≠ k then F i j k else 0) =
      (∑ i, ∑ j, ∑ k, F i j k) - (∑ i, ∑ k, F i i k) - (∑ i, ∑ j, F i j i)
        - (∑ i, ∑ j, F i j j) + 2 * ∑ i, F i i i := by
  have h : ∀ i j k, (if i ≠ j ∧ i ≠ k ∧ j ≠ k then F i j k else 0) =
      F i j k - (if i = j then F i j k else 0) - (if i = k then F i j k else 0)
        - (if j = k then F i j k else 0) + 2 * (if i = j then (if j = k then F i j k else 0) else 0) := by
    intro i j k
    by_cases hij : i = j
    · subst hij
      by_cases hik : i = k
      · subst hik; simp; ring
      · simp [hik]
    · by_cases hik : i = k
      · subst hik
        have : ¬ j = i := fun h => hij h.symm
        simp [hij, this]
      · by_cases hjk : j = k <;> simp [hij, hik, hjk]
  have e1 : ∀ i j, (∑ k, if i = j then F i j k else 0) = if i = j then ∑ k, F i j k else 0 := by
    intro i j; by_cases hij : i = j <;> simp [hij]
  have e2 : ∀ i j, (∑ k, if i = k then F i j k else 0) = F i j i := by
    intro i j; simp [Finset.sum_ite_eq]
  have e3 : ∀ i j, (∑ k, if j = k then F i j k else 0) = F i j j := by
    intro i j; simp [Finset.sum_ite_eq]
  have e4 : ∀ i j, (∑ k, if i = j then (if j = k then F i j k else 0) else 0)
      = if i = j then F i j j else 0 := by
    intro i j; by_cases hij : i = j <;> simp [hij, Finset.sum_ite_eq]
  simp only [h, Finset.sum_sub_distrib, Finset.sum_add_distrib, ← Finset.mul_sum, e1, e2, e3, e4,
    sum_ite_eq_left]

lemma sum_mul_sum_mul_sum (f g h : ι → ℝ) :
    (∑ i, f i) * (∑ j, g j) * (∑ k, h k) = ∑ i, ∑ j, ∑ k, f i * g j * h k := by
  rw [Finset.sum_mul_sum, Finset.sum_mul]
  refine Finset.sum_congr rfl (fun i _ => ?_)
  rw [Finset.sum_mul]
  refine Finset.sum_congr rfl (fun j _ => ?_)
  rw [Finset.mul_sum]

end FinsetSums

section Trig
variable {ι : Type} [Fintype ι] [DecidableEq ι]

lemma sum_sum_mul (f g : ι → ℝ) : (∑ i, ∑ j, f i * g j) = (∑ i, f i) * ∑ j, g j := by
  rw [Finset.sum_mul_sum]

lemma pair_cos_add (a : ι → ℝ) :
    (∑ i, ∑ j, if i ≠ j then Real.cos (a i + a j) else 0) =
      (∑ i, Real.cos (a i)) ^ 2 - (∑ i, Real.sin (a i)) ^ 2 - ∑ i, Real.cos (2 * a i) := by
  rw [sum_off_diagonal]
  have hd : ∀ i, Real.cos (a i + a i) = Real.cos (2 * a i) := by
    intro i; rw [two_mul]
  simp only [hd]
  simp only [Real.cos_add, Finset.sum_sub_distrib, sum_sum_mul]
  ring

lemma pair_sin_add (a : ι → ℝ) :
    (∑ i, ∑ j, if i ≠ j then Real.sin (a i + a j) else 0) =
      2 * (∑ i, Real.cos (a i)) * (∑ i, Real.sin (a i)) - ∑ i, Real.sin (2 * a i) := by
  rw [sum_off_diagonal]
  have hd : ∀ i, Real.sin (a i + a i) = Real.sin (2 * a i) := by
    intro i; rw [two_mul]
  simp only [hd]
  simp only [Real.sin_add, Finset.sum_add_distrib, sum_sum_mul]
  ring

lemma pair_cos_two_sub (a : ι → ℝ) :
    (∑ i, ∑ j, if i ≠ j then Real.cos (2 * a i - a j) else 0) =
      (∑ i, Real.cos (2 * a i)) * (∑ i, Real.cos (a i))
        + (∑ i, Real.sin (2 * a i)) * (∑ i, Real.sin (a i)) - ∑ i, Real.cos (a i) := by
  rw [sum_off_diagonal]
  have hd : ∀ i, Real.cos (2 * a i - a i) = Real.cos (a i) := by
    intro i; congr 1; ring
  simp only [hd]
  simp only [Real.cos_sub, Finset.sum_add_distrib, sum_sum_mul]

lemma pair_sin_two_sub (a : ι → ℝ) :
    (∑ i, ∑ j, if i ≠ j then Real.sin (2 * a i - a j) else 0) =
      (∑ i, Real.sin (2 * a i)) * (∑ i, Real.cos (a i))
        - (∑ i, Real.cos (2 * a i)) * (∑ i, Real.sin (a i)) - ∑ i, Real.sin (a i) := by
  rw [sum_off_diagonal]
  have hd : ∀ i, Real.sin (2 * a i - a i) = Real.sin (a i) := by
    intro i; congr 1; ring
  simp only [hd]
  simp only [Real.sin_sub, Finset.sum_sub_distrib, sum_sum_mul]

lemma triple_cos (a : ι → ℝ) :
    (∑ i, ∑ j, ∑ k, if i ≠ j ∧ i ≠ k ∧ j ≠ k then Real.cos (a i + a j - 2 * a k) else 0) =
      (∑ i, Real.cos (a i)) ^ 2 * (∑ i, Real.cos (2 * a i))
        + 2 * (∑ i, Real.cos (a i)) * (∑ i, Real.sin (a i)) * (∑ i, Real.sin (2 * a i))
        - (∑ i, Real.sin (a i)) ^ 2 * (∑ i, Real.cos (2 * a i))
        - 2 * ((∑ i, Real.cos (a i)) ^ 2 + (∑ i, Real.sin (a i)) ^ 2)
        - ((∑ i, Real.cos (2 * a i)) ^ 2 + (∑ i, Real.sin (2 * a i)) ^ 2)
        + 2 * (Fintype.card ι : ℝ) := by
  rw [sum_distinct_triples]
  have hall : (∑ i, ∑ j, ∑ k, Real.cos (a i + a j - 2 * a k)) =
      (∑ i, Real.cos (a i)) * (∑ i, Real.cos (a i)) * (∑ i, Real.cos (2 * a i))
      - (∑ i, Real.sin (a i)) * (∑ i, Real.sin (a i)) * (∑ i, Real.cos (2 * a i))
      + (∑ i, Real.sin (a i)) * (∑ i, Real.cos (a i)) * (∑ i, Real.sin (2 * a i))
      + (∑ i, Real.cos (a i)) * (∑ i, Real.sin (a i)) * (∑ i, Real.sin (2 * a i)) := by
    simp only [sum_mul_sum_mul_sum, ← Finset.sum_sub_distrib, ← Finset.sum_add_distrib]
    refine Finset.sum_congr rfl (fun i _ => Finset.sum_congr rfl (fun j _ =>
      Finset.sum_congr rfl (fun k _ => ?_)))
    rw [Real.cos_sub, Real.cos_add, Real.sin_add]
    ring
  have h1 : (∑ i, ∑ k, Real.cos (a i + a i - 2 * a k)) =
      (∑ i, Real.cos (2 * a i)) ^ 2 + (∑ i, Real.sin (2 * a i)) ^ 2 := by
    have : ∀ i k, Real.cos (a i + a i - 2 * a k) =
        Real.cos (2 * a i) * Real.cos (2 * a k) + Real.sin (2 * a i) * Real.sin (2 * a k) := by
      intro i k; rw [← Real.cos_sub]; congr 1; ring
    simp only [this, Finset.sum_add_distrib, sum_sum_mul]
    ring
  have h2 : (∑ i, ∑ j, Real.cos (a i + a j - 2 * a i)) =
      (∑ i, Real.cos (a i)) ^ 2 + (∑ i, Real.sin (a i)) ^ 2 := by
    have : ∀ i j, Real.cos (a i + a j - 2 * a i) =
        Real.cos (a i) * Real.cos (a j) + Real.sin (a i) * Real.sin (a j) := by
      intro i j
      have e : a i + a j - 2 * a i = a j - a i := by ring
      rw [e, Real.cos_sub]; ring
    simp only [this, Finset.sum_add_distrib, sum_sum_mul]
    ring
  have h3 : (∑ i, ∑ j, Real.cos (a i + a j - 2 * a j)) =
      (∑ i, Real.cos (a i)) ^ 2 + (∑ i, Real.sin (a i)) ^ 2 := by
    have : ∀ i j, Real.cos (a i + a j - 2 * a j) =
        Real.cos (a i) * Real.cos (a j) + Real.sin (a i) * Real.sin (a j) := by
      intro i j; rw [← Real.cos_sub]; congr 1; ring
    simp only [this, Finset.sum_add_distrib, sum_sum_mul]
    ring
  have h4 : (∑ i, Real.cos (a i + a i - 2 * a i)) = (Fintype.card ι : ℝ) := by
    have : ∀ i, Real.cos (a i + a i - 2 * a i) = 1 := by
      intro i
      have : a i + a i - 2 * a i = 0 := by ring
      rw [this, Real.cos_zero]
    simp [this]
  rw [hall, h1, h2, h3, h4]
  ring

end Trig

section Reducers

/-- The quantities read by the reducers, for an event accumulated from zeroed tables, as sums
over the reference particles. -/
lemma reducer_inputs (cfg : Settings ℝ) (ev : AliFlowEventSimple ℝ) (s s2 : State ℝ)
    (hRe : ∀ m k, s.fReQnk m k = 0) (hIm : ∀ m k, s.fImQnk m k = 0)
    (hS : ∀ p k, s.fSpk p k = 0) (h : accumulate realTMath cfg ev s = some s2) :
    s2.fReQnk 0 0 = ∑ i : Fin (rpPhis ev).length, Real.cos ((cfg.fHarmonic : ℝ) * (rpPhis ev)[i.1])
    ∧ s2.fImQnk 0 0
      = ∑ i : Fin (rpPhis ev).length, Real.sin ((cfg.fHarmonic : ℝ) * (rpPhis ev)[i.1])
    ∧ s2.fReQnk 1 0
      = ∑ i : Fin (rpPhis ev).length, Real.cos (2 * ((cfg.fHarmonic : ℝ) * (rpPhis ev)[i.1]))
    ∧ s2.fImQnk 1 0
      = ∑ i : Fin (rpPhis ev).length, Real.sin (2 * ((cfg.fHarmonic : ℝ) * (rpPhis ev)[i.1]))
    ∧ s2.fSpk 0 0 = ((rpPhis ev).length : ℝ) := by
  obtain ⟨s1, h1, rfl⟩ := (accumulate_eq_some realTMath cfg ev s s2).mp h
  obtain ⟨a1, a2, a3⟩ := trackLoop_matrices realTMath cfg ev s s1 h1
  have hmap : ∀ g : ℝ → ℝ, ((rpTracks ev).map (fun t => g t.Phi)).sum
      = ∑ i : Fin (rpPhis ev).length, g (rpPhis ev)[i.1] := by
    intro g
    rw [Fin.sum_univ_get' (rpPhis ev) g, rpPhis, List.map_map]
    rfl
  have q : ∀ m k, (finalizeSpk s1).fReQnk m k = s1.fReQnk m k ∧
      (finalizeSpk s1).fImQnk m k = s1.fImQnk m k := fun _ _ => ⟨rfl, rfl⟩
  refine ⟨?_, ?_, ?_, ?_, ?_⟩
  · rw [(q 0 0).1, a1 0 0 (by norm_num) (by norm_num), hRe, zero_add,
      ← hmap (fun x => Real.cos ((cfg.fHarmonic : ℝ) * x))]
    congr 1
    apply List.map_congr_left
    intro t _
    simp [reQTerm, realTMath]
  · rw [(q 0 0).2, a2 0 0 (by norm_num) (by norm_num), hIm, zero_add,
      ← hmap (fun x => Real.sin ((cfg.fHarmonic : ℝ) * x))]
    congr 1
    apply List.map_congr_left
    intro t _
    simp [imQTerm, realTMath]
  · rw [(q 1 0).1, a1 1 0 (by norm_num) (by norm_num), hRe, zero_add,
      ← hmap (fun x => Real.cos (2 * ((cfg.fHarmonic : ℝ) * x)))]
    congr 1
    apply List.map_congr_left
    intro t _
    simp only [reQTerm, realTMath, pow_zero, one_mul]
    congr 1
    push_cast
    ring
  · rw [(q 1 0).2, a2 1 0 (by norm_num) (by norm_num), hIm, zero_add,
      ← hmap (fun x => Real.sin (2 * ((cfg.fHarmonic : ℝ) * x)))]
    congr 1
    apply List.map_congr_left
    intro t _
    simp only [imQTerm, realTMath, pow_zero, one_mul]
    congr 1
    push_cast
    ring
  · have e := a3 0 0 (by norm_num) (by norm_num)
    rw [hS, zero_add] at e
    simp [finalizeSpk, e, rpPhis]

/-- The reducer inputs of the example event. -/
lemma exampleEvent_inputs (s2 : State ℝ)
    (h : accumulate realTMath (exampleSettings ℝ) (exampleEvent ℝ)
      (State.init (exampleSettings ℝ)) = some s2) :
    s2.fReQnk 0 0 = 4 ∧ s2.fImQnk 0 0 = 0 ∧ s2.fReQnk 1 0 = 4 ∧ s2.fImQnk 1 0 = 0
      ∧ s2.fSpk 0 0 = 4 := by
  obtain ⟨s1, h1, rfl⟩ := (accumulate_eq_some realTMath _ _ _ s2).mp h
  obtain ⟨a1, a2, a3⟩ := trackLoop_matrices realTMath _ _ _ s1 h1
  have e1 := a1 0 0 (by norm_num) (by norm_num)
  have e2 := a2 0 0 (by norm_num) (by norm_num)
  have e3 := a1 1 0 (by norm_num) (by norm_num)
  have e4 := a2 1 0 (by norm_num) (by norm_num)
  have e5 := a3 0 0 (by norm_num) (by norm_num)
  rw [rpTracks_exampleEvent] at e1 e2 e3 e4 e5
  refine ⟨?_, ?_, ?_, ?_, ?_⟩
  · show s1.fReQnk 0 0 = 4
    rw [e1]; norm_num [State.init, reQTerm, realTMath]
  · show s1.fImQnk 0 0 = 0
    rw [e2]; norm_num [State.init, imQTerm, realTMath]
  · show s1.fReQnk 1 0 = 4
    rw [e3]; norm_num [State.init, reQTerm, realTMath]
  · show s1.fImQnk 1 0 = 0
    rw [e4]; norm_num [State.init, imQTerm, realTMath]
  · simp only [finalizeSpk]
    rw [if_pos (by norm_num), e5]; norm_num [State.init]

/-! ## The 3-particle correlator against the nested loop -/

/-- C1: over the reals, for an event accumulated by `Make` from zeroed tables with no particle
weights enabled whose reference particles have the angles `phi_1 .. phi_M`, `M ≥ 3`, the value
`three1n1n2n` that `Calculate3pCorrelator` computes from `Q1n = Q[0][0]`, `Q2n = Q[1][0]`,
`M = S[0][0]` and fills into the integrated profile (with weight `M(M-1)(M-2)`) equals the
average of `cos[n(phi_i + phi_j - 2 phi_k)]` over all ordered triples of pairwise distinct
reference particles, the triple sum divided by `M(M-1)(M-2)`.  The accumulated state exists when
the differential mode is off or the event has no null track. -/
theorem Calculate3pCorrelator_eq_nested_loop (cfg : Settings ℝ) (ev : AliFlowEventSimple ℝ)
    (s : State ℝ)
    (hPhi : cfg.fUsePhiWeights = false) (hPt : cfg.fUsePtWeights = false)
    (hEta : cfg.fUseEtaWeights = false)
    (hRe : ∀ m k, s.fReQnk m k = 0) (hIm : ∀ m k, s.fImQnk m k = 0)
    (hS : ∀ p k, s.fSpk p k = 0) (hM : 3 ≤ (rpPhis ev).length) :
    ((cfg.fEvaluateDifferential3pCorrelator = false ∨ ∀ o ∈ ev.tracks, o ≠ none) →
      ∃ s2, accumulate realTMath cfg ev s = some s2) ∧
    ((rpPhis ev).length : ℝ) * (((rpPhis ev).length : ℝ) - 1)
      * (((rpPhis ev).length : ℝ) - 2) ≠ 0 ∧
    (∀ s2, accumulate realTMath cfg ev s = some s2 →
      three1n1n2n (s2.fReQnk 0 0) (s2.fImQnk 0 0) (s2.fReQnk 1 0) (s2.fImQnk 1 0) (s2.fSpk 0 0)
        = naive3pCorrelator realTMath cfg.fHarmonic (rpPhis ev) ∧
      (Calculate3pCorrelator cfg s2).f3pCorrelatorPro.fills =
        s2.f3pCorrelatorPro.fills ++
          [(1 / 2, naive3pCorrelator realTMath cfg.fHarmonic (rpPhis ev),
            ((rpPhis ev).length : ℝ) * (((rpPhis ev).length : ℝ) - 1)
              * (((rpPhis ev).length : ℝ) - 2))]) := by
  refine ⟨?_, ?_, ?_⟩
  · intro h
    obtain ⟨s1, h1⟩ := trackLoop_some realTMath cfg ev s h
    exact ⟨finalizeSpk s1, (accumulate_eq_some realTMath cfg ev s _).mpr ⟨s1, h1, rfl⟩⟩
  · have h3 : (3 : ℝ) ≤ ((rpPhis ev).length : ℝ) := by exact_mod_cast hM
    have a : (0 : ℝ) < ((rpPhis ev).length : ℝ) := by linarith
    have b : (0 : ℝ) < ((rpPhis ev).length : ℝ) - 1 := by linarith
    have c : (0 : ℝ) < ((rpPhis ev).length : ℝ) - 2 := by linarith
    exact (mul_pos (mul_pos a b) c).ne'
  · intro s2 h2
    obtain ⟨q1, q2, q3, q4, q5⟩ := reducer_inputs cfg ev s s2 hRe hIm hS h2
    have hnum : (∑ i : Fin (rpPhis ev).length, ∑ j : Fin (rpPhis ev).length,
        ∑ k : Fin (rpPhis ev).length,
          if i ≠ j ∧ i ≠ k ∧ j ≠ k then
            realTMath.Cos ((cfg.fHarmonic : ℝ)
              * ((rpPhis ev)[i.1] + (rpPhis ev)[j.1] - 2 * (rpPhis ev)[k.1]))
          else 0) =
        ∑ i : Fin (rpPhis ev).length, ∑ j : Fin (rpPhis ev).length,
          ∑ k : Fin (rpPhis ev).length,
            if i ≠ j ∧ i ≠ k ∧ j ≠ k then
              Real.cos ((cfg.fHarmonic : ℝ) * (rpPhis ev)[i.1]
                + (cfg.fHarmonic : ℝ) * (rpPhis ev)[j.1]
                - 2 * ((cfg.fHarmonic : ℝ) * (rpPhis ev)[k.1]))
            else 0 := by
      refine Finset.sum_congr rfl (fun i _ => Finset.sum_congr rfl (fun j _ =>
        Finset.sum_congr rfl (fun k _ => ?_)))
      by_cases h : i ≠ j ∧ i ≠ k ∧ j ≠ k
      · rw [if_pos h, if_pos h]
        show Real.cos _ = Real.cos _
        congr 1
        ring
      · rw [if_neg h, if_neg h]
    have hval : three1n1n2n (s2.fReQnk 0 0) (s2.fImQnk 0 0) (s2.fReQnk 1 0) (s2.fImQnk 1 0)
        (s2.fSpk 0 0) = naive3pCorrelator realTMath cfg.fHarmonic (rpPhis ev) := by
      unfold three1n1n2n naive3pCorrelator
      rw [hnum, triple_cos (fun i : Fin (rpPhis ev).length =>
        (cfg.fHarmonic : ℝ) * (rpPhis ev)[i.1]), q1, q2, q3, q4, q5, Fintype.card_fin]
    refine ⟨hval, ?_⟩
    have hfill : (Calculate3pCorrelator cfg s2).f3pCorrelatorPro.fills =
        s2.f3pCorrelatorPro.fills ++
          [(1 / 2, three1n1n2n (s2.fReQnk 0 0) (s2.fImQnk 0 0) (s2.fReQnk 1 0) (s2.fImQnk 1 0)
              (s2.fSpk 0 0),
            s2.fSpk 0 0 * (s2.fSpk 0 0 - 1) * (s2.fSpk 0 0 - 2))] := by
      simp [Calculate3pCorrelator, Settings.usesParticleWeights, hPhi, hPt, hEta, TProfile.Fill]
    rw [hfill, hval, q5]

/-- Witness for C1: the example event has four reference particles at `phi = 0`; its nested-loop
average and the value computed from the flow vectors are both 1. -/
theorem Calculate3pCorrelator_eq_nested_loop_witness :
    ∃ s2, accumulate realTMath (exampleSettings ℝ) (exampleEvent ℝ)
        (State.init (exampleSettings ℝ)) = some s2 ∧
      three1n1n2n (s2.fReQnk 0 0) (s2.fImQnk 0 0) (s2.fReQnk 1 0) (s2.fImQnk 1 0) (s2.fSpk 0 0)
        = 1 ∧
      naive3pCorrelator realTMath (exampleSettings ℝ).fHarmonic (rpPhis (exampleEvent ℝ)) = 1 := by
  have T := Calculate3pCorrelator_eq_nested_loop (exampleSettings ℝ) (exampleEvent ℝ)
    (State.init (exampleSettings ℝ)) rfl rfl rfl (fun _ _ => rfl) (fun _ _ => rfl)
    (fun _ _ => rfl) (by simp [rpPhis, rpTracks_exampleEvent])
  obtain ⟨s2, h2⟩ := T.1 (Or.inr (by simp [exampleEvent]))
  obtain ⟨e1, e2, e3, e4, e5⟩ := exampleEvent_inputs s2 h2
  have hv : three1n1n2n (s2.fReQnk 0 0) (s2.fImQnk 0 0) (s2.fReQnk 1 0) (s2.fImQnk 1 0)
      (s2.fSpk 0 0) = 1 := by
    rw [e1, e2, e3, e4, e5]
    norm_num [three1n1n2n]
  exact ⟨s2, h2, hv, by rw [← (T.2.2 s2 h2).1, hv]⟩

/-! ## The 2-particle non-isotropic terms against the nested loop -/

/-- C7: over the reals and with no particle weights enabled, (i) for an event accumulated by
`Make` from zeroed tables with `M > 1` reference particles, `CalculateNonIsotropicTerms` ends
its fills of the integrated profile with four fills at the positions 9/2, 11/2, 13/2, 15/2
(term slots 4..7) whose values are the averages over all ordered pairs `(i,j)` of distinct
reference particles of `cos[n(phi_i+phi_j)]`, `sin[n(phi_i+phi_j)]`, `cos[n(2phi_i-phi_j)]`,
`sin[n(2phi_i-phi_j)]` and whose weight is `M(M-1)`, and it makes the same four fills of the
vs-M profile at the y position selected for `M`; (ii) in any state with `S[0][0] ≤ 1` every
fill it makes is at a position below 9/2, so no 2-particle term is filled.  The accumulated
state exists when the differential mode is off or the event has no null track. -/
theorem CalculateNonIsotropicTerms_two_particle (cfg : Settings ℝ) (ev : AliFlowEventSimple ℝ)
    (s : State ℝ)
    (hPhi : cfg.fUsePhiWeights = false) (hPt : cfg.fUsePtWeights = false)
    (hEta : cfg.fUseEtaWeights = false)
    (hRe : ∀ m k, s.fReQnk m k = 0) (hIm : ∀ m k, s.fImQnk m k = 0)
    (hS : ∀ p k, s.fSpk p k = 0) :
    ((cfg.fEvaluateDifferential3pCorrelator = false ∨ ∀ o ∈ ev.tracks, o ≠ none) →
      ∃ s2, accumulate realTMath cfg ev s = some s2) ∧
    (∀ s2, accumulate realTMath cfg ev s = some s2 → 1 < (rpPhis ev).length →
      ∃ (pre : List (ℝ × ℝ × ℝ)) (preVsM : List (ℝ × ℝ × ℝ × ℝ)),
        (CalculateNonIsotropicTerms cfg s2).fNonIsotropicTermsPro.fills = pre ++
          [(9 / 2, naivePairAverage (fun x y => Real.cos ((cfg.fHarmonic : ℝ) * (x + y)))
              (rpPhis ev),
              ((rpPhis ev).length : ℝ) * (((rpPhis ev).length : ℝ) - 1)),
           (11 / 2, naivePairAverage (fun x y => Real.sin ((cfg.fHarmonic : ℝ) * (x + y)))
              (rpPhis ev),
              ((rpPhis ev).length : ℝ) * (((rpPhis ev).length : ℝ) - 1)),
           (13 / 2, naivePairAverage (fun x y => Real.cos ((cfg.fHarmonic : ℝ) * (2 * x - y)))
              (rpPhis ev),
              ((rpPhis ev).length : ℝ) * (((rpPhis ev).length : ℝ) - 1)),
           (15 / 2, naivePairAverage (fun x y => Real.sin ((cfg.fHarmonic : ℝ) * (2 * x - y)))
              (rpPhis ev),
              ((rpPhis ev).length : ℝ) * (((rpPhis ev).length : ℝ) - 1))] ∧
        (CalculateNonIsotropicTerms cfg s2).fNonIsotropicTermsVsMPro.fills = preVsM ++
          [(9 / 2, vsMPosition cfg ((rpPhis ev).length : ℝ),
              naivePairAverage (fun x y => Real.cos ((cfg.fHarmonic : ℝ) * (x + y))) (rpPhis ev),
              ((rpPhis ev).length : ℝ) * (((rpPhis ev).length : ℝ) - 1)),
           (11 / 2, vsMPosition cfg ((rpPhis ev).length : ℝ),
              naivePairAverage (fun x y => Real.sin ((cfg.fHarmonic : ℝ) * (x + y))) (rpPhis ev),
              ((rpPhis ev).length : ℝ) * (((rpPhis ev).length : ℝ) - 1)),
           (13 / 2, vsMPosition cfg ((rpPhis ev).length : ℝ),
              naivePairAverage (fun x y => Real.cos ((cfg.fHarmonic : ℝ) * (2 * x - y)))
                (rpPhis ev),
              ((rpPhis ev).length : ℝ) * (((rpPhis ev).length : ℝ) - 1)),
           (15 / 2, vsMPosition cfg ((rpPhis ev).length : ℝ),
              naivePairAverage (fun x y => Real.sin ((cfg.fHarmonic : ℝ) * (2 * x - y)))
                (rpPhis ev),
              ((rpPhis ev).length : ℝ) * (((rpPhis ev).length : ℝ) - 1))]) ∧
    (∀ s2 : State ℝ, s2.fSpk 0 0 ≤ 1 →
      ∃ (new : List (ℝ × ℝ × ℝ)) (newVsM : List (ℝ × ℝ × ℝ × ℝ)),
        (CalculateNonIsotropicTerms cfg s2).fNonIsotropicTermsPro.fills
          = s2.fNonIsotropicTermsPro.fills ++ new ∧
        (∀ f ∈ new, f.1 < 9 / 2) ∧
        (CalculateNonIsotropicTerms cfg s2).fNonIsotropicTermsVsMPro.fills
          = s2.fNonIsotropicTermsVsMPro.fills ++ newVsM ∧
        (∀ f ∈ newVsM, f.1 < 9 / 2)) := by
  refine ⟨?_, ?_, ?_⟩
  · intro h
    obtain ⟨s1, h1⟩ := trackLoop_some realTMath cfg ev s h
    exact ⟨finalizeSpk s1, (accumulate_eq_some realTMath cfg ev s _).mpr ⟨s1, h1, rfl⟩⟩
  · intro s2 h2 hM
    obtain ⟨q1, q2, q3, q4, q5⟩ := reducer_inputs cfg ev s s2 hRe hIm hS h2
    have hM1 : (1 : ℝ) < ((rpPhis ev).length : ℝ) := by exact_mod_cast hM
    have hM0 : (0 : ℝ) < ((rpPhis ev).length : ℝ) := by linarith
    have n1 : naivePairAverage (fun x y => Real.cos ((cfg.fHarmonic : ℝ) * (x + y))) (rpPhis ev)
        = (s2.fReQnk 0 0 ^ 2 - s2.fImQnk 0 0 ^ 2 - s2.fReQnk 1 0)
          / (s2.fSpk 0 0 * (s2.fSpk 0 0 - 1)) := by
      unfold naivePairAverage
      rw [q1, q2, q3, q5, ← pair_cos_add (fun i : Fin (rpPhis ev).length =>
        (cfg.fHarmonic : ℝ) * (rpPhis ev)[i.1])]
      simp only [mul_add]
    have n2 : naivePairAverage (fun x y => Real.sin ((cfg.fHarmonic : ℝ) * (x + y))) (rpPhis ev)
        = (2 * s2.fReQnk 0 0 * s2.fImQnk 0 0 - s2.fImQnk 1 0)
          / (s2.fSpk 0 0 * (s2.fSpk 0 0 - 1)) := by
      unfold naivePairAverage
      rw [q1, q2, q4, q5, ← pair_sin_add (fun i : Fin (rpPhis ev).length =>
        (cfg.fHarmonic : ℝ) * (rpPhis ev)[i.1])]
      simp only [mul_add]
    have n3 : naivePairAverage (fun x y => Real.cos ((cfg.fHarmonic : ℝ) * (2 * x - y)))
        (rpPhis ev)
        = (s2.fReQnk 1 0 * s2.fReQnk 0 0 + s2.fImQnk 1 0 * s2.fImQnk 0 0 - s2.fReQnk 0 0)
          / (s2.fSpk 0 0 * (s2.fSpk 0 0 - 1)) := by
      unfold naivePairAverage
      rw [q1, q2, q3, q4, q5, ← pair_cos_two_sub (fun i : Fin (rpPhis ev).length =>
        (cfg.fHarmonic : ℝ) * (rpPhis ev)[i.1])]
      simp only [mul_sub, mul_left_comm (cfg.fHarmonic : ℝ) 2]
    have n4 : naivePairAverage (fun x y => Real.sin ((cfg.fHarmonic : ℝ) * (2 * x - y)))
        (rpPhis ev)
        = (s2.fImQnk 1 0 * s2.fReQnk 0 0 - s2.fReQnk 1 0 * s2.fImQnk 0 0 - s2.fImQnk 0 0)
          / (s2.fSpk 0 0 * (s2.fSpk 0 0 - 1)) := by
      unfold naivePairAverage
      rw [q1, q2, q3, q4, q5, ← pair_sin_two_sub (fun i : Fin (rpPhis ev).length =>
        (cfg.fHarmonic : ℝ) * (rpPhis ev)[i.1])]
      simp only [mul_sub, mul_left_comm (cfg.fHarmonic : ℝ) 2]
    rw [n1, n2, n3, n4, ← q5]
    have g1 : s2.fSpk 0 0 > 1 := by rw [q5]; exact hM1
    have g0 : s2.fSpk 0 0 > 0 := by rw [q5]; exact hM0
    refine ⟨s2.fNonIsotropicTermsPro.fills ++
        [(1 / 2, s2.fReQnk 0 0 / s2.fSpk 0 0, s2.fSpk 0 0),
         (3 / 2, s2.fImQnk 0 0 / s2.fSpk 0 0, s2.fSpk 0 0),
         (5 / 2, s2.fReQnk 1 0 / s2.fSpk 0 0, s2.fSpk 0 0),
         (7 / 2, s2.fImQnk 1 0 / s2.fSpk 0 0, s2.fSpk 0 0)],
      s2.fNonIsotropicTermsVsMPro.fills ++
        [(1 / 2, vsMPosition cfg (s2.fSpk 0 0), s2.fReQnk 0 0 / s2.fSpk 0 0, s2.fSpk 0 0),
         (3 / 2, vsMPosition cfg (s2.fSpk 0 0), s2.fImQnk 0 0 / s2.fSpk 0 0, s2.fSpk 0 0),
         (5 / 2, vsMPosition cfg (s2.fSpk 0 0), s2.fReQnk 1 0 / s2.fSpk 0 0, s2.fSpk 0 0),
         (7 / 2, vsMPosition cfg (s2.fSpk 0 0), s2.fImQnk 1 0 / s2.fSpk 0 0, s2.fSpk 0 0)],
      ?_, ?_⟩
    · simp [CalculateNonIsotropicTerms, Settings.usesParticleWeights, hPhi, hPt, hEta,
        TProfile.Fill, g0, g1]
    · simp [CalculateNonIsotropicTerms, Settings.usesParticleWeights, hPhi, hPt, hEta,
        TProfile2D.Fill, g0, g1]
  · intro s2 hle
    have g1 : ¬ s2.fSpk 0 0 > 1 := not_lt.mpr hle
    by_cases g0 : s2.fSpk 0 0 > 0
    · refine ⟨[(1 / 2, s2.fReQnk 0 0 / s2.fSpk 0 0, s2.fSpk 0 0),
         (3 / 2, s2.fImQnk 0 0 / s2.fSpk 0 0, s2.fSpk 0 0),
         (5 / 2, s2.fReQnk 1 0 / s2.fSpk 0 0, s2.fSpk 0 0),
         (7 / 2, s2.fImQnk 1 0 / s2.fSpk 0 0, s2.fSpk 0 0)],
        [(1 / 2, vsMPosition cfg (s2.fSpk 0 0), s2.fReQnk 0 0 / s2.fSpk 0 0, s2.fSpk 0 0),
         (3 / 2, vsMPosition cfg (s2.fSpk 0 0), s2.fImQnk 0 0 / s2.fSpk 0 0, s2.fSpk 0 0),
         (5 / 2, vsMPosition cfg (s2.fSpk 0 0), s2.fReQnk 1 0 / s2.fSpk 0 0, s2.fSpk 0 0),
         (7 / 2, vsMPosition cfg (s2.fSpk 0 0), s2.fImQnk 1 0 / s2.fSpk 0 0, s2.fSpk 0 0)],
        ?_, ?_, ?_, ?_⟩
      · simp [CalculateNonIsotropicTerms, Settings.usesParticleWeights, hPhi, hPt, hEta,
          TProfile.Fill, g0, g1]
      · intro f hf
        simp only [List.mem_cons, List.mem_singleton, List.not_mem_nil, or_false] at hf
        rcases hf with rfl | rfl | rfl | rfl <;> norm_num
      · simp [CalculateNonIsotropicTerms, Settings.usesParticleWeights, hPhi, hPt, hEta,
          TProfile2D.Fill, g0, g1]
      · intro f hf
        simp only [List.mem_cons, List.mem_singleton, List.not_mem_nil, or_false] at hf
        rcases hf with rfl | rfl | rfl | rfl <;> norm_num
    · refine ⟨[], [], ?_, ?_, ?_, ?_⟩
      · simp [CalculateNonIsotropicTerms, Settings.usesParticleWeights, hPhi, hPt, hEta, g0, g1]
      · simp
      · simp [CalculateNonIsotropicTerms, Settings.usesParticleWeights, hPhi, hPt, hEta, g0, g1]
      · simp


/-- Witness for C7: on the example event (`M = 4`) the four 2-particle fills of the integrated
profile carry the nested-loop pair averages and the weight `M(M-1)`. -/
theorem CalculateNonIsotropicTerms_two_particle_witness :
    ∃ (s2 : State ℝ) (pre : List (ℝ × ℝ × ℝ)),
      accumulate realTMath (exampleSettings ℝ) (exampleEvent ℝ)
        (State.init (exampleSettings ℝ)) = some s2 ∧
      (CalculateNonIsotropicTerms (exampleSettings ℝ) s2).fNonIsotropicTermsPro.fills = pre ++
        [(9 / 2, naivePairAverage
            (fun x y => Real.cos (((exampleSettings ℝ).fHarmonic : ℝ) * (x + y)))
            (rpPhis (exampleEvent ℝ)),
            ((rpPhis (exampleEvent ℝ)).length : ℝ) * (((rpPhis (exampleEvent ℝ)).length : ℝ) - 1)),
         (11 / 2, naivePairAverage
            (fun x y => Real.sin (((exampleSettings ℝ).fHarmonic : ℝ) * (x + y)))
            (rpPhis (exampleEvent ℝ)),
            ((rpPhis (exampleEvent ℝ)).length : ℝ) * (((rpPhis (exampleEvent ℝ)).length : ℝ) - 1)),
         (13 / 2, naivePairAverage
            (fun x y => Real.cos (((exampleSettings ℝ).fHarmonic : ℝ) * (2 * x - y)))
            (rpPhis (exampleEvent ℝ)),
            ((rpPhis (exampleEvent ℝ)).length : ℝ) * (((rpPhis (exampleEvent ℝ)).length : ℝ) - 1)),
         (15 / 2, naivePairAverage
            (fun x y => Real.sin (((exampleSettings ℝ).fHarmonic : ℝ) * (2 * x - y)))
            (rpPhis (exampleEvent ℝ)),
            ((rpPhis (exampleEvent ℝ)).length : ℝ) * (((rpPhis (exampleEvent ℝ)).length : ℝ) - 1))]
      := by
  have T := CalculateNonIsotropicTerms_two_particle (exampleSettings ℝ) (exampleEvent ℝ)
    (State.init (exampleSettings ℝ)) rfl rfl rfl (fun _ _ => rfl) (fun _ _ => rfl)
    (fun _ _ => rfl)
  obtain ⟨s2, h2⟩ := T.1 (Or.inr (by simp [exampleEvent]))
  obtain ⟨pre, -, e1, -⟩ := T.2.1 s2 h2 (by simp [rpPhis, rpTracks_exampleEvent])
  exact ⟨s2, pre, h2, e1⟩

end Reducers




/-! ## The pair loop of Make: the logs of the per-event pair profiles -/

section PairLoop
variable {K : Type} [LinearOrderedField K] [FloorRing K]

lemma TProfile.eta_append_nil (p : TProfile K) : (⟨p.fXaxis, p.fills ++ []⟩ : TProfile K) = p := by
  cases p; simp

lemma pairProfile_fillPair (tm : TMath K) (cfg : Settings K) (t1 t2 : AliFlowTrackSimple K)
    (s : State K) (w sd : Nat) (hsd : sd < 2) :
    pairProfile (fillPair tm cfg t1 t2 s) w sd =
      ⟨(pairProfile s w sd).fXaxis, (pairProfile s w sd).fills ++ pairEntry tm cfg w sd t1 t2⟩ := by
  match w with
  | 0 => simp [pairProfile, fillPair, pairEntry, TProfile.Fill, hsd]
  | 1 => simp [pairProfile, fillPair, pairEntry, TProfile.Fill, hsd]
  | 2 =>
    cases h : t1.InRPSelection <;>
      simp [pairProfile, fillPair, pairEntry, TProfile.Fill, hsd, h]
  | (n + 3) =>
    cases h : t2.InRPSelection <;>
      simp [pairProfile, fillPair, pairEntry, TProfile.Fill, hsd, h]

lemma pairProfile_accumulateRP (tm : TMath K) (cfg : Settings K) (t : AliFlowTrackSimple K)
    (s : State K) (w sd : Nat) :
    pairProfile (accumulateRP tm cfg t s) w sd = pairProfile s w sd := by
  match w with
  | 0 => rfl
  | 1 => rfl
  | 2 => rfl
  | (n + 3) => rfl

lemma trackAt_of_GetTrack (ev : AliFlowEventSimple K) (i : Nat) (t : AliFlowTrackSimple K)
    (h : GetTrack ev i = some t) : trackAt ev i = t := by
  simp [trackAt, h]

lemma pairStep_pairProfile (tm : TMath K) (cfg : Settings K) (ev : AliFlowEventSimple K)
    (i : Nat) (t1 : AliFlowTrackSimple K) (hi : GetTrack ev i = some t1)
    (hpoi : t1.InPOISelection = true) (s s2 : State K) (j : Nat)
    (h : pairStep tm cfg ev i t1 s j = some s2) (w sd : Nat) (hsd : sd < 2) :
    pairProfile s2 w sd =
      ⟨(pairProfile s w sd).fXaxis,
        (pairProfile s w sd).fills ++ loopEntries tm cfg ev w sd i j⟩ := by
  have hti := trackAt_of_GetTrack ev i t1 hi
  unfold pairStep at h
  by_cases hji : j = i
  · simp only [hji, if_true, Option.some.injEq] at h
    subst h
    simp [loopEntries, pairPasses, hji, TProfile.eta_append_nil]
  · simp only [hji, if_false] at h
    cases hT : GetTrack ev j with
    | none => rw [hT] at h; cases h
    | some t2 =>
      rw [hT] at h
      have htj := trackAt_of_GetTrack ev j t2 hT
      simp only at h
      cases hp2 : t2.InPOISelection with
      | false =>
        simp only [hp2, Bool.false_eq_true, if_false, Option.some.injEq] at h
        subst h
        simp [loopEntries, pairPasses, hji, hti, htj, hp2, TProfile.eta_append_nil]
      | true =>
        simp only [hp2, if_true] at h
        by_cases hcut : cfg.fOppositeChargesPOI = true ∧ t1.Charge = t2.Charge
        · simp only [hcut, and_self, if_true, Option.some.injEq] at h
          subst h
          simp [loopEntries, pairPasses, hji, hti, htj, hp2, hpoi, hcut.1, hcut.2,
            TProfile.eta_append_nil]
        · rw [if_neg hcut] at h
          simp only [Option.some.injEq] at h
          subst h
          rw [pairProfile_fillPair tm cfg t1 t2 s w sd hsd]
          have hpass : pairPasses cfg ev i j = true := by
            simp only [pairPasses, hti, htj, hp2, hpoi, Bool.and_true, Bool.and_eq_true,
              decide_eq_true_eq, Bool.not_eq_true', Bool.and_eq_false_imp]
            refine ⟨hji, ?_⟩
            intro ho
            simpa using fun hc => hcut ⟨ho, hc⟩
          simp [loopEntries, hpass, hti, htj]

lemma foldlM_pairStep_pairProfile (tm : TMath K) (cfg : Settings K) (ev : AliFlowEventSimple K)
    (i : Nat) (t1 : AliFlowTrackSimple K) (hi : GetTrack ev i = some t1)
    (hpoi : t1.InPOISelection = true) (js : List Nat) (s s2 : State K)
    (h : js.foldlM (pairStep tm cfg ev i t1) s = some s2) (w sd : Nat) (hsd : sd < 2) :
    pairProfile s2 w sd =
      ⟨(pairProfile s w sd).fXaxis,
        (pairProfile s w sd).fills ++ js.flatMap (fun j => loopEntries tm cfg ev w sd i j)⟩ := by
  induction js generalizing s with
  | nil =>
    simp only [List.foldlM_nil, Option.pure_def, Option.some.injEq] at h
    subst h
    simp [TProfile.eta_append_nil]
  | cons j js ih =>
    simp only [List.foldlM_cons, Option.bind_eq_bind, Option.bind_eq_some] at h
    obtain ⟨sm, h1, h2⟩ := h
    rw [ih sm h2, pairStep_pairProfile tm cfg ev i t1 hi hpoi s sm j h1 w sd hsd]
    simp [List.flatMap_cons, List.append_assoc]

lemma loopEntries_of_not_poi (tm : TMath K) (cfg : Settings K) (ev : AliFlowEventSimple K)
    (w sd i j : Nat) (h : (trackAt ev i).InPOISelection = false) :
    loopEntries tm cfg ev w sd i j = [] := by
  simp [loopEntries, pairPasses, h]

lemma flatMap_loopEntries_of_not_poi (tm : TMath K) (cfg : Settings K)
    (ev : AliFlowEventSimple K) (w sd i : Nat) (js : List Nat)
    (h : (trackAt ev i).InPOISelection = false) :
    js.flatMap (fun j => loopEntries tm cfg ev w sd i j) = [] := by
  induction js with
  | nil => rfl
  | cons j js ih => rw [List.flatMap_cons, ih, loopEntries_of_not_poi tm cfg ev w sd i j h]; rfl

/-- The pair profiles after one pass of the track loop in differential mode. -/
lemma trackStep_pairProfile (tm : TMath K) (cfg : Settings K) (ev : AliFlowEventSimple K)
    (hdiff : cfg.fEvaluateDifferential3pCorrelator = true)
    (s s2 : State K) (i : Nat) (h : trackStep tm cfg ev s i = some s2) (w sd : Nat)
    (hsd : sd < 2) :
    pairProfile s2 w sd =
      ⟨(pairProfile s w sd).fXaxis,
        (pairProfile s w sd).fills ++
          (List.range ev.tracks.length).flatMap (fun j => loopEntries tm cfg ev w sd i j)⟩ := by
  unfold trackStep at h
  cases hT : GetTrack ev i with
  | none =>
    rw [hT] at h
    simp only [Option.some.injEq] at h
    subst h
    have hp : (trackAt ev i).InPOISelection = false := by simp [trackAt, hT]
    rw [flatMap_loopEntries_of_not_poi tm cfg ev w sd i _ hp, TProfile.eta_append_nil]
  | some t =>
    rw [hT] at h
    have hti := trackAt_of_GetTrack ev i t hT
    simp only [hdiff, if_true] at h
    cases hpoi : t.InPOISelection with
    | false =>
      have hp : (trackAt ev i).InPOISelection = false := by rw [hti]; exact hpoi
      rw [flatMap_loopEntries_of_not_poi tm cfg ev w sd i _ hp, TProfile.eta_append_nil]
      simp only [hpoi, Bool.or_false, Bool.false_eq_true, if_false] at h
      split_ifs at h
      all_goals (cases h; rfl)
    | true =>
      simp only [hpoi, Bool.or_true, Bool.not_true, Bool.false_eq_true, if_false, if_true] at h
      rw [foldlM_pairStep_pairProfile tm cfg ev i t hT hpoi _ _ s2 h w sd hsd]
      split_ifs
      · rw [pairProfile_accumulateRP]
      · rfl

/-- Without the differential mode the track loop leaves the pair profiles alone. -/
lemma trackStep_pairProfile_off (tm : TMath K) (cfg : Settings K) (ev : AliFlowEventSimple K)
    (hdiff : cfg.fEvaluateDifferential3pCorrelator = false)
    (s s2 : State K) (i : Nat) (h : trackStep tm cfg ev s i = some s2) (w sd : Nat) :
    pairProfile s2 w sd = pairProfile s w sd := by
  unfold trackStep at h
  cases hT : GetTrack ev i with
  | none =>
    rw [hT] at h
    simp only [Option.some.injEq] at h
    subst h; rfl
  | some t =>
    rw [hT] at h
    simp only [hdiff, Bool.false_eq_true, if_false] at h
    split_ifs at h
    all_goals (cases h; rfl)

lemma foldlM_trackStep_pairProfile (tm : TMath K) (cfg : Settings K)
    (ev : AliFlowEventSimple K) (hdiff : cfg.fEvaluateDifferential3pCorrelator = true)
    (idx : List Nat) (s s2 : State K) (h : idx.foldlM (trackStep tm cfg ev) s = some s2)
    (w sd : Nat) (hsd : sd < 2) :
    pairProfile s2 w sd =
      ⟨(pairProfile s w sd).fXaxis,
        (pairProfile s w sd).fills ++
          pairLog tm cfg ev w sd idx (List.range ev.tracks.length)⟩ := by
  induction idx generalizing s with
  | nil =>
    simp only [List.foldlM_nil, Option.pure_def, Option.some.injEq] at h
    subst h
    simp [pairLog, TProfile.eta_append_nil]
  | cons i idx ih =>
    simp only [List.foldlM_cons, Option.bind_eq_bind, Option.bind_eq_some] at h
    obtain ⟨sm, h1, h2⟩ := h
    rw [ih sm h2, trackStep_pairProfile tm cfg ev hdiff s sm i h1 w sd hsd]
    simp [pairLog, List.flatMap_cons, List.append_assoc]

lemma foldlM_trackStep_pairProfile_off (tm : TMath K) (cfg : Settings K)
    (ev : AliFlowEventSimple K) (hdiff : cfg.fEvaluateDifferential3pCorrelator = false)
    (idx : List Nat) (s s2 : State K) (h : idx.foldlM (trackStep tm cfg ev) s = some s2)
    (w sd : Nat) : pairProfile s2 w sd = pairProfile s w sd := by
  induction idx generalizing s with
  | nil =>
    simp only [List.foldlM_nil, Option.pure_def, Option.some.injEq] at h
    subst h; rfl
  | cons i idx ih =>
    simp only [List.foldlM_cons, Option.bind_eq_bind, Option.bind_eq_some] at h
    obtain ⟨sm, h1, h2⟩ := h
    rw [ih sm h2, trackStep_pairProfile_off tm cfg ev hdiff s sm i h1 w sd]

lemma pairProfile_finalizeSpk (s : State K) (w sd : Nat) :
    pairProfile (finalizeSpk s) w sd = pairProfile s w sd := by
  match w with
  | 0 => rfl
  | 1 => rfl
  | 2 => rfl
  | (n + 3) => rfl

end PairLoop

/-! ## Sums over the counted triples -/

section DiffAlgebra

/-- Sum over the third index of a counted triple. -/
lemma sum_third_index (N : ℕ) (rp : ℕ → Bool) (G : ℕ → ℝ) (i j : ℕ) (hi : i < N) (hj : j < N)
    (hij : i ≠ j) :
    (∑ k ∈ Finset.range N, if rp k = true ∧ k ≠ i ∧ k ≠ j then G k else 0) =
      (∑ k ∈ Finset.range N, if rp k = true then G k else 0)
        - (if rp i = true then G i else 0) - (if rp j = true then G j else 0) := by
  have h : ∀ k, (if rp k = true ∧ k ≠ i ∧ k ≠ j then G k else 0) =
      (if rp k = true then G k else 0)
        - (if k = i then (if rp k = true then G k else 0) else 0)
        - (if k = j then (if rp k = true then G k else 0) else 0) := by
    intro k
    by_cases hki : k = i
    · subst hki
      simp [hij]
    · by_cases hkj : k = j
      · subst hkj
        simp [hki]
      · simp [hki, hkj]
  simp only [h, Finset.sum_sub_distrib, Finset.sum_ite_eq', Finset.mem_range, hi, hj, if_true]

lemma sum_triples (N : ℕ) (pp : ℕ → ℕ → Bool) (rp : ℕ → Bool)
    (hpp : ∀ i j, pp i j = true → j ≠ i) (G : ℕ → ℕ → ℕ → ℝ) :
    (∑ i ∈ Finset.range N, ∑ j ∈ Finset.range N, ∑ k ∈ Finset.range N,
        if pp i j = true ∧ rp k = true ∧ k ≠ i ∧ k ≠ j then G i j k else 0) =
      ∑ i ∈ Finset.range N, ∑ j ∈ Finset.range N,
        if pp i j = true then
          (∑ k ∈ Finset.range N, if rp k = true then G i j k else 0)
            - (if rp i = true then G i j i else 0) - (if rp j = true then G i j j else 0)
        else 0 := by
  refine Finset.sum_congr rfl (fun i hi => Finset.sum_congr rfl (fun j hj => ?_))
  rw [Finset.mem_range] at hi hj
  by_cases h : pp i j = true
  · rw [if_pos h, ← sum_third_index N rp (G i j) i j hi hj (fun e => hpp i j h e.symm)]
    refine Finset.sum_congr rfl (fun k _ => ?_)
    simp [h]
  · rw [if_neg h]
    apply Finset.sum_eq_zero
    intro k _
    simp [h]

/-- The numerator identity of the differential correlator. -/
lemma diff_numerator (N : ℕ) (pp : ℕ → ℕ → Bool) (rp : ℕ → Bool)
    (hpp : ∀ i j, pp i j = true → j ≠ i) (a : ℕ → ℝ) :
    (∑ i ∈ Finset.range N, ∑ j ∈ Finset.range N,
        if pp i j = true then Real.cos (a i + a j) else 0)
        * (∑ k ∈ Finset.range N, if rp k = true then Real.cos (2 * a k) else 0)
      + (∑ i ∈ Finset.range N, ∑ j ∈ Finset.range N,
          if pp i j = true then Real.sin (a i + a j) else 0)
        * (∑ k ∈ Finset.range N, if rp k = true then Real.sin (2 * a k) else 0)
      - (∑ i ∈ Finset.range N, ∑ j ∈ Finset.range N,
          if pp i j = true ∧ rp i = true then Real.cos (a i - a j) else 0)
      - (∑ i ∈ Finset.range N, ∑ j ∈ Finset.range N,
          if pp i j = true ∧ rp j = true then Real.cos (a i - a j) else 0) =
      ∑ i ∈ Finset.range N, ∑ j ∈ Finset.range N, ∑ k ∈ Finset.range N,
        if pp i j = true ∧ rp k = true ∧ k ≠ i ∧ k ≠ j then
          Real.cos (a i + a j - 2 * a k) else 0 := by
  rw [sum_triples N pp rp hpp (fun i j k => Real.cos (a i + a j - 2 * a k))]
  simp only [Finset.sum_mul, ← Finset.sum_add_distrib, ← Finset.sum_sub_distrib]
  refine Finset.sum_congr rfl (fun i _ => Finset.sum_congr rfl (fun j _ => ?_))
  by_cases h : pp i j = true
  · have e1 : a i + a j - 2 * a i = -(a i - a j) := by ring
    have e2 : a i + a j - 2 * a j = a i - a j := by ring
    have e3 : (∑ k ∈ Finset.range N, if rp k = true then Real.cos (a i + a j - 2 * a k) else 0)
        = Real.cos (a i + a j) * (∑ k ∈ Finset.range N, if rp k = true then Real.cos (2 * a k) else 0)
          + Real.sin (a i + a j)
            * (∑ k ∈ Finset.range N, if rp k = true then Real.sin (2 * a k) else 0) := by
      rw [Finset.mul_sum, Finset.mul_sum, ← Finset.sum_add_distrib]
      refine Finset.sum_congr rfl (fun k _ => ?_)
      by_cases hk : rp k = true
      · simp only [hk, if_true]; rw [Real.cos_sub]
      · simp [hk]
    simp only [h, if_true, true_and, e1, e2, e3, Real.cos_neg]
  · simp [h]

/-- The weight identity of the differential correlator. -/
lemma diff_count (N : ℕ) (pp : ℕ → ℕ → Bool) (rp : ℕ → Bool)
    (hpp : ∀ i j, pp i j = true → j ≠ i) :
    (∑ i ∈ Finset.range N, ∑ j ∈ Finset.range N, if pp i j = true then (1 : ℝ) else 0)
        * (∑ k ∈ Finset.range N, if rp k = true then (1 : ℝ) else 0)
      - (∑ i ∈ Finset.range N, ∑ j ∈ Finset.range N,
          if pp i j = true ∧ rp i = true then (1 : ℝ) else 0)
      - (∑ i ∈ Finset.range N, ∑ j ∈ Finset.range N,
          if pp i j = true ∧ rp j = true then (1 : ℝ) else 0) =
      ∑ i ∈ Finset.range N, ∑ j ∈ Finset.range N, ∑ k ∈ Finset.range N,
        if pp i j = true ∧ rp k = true ∧ k ≠ i ∧ k ≠ j then (1 : ℝ) else 0 := by
  rw [sum_triples N pp rp hpp (fun _ _ _ => (1 : ℝ))]
  simp only [Finset.sum_mul, ← Finset.sum_sub_distrib]
  refine Finset.sum_congr rfl (fun i _ => Finset.sum_congr rfl (fun j _ => ?_))
  by_cases h : pp i j = true
  · simp [h]
  · simp [h]

end DiffAlgebra

/-! ## Bin statistics of the per-event pair profiles -/

section BinSums
variable {K : Type} [LinearOrderedField K] [FloorRing K]

lemma list_range_map_sum (f : ℕ → K) (n : ℕ) :
    ((List.range n).map f).sum = ∑ i ∈ Finset.range n, f i := by
  induction n with
  | zero => simp
  | succ n ih => rw [List.range_succ, List.map_append, List.sum_append, ih, Finset.sum_range_succ]; simp

lemma sum_filter_map_flatMap {α β : Type} (l : List α) (g : α → List β) (q : β → Bool)
    (μ : β → K) :
    (((l.flatMap g).filter q).map μ).sum = (l.map (fun a => (((g a).filter q).map μ).sum)).sum := by
  induction l with
  | nil => simp
  | cons a l ih =>
    rw [List.flatMap_cons, List.filter_append, List.map_append, List.sum_append, ih,
      List.map_cons, List.sum_cons]

/-- A bin sum of the pair log as a double sum over the track indices. -/
lemma pairLog_binSum (tm : TMath K) (cfg : Settings K) (ev : AliFlowEventSimple K) (w sd : Nat)
    (N M : ℕ) (q : K × K × K → Bool) (μ : K × K × K → K) :
    (((pairLog tm cfg ev w sd (List.range N) (List.range M)).filter q).map μ).sum =
      ∑ i ∈ Finset.range N, ∑ j ∈ Finset.range M,
        (((loopEntries tm cfg ev w sd i j).filter q).map μ).sum := by
  unfold pairLog
  rw [sum_filter_map_flatMap, list_range_map_sum]
  refine Finset.sum_congr rfl (fun i _ => ?_)
  rw [sum_filter_map_flatMap, list_range_map_sum]

/-- The pair `(i, j)` passes and its pair variable falls in bin `b`. -/
lemma tripleCounts_eq (cfg : Settings K) (ev : AliFlowEventSimple K) (sd : Nat) (b : Int)
    (i j k : Nat) :
    (tripleCounts cfg ev sd b i j k = true) ↔
      ((pairPasses cfg ev i j
          && decide ((pairAxis cfg).FindBin (pairX sd (trackAt ev i) (trackAt ev j)) = b)) = true
        ∧ (trackAt ev k).InRPSelection = true ∧ k ≠ i ∧ k ≠ j) := by
  simp [tripleCounts, and_assoc]

lemma pairPasses_ne (cfg : Settings K) (ev : AliFlowEventSimple K) (i j : Nat)
    (h : pairPasses cfg ev i j = true) : j ≠ i := by
  simp only [pairPasses, Bool.and_eq_true, decide_eq_true_eq] at h
  exact h.1.1.1

lemma loopEntries_binSum (tm : TMath K) (cfg : Settings K) (ev : AliFlowEventSimple K)
    (sd : Nat) (a : TAxis K) (b : Int) (μ : K × K × K → K) (i j : Nat) :
    ((((loopEntries tm cfg ev 0 sd i j).filter (fun f => decide (a.FindBin f.1 = b))).map μ).sum =
      if (pairPasses cfg ev i j
          && decide (a.FindBin (pairX sd (trackAt ev i) (trackAt ev j)) = b)) = true then
        μ (pairX sd (trackAt ev i) (trackAt ev j),
          tm.Cos ((cfg.fHarmonic : K) * ((trackAt ev i).Phi + (trackAt ev j).Phi)), 1)
      else 0) ∧
    ((((loopEntries tm cfg ev 1 sd i j).filter (fun f => decide (a.FindBin f.1 = b))).map μ).sum =
      if (pairPasses cfg ev i j
          && decide (a.FindBin (pairX sd (trackAt ev i) (trackAt ev j)) = b)) = true then
        μ (pairX sd (trackAt ev i) (trackAt ev j),
          tm.Sin ((cfg.fHarmonic : K) * ((trackAt ev i).Phi + (trackAt ev j).Phi)), 1)
      else 0) ∧
    ((((loopEntries tm cfg ev 2 sd i j).filter (fun f => decide (a.FindBin f.1 = b))).map μ).sum =
      if (pairPasses cfg ev i j
          && decide (a.FindBin (pairX sd (trackAt ev i) (trackAt ev j)) = b)) = true
          ∧ (trackAt ev i).InRPSelection = true then
        μ (pairX sd (trackAt ev i) (trackAt ev j),
          tm.Cos ((cfg.fHarmonic : K) * ((trackAt ev i).Phi - (trackAt ev j).Phi)), 1)
      else 0) ∧
    ((((loopEntries tm cfg ev 3 sd i j).filter (fun f => decide (a.FindBin f.1 = b))).map μ).sum =
      if (pairPasses cfg ev i j
          && decide (a.FindBin (pairX sd (trackAt ev i) (trackAt ev j)) = b)) = true
          ∧ (trackAt ev j).InRPSelection = true then
        μ (pairX sd (trackAt ev i) (trackAt ev j),
          tm.Cos ((cfg.fHarmonic : K) * ((trackAt ev i).Phi - (trackAt ev j).Phi)), 1)
      else 0) := by
  by_cases hp : pairPasses cfg ev i j = true
  · by_cases hb : a.FindBin (pairX sd (trackAt ev i) (trackAt ev j)) = b
    · refine ⟨?_, ?_, ?_, ?_⟩
      · simp [loopEntries, pairEntry, hp, hb, List.filter_cons]
      · simp [loopEntries, pairEntry, hp, hb, List.filter_cons]
      · by_cases hr : (trackAt ev i).InRPSelection = true <;>
          simp [loopEntries, pairEntry, hp, hb, hr, List.filter_cons]
      · by_cases hr : (trackAt ev j).InRPSelection = true <;>
          simp [loopEntries, pairEntry, hp, hb, hr, List.filter_cons]
    · refine ⟨?_, ?_, ?_, ?_⟩
      · simp [loopEntries, pairEntry, hp, hb, List.filter_cons]
      · simp [loopEntries, pairEntry, hp, hb, List.filter_cons]
      · by_cases hr : (trackAt ev i).InRPSelection = true <;>
          simp [loopEntries, pairEntry, hp, hb, hr, List.filter_cons]
      · by_cases hr : (trackAt ev j).InRPSelection = true <;>
          simp [loopEntries, pairEntry, hp, hb, hr, List.filter_cons]
  · refine ⟨?_, ?_, ?_, ?_⟩ <;> simp [loopEntries, hp]

lemma pairLog_unit_weight (tm : TMath K) (cfg : Settings K) (ev : AliFlowEventSimple K)
    (w sd : Nat) (idx js : List Nat) :
    ∀ f ∈ pairLog tm cfg ev w sd idx js, f.2.2 = 1 := by
  intro f hf
  simp only [pairLog, List.mem_flatMap] at hf
  obtain ⟨i, -, j, -, hf⟩ := hf
  unfold loopEntries at hf
  split_ifs at hf
  · unfold pairEntry at hf
    split at hf
    · simp only [List.mem_singleton] at hf; rw [hf]
    · simp only [List.mem_singleton] at hf; rw [hf]
    · split_ifs at hf
      · simp only [List.mem_singleton] at hf; rw [hf]
      · simp at hf
    · split_ifs at hf
      · simp only [List.mem_singleton] at hf; rw [hf]
      · simp at hf
  · simp at hf

/-- For a profile filled with unit weights only, `GetBinContent(b)*GetBinEntries(b)` is the sum
of the values filled into bin `b`. -/
lemma TProfile.content_mul_entries (p : TProfile K) (h : ∀ f ∈ p.fills, f.2.2 = 1) (b : Int) :
    p.GetBinContent b * p.GetBinEntries b = p.binSumwy b := by
  unfold TProfile.GetBinContent
  by_cases h0 : p.GetBinEntries b = 0
  · rw [if_pos h0, zero_mul]
    have hl : ∀ f ∈ p.binFills b, f.2.2 = 1 := fun f hf =>
      h f (List.mem_of_mem_filter hf)
    have hlen : p.GetBinEntries b = ((p.binFills b).length : K) := by
      unfold TProfile.GetBinEntries
      generalize p.binFills b = l at hl
      induction l with
      | nil => simp
      | cons f l ih =>
        rw [List.map_cons, List.sum_cons, ih (fun g hg => hl g (List.mem_cons_of_mem f hg)),
          hl f (List.mem_cons_self f l)]
        simp [add_comm]
    rw [hlen] at h0
    have : (p.binFills b).length = 0 := by exact_mod_cast h0
    have hnil : p.binFills b = [] := List.length_eq_zero.mp this
    simp [TProfile.binSumwy, hnil]
  · rw [if_neg h0, div_mul_cancel₀ _ h0]

end BinSums

/-! ## The differential correlator against the nested loop -/

section Differential
variable {K : Type} [LinearOrderedField K] [FloorRing K]

/-- A sum over the reference particles as a sum over the track indices. -/
lemma sum_rpTracks (ev : AliFlowEventSimple K) (g : AliFlowTrackSimple K → K) :
    ((rpTracks ev).map g).sum =
      ∑ k ∈ Finset.range ev.tracks.length,
        if (trackAt ev k).InRPSelection = true then g (trackAt ev k) else 0 := by
  rw [rpTracks, sum_map_filterMap_filter]
  have h1 : ∀ F : Option (AliFlowTrackSimple K) → K,
      (ev.tracks.map F).sum = ∑ k ∈ Finset.range ev.tracks.length, F (GetTrack ev k) := by
    intro F
    rw [← list_range_map_sum]
    have e : (List.range ev.tracks.length).map (fun k => F (GetTrack ev k))
        = ((List.range ev.tracks.length).map (GetTrack ev)).map F := by
      rw [List.map_map]; rfl
    rw [e, map_GetTrack_range]
  rw [h1]
  refine Finset.sum_congr rfl (fun k _ => ?_)
  cases hT : GetTrack ev k with
  | none => simp [trackAt, hT]
  | some t => simp [trackAt, hT]

lemma pairProfile_of_fresh (cfg : Settings K) (s : State K)
    (hfresh : ∀ sd, sd < 2 →
      s.fRePEBE sd = TProfile.book cfg.fnBinsPt 0 cfg.fPtMax ∧
      s.fImPEBE sd = TProfile.book cfg.fnBinsPt 0 cfg.fPtMax ∧
      s.fOverlapEBE 0 sd = TProfile.book cfg.fnBinsPt 0 cfg.fPtMax ∧
      s.fOverlapEBE 1 sd = TProfile.book cfg.fnBinsPt 0 cfg.fPtMax)
    (w sd : Nat) (hsd : sd < 2) :
    pairProfile s w sd = TProfile.book cfg.fnBinsPt 0 cfg.fPtMax := by
  obtain ⟨h0, h1, h2, h3⟩ := hfresh sd hsd
  match w with
  | 0 => exact h0
  | 1 => exact h1
  | 2 => exact h2
  | (n + 3) => exact h3

/-- The per-event pair profiles in the state in which the reducers run (differential mode). -/
lemma accumulate_pairProfile (tm : TMath K) (cfg : Settings K) (ev : AliFlowEventSimple K)
    (s s2 : State K) (hdiff : cfg.fEvaluateDifferential3pCorrelator = true)
    (hfresh : ∀ sd, sd < 2 →
      s.fRePEBE sd = TProfile.book cfg.fnBinsPt 0 cfg.fPtMax ∧
      s.fImPEBE sd = TProfile.book cfg.fnBinsPt 0 cfg.fPtMax ∧
      s.fOverlapEBE 0 sd = TProfile.book cfg.fnBinsPt 0 cfg.fPtMax ∧
      s.fOverlapEBE 1 sd = TProfile.book cfg.fnBinsPt 0 cfg.fPtMax)
    (h : accumulate tm cfg ev s = some s2) (w sd : Nat) (hsd : sd < 2) :
    pairProfile s2 w sd =
      ⟨pairAxis cfg, pairLog tm cfg ev w sd (List.range ev.tracks.length)
        (List.range ev.tracks.length)⟩ := by
  obtain ⟨s1, h1, rfl⟩ := (accumulate_eq_some tm cfg ev s s2).mp h
  rw [pairProfile_finalizeSpk, foldlM_trackStep_pairProfile tm cfg ev hdiff _ s s1 h1 w sd hsd,
    pairProfile_of_fresh cfg s hfresh w sd hsd]
  simp [TProfile.book, pairAxis]

lemma accumulate_pairProfile_off (tm : TMath K) (cfg : Settings K) (ev : AliFlowEventSimple K)
    (s s2 : State K) (hdiff : cfg.fEvaluateDifferential3pCorrelator = false)
    (hfresh : ∀ sd, sd < 2 →
      s.fRePEBE sd = TProfile.book cfg.fnBinsPt 0 cfg.fPtMax ∧
      s.fImPEBE sd = TProfile.book cfg.fnBinsPt 0 cfg.fPtMax ∧
      s.fOverlapEBE 0 sd = TProfile.book cfg.fnBinsPt 0 cfg.fPtMax ∧
      s.fOverlapEBE 1 sd = TProfile.book cfg.fnBinsPt 0 cfg.fPtMax)
    (h : accumulate tm cfg ev s = some s2) (w sd : Nat) (hsd : sd < 2) :
    pairProfile s2 w sd = TProfile.book cfg.fnBinsPt 0 cfg.fPtMax := by
  obtain ⟨s1, h1, rfl⟩ := (accumulate_eq_some tm cfg ev s s2).mp h
  rw [pairProfile_finalizeSpk, foldlM_trackStep_pairProfile_off tm cfg ev hdiff _ s s1 h1 w sd,
    pairProfile_of_fresh cfg s hfresh w sd hsd]

/-- Entries and summed values of a bin of a pair profile that holds the pair log. -/
lemma pairLog_profile_stats (tm : TMath K) (cfg : Settings K) (ev : AliFlowEventSimple K)
    (w sd : Nat) (p : TProfile K)
    (hp : p = ⟨pairAxis cfg, pairLog tm cfg ev w sd (List.range ev.tracks.length)
        (List.range ev.tracks.length)⟩) (b : Int) :
    p.GetBinEntries b =
      ∑ i ∈ Finset.range ev.tracks.length, ∑ j ∈ Finset.range ev.tracks.length,
        (((loopEntries tm cfg ev w sd i j).filter
          (fun f => decide ((pairAxis cfg).FindBin f.1 = b))).map (fun f => f.2.2)).sum ∧
    p.GetBinContent b * p.GetBinEntries b =
      ∑ i ∈ Finset.range ev.tracks.length, ∑ j ∈ Finset.range ev.tracks.length,
        (((loopEntries tm cfg ev w sd i j).filter
          (fun f => decide ((pairAxis cfg).FindBin f.1 = b))).map (fun f => f.2.2 * f.2.1)).sum := by
  have hu : ∀ f ∈ p.fills, f.2.2 = 1 := by
    rw [hp]; exact pairLog_unit_weight tm cfg ev w sd _ _
  refine ⟨?_, ?_⟩
  · rw [hp]
    exact pairLog_binSum tm cfg ev w sd _ _ _ _
  · rw [TProfile.content_mul_entries p hu b, hp]
    exact pairLog_binSum tm cfg ev w sd _ _ _ _

end Differential


section DifferentialMain

/-- The quantities read by `CalculateDifferential3pCorrelator` as sums over track indices. -/
lemma diff_inputs (cfg : Settings ℝ) (ev : AliFlowEventSimple ℝ) (s s2 : State ℝ)
    (hdiff : cfg.fEvaluateDifferential3pCorrelator = true)
    (hRe : ∀ m k, s.fReQnk m k = 0) (hIm : ∀ m k, s.fImQnk m k = 0)
    (hS : ∀ p k, s.fSpk p k = 0)
    (hfresh : ∀ sd, sd < 2 →
      s.fRePEBE sd = TProfile.book cfg.fnBinsPt 0 cfg.fPtMax ∧
      s.fImPEBE sd = TProfile.book cfg.fnBinsPt 0 cfg.fPtMax ∧
      s.fOverlapEBE 0 sd = TProfile.book cfg.fnBinsPt 0 cfg.fPtMax ∧
      s.fOverlapEBE 1 sd = TProfile.book cfg.fnBinsPt 0 cfg.fPtMax)
    (h : accumulate realTMath cfg ev s = some s2) (sd : Nat) (hsd : sd < 2) (b : Int) :
    diffWeight s2 sd b = naiveDiffCount cfg ev sd b ∧
    ((s2.fRePEBE sd).GetBinContent b * (s2.fRePEBE sd).GetBinEntries b * s2.fReQnk 1 0
      + (s2.fImPEBE sd).GetBinContent b * (s2.fImPEBE sd).GetBinEntries b * s2.fImQnk 1 0
      - (s2.fOverlapEBE 0 sd).GetBinContent b * (s2.fOverlapEBE 0 sd).GetBinEntries b
      - (s2.fOverlapEBE 1 sd).GetBinContent b * (s2.fOverlapEBE 1 sd).GetBinEntries b
      = naiveDiffSum realTMath cfg ev sd b) := by
  -- the pair profiles
  have P0 := pairLog_profile_stats realTMath cfg ev 0 sd (s2.fRePEBE sd)
    (accumulate_pairProfile realTMath cfg ev s s2 hdiff hfresh h 0 sd hsd) b
  have P1 := pairLog_profile_stats realTMath cfg ev 1 sd (s2.fImPEBE sd)
    (accumulate_pairProfile realTMath cfg ev s s2 hdiff hfresh h 1 sd hsd) b
  have P2 := pairLog_profile_stats realTMath cfg ev 2 sd (s2.fOverlapEBE 0 sd)
    (accumulate_pairProfile realTMath cfg ev s s2 hdiff hfresh h 2 sd hsd) b
  have P3 := pairLog_profile_stats realTMath cfg ev 3 sd (s2.fOverlapEBE 1 sd)
    (accumulate_pairProfile realTMath cfg ev s s2 hdiff hfresh h 3 sd hsd) b
  have E := fun (μ : ℝ × ℝ × ℝ → ℝ) (i j : ℕ) =>
    loopEntries_binSum realTMath cfg ev sd (pairAxis cfg) b μ i j
  simp only [(E _ _ _).1, (E _ _ _).2.1, (E _ _ _).2.2.1, (E _ _ _).2.2.2, one_mul] at P0 P1 P2 P3
  -- the flow vector and the multiplicity
  obtain ⟨s1, h1, rfl⟩ := (accumulate_eq_some realTMath cfg ev s s2).mp h
  obtain ⟨a1, a2, a3⟩ := trackLoop_matrices realTMath cfg ev s s1 h1
  have q3 : (finalizeSpk s1).fReQnk 1 0 = ∑ k ∈ Finset.range ev.tracks.length,
      if (trackAt ev k).InRPSelection = true then
        Real.cos (2 * ((cfg.fHarmonic : ℝ) * (trackAt ev k).Phi)) else 0 := by
    show s1.fReQnk 1 0 = _
    rw [a1 1 0 (by norm_num) (by norm_num), hRe, zero_add, sum_rpTracks]
    refine Finset.sum_congr rfl (fun k _ => ?_)
    by_cases hk : (trackAt ev k).InRPSelection = true
    · simp only [hk, if_true, reQTerm, realTMath, pow_zero, one_mul]
      congr 1; push_cast; ring
    · simp [hk]
  have q4 : (finalizeSpk s1).fImQnk 1 0 = ∑ k ∈ Finset.range ev.tracks.length,
      if (trackAt ev k).InRPSelection = true then
        Real.sin (2 * ((cfg.fHarmonic : ℝ) * (trackAt ev k).Phi)) else 0 := by
    show s1.fImQnk 1 0 = _
    rw [a2 1 0 (by norm_num) (by norm_num), hIm, zero_add, sum_rpTracks]
    refine Finset.sum_congr rfl (fun k _ => ?_)
    by_cases hk : (trackAt ev k).InRPSelection = true
    · simp only [hk, if_true, imQTerm, realTMath, pow_zero, one_mul]
      congr 1; push_cast; ring
    · simp [hk]
  have q5 : (finalizeSpk s1).fSpk 0 0 = ∑ k ∈ Finset.range ev.tracks.length,
      if (trackAt ev k).InRPSelection = true then (1 : ℝ) else 0 := by
    have e := a3 0 0 (by norm_num) (by norm_num)
    rw [hS, zero_add, sum_rpTracks] at e
    simp only [finalizeSpk]
    rw [if_pos (by norm_num), e]
    simp
  have hne : ∀ i j, (pairPasses cfg ev i j
      && decide ((pairAxis cfg).FindBin (pairX sd (trackAt ev i) (trackAt ev j)) = b)) = true
      → j ≠ i := by
    intro i j hij
    rw [Bool.and_eq_true] at hij
    exact pairPasses_ne cfg ev i j hij.1
  constructor
  · unfold diffWeight naiveDiffCount
    simp only [tripleCounts_eq]
    rw [← diff_count ev.tracks.length
      (fun i j => pairPasses cfg ev i j
        && decide ((pairAxis cfg).FindBin (pairX sd (trackAt ev i) (trackAt ev j)) = b))
      (fun k => (trackAt ev k).InRPSelection) hne, P0.1, P2.1, P3.1, q5]
  · unfold naiveDiffSum
    simp only [tripleCounts_eq]
    have hG : ∀ i j k, realTMath.Cos ((cfg.fHarmonic : ℝ)
        * ((trackAt ev i).Phi + (trackAt ev j).Phi - 2 * (trackAt ev k).Phi)) =
        Real.cos ((cfg.fHarmonic : ℝ) * (trackAt ev i).Phi
          + (cfg.fHarmonic : ℝ) * (trackAt ev j).Phi
          - 2 * ((cfg.fHarmonic : ℝ) * (trackAt ev k).Phi)) := by
      intro i j k
      show Real.cos _ = Real.cos _
      congr 1; ring
    simp only [hG]
    rw [← diff_numerator ev.tracks.length
      (fun i j => pairPasses cfg ev i j
        && decide ((pairAxis cfg).FindBin (pairX sd (trackAt ev i) (trackAt ev j)) = b))
      (fun k => (trackAt ev k).InRPSelection) hne
      (fun k => (cfg.fHarmonic : ℝ) * (trackAt ev k).Phi), P0.2, P1.2, P2.2, P3.2, q3, q4]
    simp only [realTMath, mul_add, mul_sub]

end DifferentialMain


section DifferentialTheorem

lemma foldl_diffBinStep_fills {K : Type} [LinearOrderedField K] [FloorRing K]
    (cfg : Settings K) (s : State K) (sd : Nat) (l : List Int) (p : TProfile K) :
    (l.foldl (diffBinStep cfg s sd) p).fills =
      p.fills ++ l.map (fun b =>
        (cfg.fPtMin + ((b - 1 : Int) : K) * cfg.fPtBinWidth, diffValue s sd b,
          diffWeight s sd b)) := by
  induction l generalizing p with
  | nil => simp
  | cons b l ih =>
    rw [List.foldl_cons, ih]
    simp [diffBinStep, TProfile.Fill, List.append_assoc]

/-- C9: over the reals, for an event accumulated by `Make` from zeroed tables and freshly booked,
empty per-event pair profiles, with no particle weights enabled, for either pair variable `sd`
and every bin `b`: when the effective weight `mp*M - mOverlap1 - mOverlap2` is positive, the
value `(p1nRe*Re(Q2n) + p1nIm*Im(Q2n) - overlap1 - overlap2)/weight` computed by
`CalculateDifferential3pCorrelator` (its local `cosP2nphi1M1npsi2M1npsi2`, `diffValue`) equals
the average of `cos[n(psi_i + psi_j - 2 phi_k)]` over all triples made of an ordered pair
`(i, j)` of distinct POI tracks passing the charge cut whose pair variable falls in bin `b` and
an RP track `k` different from `i` and `j`; in differential mode the weight is the number of
these triples; and the function appends to `f3pCorrelatorVsPtSumDiffPro[sd]` one fill per bin
`c = 1 .. fnBinsPt` with that value and that weight.  The accumulated state exists when the
differential mode is off or the event has no null track. -/
theorem CalculateDifferential3pCorrelator_eq_nested_loop (cfg : Settings ℝ)
    (ev : AliFlowEventSimple ℝ) (s : State ℝ)
    (hPhi : cfg.fUsePhiWeights = false) (hPt : cfg.fUsePtWeights = false)
    (hEta : cfg.fUseEtaWeights = false)
    (hRe : ∀ m k, s.fReQnk m k = 0) (hIm : ∀ m k, s.fImQnk m k = 0)
    (hS : ∀ p k, s.fSpk p k = 0)
    (hfresh : ∀ sd, sd < 2 →
      s.fRePEBE sd = TProfile.book cfg.fnBinsPt 0 cfg.fPtMax ∧
      s.fImPEBE sd = TProfile.book cfg.fnBinsPt 0 cfg.fPtMax ∧
      s.fOverlapEBE 0 sd = TProfile.book cfg.fnBinsPt 0 cfg.fPtMax ∧
      s.fOverlapEBE 1 sd = TProfile.book cfg.fnBinsPt 0 cfg.fPtMax)
    (sd : Nat) (hsd : sd < 2) (b : Int) :
    ((cfg.fEvaluateDifferential3pCorrelator = false ∨ ∀ o ∈ ev.tracks, o ≠ none) →
      ∃ s2, accumulate realTMath cfg ev s = some s2) ∧
    (∀ s2, accumulate realTMath cfg ev s = some s2 →
      (0 < (s2.fRePEBE sd).GetBinEntries b * s2.fSpk 0 0
          - (s2.fOverlapEBE 0 sd).GetBinEntries b - (s2.fOverlapEBE 1 sd).GetBinEntries b →
        ((s2.fRePEBE sd).GetBinContent b * (s2.fRePEBE sd).GetBinEntries b * s2.fReQnk 1 0
          + (s2.fImPEBE sd).GetBinContent b * (s2.fImPEBE sd).GetBinEntries b * s2.fImQnk 1 0
          - (s2.fOverlapEBE 0 sd).GetBinContent b * (s2.fOverlapEBE 0 sd).GetBinEntries b
          - (s2.fOverlapEBE 1 sd).GetBinContent b * (s2.fOverlapEBE 1 sd).GetBinEntries b)
          / ((s2.fRePEBE sd).GetBinEntries b * s2.fSpk 0 0
            - (s2.fOverlapEBE 0 sd).GetBinEntries b - (s2.fOverlapEBE 1 sd).GetBinEntries b)
          = naiveDiffCorrelator realTMath cfg ev sd b ∧
        diffValue s2 sd b = naiveDiffCorrelator realTMath cfg ev sd b) ∧
      (cfg.fEvaluateDifferential3pCorrelator = true →
        (s2.fRePEBE sd).GetBinEntries b * s2.fSpk 0 0
          - (s2.fOverlapEBE 0 sd).GetBinEntries b - (s2.fOverlapEBE 1 sd).GetBinEntries b
          = naiveDiffCount cfg ev sd b) ∧
      ((CalculateDifferential3pCorrelator cfg s2).f3pCorrelatorVsPtSumDiffPro sd).fills =
        (s2.f3pCorrelatorVsPtSumDiffPro sd).fills ++
          (binLoop cfg.fnBinsPt).map (fun c =>
            (cfg.fPtMin + ((c - 1 : Int) : ℝ) * cfg.fPtBinWidth, diffValue s2 sd c,
              (s2.fRePEBE sd).GetBinEntries c * s2.fSpk 0 0
                - (s2.fOverlapEBE 0 sd).GetBinEntries c
                - (s2.fOverlapEBE 1 sd).GetBinEntries c))) := by
  constructor
  · intro h
    obtain ⟨s1, h1⟩ := trackLoop_some realTMath cfg ev s h
    exact ⟨finalizeSpk s1, (accumulate_eq_some realTMath cfg ev s _).mpr ⟨s1, h1, rfl⟩⟩
  · intro s2 h2
    have hW : ∀ c, diffWeight s2 sd c = (s2.fRePEBE sd).GetBinEntries c * s2.fSpk 0 0
        - (s2.fOverlapEBE 0 sd).GetBinEntries c - (s2.fOverlapEBE 1 sd).GetBinEntries c :=
      fun _ => rfl
    refine ⟨?_, ?_, ?_⟩
    · intro hpos
      cases hdiff : cfg.fEvaluateDifferential3pCorrelator with
      | false =>
        exfalso
        have e0 := accumulate_pairProfile_off realTMath cfg ev s s2 hdiff hfresh h2 0 sd hsd
        have e2 := accumulate_pairProfile_off realTMath cfg ev s s2 hdiff hfresh h2 2 sd hsd
        have e3 := accumulate_pairProfile_off realTMath cfg ev s s2 hdiff hfresh h2 3 sd hsd
        have z0 : (s2.fRePEBE sd).GetBinEntries b = 0 := by
          show (pairProfile s2 0 sd).GetBinEntries b = 0
          rw [e0]; simp [TProfile.GetBinEntries, TProfile.binFills, TProfile.book]
        have z2 : (s2.fOverlapEBE 0 sd).GetBinEntries b = 0 := by
          show (pairProfile s2 2 sd).GetBinEntries b = 0
          rw [e2]; simp [TProfile.GetBinEntries, TProfile.binFills, TProfile.book]
        have z3 : (s2.fOverlapEBE 1 sd).GetBinEntries b = 0 := by
          show (pairProfile s2 3 sd).GetBinEntries b = 0
          rw [e3]; simp [TProfile.GetBinEntries, TProfile.binFills, TProfile.book]
        rw [z0, z2, z3] at hpos
        simp at hpos
      | true =>
        obtain ⟨d1, d2⟩ := diff_inputs cfg ev s s2 hdiff hRe hIm hS hfresh h2 sd hsd b
        have hval : ((s2.fRePEBE sd).GetBinContent b * (s2.fRePEBE sd).GetBinEntries b
              * s2.fReQnk 1 0
            + (s2.fImPEBE sd).GetBinContent b * (s2.fImPEBE sd).GetBinEntries b * s2.fImQnk 1 0
            - (s2.fOverlapEBE 0 sd).GetBinContent b * (s2.fOverlapEBE 0 sd).GetBinEntries b
            - (s2.fOverlapEBE 1 sd).GetBinContent b * (s2.fOverlapEBE 1 sd).GetBinEntries b)
            / ((s2.fRePEBE sd).GetBinEntries b * s2.fSpk 0 0
              - (s2.fOverlapEBE 0 sd).GetBinEntries b - (s2.fOverlapEBE 1 sd).GetBinEntries b)
            = naiveDiffCorrelator realTMath cfg ev sd b := by
          rw [d2, ← hW, d1]; rfl
        refine ⟨hval, ?_⟩
        rw [← hval]
        simp only [diffValue, hW]
        rw [if_pos hpos]
    · intro hdiff
      rw [← hW]
      exact (diff_inputs cfg ev s s2 hdiff hRe hIm hS hfresh h2 sd hsd b).1
    · simp only [CalculateDifferential3pCorrelator, Settings.usesParticleWeights, hPhi, hPt, hEta,
        Bool.or_self, Bool.not_false, if_true, hsd]
      rw [foldl_diffBinStep_fills]
      rfl

end DifferentialTheorem


lemma trackAt_exampleEvent :
    trackAt (exampleEvent ℝ) 0 = ⟨0, 1 / 2, 0, 1, true, false⟩ ∧
    trackAt (exampleEvent ℝ) 1 = ⟨0, 3 / 2, 0, -1, true, true⟩ ∧
    trackAt (exampleEvent ℝ) 2 = ⟨0, 1, 0, 1, true, false⟩ ∧
    trackAt (exampleEvent ℝ) 3 = ⟨0, 5 / 2, 0, 1, false, true⟩ ∧
    trackAt (exampleEvent ℝ) 4 = ⟨0, 2, 0, -1, true, false⟩ := ⟨rfl, rfl, rfl, rfl, rfl⟩

lemma exampleBin : (pairAxis (exampleSettings ℝ)).FindBin 2 = 21 := by
  have f : ⌊(20 : ℝ)⌋ = 20 := by
    rw [Int.floor_eq_iff]; constructor <;> norm_num
  unfold TAxis.FindBin pairAxis exampleSettings toInt
  norm_num [f]

lemma naiveDiffCount_exampleEvent :
    naiveDiffCount (exampleSettings ℝ) (exampleEvent ℝ) 0 21 = 6 := by
  obtain ⟨t0, t1, t2, t3, t4⟩ := trackAt_exampleEvent
  have hb := exampleBin
  have ho : (exampleSettings ℝ).fOppositeChargesPOI = false := rfl
  have hlen : (exampleEvent ℝ).tracks.length = 5 := rfl
  unfold naiveDiffCount
  rw [hlen]
  simp only [Finset.sum_range_succ, Finset.sum_range_zero, tripleCounts, pairPasses, t0, t1, t2,
    t3, t4, pairX, ho]
  norm_num [hb]

/-- Witness for C9: in the example event the POI pairs `(1, 3)` and `(3, 1)` fall in bin 21 of
`(pT1+pT2)/2`; the weight of that bin is 6 and the computed value is the nested-loop average. -/
theorem CalculateDifferential3pCorrelator_eq_nested_loop_witness :
    ∃ s2, accumulate realTMath (exampleSettings ℝ) (exampleEvent ℝ)
        (State.init (exampleSettings ℝ)) = some s2 ∧
      (s2.fRePEBE 0).GetBinEntries 21 * s2.fSpk 0 0
          - (s2.fOverlapEBE 0 0).GetBinEntries 21 - (s2.fOverlapEBE 1 0).GetBinEntries 21 = 6 ∧
      diffValue s2 0 21 = naiveDiffCorrelator realTMath (exampleSettings ℝ) (exampleEvent ℝ) 0 21 := by
  have T := CalculateDifferential3pCorrelator_eq_nested_loop (exampleSettings ℝ) (exampleEvent ℝ)
    (State.init (exampleSettings ℝ)) rfl rfl rfl (fun _ _ => rfl) (fun _ _ => rfl)
    (fun _ _ => rfl) (fun _ _ => ⟨rfl, rfl, rfl, rfl⟩) 0 (by decide) 21
  obtain ⟨s2, h2⟩ := T.1 (Or.inr (by simp [exampleEvent]))
  obtain ⟨c1, c2, -⟩ := T.2 s2 h2
  have hw := c2 rfl
  rw [naiveDiffCount_exampleEvent] at hw
  exact ⟨s2, h2, hw, (c1 (by rw [hw]; norm_num)).2⟩

/-! ## The bias ratio and the correction with vanishing terms -/

section Bias

variable {K : Type} [LinearOrderedField K] [FloorRing K]

lemma correctVsMStep_bias_self (s : State K) (b : Int) :
    (correctVsMStep s b).fDetectorBiasVsMHist.GetBinContent b =
      if s.f3pCorrelatorVsMPro.GetBinContent b ≠ 0 then
        corrected3pCorrelatorVsM (s.f3pCorrelatorVsMPro.GetBinContent b)
          (fun nit => if nit < 10 then
            s.fNonIsotropicTermsVsMPro.GetBinContent ((nit : Int) + 1) b else 0)
          / s.f3pCorrelatorVsMPro.GetBinContent b
      else s.fDetectorBiasVsMHist.GetBinContent b := by
  unfold correctVsMStep
  by_cases h : s.f3pCorrelatorVsMPro.GetBinContent b = 0 <;>
    simp [h, TH1D.SetBinContent, TH1D.GetBinContent]

lemma correctVsMStep_bias_other (s : State K) (a b : Int) (hab : b ≠ a) :
    (correctVsMStep s a).fDetectorBiasVsMHist.GetBinContent b
      = s.fDetectorBiasVsMHist.GetBinContent b := by
  unfold correctVsMStep
  by_cases h : s.f3pCorrelatorVsMPro.GetBinContent a = 0 <;>
    simp [h, TH1D.SetBinContent, TH1D.GetBinContent, hab]

lemma foldl_correctVsMStep_bias_not_mem (l : List Int) (s : State K) (b : Int) (hb : b ∉ l) :
    (l.foldl correctVsMStep s).fDetectorBiasVsMHist.GetBinContent b
      = s.fDetectorBiasVsMHist.GetBinContent b := by
  induction l generalizing s with
  | nil => simp
  | cons a l ih =>
    rw [List.foldl_cons]
    rw [List.mem_cons, not_or] at hb
    rw [ih (correctVsMStep s a) hb.2, correctVsMStep_bias_other s a b hb.1]

lemma nodup_binLoop (n : Int) : (binLoop n).Nodup := by
  unfold binLoop
  refine List.Nodup.map ?_ (List.nodup_range _)
  intro i j h
  simpa using h

lemma foldl_correctVsMStep_bias_mem (l : List Int) (hl : l.Nodup) (s : State K) (b : Int)
    (hb : b ∈ l) :
    (l.foldl correctVsMStep s).fDetectorBiasVsMHist.GetBinContent b =
      if s.f3pCorrelatorVsMPro.GetBinContent b ≠ 0 then
        corrected3pCorrelatorVsM (s.f3pCorrelatorVsMPro.GetBinContent b)
          (fun nit => if nit < 10 then
            s.fNonIsotropicTermsVsMPro.GetBinContent ((nit : Int) + 1) b else 0)
          / s.f3pCorrelatorVsMPro.GetBinContent b
      else s.fDetectorBiasVsMHist.GetBinContent b := by
  induction l generalizing s with
  | nil => simp at hb
  | cons a l ih =>
    rw [List.foldl_cons]
    rw [List.nodup_cons] at hl
    rcases List.mem_cons.mp hb with h | h
    · subst h
      rw [foldl_correctVsMStep_bias_not_mem l _ b hl.1, correctVsMStep_bias_self]
    · have hne : b ≠ a := by
        rintro rfl
        exact hl.1 h
      rw [ih hl.2 (correctVsMStep s a) h, (correctVsMStep_pro s a).1, (correctVsMStep_pro s a).2,
        correctVsMStep_bias_other s a b hne]

/-- C11: the bias ratio.  `CorrectForDetectorEffects` stores in bin 1 of `fDetectorBiasHist` the
quotient of the corrected correlator by the measured one when the measured one (bin 1 of
`f3pCorrelatorPro`) is non-zero, and leaves the histogram as it was when it is zero; for every
multiplicity bin `b` with `1 ≤ b ≤ nBins+2`, `CorrectForDetectorEffectsVsM` stores the quotient
of bin `b` in bin `b` of `fDetectorBiasVsMHist` when the measured value of bin `b` is non-zero
and leaves bin `b` at its prior value when it is zero; after `Init` every bin of both
histograms is 0. -/
theorem CorrectForDetectorEffects_bias (cfg : Settings K) (s : State K) :
    (s.f3pCorrelatorPro.GetBinContent 1 ≠ 0 →
      (CorrectForDetectorEffects s).fDetectorBiasHist.GetBinContent 1 =
        corrected3pCorrelator (s.f3pCorrelatorPro.GetBinContent 1)
            (fun k => s.fNonIsotropicTermsPro.GetBinContent ((k : Int) + 1))
          / s.f3pCorrelatorPro.GetBinContent 1) ∧
    (s.f3pCorrelatorPro.GetBinContent 1 = 0 →
      (CorrectForDetectorEffects s).fDetectorBiasHist = s.fDetectorBiasHist) ∧
    (∀ b : Int, 1 ≤ b → b ≤ cfg.fNoOfMultipicityBins + 2 →
      (s.f3pCorrelatorVsMPro.GetBinContent b ≠ 0 →
        (CorrectForDetectorEffectsVsM cfg s).fDetectorBiasVsMHist.GetBinContent b =
          corrected3pCorrelator (s.f3pCorrelatorVsMPro.GetBinContent b)
              (fun k => s.fNonIsotropicTermsVsMPro.GetBinContent ((k : Int) + 1) b)
            / s.f3pCorrelatorVsMPro.GetBinContent b) ∧
      (s.f3pCorrelatorVsMPro.GetBinContent b = 0 →
        (CorrectForDetectorEffectsVsM cfg s).fDetectorBiasVsMHist.GetBinContent b =
          s.fDetectorBiasVsMHist.GetBinContent b)) ∧
    (∀ b : Int, (State.init cfg).fDetectorBiasHist.GetBinContent b = 0 ∧
      (State.init cfg).fDetectorBiasVsMHist.GetBinContent b = 0) := by
  refine ⟨?_, ?_, ?_, fun b => ⟨rfl, rfl⟩⟩
  · intro h
    unfold CorrectForDetectorEffects
    simp [h, TH1D.SetBinContent, TH1D.GetBinContent, corrected3pCorrelator]
  · intro h
    unfold CorrectForDetectorEffects
    simp [h]
  · intro b hb1 hb2
    have hmem : b ∈ binLoop (cfg.fNoOfMultipicityBins + 2) := (mem_binLoop _ _).mpr ⟨hb1, hb2⟩
    have key := foldl_correctVsMStep_bias_mem _ (nodup_binLoop _) s b hmem
    constructor
    · intro h
      unfold CorrectForDetectorEffectsVsM
      rw [key, if_pos h]
      simp [corrected3pCorrelatorVsM, corrected3pCorrelator]
    · intro h
      unfold CorrectForDetectorEffectsVsM
      rw [key, if_neg (not_not.mpr h)]

/-- C12: when the eight non-isotropic terms are zero the correction changes nothing.  If bins 1
to 8 of `fNonIsotropicTermsPro` are 0, `CorrectForDetectorEffects` stores the measured value
itself in bin 1 of `f3pCorrelatorHist`, and 1 in bin 1 of `fDetectorBiasHist` when the measured
value is non-zero; for a multiplicity bin `b` with `1 ≤ b ≤ nBins+2` whose cells `(1..8, b)` of
`fNonIsotropicTermsVsMPro` are 0, `CorrectForDetectorEffectsVsM` does the same in bin `b` of
`f3pCorrelatorVsMHist` and `fDetectorBiasVsMHist`. -/
theorem CorrectForDetectorEffects_zero_terms (cfg : Settings K) (s : State K) :
    ((∀ k : Nat, k < 8 → s.fNonIsotropicTermsPro.GetBinContent ((k : Int) + 1) = 0) →
      (CorrectForDetectorEffects s).f3pCorrelatorHist.GetBinContent 1
          = s.f3pCorrelatorPro.GetBinContent 1 ∧
      (s.f3pCorrelatorPro.GetBinContent 1 ≠ 0 →
        (CorrectForDetectorEffects s).fDetectorBiasHist.GetBinContent 1 = 1)) ∧
    (∀ b : Int, 1 ≤ b → b ≤ cfg.fNoOfMultipicityBins + 2 →
      (∀ k : Nat, k < 8 → s.fNonIsotropicTermsVsMPro.GetBinContent ((k : Int) + 1) b = 0) →
      (CorrectForDetectorEffectsVsM cfg s).f3pCorrelatorVsMHist.GetBinContent b
          = s.f3pCorrelatorVsMPro.GetBinContent b ∧
      (s.f3pCorrelatorVsMPro.GetBinContent b ≠ 0 →
        (CorrectForDetectorEffectsVsM cfg s).fDetectorBiasVsMHist.GetBinContent b = 1)) := by
  constructor
  · intro hz
    have e0 := hz 0 (by norm_num)
    have e1 := hz 1 (by norm_num)
    have e2 := hz 2 (by norm_num)
    have e3 := hz 3 (by norm_num)
    have e4 := hz 4 (by norm_num)
    have e5 := hz 5 (by norm_num)
    have e6 := hz 6 (by norm_num)
    have e7 := hz 7 (by norm_num)
    norm_num at e0 e1 e2 e3 e4 e5 e6 e7
    constructor
    · unfold CorrectForDetectorEffects
      by_cases h : s.f3pCorrelatorPro.GetBinContent 1 = 0 <;>
        simp [h, TH1D.SetBinContent, TH1D.GetBinContent, corrected3pCorrelator, e0, e1, e2, e3,
          e4, e5, e6, e7]
    · intro h
      unfold CorrectForDetectorEffects
      simp [h, TH1D.SetBinContent, TH1D.GetBinContent, corrected3pCorrelator, e0, e1, e2, e3,
          e4, e5, e6, e7]
  · intro b hb1 hb2 hz
    have e0 := hz 0 (by norm_num)
    have e1 := hz 1 (by norm_num)
    have e2 := hz 2 (by norm_num)
    have e3 := hz 3 (by norm_num)
    have e4 := hz 4 (by norm_num)
    have e5 := hz 5 (by norm_num)
    have e6 := hz 6 (by norm_num)
    have e7 := hz 7 (by norm_num)
    norm_num at e0 e1 e2 e3 e4 e5 e6 e7
    have hmem : b ∈ binLoop (cfg.fNoOfMultipicityBins + 2) := (mem_binLoop _ _).mpr ⟨hb1, hb2⟩
    constructor
    · unfold CorrectForDetectorEffectsVsM
      rw [foldl_correctVsMStep_hist_mem _ s b hmem]
      simp [corrected3pCorrelatorVsM, e0, e1, e2, e3, e4, e5, e6, e7]
    · intro h
      unfold CorrectForDetectorEffectsVsM
      rw [foldl_correctVsMStep_bias_mem _ (nodup_binLoop _) s b hmem, if_pos h]
      simp [corrected3pCorrelatorVsM, e0, e1, e2, e3, e4, e5, e6, e7, h]

/-- C13: for `M = S[0][0] ≥ 3` and flow vectors that vanish (`Re` and `Im` of `Q[0][0]` and
`Q[1][0]` all 0), with no particle weights enabled, the value that `Calculate3pCorrelator`
computes and fills into the integrated profile (with the weight `M(M-1)(M-2)`) is
`2M/(M(M-1)(M-2))`, which equals `2/((M-1)(M-2))`. -/
theorem Calculate3pCorrelator_vanishing_flow (cfg : Settings K) (s : State K)
    (hPhi : cfg.fUsePhiWeights = false) (hPt : cfg.fUsePtWeights = false)
    (hEta : cfg.fUseEtaWeights = false)
    (hRe1 : s.fReQnk 0 0 = 0) (hIm1 : s.fImQnk 0 0 = 0)
    (hRe2 : s.fReQnk 1 0 = 0) (hIm2 : s.fImQnk 1 0 = 0) (hM : 3 ≤ s.fSpk 0 0) :
    three1n1n2n (s.fReQnk 0 0) (s.fImQnk 0 0) (s.fReQnk 1 0) (s.fImQnk 1 0) (s.fSpk 0 0)
      = 2 * s.fSpk 0 0 / (s.fSpk 0 0 * (s.fSpk 0 0 - 1) * (s.fSpk 0 0 - 2)) ∧
    2 * s.fSpk 0 0 / (s.fSpk 0 0 * (s.fSpk 0 0 - 1) * (s.fSpk 0 0 - 2))
      = 2 / ((s.fSpk 0 0 - 1) * (s.fSpk 0 0 - 2)) ∧
    (Calculate3pCorrelator cfg s).f3pCorrelatorPro.fills =
      s.f3pCorrelatorPro.fills ++
        [(1 / 2, 2 / ((s.fSpk 0 0 - 1) * (s.fSpk 0 0 - 2)),
          s.fSpk 0 0 * (s.fSpk 0 0 - 1) * (s.fSpk 0 0 - 2))] := by
  have h0 : s.fSpk 0 0 ≠ 0 := by linarith
  have h1 : s.fSpk 0 0 - 1 ≠ 0 := by linarith
  have h2 : s.fSpk 0 0 - 2 ≠ 0 := by linarith
  have e1 : three1n1n2n (s.fReQnk 0 0) (s.fImQnk 0 0) (s.fReQnk 1 0) (s.fImQnk 1 0) (s.fSpk 0 0)
      = 2 * s.fSpk 0 0 / (s.fSpk 0 0 * (s.fSpk 0 0 - 1) * (s.fSpk 0 0 - 2)) := by
    rw [hRe1, hIm1, hRe2, hIm2]
    simp [three1n1n2n]
  have e2 : 2 * s.fSpk 0 0 / (s.fSpk 0 0 * (s.fSpk 0 0 - 1) * (s.fSpk 0 0 - 2))
      = 2 / ((s.fSpk 0 0 - 1) * (s.fSpk 0 0 - 2)) := by
    field_simp
    ring
  refine ⟨e1, e2, ?_⟩
  rw [← e2, ← e1]
  simp [Calculate3pCorrelator, Settings.usesParticleWeights, hPhi, hPt, hEta, TProfile.Fill]

end Bias

section BiasExamples
variable {K : Type} [LinearOrderedField K] [FloorRing K]

lemma TProfile.GetBinContent_singleton (a : TAxis K) (x y w : K) (b : Int)
    (hb : a.FindBin x = b) (hw : w ≠ 0) :
    (⟨a, [(x, y, w)]⟩ : TProfile K).GetBinContent b = y := by
  simp [TProfile.GetBinContent, TProfile.GetBinEntries, TProfile.binSumwy, TProfile.binFills, hb,
    hw]

lemma CalculateNonIsotropicTerms_3p (cfg : Settings K) (s : State K) :
    (CalculateNonIsotropicTerms cfg s).f3pCorrelatorPro = s.f3pCorrelatorPro ∧
    (CalculateNonIsotropicTerms cfg s).f3pCorrelatorVsMPro = s.f3pCorrelatorVsMPro := by
  unfold CalculateNonIsotropicTerms
  by_cases hw : cfg.usesParticleWeights = true <;> by_cases h0 : s.fSpk 0 0 > 0 <;>
    by_cases h1 : s.fSpk 0 0 > 1 <;> simp [hw, h0, h1]

end BiasExamples

lemma exampleState_3p :
    (Calculate3pCorrelator (exampleSettings ℚ) (exampleState ℚ)).f3pCorrelatorPro.GetBinContent 1
      = 1 ∧
    (Calculate3pCorrelator (exampleSettings ℚ) (exampleState ℚ)).f3pCorrelatorVsMPro.GetBinContent
      3 = 1 := by
  have f : ⌊((4 : ℚ) - 1) / 2⌋ = 1 := by
    rw [Int.floor_eq_iff]; constructor <;> norm_num
  have p1 : (Calculate3pCorrelator (exampleSettings ℚ) (exampleState ℚ)).f3pCorrelatorPro
      = ⟨⟨1, 0, 1⟩, [(1 / 2, 1, 24)]⟩ := by
    simp [Calculate3pCorrelator, Settings.usesParticleWeights, exampleSettings, exampleState,
      State.init, TProfile.book, TProfile.Fill, three1n1n2n]
    norm_num
  have p2 : (Calculate3pCorrelator (exampleSettings ℚ) (exampleState ℚ)).f3pCorrelatorVsMPro
      = ⟨⟨12, 0, 12⟩, [(5 / 2, 1, 24)]⟩ := by
    simp [Calculate3pCorrelator, Settings.usesParticleWeights, exampleSettings, exampleState,
      State.init, TProfile.book, TProfile.Fill, three1n1n2n, vsMPosition, toInt, f]
    norm_num [f]
  rw [p1, p2]
  constructor
  · apply TProfile.GetBinContent_singleton _ _ _ _ _ _ (by norm_num)
    have h := TAxis.FindBin_half (⟨1, 0, 1⟩ : TAxis ℚ) rfl (by simp) 0 le_rfl (by simp)
    simpa using h
  · apply TProfile.GetBinContent_singleton _ _ _ _ _ _ (by norm_num)
    have h := TAxis.FindBin_half (⟨12, 0, 12⟩ : TAxis ℚ) rfl (by simp) 2 (by norm_num)
      (by norm_num)
    norm_num at h
    exact h

/-- Witness for C11: the example state after `Calculate3pCorrelator` and
`CalculateNonIsotropicTerms`; the measured values of the integrated bin and of multiplicity
bin 3 are 1. -/
theorem CorrectForDetectorEffects_bias_witness :
    (CalculateNonIsotropicTerms (exampleSettings ℚ)
      (Calculate3pCorrelator (exampleSettings ℚ) (exampleState ℚ))).f3pCorrelatorPro.GetBinContent 1
        ≠ 0 ∧
    (CorrectForDetectorEffects (CalculateNonIsotropicTerms (exampleSettings ℚ)
      (Calculate3pCorrelator (exampleSettings ℚ) (exampleState ℚ)))).fDetectorBiasHist.GetBinContent
        1 =
      corrected3pCorrelator 1
        (fun k => (CalculateNonIsotropicTerms (exampleSettings ℚ)
          (Calculate3pCorrelator (exampleSettings ℚ)
            (exampleState ℚ))).fNonIsotropicTermsPro.GetBinContent ((k : Int) + 1)) / 1 ∧
    (CorrectForDetectorEffectsVsM (exampleSettings ℚ) (CalculateNonIsotropicTerms
      (exampleSettings ℚ) (Calculate3pCorrelator (exampleSettings ℚ)
        (exampleState ℚ)))).fDetectorBiasVsMHist.GetBinContent 3 =
      corrected3pCorrelator 1
        (fun k => (CalculateNonIsotropicTerms (exampleSettings ℚ)
          (Calculate3pCorrelator (exampleSettings ℚ)
            (exampleState ℚ))).fNonIsotropicTermsVsMPro.GetBinContent ((k : Int) + 1) 3) / 1 := by
  have T := CorrectForDetectorEffects_bias (exampleSettings ℚ)
    (CalculateNonIsotropicTerms (exampleSettings ℚ)
      (Calculate3pCorrelator (exampleSettings ℚ) (exampleState ℚ)))
  have e1 : (CalculateNonIsotropicTerms (exampleSettings ℚ)
      (Calculate3pCorrelator (exampleSettings ℚ) (exampleState ℚ))).f3pCorrelatorPro.GetBinContent
        1 = 1 := by
    rw [(CalculateNonIsotropicTerms_3p _ _).1]; exact exampleState_3p.1
  have e2 : (CalculateNonIsotropicTerms (exampleSettings ℚ)
      (Calculate3pCorrelator (exampleSettings ℚ)
        (exampleState ℚ))).f3pCorrelatorVsMPro.GetBinContent 3 = 1 := by
    rw [(CalculateNonIsotropicTerms_3p _ _).2]; exact exampleState_3p.2
  rw [e1] at T
  have T3 := (T.2.2.1 3 (by decide) (by decide)).1
  rw [e2] at T3
  exact ⟨by rw [e1]; norm_num, T.1 (by norm_num), T3 (by norm_num)⟩

/-- Witness for C12: the example state after `Calculate3pCorrelator` alone, where the profiles of
the non-isotropic terms are empty: the corrected values are the measured value 1 and the bias
ratios are 1. -/
theorem CorrectForDetectorEffects_zero_terms_witness :
    (CorrectForDetectorEffects
      (Calculate3pCorrelator (exampleSettings ℚ) (exampleState ℚ))).f3pCorrelatorHist.GetBinContent
        1 = 1 ∧
    (CorrectForDetectorEffects
      (Calculate3pCorrelator (exampleSettings ℚ) (exampleState ℚ))).fDetectorBiasHist.GetBinContent
        1 = 1 ∧
    (CorrectForDetectorEffectsVsM (exampleSettings ℚ)
      (Calculate3pCorrelator (exampleSettings ℚ)
        (exampleState ℚ))).f3pCorrelatorVsMHist.GetBinContent 3 = 1 ∧
    (CorrectForDetectorEffectsVsM (exampleSettings ℚ)
      (Calculate3pCorrelator (exampleSettings ℚ)
        (exampleState ℚ))).fDetectorBiasVsMHist.GetBinContent 3 = 1 := by
  have T := CorrectForDetectorEffects_zero_terms (exampleSettings ℚ)
    (Calculate3pCorrelator (exampleSettings ℚ) (exampleState ℚ))
  obtain ⟨a1, a2⟩ := T.1 (fun k _ => rfl)
  obtain ⟨b1, b2⟩ := T.2 3 (by decide) (by decide) (fun k _ => rfl)
  rw [exampleState_3p.1] at a1 a2
  rw [exampleState_3p.2] at b1 b2
  exact ⟨a1, a2 (by norm_num), b1, b2 (by norm_num)⟩

/-- Witness for C13: `M = 4` with vanishing flow vectors gives the value `1/3` with weight 24. -/
theorem Calculate3pCorrelator_vanishing_flow_witness :
    (3 : ℚ) ≤ (exampleIsotropicState ℚ).fSpk 0 0 ∧
    (Calculate3pCorrelator (exampleSettings ℚ) (exampleIsotropicState ℚ)).f3pCorrelatorPro.fills
      = [(1 / 2, 1 / 3, 24)] := by
  have h3 : (3 : ℚ) ≤ (exampleIsotropicState ℚ).fSpk 0 0 := by
    norm_num [exampleIsotropicState]
  have T := (Calculate3pCorrelator_vanishing_flow (exampleSettings ℚ) (exampleIsotropicState ℚ)
    rfl rfl rfl rfl rfl rfl rfl h3).2.2
  refine ⟨h3, ?_⟩
  rw [T]
  norm_num [exampleIsotropicState, State.init, TProfile.book]

/-! ## Make and the fills made before it -/

section Prepend

variable {K : Type} [LinearOrderedField K] [FloorRing K]

lemma foldlM_map_comm {α β : Type} (f : β → α → Option β) (g : β → β)
    (hc : ∀ b x, f (g b) x = (f b x).map g) (l : List α) (b : β) :
    l.foldlM f (g b) = (l.foldlM f b).map g := by
  induction l generalizing b with
  | nil => rfl
  | cons x l ih =>
    rw [List.foldlM_cons, List.foldlM_cons, hc]
    cases h : f b x with
    | none => rfl
    | some c => exact ih c

lemma accumulateRP_prependFills (tm : TMath K) (cfg : Settings K) (t : AliFlowTrackSimple K)
    (a s : State K) :
    accumulateRP tm cfg t (a.prependFills s) = a.prependFills (accumulateRP tm cfg t s) := rfl

lemma fillPair_prependFills (tm : TMath K) (cfg : Settings K) (t1 t2 : AliFlowTrackSimple K)
    (a s : State K) :
    fillPair tm cfg t1 t2 (a.prependFills s) = a.prependFills (fillPair tm cfg t1 t2 s) := rfl

lemma pairStep_prependFills (tm : TMath K) (cfg : Settings K) (ev : AliFlowEventSimple K)
    (i : Nat) (t1 : AliFlowTrackSimple K) (a s : State K) (j : Nat) :
    pairStep tm cfg ev i t1 (a.prependFills s) j
      = (pairStep tm cfg ev i t1 s j).map a.prependFills := by
  unfold pairStep
  by_cases hji : j = i
  · simp [hji]
  · simp only [hji, if_false]
    cases GetTrack ev j with
    | none => rfl
    | some t2 =>
      simp only
      split_ifs <;> rfl

lemma trackStep_prependFills (tm : TMath K) (cfg : Settings K) (ev : AliFlowEventSimple K)
    (a s : State K) (i : Nat) :
    trackStep tm cfg ev (a.prependFills s) i = (trackStep tm cfg ev s i).map a.prependFills := by
  unfold trackStep
  cases GetTrack ev i with
  | none => rfl
  | some t =>
    simp only
    cases hrp : t.InRPSelection <;> cases hpoi : t.InPOISelection <;>
      cases hd : cfg.fEvaluateDifferential3pCorrelator <;>
      simp only [Bool.or_self, Bool.or_true, Bool.or_false, Bool.not_true, Bool.not_false,
        Bool.false_eq_true, if_true, if_false, Option.map_some']
    all_goals first
      | rfl
      | exact foldlM_map_comm _ _ (fun b x => pairStep_prependFills tm cfg ev i t a b x) _ s
      | exact foldlM_map_comm _ _ (fun b x => pairStep_prependFills tm cfg ev i t a b x) _
          (accumulateRP tm cfg t s)

lemma trackLoop_prependFills (tm : TMath K) (cfg : Settings K) (ev : AliFlowEventSimple K)
    (a s : State K) :
    trackLoop tm cfg ev (a.prependFills s) = (trackLoop tm cfg ev s).map a.prependFills :=
  foldlM_map_comm _ _ (fun b x => trackStep_prependFills tm cfg ev a b x) _ _

lemma accumulate_prependFills (tm : TMath K) (cfg : Settings K) (ev : AliFlowEventSimple K)
    (a s : State K) :
    accumulate tm cfg ev (a.prependFills s) = (accumulate tm cfg ev s).map a.prependFills := by
  unfold accumulate
  rw [trackLoop_prependFills]
  cases trackLoop tm cfg ev s <;> rfl

lemma Calculate3pCorrelator_prependFills (cfg : Settings K) (a s : State K) :
    Calculate3pCorrelator cfg (a.prependFills s) = a.prependFills (Calculate3pCorrelator cfg s) := by
  unfold Calculate3pCorrelator
  by_cases hw : cfg.usesParticleWeights = true
  · simp [hw]
  · simp [hw, State.prependFills, TProfile.Fill, List.append_assoc]

lemma CalculateNonIsotropicTerms_prependFills (cfg : Settings K) (a s : State K) :
    CalculateNonIsotropicTerms cfg (a.prependFills s)
      = a.prependFills (CalculateNonIsotropicTerms cfg s) := by
  unfold CalculateNonIsotropicTerms
  have e : (a.prependFills s).fSpk 0 0 = s.fSpk 0 0 := rfl
  by_cases hw : cfg.usesParticleWeights = true <;> by_cases h0 : s.fSpk 0 0 > 0 <;>
    by_cases h1 : s.fSpk 0 0 > 1 <;>
    simp [hw, h0, h1, e, State.prependFills, TProfile.Fill, TProfile2D.Fill, List.append_assoc]

lemma foldl_diffBinStep_prepend (cfg : Settings K) (s : State K) (sd : Nat) (l : List Int)
    (ax : TAxis K) (L : List (K × K × K)) (p : TProfile K) :
    l.foldl (diffBinStep cfg s sd) ⟨ax, L ++ p.fills⟩ =
      ⟨ax, L ++ (l.foldl (diffBinStep cfg s sd) p).fills⟩ := by
  induction l generalizing p with
  | nil => rfl
  | cons b l ih =>
    rw [List.foldl_cons, List.foldl_cons, ← ih]
    simp [diffBinStep, TProfile.Fill, List.append_assoc]

lemma CalculateDifferential3pCorrelator_prependFills (cfg : Settings K) (a s : State K) :
    CalculateDifferential3pCorrelator cfg (a.prependFills s)
      = a.prependFills (CalculateDifferential3pCorrelator cfg s) := by
  unfold CalculateDifferential3pCorrelator
  by_cases hw : cfg.usesParticleWeights = true
  · simp [hw]
  · have hd : ∀ sd, diffBinStep cfg (a.prependFills s) sd = diffBinStep cfg s sd := fun _ => rfl
    simp only [hw, Bool.not_false, Bool.not_eq_true, if_true, hd]
    simp only [State.prependFills, State.mk.injEq, true_and, and_true]
    funext sd
    by_cases hsd : sd < 2
    · simp only [hsd, if_true]
      exact foldl_diffBinStep_prepend cfg s sd _ _ _ _
    · simp only [hsd, if_false]

lemma ResetEventByEventQuantities_prependFills (cfg : Settings K) (a s : State K) :
    ResetEventByEventQuantities cfg (a.prependFills s)
      = a.prependFills (ResetEventByEventQuantities cfg s) := by
  unfold ResetEventByEventQuantities
  cases cfg.fEvaluateDifferential3pCorrelator <;> rfl

lemma reduceAndReset_prependFills (cfg : Settings K) (ev : AliFlowEventSimple K)
    (a s : State K) :
    reduceAndReset cfg ev (a.prependFills s) = a.prependFills (reduceAndReset cfg ev s) := by
  unfold reduceAndReset
  simp only
  split_ifs <;>
    simp only [Calculate3pCorrelator_prependFills, CalculateNonIsotropicTerms_prependFills,
      CalculateDifferential3pCorrelator_prependFills, ResetEventByEventQuantities_prependFills]

/-- `Make` on a state whose all-event profiles already hold fills: the earlier fills stay in
front, and what `Make` does is what it does without them. -/
lemma Make_prependFills (tm : TMath K) (cfg : Settings K) (ev : AliFlowEventSimple K)
    (a s : State K) :
    Make tm cfg ev (a.prependFills s) = (Make tm cfg ev s).map a.prependFills := by
  unfold Make
  rw [accumulate_prependFills]
  cases accumulate tm cfg ev s with
  | none => rfl
  | some e => simp [reduceAndReset_prependFills]

lemma prependFills_assoc (a b s : State K) :
    a.prependFills (b.prependFills s) = (a.prependFills b).prependFills s := by
  simp [State.prependFills, List.append_assoc]

end Prepend

/-! ## The per-event quantities after Make -/

section PerEvent

variable {K : Type} [LinearOrderedField K] [FloorRing K]

lemma foldlM_invariant {α β : Type} (f : β → α → Option β) (P : β → Prop)
    (step : ∀ b a c, P b → f b a = some c → P c) (l : List α) (b c : β) (hb : P b)
    (h : l.foldlM f b = some c) : P c := by
  induction l generalizing b with
  | nil =>
    simp only [List.foldlM_nil, Option.pure_def, Option.some.injEq] at h
    exact h ▸ hb
  | cons a l ih =>
    simp only [List.foldlM_cons, Option.bind_eq_bind, Option.bind_eq_some] at h
    obtain ⟨m, h1, h2⟩ := h
    exact ih m (step b a m hb h1) h2

/-- The pair profiles with an index past the booked ones are never touched by the pair loop. -/
lemma pairStep_unused (tm : TMath K) (cfg : Settings K) (ev : AliFlowEventSimple K) (i : Nat)
    (t1 : AliFlowTrackSimple K) (s0 s s2 : State K) (j : Nat)
    (hs : (∀ sd, 2 ≤ sd → s.fRePEBE sd = s0.fRePEBE sd) ∧
      (∀ sd, 2 ≤ sd → s.fImPEBE sd = s0.fImPEBE sd) ∧
      (∀ fs sd, 2 ≤ sd ∨ 2 ≤ fs → s.fOverlapEBE fs sd = s0.fOverlapEBE fs sd))
    (h : pairStep tm cfg ev i t1 s j = some s2) :
    (∀ sd, 2 ≤ sd → s2.fRePEBE sd = s0.fRePEBE sd) ∧
      (∀ sd, 2 ≤ sd → s2.fImPEBE sd = s0.fImPEBE sd) ∧
      (∀ fs sd, 2 ≤ sd ∨ 2 ≤ fs → s2.fOverlapEBE fs sd = s0.fOverlapEBE fs sd) := by
  have hfill : ∀ t2 : AliFlowTrackSimple K,
      (∀ sd, 2 ≤ sd → (fillPair tm cfg t1 t2 s).fRePEBE sd = s0.fRePEBE sd) ∧
      (∀ sd, 2 ≤ sd → (fillPair tm cfg t1 t2 s).fImPEBE sd = s0.fImPEBE sd) ∧
      (∀ fs sd, 2 ≤ sd ∨ 2 ≤ fs →
        (fillPair tm cfg t1 t2 s).fOverlapEBE fs sd = s0.fOverlapEBE fs sd) := by
    intro t2
    refine ⟨?_, ?_, ?_⟩
    · intro sd hsd
      simp only [fillPair, if_neg (not_lt.mpr hsd)]
      exact hs.1 sd hsd
    · intro sd hsd
      simp only [fillPair, if_neg (not_lt.mpr hsd)]
      exact hs.2.1 sd hsd
    · intro fs sd hsd
      have hc : ¬ (sd < 2 ∧ ((fs = 0 ∧ t1.InRPSelection = true) ∨
          (fs = 1 ∧ t2.InRPSelection = true))) := by
        rintro ⟨h1, h2⟩
        rcases hsd with h | h
        · omega
        · rcases h2 with ⟨h2, -⟩ | ⟨h2, -⟩ <;> omega
      simp only [fillPair, if_neg hc]
      exact hs.2.2 fs sd hsd
  unfold pairStep at h
  by_cases hji : j = i
  · simp only [hji, if_true, Option.some.injEq] at h
    exact h ▸ hs
  · simp only [hji, if_false] at h
    cases hT : GetTrack ev j with
    | none => rw [hT] at h; cases h
    | some t2 =>
      rw [hT] at h
      simp only at h
      split_ifs at h
      all_goals
        simp only [Option.some.injEq] at h
        first
          | exact h ▸ hs
          | exact h ▸ hfill t2

lemma trackStep_unused (tm : TMath K) (cfg : Settings K) (ev : AliFlowEventSimple K)
    (s0 s s2 : State K) (i : Nat)
    (hs : (∀ sd, 2 ≤ sd → s.fRePEBE sd = s0.fRePEBE sd) ∧
      (∀ sd, 2 ≤ sd → s.fImPEBE sd = s0.fImPEBE sd) ∧
      (∀ fs sd, 2 ≤ sd ∨ 2 ≤ fs → s.fOverlapEBE fs sd = s0.fOverlapEBE fs sd))
    (h : trackStep tm cfg ev s i = some s2) :
    (∀ sd, 2 ≤ sd → s2.fRePEBE sd = s0.fRePEBE sd) ∧
      (∀ sd, 2 ≤ sd → s2.fImPEBE sd = s0.fImPEBE sd) ∧
      (∀ fs sd, 2 ≤ sd ∨ 2 ≤ fs → s2.fOverlapEBE fs sd = s0.fOverlapEBE fs sd) := by
  unfold trackStep at h
  cases hT : GetTrack ev i with
  | none =>
    rw [hT] at h
    simp only [Option.some.injEq] at h
    exact h ▸ hs
  | some t =>
    rw [hT] at h
    simp only at h
    have hrp : (∀ sd, 2 ≤ sd → (accumulateRP tm cfg t s).fRePEBE sd = s0.fRePEBE sd) ∧
      (∀ sd, 2 ≤ sd → (accumulateRP tm cfg t s).fImPEBE sd = s0.fImPEBE sd) ∧
      (∀ fs sd, 2 ≤ sd ∨ 2 ≤ fs →
        (accumulateRP tm cfg t s).fOverlapEBE fs sd = s0.fOverlapEBE fs sd) := hs
    split_ifs at h
    all_goals first
      | (simp only [Option.some.injEq] at h; exact h ▸ hs)
      | exact foldlM_invariant _ _
          (fun b a c hb hc => pairStep_unused tm cfg ev i t s0 b c a hb hc) _ _ _ hrp h
      | exact foldlM_invariant _ _
          (fun b a c hb hc => pairStep_unused tm cfg ev i t s0 b c a hb hc) _ _ _ hs h

lemma trackLoop_unused (tm : TMath K) (cfg : Settings K) (ev : AliFlowEventSimple K)
    (s s2 : State K) (h : trackLoop tm cfg ev s = some s2) :
    (∀ sd, 2 ≤ sd → s2.fRePEBE sd = s.fRePEBE sd) ∧
      (∀ sd, 2 ≤ sd → s2.fImPEBE sd = s.fImPEBE sd) ∧
      (∀ fs sd, 2 ≤ sd ∨ 2 ≤ fs → s2.fOverlapEBE fs sd = s.fOverlapEBE fs sd) :=
  foldlM_invariant _ _ (fun b a c hb hc => trackStep_unused tm cfg ev s b c a hb hc) _ _ _
    ⟨fun _ _ => rfl, fun _ _ => rfl, fun _ _ _ => rfl⟩ h

lemma reduceAndReset_matrices (cfg : Settings K) (ev : AliFlowEventSimple K) (e : State K) :
    (reduceAndReset cfg ev e).fReQnk = (fun _ _ => 0) ∧
    (reduceAndReset cfg ev e).fImQnk = (fun _ _ => 0) ∧
    (reduceAndReset cfg ev e).fSpk = (fun _ _ => 0) := by
  unfold reduceAndReset ResetEventByEventQuantities
  cases cfg.fEvaluateDifferential3pCorrelator <;> exact ⟨rfl, rfl, rfl⟩

lemma Calculate3pCorrelator_perEvent (cfg : Settings K) (s : State K) :
    (Calculate3pCorrelator cfg s).fRePEBE = s.fRePEBE ∧
    (Calculate3pCorrelator cfg s).fImPEBE = s.fImPEBE ∧
    (Calculate3pCorrelator cfg s).fOverlapEBE = s.fOverlapEBE ∧
    (Calculate3pCorrelator cfg s).fReQnk = s.fReQnk ∧
    (Calculate3pCorrelator cfg s).fImQnk = s.fImQnk ∧
    (Calculate3pCorrelator cfg s).fSpk = s.fSpk := by
  unfold Calculate3pCorrelator
  by_cases hw : cfg.usesParticleWeights = true <;> simp [hw]

lemma CalculateNonIsotropicTerms_perEvent (cfg : Settings K) (s : State K) :
    (CalculateNonIsotropicTerms cfg s).fRePEBE = s.fRePEBE ∧
    (CalculateNonIsotropicTerms cfg s).fImPEBE = s.fImPEBE ∧
    (CalculateNonIsotropicTerms cfg s).fOverlapEBE = s.fOverlapEBE ∧
    (CalculateNonIsotropicTerms cfg s).fReQnk = s.fReQnk ∧
    (CalculateNonIsotropicTerms cfg s).fImQnk = s.fImQnk ∧
    (CalculateNonIsotropicTerms cfg s).fSpk = s.fSpk := by
  unfold CalculateNonIsotropicTerms
  by_cases hw : cfg.usesParticleWeights = true <;> by_cases h0 : s.fSpk 0 0 > 0 <;>
    by_cases h1 : s.fSpk 0 0 > 1 <;> simp [hw, h0, h1]

lemma CalculateDifferential3pCorrelator_perEvent (cfg : Settings K) (s : State K) :
    (CalculateDifferential3pCorrelator cfg s).fRePEBE = s.fRePEBE ∧
    (CalculateDifferential3pCorrelator cfg s).fImPEBE = s.fImPEBE ∧
    (CalculateDifferential3pCorrelator cfg s).fOverlapEBE = s.fOverlapEBE ∧
    (CalculateDifferential3pCorrelator cfg s).fReQnk = s.fReQnk ∧
    (CalculateDifferential3pCorrelator cfg s).fImQnk = s.fImQnk ∧
    (CalculateDifferential3pCorrelator cfg s).fSpk = s.fSpk := by
  unfold CalculateDifferential3pCorrelator
  by_cases hw : cfg.usesParticleWeights = true <;> simp [hw]

/-- The per-event pair profiles after steps e), f), g) of `Make`: those of the state the
reducers ran on, reset in differential mode. -/
lemma reduceAndReset_pairProfiles (cfg : Settings K) (ev : AliFlowEventSimple K) (e : State K) :
    (reduceAndReset cfg ev e).fRePEBE =
      (fun sd => if cfg.fEvaluateDifferential3pCorrelator = true ∧ sd < 2
        then (e.fRePEBE sd).Reset else e.fRePEBE sd) ∧
    (reduceAndReset cfg ev e).fImPEBE =
      (fun sd => if cfg.fEvaluateDifferential3pCorrelator = true ∧ sd < 2
        then (e.fImPEBE sd).Reset else e.fImPEBE sd) ∧
    (reduceAndReset cfg ev e).fOverlapEBE =
      (fun fs sd => if cfg.fEvaluateDifferential3pCorrelator = true ∧ fs < 2 ∧ sd < 2
        then (e.fOverlapEBE fs sd).Reset else e.fOverlapEBE fs sd) := by
  unfold reduceAndReset ResetEventByEventQuantities
  simp only
  cases hd : cfg.fEvaluateDifferential3pCorrelator <;>
    by_cases h3 : ev.GetEventNSelTracksRP ≥ 3 <;> by_cases h0 : ev.GetEventNSelTracksRP ≥ 0 <;>
    by_cases h1 : ev.GetEventNSelTracksRP ≥ 1 <;>
    simp [h3, h0, h1, (Calculate3pCorrelator_perEvent cfg _).1,
      (Calculate3pCorrelator_perEvent cfg _).2.1, (Calculate3pCorrelator_perEvent cfg _).2.2.1,
      (CalculateNonIsotropicTerms_perEvent cfg _).1, (CalculateNonIsotropicTerms_perEvent cfg _).2.1,
      (CalculateNonIsotropicTerms_perEvent cfg _).2.2.1,
      (CalculateDifferential3pCorrelator_perEvent cfg _).1,
      (CalculateDifferential3pCorrelator_perEvent cfg _).2.1,
      (CalculateDifferential3pCorrelator_perEvent cfg _).2.2.1]

/-- After `Make` on the state left by `Init`, the per-event quantities are again those left by
`Init`. -/
lemma Make_init_perEvent (tm : TMath K) (cfg : Settings K) (ev : AliFlowEventSimple K)
    (d : State K) (h : Make tm cfg ev (State.init cfg) = some d) :
    d.fReQnk = (State.init cfg).fReQnk ∧ d.fImQnk = (State.init cfg).fImQnk ∧
    d.fSpk = (State.init cfg).fSpk ∧ d.fRePEBE = (State.init cfg).fRePEBE ∧
    d.fImPEBE = (State.init cfg).fImPEBE ∧ d.fOverlapEBE = (State.init cfg).fOverlapEBE := by
  simp only [Make, Option.map_eq_some'] at h
  obtain ⟨e, he, rfl⟩ := h
  obtain ⟨m1, m2, m3⟩ := reduceAndReset_matrices cfg ev e
  obtain ⟨p1, p2, p3⟩ := reduceAndReset_pairProfiles cfg ev e
  obtain ⟨e1, h1, hfin⟩ := (accumulate_eq_some tm cfg ev _ e).mp he
  obtain ⟨u1, u2, u3⟩ := trackLoop_unused tm cfg ev _ e1 h1
  have hfresh : ∀ sd, sd < 2 →
      (State.init cfg).fRePEBE sd = TProfile.book cfg.fnBinsPt 0 cfg.fPtMax ∧
      (State.init cfg).fImPEBE sd = TProfile.book cfg.fnBinsPt 0 cfg.fPtMax ∧
      (State.init cfg).fOverlapEBE 0 sd = TProfile.book cfg.fnBinsPt 0 cfg.fPtMax ∧
      (State.init cfg).fOverlapEBE 1 sd = TProfile.book cfg.fnBinsPt 0 cfg.fPtMax :=
    fun _ _ => ⟨rfl, rfl, rfl, rfl⟩
  have hRe : ∀ sd, e.fRePEBE sd = e1.fRePEBE sd := fun sd => by rw [← hfin]; rfl
  have hIm : ∀ sd, e.fImPEBE sd = e1.fImPEBE sd := fun sd => by rw [← hfin]; rfl
  have hOv : ∀ fs sd, e.fOverlapEBE fs sd = e1.fOverlapEBE fs sd := fun fs sd => by
    rw [← hfin]; rfl
  -- the profiles of the booked indices in the state the reducers ran on
  have onP : cfg.fEvaluateDifferential3pCorrelator = true → ∀ w sd, sd < 2 →
      (pairProfile e w sd).Reset = TProfile.book cfg.fnBinsPt 0 cfg.fPtMax := by
    intro hd w sd hsd
    rw [accumulate_pairProfile tm cfg ev _ e hd hfresh he w sd hsd]
    rfl
  have offP : cfg.fEvaluateDifferential3pCorrelator = false → ∀ w sd,
      pairProfile e w sd = TProfile.book cfg.fnBinsPt 0 cfg.fPtMax := by
    intro hd w sd
    rw [← hfin, pairProfile_finalizeSpk,
      foldlM_trackStep_pairProfile_off tm cfg ev hd _ _ e1 h1 w sd]
    match w with
    | 0 => rfl
    | 1 => rfl
    | 2 => rfl
    | (n + 3) => rfl
  refine ⟨m1, m2, m3, ?_, ?_, ?_⟩
  · rw [p1]
    funext sd
    cases hd : cfg.fEvaluateDifferential3pCorrelator with
    | false =>
      simp only [Bool.false_eq_true, false_and, if_false]
      exact offP hd 0 sd
    | true =>
      by_cases hsd : sd < 2
      · simp only [hsd, and_self, if_true]
        exact onP hd 0 sd hsd
      · simp only [hsd, and_false, if_false]
        rw [hRe, u1 sd (not_lt.mp hsd)]
  · rw [p2]
    funext sd
    cases hd : cfg.fEvaluateDifferential3pCorrelator with
    | false =>
      simp only [Bool.false_eq_true, false_and, if_false]
      exact offP hd 1 sd
    | true =>
      by_cases hsd : sd < 2
      · simp only [hsd, and_self, if_true]
        exact onP hd 1 sd hsd
      · simp only [hsd, and_false, if_false]
        rw [hIm, u2 sd (not_lt.mp hsd)]
  · rw [p3]
    funext fs sd
    by_cases hbig : 2 ≤ sd ∨ 2 ≤ fs
    · have hc : ¬ (cfg.fEvaluateDifferential3pCorrelator = true ∧ fs < 2 ∧ sd < 2) := by
        rintro ⟨-, h1, h2⟩
        rcases hbig with h | h <;> omega
      rw [if_neg hc, hOv, u3 fs sd hbig]
    · have hfs : fs < 2 := by omega
      have hsd : sd < 2 := by omega
      cases hd : cfg.fEvaluateDifferential3pCorrelator with
      | false =>
        simp only [Bool.false_eq_true, false_and, if_false]
        interval_cases fs
        · exact offP hd 2 sd
        · exact offP hd 3 sd
      | true =>
        simp only [hfs, hsd, and_self, if_true]
        interval_cases fs
        · exact onP hd 2 sd hsd
        · exact onP hd 3 sd hsd

/-- A state whose per-event quantities are those left by `Init` is its own all-event part put in
front of the state left by `Init`. -/
lemma prependFills_init_of_perEvent (cfg : Settings K) (d : State K)
    (h : d.fReQnk = (State.init cfg).fReQnk ∧ d.fImQnk = (State.init cfg).fImQnk ∧
      d.fSpk = (State.init cfg).fSpk ∧ d.fRePEBE = (State.init cfg).fRePEBE ∧
      d.fImPEBE = (State.init cfg).fImPEBE ∧ d.fOverlapEBE = (State.init cfg).fOverlapEBE) :
    d.prependFills (State.init cfg) = d := by
  obtain ⟨h1, h2, h3, h4, h5, h6⟩ := h
  cases d
  simp only at h1 h2 h3 h4 h5 h6
  subst h1 h2 h3 h4 h5 h6
  simp [State.prependFills, State.init, TProfile.book, TProfile2D.book]

/-- What `Make` does on a state whose per-event quantities are those left by `Init`: the state it
leaves is the all-event part of the state it started from followed by what `Make` leaves when it
runs right after `Init`, and the per-event quantities are again those left by `Init`. -/
lemma Make_of_fresh (tm : TMath K) (cfg : Settings K) (ev : AliFlowEventSimple K)
    (s t : State K) (hs : s.prependFills (State.init cfg) = s)
    (h : Make tm cfg ev s = some t) :
    ∃ d, Make tm cfg ev (State.init cfg) = some d ∧ t = s.prependFills d ∧
      t.prependFills (State.init cfg) = t := by
  rw [← hs, Make_prependFills] at h
  simp only [Option.map_eq_some'] at h
  obtain ⟨d, hd, rfl⟩ := h
  refine ⟨d, hd, rfl, ?_⟩
  rw [← prependFills_assoc,
    prependFills_init_of_perEvent cfg d (Make_init_perEvent tm cfg ev d hd)]

/-- Every state of a run started after `Init` has the per-event quantities left by `Init`. -/
lemma processEvents_fresh (tm : TMath K) (cfg : Settings K) (evs : List (AliFlowEventSimple K))
    (s t : State K) (hs : s.prependFills (State.init cfg) = s)
    (h : processEvents tm cfg evs s = some t) : t.prependFills (State.init cfg) = t := by
  unfold processEvents at h
  exact foldlM_invariant _ (fun x => x.prependFills (State.init cfg) = x)
    (fun b a c hb hc => by
      obtain ⟨d, -, -, h3⟩ := Make_of_fresh tm cfg a b c hb hc
      exact h3) _ _ _ hs h

lemma init_fresh (cfg : Settings K) : (State.init cfg).prependFills (State.init cfg) = State.init cfg :=
  prependFills_init_of_perEvent cfg _ ⟨rfl, rfl, rfl, rfl, rfl, rfl⟩

end PerEvent

/-! ## The all-event quantities across the track loop, and the weighted mode -/

section AllEvent

variable {K : Type} [LinearOrderedField K] [FloorRing K]

lemma foldlM_preserves {α β γ : Type} (f : β → α → Option β) (g : β → γ)
    (step : ∀ b a c, f b a = some c → g c = g b) (l : List α) (b c : β)
    (h : l.foldlM f b = some c) : g c = g b :=
  foldlM_invariant f (fun x => g x = g b) (fun x a y hx hy => (step x a y hy).trans hx) l b c
    rfl h

lemma pairStep_allEvent (tm : TMath K) (cfg : Settings K) (ev : AliFlowEventSimple K) (i : Nat)
    (t1 : AliFlowTrackSimple K) (s s2 : State K) (j : Nat)
    (h : pairStep tm cfg ev i t1 s j = some s2) : s2.allEvent = s.allEvent := by
  unfold pairStep at h
  by_cases hji : j = i
  · simp only [hji, if_true, Option.some.injEq] at h
    rw [← h]
  · simp only [hji, if_false] at h
    cases hT : GetTrack ev j with
    | none => rw [hT] at h; cases h
    | some t2 =>
      rw [hT] at h
      simp only at h
      split_ifs at h
      all_goals
        simp only [Option.some.injEq] at h
        rw [← h]
        try rfl

lemma trackStep_allEvent (tm : TMath K) (cfg : Settings K) (ev : AliFlowEventSimple K)
    (s s2 : State K) (i : Nat) (h : trackStep tm cfg ev s i = some s2) :
    s2.allEvent = s.allEvent := by
  unfold trackStep at h
  cases hT : GetTrack ev i with
  | none =>
    rw [hT] at h
    simp only [Option.some.injEq] at h
    rw [← h]
  | some t =>
    rw [hT] at h
    simp only at h
    split_ifs at h
    all_goals first
      | (simp only [Option.some.injEq] at h; rw [← h]; done)
      | (simp only [Option.some.injEq] at h; rw [← h]; rfl)
      | exact foldlM_preserves _ State.allEvent
          (fun b a c hc => pairStep_allEvent tm cfg ev i t b c a hc) _ _ _ h
      | exact (foldlM_preserves _ State.allEvent
          (fun b a c hc => pairStep_allEvent tm cfg ev i t b c a hc) _
          (accumulateRP tm cfg t s) _ h).trans rfl

/-- The track loop and the finalisation of `fSpk` leave the all-event quantities alone. -/
lemma accumulate_allEvent (tm : TMath K) (cfg : Settings K) (ev : AliFlowEventSimple K)
    (s e : State K) (h : accumulate tm cfg ev s = some e) : e.allEvent = s.allEvent := by
  obtain ⟨e1, h1, rfl⟩ := (accumulate_eq_some tm cfg ev s e).mp h
  exact (foldlM_preserves _ State.allEvent (fun b a c hc => trackStep_allEvent tm cfg ev b c a hc)
    _ s e1 h1 : e1.allEvent = s.allEvent)

lemma Make_some (tm : TMath K) (cfg : Settings K) (ev : AliFlowEventSimple K) (s : State K)
    (h : cfg.fEvaluateDifferential3pCorrelator = false ∨ ∀ o ∈ ev.tracks, o ≠ none) :
    ∃ t, Make tm cfg ev s = some t := by
  obtain ⟨s1, h1⟩ := trackLoop_some tm cfg ev s h
  exact ⟨reduceAndReset cfg ev (finalizeSpk s1), by simp [Make, accumulate, h1]⟩

lemma Make_eq_some (tm : TMath K) (cfg : Settings K) (ev : AliFlowEventSimple K)
    (s t : State K) :
    Make tm cfg ev s = some t ↔ ∃ e, accumulate tm cfg ev s = some e ∧ reduceAndReset cfg ev e = t := by
  simp [Make, Option.map_eq_some]

lemma ResetEventByEventQuantities_allEvent (cfg : Settings K) (s : State K) :
    (ResetEventByEventQuantities cfg s).allEvent = s.allEvent := by
  unfold ResetEventByEventQuantities
  cases cfg.fEvaluateDifferential3pCorrelator <;> rfl

lemma reducers_of_weights (cfg : Settings K) (h : cfg.usesParticleWeights = true) (s : State K) :
    Calculate3pCorrelator cfg s = s ∧ CalculateNonIsotropicTerms cfg s = s ∧
      CalculateDifferential3pCorrelator cfg s = s := by
  refine ⟨?_, ?_, ?_⟩
  · simp [Calculate3pCorrelator, h]
  · simp [CalculateNonIsotropicTerms, h]
  · simp [CalculateDifferential3pCorrelator, h]

/-- C20: when at least one of the flags `fUsePhiWeights`, `fUsePtWeights`, `fUseEtaWeights` is
set, `Calculate3pCorrelator`, `CalculateNonIsotropicTerms` and
`CalculateDifferential3pCorrelator` return the state they were given, and a call of `Make` on
any event leaves every all-event profile (integrated and vs-M 3-particle correlator, integrated
and vs-M non-isotropic terms, differential profiles) as it was. -/
theorem reducers_noop_with_weights (tm : TMath K) (cfg : Settings K)
    (h : cfg.fUsePhiWeights = true ∨ cfg.fUsePtWeights = true ∨ cfg.fUseEtaWeights = true) :
    (∀ s : State K, Calculate3pCorrelator cfg s = s ∧ CalculateNonIsotropicTerms cfg s = s ∧
      CalculateDifferential3pCorrelator cfg s = s) ∧
    (∀ (ev : AliFlowEventSimple K) (s t : State K), Make tm cfg ev s = some t →
      t.f3pCorrelatorPro = s.f3pCorrelatorPro ∧
      t.f3pCorrelatorVsMPro = s.f3pCorrelatorVsMPro ∧
      t.fNonIsotropicTermsPro = s.fNonIsotropicTermsPro ∧
      t.fNonIsotropicTermsVsMPro = s.fNonIsotropicTermsVsMPro ∧
      t.f3pCorrelatorVsPtSumDiffPro = s.f3pCorrelatorVsPtSumDiffPro) := by
  have hw : cfg.usesParticleWeights = true := by
    rcases h with h | h | h <;> simp [Settings.usesParticleWeights, h]
  refine ⟨reducers_of_weights cfg hw, ?_⟩
  intro ev s t ht
  obtain ⟨e, he, rfl⟩ := (Make_eq_some tm cfg ev s _).mp ht
  have h1 : (reduceAndReset cfg ev e).allEvent = e.allEvent := by
    unfold reduceAndReset
    simp only [(reducers_of_weights cfg hw _).1, (reducers_of_weights cfg hw _).2.1,
      (reducers_of_weights cfg hw _).2.2, ite_self]
    exact ResetEventByEventQuantities_allEvent cfg e
  have h2 := h1.trans (accumulate_allEvent tm cfg ev s e he)
  simp only [State.allEvent, Prod.mk.injEq] at h2
  exact ⟨h2.1, h2.2.2.1, h2.2.1, h2.2.2.2.1, h2.2.2.2.2.1⟩

end AllEvent

/-- Witness for C20: the example settings with the phi-weight flag set, on the example state and
the example event. -/
theorem reducers_noop_with_weights_witness :
    (exampleWeightedSettings ℝ).fUsePhiWeights = true ∧
    Calculate3pCorrelator (exampleWeightedSettings ℝ) (exampleState ℝ) = exampleState ℝ ∧
    CalculateNonIsotropicTerms (exampleWeightedSettings ℝ) (exampleState ℝ) = exampleState ℝ ∧
    CalculateDifferential3pCorrelator (exampleWeightedSettings ℝ) (exampleState ℝ)
      = exampleState ℝ ∧
    ∃ t, Make realTMath (exampleWeightedSettings ℝ) (exampleEvent ℝ) (exampleState ℝ) = some t ∧
      t.f3pCorrelatorPro = (exampleState ℝ).f3pCorrelatorPro ∧
      t.f3pCorrelatorVsPtSumDiffPro = (exampleState ℝ).f3pCorrelatorVsPtSumDiffPro := by
  have T := reducers_noop_with_weights realTMath (exampleWeightedSettings ℝ) (Or.inl rfl)
  obtain ⟨a, b, c⟩ := T.1 (exampleState ℝ)
  obtain ⟨t, ht⟩ := Make_some realTMath (exampleWeightedSettings ℝ) (exampleEvent ℝ)
    (exampleState ℝ) (Or.inr (by simp [exampleEvent]))
  obtain ⟨p1, -, -, -, p5⟩ := T.2 (exampleEvent ℝ) (exampleState ℝ) t ht
  exact ⟨rfl, a, b, c, t, ht, p1, p5⟩

/-! ## The event of four reference particles at right angles -/

lemma rpTracks_exampleSquareEvent :
    rpTracks exampleSquareEvent =
      [⟨0, 1, 0, 1, true, false⟩, ⟨Real.pi / 2, 1, 0, 1, true, false⟩,
       ⟨Real.pi, 1, 0, 1, true, false⟩, ⟨3 * Real.pi / 2, 1, 0, 1, true, false⟩] := by
  simp [rpTracks, exampleSquareEvent, Option.filter]

/-- The reducer inputs of the event of four reference particles at right angles, harmonic 2. -/
lemma exampleSquareEvent_inputs (e : State ℝ)
    (h : accumulate realTMath (exampleSettings ℝ) exampleSquareEvent
      (State.init (exampleSettings ℝ)) = some e) :
    e.fReQnk 0 0 = 0 ∧ e.fImQnk 0 0 = 0 ∧ e.fReQnk 1 0 = 4 ∧ e.fImQnk 1 0 = 0
      ∧ e.fSpk 0 0 = 4 := by
  obtain ⟨s1, h1, rfl⟩ := (accumulate_eq_some realTMath _ _ _ e).mp h
  obtain ⟨a1, a2, a3⟩ := trackLoop_matrices realTMath _ _ _ s1 h1
  have e1 := a1 0 0 (by norm_num) (by norm_num)
  have e2 := a2 0 0 (by norm_num) (by norm_num)
  have e3 := a1 1 0 (by norm_num) (by norm_num)
  have e4 := a2 1 0 (by norm_num) (by norm_num)
  have e5 := a3 0 0 (by norm_num) (by norm_num)
  rw [rpTracks_exampleSquareEvent] at e1 e2 e3 e4 e5
  have hn : (exampleSettings ℝ).fHarmonic = 2 := rfl
  have x1 : (2 : ℝ) * (Real.pi / 2) = Real.pi := by ring
  have x2 : (2 : ℝ) * (3 * Real.pi / 2) = Real.pi + 2 * Real.pi := by ring
  have y1 : (4 : ℝ) * (Real.pi / 2) = 2 * Real.pi := by ring
  have y2 : (4 : ℝ) * Real.pi = 2 * (2 * Real.pi) := by ring
  have y3 : (4 : ℝ) * (3 * Real.pi / 2) = 3 * (2 * Real.pi) := by ring
  have c4 : Real.cos (2 * (2 * Real.pi)) = 1 := by
    have := Real.cos_nat_mul_two_pi 2
    simpa using this
  have c6 : Real.cos (3 * (2 * Real.pi)) = 1 := by
    have := Real.cos_nat_mul_two_pi 3
    simpa using this
  have s4 : Real.sin (2 * (2 * Real.pi)) = 0 := by
    rw [show (2 : ℝ) * (2 * Real.pi) = ((4 : ℕ) : ℝ) * Real.pi by push_cast; ring]
    exact Real.sin_nat_mul_pi 4
  have s6 : Real.sin (3 * (2 * Real.pi)) = 0 := by
    rw [show (3 : ℝ) * (2 * Real.pi) = ((6 : ℕ) : ℝ) * Real.pi by push_cast; ring]
    exact Real.sin_nat_mul_pi 6
  refine ⟨?_, ?_, ?_, ?_, ?_⟩
  · show s1.fReQnk 0 0 = 0
    rw [e1]
    simp only [List.map_cons, List.map_nil, List.sum_cons, List.sum_nil, reQTerm, trackWeight, wPhi, wPt, wEta, realTMath, hn, State.init]
    norm_num [x1, x2, Real.cos_add_two_pi]
  · show s1.fImQnk 0 0 = 0
    rw [e2]
    simp only [List.map_cons, List.map_nil, List.sum_cons, List.sum_nil, imQTerm, trackWeight, wPhi, wPt, wEta, realTMath, hn, State.init]
    norm_num [x1, x2, Real.sin_add_two_pi]
  · show s1.fReQnk 1 0 = 4
    rw [e3]
    simp only [List.map_cons, List.map_nil, List.sum_cons, List.sum_nil, reQTerm, trackWeight, wPhi, wPt, wEta, realTMath, hn, State.init]
    norm_num [y1, y2, y3, c4, c6]
  · show s1.fImQnk 1 0 = 0
    rw [e4]
    simp only [List.map_cons, List.map_nil, List.sum_cons, List.sum_nil, imQTerm, trackWeight, wPhi, wPt, wEta, realTMath, hn, State.init]
    norm_num [y1, y2, y3, s4, s6]
  · simp only [finalizeSpk]
    rw [if_pos (by norm_num), e5]; norm_num [State.init]

section Guard

variable {K : Type} [LinearOrderedField K] [FloorRing K]

lemma CalculateDifferential3pCorrelator_3p (cfg : Settings K) (s : State K) :
    (CalculateDifferential3pCorrelator cfg s).f3pCorrelatorPro = s.f3pCorrelatorPro ∧
    (CalculateDifferential3pCorrelator cfg s).f3pCorrelatorVsMPro = s.f3pCorrelatorVsMPro := by
  unfold CalculateDifferential3pCorrelator
  by_cases hw : cfg.usesParticleWeights = true <;> simp [hw]

/-- The 3-particle profiles after steps e), f), g) of `Make`: filled by `Calculate3pCorrelator`
when the stored counter of the event is at least 3, untouched otherwise. -/
lemma reduceAndReset_3p (cfg : Settings K) (ev : AliFlowEventSimple K) (e : State K) :
    (reduceAndReset cfg ev e).f3pCorrelatorPro =
      (if ev.GetEventNSelTracksRP ≥ 3 then Calculate3pCorrelator cfg e else e).f3pCorrelatorPro ∧
    (reduceAndReset cfg ev e).f3pCorrelatorVsMPro =
      (if ev.GetEventNSelTracksRP ≥ 3 then Calculate3pCorrelator cfg e
        else e).f3pCorrelatorVsMPro := by
  have hr : ∀ x : State K,
      (ResetEventByEventQuantities cfg x).f3pCorrelatorPro = x.f3pCorrelatorPro ∧
      (ResetEventByEventQuantities cfg x).f3pCorrelatorVsMPro = x.f3pCorrelatorVsMPro := by
    intro x
    unfold ResetEventByEventQuantities
    cases cfg.fEvaluateDifferential3pCorrelator <;> exact ⟨rfl, rfl⟩
  unfold reduceAndReset
  simp only
  rw [(hr _).1, (hr _).2]
  split_ifs <;>
    simp only [(CalculateDifferential3pCorrelator_3p cfg _).1,
      (CalculateDifferential3pCorrelator_3p cfg _).2, (CalculateNonIsotropicTerms_3p cfg _).1,
      (CalculateNonIsotropicTerms_3p cfg _).2, and_self]

/-- What a call of `Make` does to the integrated 3-particle profile, with no particle weights
enabled: one fill computed from the accumulated state when the stored counter of the event is at
least 3, nothing otherwise. -/
lemma Make_3pCorrelatorPro (tm : TMath K) (cfg : Settings K) (ev : AliFlowEventSimple K)
    (s e t : State K) (hw : cfg.usesParticleWeights = false)
    (he : accumulate tm cfg ev s = some e) (ht : Make tm cfg ev s = some t) :
    t.f3pCorrelatorPro =
      if ev.GetEventNSelTracksRP ≥ 3 then
        s.f3pCorrelatorPro.Fill (1 / 2)
          (three1n1n2n (e.fReQnk 0 0) (e.fImQnk 0 0) (e.fReQnk 1 0) (e.fImQnk 1 0) (e.fSpk 0 0))
          (e.fSpk 0 0 * (e.fSpk 0 0 - 1) * (e.fSpk 0 0 - 2))
      else s.f3pCorrelatorPro := by
  obtain ⟨e2, he2, rfl⟩ := (Make_eq_some tm cfg ev s t).mp ht
  rw [he] at he2
  cases he2
  have ha := accumulate_allEvent tm cfg ev s e he
  simp only [State.allEvent, Prod.mk.injEq] at ha
  rw [(reduceAndReset_3p cfg ev e).1]
  split_ifs
  · simp [Calculate3pCorrelator, hw, ha.1]
  · exact ha.1

lemma accumulate_multiplicity (tm : TMath K) (cfg : Settings K) (ev : AliFlowEventSimple K)
    (s e : State K) (hS : ∀ p k, s.fSpk p k = 0) (he : accumulate tm cfg ev s = some e) :
    e.fSpk 0 0 = ((rpTracks ev).length : K) := by
  obtain ⟨s1, h1, rfl⟩ := (accumulate_eq_some tm cfg ev s e).mp he
  obtain ⟨-, -, a3⟩ := trackLoop_matrices tm cfg ev s s1 h1
  have e5 := a3 0 0 (by norm_num) (by norm_num)
  rw [hS, zero_add] at e5
  simp [finalizeSpk, e5]

end Guard
/-- Both the accumulated state and the state left by `Make` exist for the event of four
reference particles at right angles. -/
lemma exampleSquareEvent_run :
    ∃ e t, accumulate realTMath (exampleSettings ℝ) exampleSquareEvent
        (State.init (exampleSettings ℝ)) = some e ∧
      Make realTMath (exampleSettings ℝ) exampleSquareEvent (State.init (exampleSettings ℝ))
        = some t ∧
      t.f3pCorrelatorPro.fills =
        [(1 / 2, three1n1n2n (e.fReQnk 0 0) (e.fImQnk 0 0) (e.fReQnk 1 0) (e.fImQnk 1 0)
          (e.fSpk 0 0), e.fSpk 0 0 * (e.fSpk 0 0 - 1) * (e.fSpk 0 0 - 2))] := by
  obtain ⟨t, ht⟩ := Make_some realTMath (exampleSettings ℝ) exampleSquareEvent
    (State.init (exampleSettings ℝ)) (Or.inr (by simp [exampleSquareEvent]))
  obtain ⟨e, he, hr⟩ := (Make_eq_some _ _ _ _ t).mp ht
  refine ⟨e, t, he, ht, ?_⟩
  rw [Make_3pCorrelatorPro realTMath (exampleSettings ℝ) _ _ e t rfl he ht,
    if_pos (by simp [exampleSquareEvent])]
  simp [TProfile.Fill, State.init, TProfile.book]

/-- C14 (amended): for harmonic `n = 2` and the event of four unit-weight reference particles at
`phi = 0, pi/2, pi, 3pi/2`, processed right after `Init`, `Make` accumulates `Re Q[0][0] = 0`,
`Im Q[0][0] = 0`, `Re Q[1][0] = 4`, `Im Q[1][0] = 0`, `M = S[0][0] = 4`, and the only fill of
the integrated 3-particle profile has the value `-1/3` and the weight 24. -/
theorem Make_square_event :
    ∃ e t, accumulate realTMath (exampleSettings ℝ) exampleSquareEvent
        (State.init (exampleSettings ℝ)) = some e ∧
      Make realTMath (exampleSettings ℝ) exampleSquareEvent (State.init (exampleSettings ℝ))
        = some t ∧
      e.fReQnk 0 0 = 0 ∧ e.fImQnk 0 0 = 0 ∧ e.fReQnk 1 0 = 4 ∧ e.fImQnk 1 0 = 0 ∧
      e.fSpk 0 0 = 4 ∧ t.f3pCorrelatorPro.fills = [(1 / 2, -1 / 3, 24)] := by
  obtain ⟨e, t, he, ht, hf⟩ := exampleSquareEvent_run
  obtain ⟨q1, q2, q3, q4, q5⟩ := exampleSquareEvent_inputs e he
  refine ⟨e, t, he, ht, q1, q2, q3, q4, q5, ?_⟩
  rw [hf, q1, q2, q3, q4, q5]
  norm_num [three1n1n2n]

/-- Counterexample to C14 as stated: for that event `Re Q[0][0]` is not 4 and the value filled
into the integrated 3-particle profile is not 1. -/
theorem Make_square_event_not_one :
    ∃ e t, accumulate realTMath (exampleSettings ℝ) exampleSquareEvent
        (State.init (exampleSettings ℝ)) = some e ∧
      Make realTMath (exampleSettings ℝ) exampleSquareEvent (State.init (exampleSettings ℝ))
        = some t ∧
      e.fReQnk 0 0 ≠ 4 ∧
      three1n1n2n (e.fReQnk 0 0) (e.fImQnk 0 0) (e.fReQnk 1 0) (e.fImQnk 1 0) (e.fSpk 0 0) ≠ 1 ∧
      ∀ f ∈ t.f3pCorrelatorPro.fills, f.2.1 ≠ 1 := by
  obtain ⟨e, t, he, ht, hf⟩ := exampleSquareEvent_run
  obtain ⟨q1, q2, q3, q4, q5⟩ := exampleSquareEvent_inputs e he
  have hv : three1n1n2n (e.fReQnk 0 0) (e.fImQnk 0 0) (e.fReQnk 1 0) (e.fImQnk 1 0)
      (e.fSpk 0 0) = -1 / 3 := by
    rw [q1, q2, q3, q4, q5]
    norm_num [three1n1n2n]
  refine ⟨e, t, he, ht, by rw [q1]; norm_num, by rw [hv]; norm_num, ?_⟩
  intro f hfm
  rw [hf, List.mem_singleton] at hfm
  rw [hfm, hv]
  norm_num

section GuardTheorem

variable {K : Type} [LinearOrderedField K] [FloorRing K]

/-- C17 (amended): with no particle weights enabled and a zeroed `S` table at the start, `Make`
computes and fills the 3-particle correlator exactly for the events whose stored counter
`GetEventNSelTracksRP()` is at least 3: for a smaller counter the integrated and the vs-M
3-particle profiles are left as they were, for a counter of at least 3 the integrated profile
receives one fill with the weight `M(M-1)(M-2)`, `M = S[0][0]` being the number of non-null
tracks flagged as reference particles; when the counter equals that number, the divisor
`M(M-1)(M-2)` is non-zero whenever the division is performed.  `Make` returns when the
differential mode is off or the event has no null track. -/
theorem Make_3p_guard (tm : TMath K) (cfg : Settings K) (ev : AliFlowEventSimple K)
    (s : State K)
    (hPhi : cfg.fUsePhiWeights = false) (hPt : cfg.fUsePtWeights = false)
    (hEta : cfg.fUseEtaWeights = false) (hS : ∀ p k, s.fSpk p k = 0) :
    ((cfg.fEvaluateDifferential3pCorrelator = false ∨ ∀ o ∈ ev.tracks, o ≠ none) →
      ∃ t, Make tm cfg ev s = some t) ∧
    (∀ e t, accumulate tm cfg ev s = some e → Make tm cfg ev s = some t →
      e.fSpk 0 0 = ((rpTracks ev).length : K) ∧
      (ev.GetEventNSelTracksRP < 3 →
        t.f3pCorrelatorPro = s.f3pCorrelatorPro ∧
        t.f3pCorrelatorVsMPro = s.f3pCorrelatorVsMPro) ∧
      (3 ≤ ev.GetEventNSelTracksRP →
        t.f3pCorrelatorPro.fills = s.f3pCorrelatorPro.fills ++
          [(1 / 2,
            three1n1n2n (e.fReQnk 0 0) (e.fImQnk 0 0) (e.fReQnk 1 0) (e.fImQnk 1 0) (e.fSpk 0 0),
            e.fSpk 0 0 * (e.fSpk 0 0 - 1) * (e.fSpk 0 0 - 2))] ∧
        (ev.GetEventNSelTracksRP = ((rpTracks ev).length : Int) →
          e.fSpk 0 0 * (e.fSpk 0 0 - 1) * (e.fSpk 0 0 - 2) ≠ 0))) := by
  have hw : cfg.usesParticleWeights = false := by
    simp [Settings.usesParticleWeights, hPhi, hPt, hEta]
  refine ⟨Make_some tm cfg ev s, ?_⟩
  intro e t he ht
  have hM := accumulate_multiplicity tm cfg ev s e hS he
  refine ⟨hM, ?_, ?_⟩
  · intro hlt
    obtain ⟨e2, he2, rfl⟩ := (Make_eq_some tm cfg ev s t).mp ht
    rw [he] at he2
    cases he2
    have ha := accumulate_allEvent tm cfg ev s e he
    simp only [State.allEvent, Prod.mk.injEq] at ha
    rw [(reduceAndReset_3p cfg ev e).1, (reduceAndReset_3p cfg ev e).2,
      if_neg (by omega)]
    exact ⟨ha.1, ha.2.2.1⟩
  · intro hge
    constructor
    · rw [Make_3pCorrelatorPro tm cfg ev s e t hw he ht, if_pos hge]
      rfl
    · intro hcount
      have h3 : (3 : K) ≤ ((rpTracks ev).length : K) := by
        have : (3 : Int) ≤ ((rpTracks ev).length : Int) := hcount ▸ hge
        exact_mod_cast this
      rw [hM]
      have a : (0 : K) < ((rpTracks ev).length : K) := by linarith
      have b : (0 : K) < ((rpTracks ev).length : K) - 1 := by linarith
      have c : (0 : K) < ((rpTracks ev).length : K) - 2 := by linarith
      exact (mul_pos (mul_pos a b) c).ne'

end GuardTheorem

/-- Witness for C17: the example event (counter 4, four reference particles) processed right
after `Init`: one fill of weight 24, and the divisor is not zero. -/
theorem Make_3p_guard_witness :
    ∃ e t, accumulate realTMath (exampleSettings ℝ) (exampleEvent ℝ)
        (State.init (exampleSettings ℝ)) = some e ∧
      Make realTMath (exampleSettings ℝ) (exampleEvent ℝ) (State.init (exampleSettings ℝ))
        = some t ∧
      t.f3pCorrelatorPro.fills = [(1 / 2, 1, 24)] ∧
      e.fSpk 0 0 * (e.fSpk 0 0 - 1) * (e.fSpk 0 0 - 2) ≠ 0 := by
  have T := Make_3p_guard realTMath (exampleSettings ℝ) (exampleEvent ℝ)
    (State.init (exampleSettings ℝ)) rfl rfl rfl (fun _ _ => rfl)
  obtain ⟨t, ht⟩ := T.1 (Or.inr (by simp [exampleEvent]))
  obtain ⟨e, he, -⟩ := (Make_eq_some _ _ _ _ t).mp ht
  obtain ⟨-, -, h3⟩ := T.2 e t he ht
  obtain ⟨hf, hd⟩ := h3 (by simp [exampleEvent])
  obtain ⟨q1, q2, q3, q4, q5⟩ := exampleEvent_inputs e he
  refine ⟨e, t, he, ht, ?_, hd (by rw [rpTracks_exampleEvent]; rfl)⟩
  rw [hf, q1, q2, q3, q4, q5]
  norm_num [three1n1n2n, State.init, TProfile.book]

/-- Counterexample to C17 as stated: for the event whose stored counter is 3 while two tracks
are flagged as reference particles, `Make` computes and fills the 3-particle correlator with
`M = S[0][0] = 2`, and the divisor `M(M-1)(M-2)` of that computation is 0. -/
theorem Make_3p_guard_miscounted :
    ∃ e t, accumulate realTMath (exampleSettings ℝ) (exampleMiscountedEvent ℝ)
        (State.init (exampleSettings ℝ)) = some e ∧
      Make realTMath (exampleSettings ℝ) (exampleMiscountedEvent ℝ)
        (State.init (exampleSettings ℝ)) = some t ∧
      e.fSpk 0 0 = 2 ∧ ¬ (3 ≤ e.fSpk 0 0) ∧
      e.fSpk 0 0 * (e.fSpk 0 0 - 1) * (e.fSpk 0 0 - 2) = 0 ∧
      t.f3pCorrelatorPro.fills =
        [(1 / 2, three1n1n2n (e.fReQnk 0 0) (e.fImQnk 0 0) (e.fReQnk 1 0) (e.fImQnk 1 0)
          (e.fSpk 0 0), 0)] := by
  obtain ⟨t, ht⟩ := Make_some realTMath (exampleSettings ℝ) (exampleMiscountedEvent ℝ)
    (State.init (exampleSettings ℝ)) (Or.inr (by simp [exampleMiscountedEvent]))
  obtain ⟨e, he, -⟩ := (Make_eq_some _ _ _ _ t).mp ht
  have hM := accumulate_multiplicity realTMath _ _ _ e (fun _ _ => rfl) he
  have hlen : (rpTracks (exampleMiscountedEvent ℝ)).length = 2 := by
    simp [rpTracks, exampleMiscountedEvent, Option.filter]
  rw [hlen] at hM
  have hM2 : e.fSpk 0 0 = 2 := by rw [hM]; norm_num
  refine ⟨e, t, he, ht, hM2, by rw [hM2]; norm_num, by rw [hM2]; norm_num, ?_⟩
  rw [Make_3pCorrelatorPro realTMath (exampleSettings ℝ) _ _ e t rfl he ht,
    if_pos (by simp [exampleMiscountedEvent])]
  simp [TProfile.Fill, State.init, TProfile.book, hM2]

/-! ## Runs of events: the fills of a call of Make and the integrated running average -/

section Runs

variable {K : Type} [LinearOrderedField K] [FloorRing K]

lemma processEvents_cons (tm : TMath K) (cfg : Settings K) (ev : AliFlowEventSimple K)
    (evs : List (AliFlowEventSimple K)) (s : State K) :
    processEvents tm cfg (ev :: evs) s = (Make tm cfg ev s).bind (processEvents tm cfg evs) := by
  simp [processEvents, List.foldlM_cons]

lemma processEvents_nil (tm : TMath K) (cfg : Settings K) (s : State K) :
    processEvents tm cfg [] s = some s := rfl

lemma processEvents_some (tm : TMath K) (cfg : Settings K) (evs : List (AliFlowEventSimple K))
    (s : State K)
    (h : cfg.fEvaluateDifferential3pCorrelator = false ∨
      ∀ ev ∈ evs, ∀ o ∈ ev.tracks, o ≠ none) :
    ∃ t, processEvents tm cfg evs s = some t := by
  unfold processEvents
  apply foldlM_some_of_forall
  intro b ev hev
  apply Make_some
  rcases h with h | h
  · exact Or.inl h
  · exact Or.inr (h ev hev)

/-- On a state whose per-event quantities are those left by `Init`, `Make` returns exactly when
it returns right after `Init`, and then the state it leaves is the all-event part of the state
it started from followed by what it leaves after `Init`. -/
lemma Make_of_init (tm : TMath K) (cfg : Settings K) (ev : AliFlowEventSimple K)
    (s d : State K) (hs : s.prependFills (State.init cfg) = s)
    (hd : Make tm cfg ev (State.init cfg) = some d) :
    Make tm cfg ev s = some (s.prependFills d) := by
  have h := Make_prependFills tm cfg ev s (State.init cfg)
  rw [hs, hd] at h
  exact h

/-- C15: for a state `s` reached from `Init` by any list of `Make` calls and any event, a call of
`Make` appends to every all-event profile (integrated and vs-M 3-particle correlator, integrated
and vs-M non-isotropic terms, the two differential profiles) exactly the fills `d` that the same
call makes right after `Init`, whatever was processed before, and keeps the axes; processing
the event a second time right away returns and appends the same fills again.  The first call
returns when the differential mode is off or the event has no null track. -/
theorem Make_fills_depend_on_event_only (tm : TMath K) (cfg : Settings K)
    (evs : List (AliFlowEventSimple K)) (ev : AliFlowEventSimple K) (s : State K)
    (hs : processEvents tm cfg evs (State.init cfg) = some s) :
    ((cfg.fEvaluateDifferential3pCorrelator = false ∨ ∀ o ∈ ev.tracks, o ≠ none) →
      ∃ t, Make tm cfg ev s = some t) ∧
    (∀ t, Make tm cfg ev s = some t →
      ∃ d u, Make tm cfg ev (State.init cfg) = some d ∧ Make tm cfg ev t = some u ∧
        (t.f3pCorrelatorPro.fills = s.f3pCorrelatorPro.fills ++ d.f3pCorrelatorPro.fills ∧
          u.f3pCorrelatorPro.fills = t.f3pCorrelatorPro.fills ++ d.f3pCorrelatorPro.fills) ∧
        (t.f3pCorrelatorVsMPro.fills
            = s.f3pCorrelatorVsMPro.fills ++ d.f3pCorrelatorVsMPro.fills ∧
          u.f3pCorrelatorVsMPro.fills
            = t.f3pCorrelatorVsMPro.fills ++ d.f3pCorrelatorVsMPro.fills) ∧
        (t.fNonIsotropicTermsPro.fills
            = s.fNonIsotropicTermsPro.fills ++ d.fNonIsotropicTermsPro.fills ∧
          u.fNonIsotropicTermsPro.fills
            = t.fNonIsotropicTermsPro.fills ++ d.fNonIsotropicTermsPro.fills) ∧
        (t.fNonIsotropicTermsVsMPro.fills
            = s.fNonIsotropicTermsVsMPro.fills ++ d.fNonIsotropicTermsVsMPro.fills ∧
          u.fNonIsotropicTermsVsMPro.fills
            = t.fNonIsotropicTermsVsMPro.fills ++ d.fNonIsotropicTermsVsMPro.fills) ∧
        (∀ sd, (t.f3pCorrelatorVsPtSumDiffPro sd).fills
            = (s.f3pCorrelatorVsPtSumDiffPro sd).fills
              ++ (d.f3pCorrelatorVsPtSumDiffPro sd).fills ∧
          (u.f3pCorrelatorVsPtSumDiffPro sd).fills
            = (t.f3pCorrelatorVsPtSumDiffPro sd).fills
              ++ (d.f3pCorrelatorVsPtSumDiffPro sd).fills) ∧
        (t.f3pCorrelatorPro.fXaxis = s.f3pCorrelatorPro.fXaxis ∧
          u.f3pCorrelatorPro.fXaxis = s.f3pCorrelatorPro.fXaxis ∧
          t.f3pCorrelatorVsMPro.fXaxis = s.f3pCorrelatorVsMPro.fXaxis ∧
          u.f3pCorrelatorVsMPro.fXaxis = s.f3pCorrelatorVsMPro.fXaxis ∧
          t.fNonIsotropicTermsPro.fXaxis = s.fNonIsotropicTermsPro.fXaxis ∧
          u.fNonIsotropicTermsPro.fXaxis = s.fNonIsotropicTermsPro.fXaxis ∧
          t.fNonIsotropicTermsVsMPro.fXaxis = s.fNonIsotropicTermsVsMPro.fXaxis ∧
          u.fNonIsotropicTermsVsMPro.fXaxis = s.fNonIsotropicTermsVsMPro.fXaxis ∧
          t.fNonIsotropicTermsVsMPro.fYaxis = s.fNonIsotropicTermsVsMPro.fYaxis ∧
          u.fNonIsotropicTermsVsMPro.fYaxis = s.fNonIsotropicTermsVsMPro.fYaxis ∧
          ∀ sd, (t.f3pCorrelatorVsPtSumDiffPro sd).fXaxis
              = (s.f3pCorrelatorVsPtSumDiffPro sd).fXaxis ∧
            (u.f3pCorrelatorVsPtSumDiffPro sd).fXaxis
              = (s.f3pCorrelatorVsPtSumDiffPro sd).fXaxis)) := by
  have hfresh := processEvents_fresh tm cfg evs _ s (init_fresh cfg) hs
  refine ⟨Make_some tm cfg ev s, ?_⟩
  intro t ht
  obtain ⟨d, hd, rfl, htf⟩ := Make_of_fresh tm cfg ev s t hfresh ht
  refine ⟨d, (s.prependFills d).prependFills d, hd, Make_of_init tm cfg ev _ d htf hd,
    ⟨rfl, rfl⟩, ⟨rfl, rfl⟩, ⟨rfl, rfl⟩, ⟨rfl, rfl⟩, fun sd => ⟨rfl, rfl⟩,
    rfl, rfl, rfl, rfl, rfl, rfl, rfl, rfl, rfl, rfl, fun sd => ⟨rfl, rfl⟩⟩

end Runs

/-- Witness for C15: the example event processed three times in a row after `Init`. -/
theorem Make_fills_depend_on_event_only_witness :
    ∃ s t d u, processEvents realTMath (exampleSettings ℝ) [exampleEvent ℝ]
        (State.init (exampleSettings ℝ)) = some s ∧
      Make realTMath (exampleSettings ℝ) (exampleEvent ℝ) s = some t ∧
      Make realTMath (exampleSettings ℝ) (exampleEvent ℝ) (State.init (exampleSettings ℝ))
        = some d ∧
      Make realTMath (exampleSettings ℝ) (exampleEvent ℝ) t = some u ∧
      t.f3pCorrelatorPro.fills = s.f3pCorrelatorPro.fills ++ d.f3pCorrelatorPro.fills ∧
      u.f3pCorrelatorPro.fills = t.f3pCorrelatorPro.fills ++ d.f3pCorrelatorPro.fills := by
  obtain ⟨s, hs⟩ := processEvents_some realTMath (exampleSettings ℝ) [exampleEvent ℝ]
    (State.init (exampleSettings ℝ)) (Or.inr (by simp [exampleEvent]))
  have T := Make_fills_depend_on_event_only realTMath (exampleSettings ℝ) [exampleEvent ℝ]
    (exampleEvent ℝ) s hs
  obtain ⟨t, ht⟩ := T.1 (Or.inr (by simp [exampleEvent]))
  obtain ⟨d, u, hd, hu, h1, -⟩ := T.2 t ht
  exact ⟨s, t, d, u, hs, ht, hd, hu, h1.1, h1.2⟩
section RunAverage

/-- The value computed by `Calculate3pCorrelator` for an event accumulated from zeroed tables is
the nested-loop average over the triples of distinct reference particles (both are quotients by
`M(M-1)(M-2)` of equal numerators). -/
lemma three1n1n2n_eq_naive (cfg : Settings ℝ) (ev : AliFlowEventSimple ℝ) (s e : State ℝ)
    (hRe : ∀ m k, s.fReQnk m k = 0) (hIm : ∀ m k, s.fImQnk m k = 0)
    (hS : ∀ p k, s.fSpk p k = 0) (he : accumulate realTMath cfg ev s = some e) :
    three1n1n2n (e.fReQnk 0 0) (e.fImQnk 0 0) (e.fReQnk 1 0) (e.fImQnk 1 0) (e.fSpk 0 0)
      = naive3pCorrelator realTMath cfg.fHarmonic (rpPhis ev) ∧
    e.fSpk 0 0 * (e.fSpk 0 0 - 1) * (e.fSpk 0 0 - 2) = eventWeight3p ev := by
  obtain ⟨q1, q2, q3, q4, q5⟩ := reducer_inputs cfg ev s e hRe hIm hS he
  have hnum : (∑ i : Fin (rpPhis ev).length, ∑ j : Fin (rpPhis ev).length,
      ∑ k : Fin (rpPhis ev).length,
        if i ≠ j ∧ i ≠ k ∧ j ≠ k then
          realTMath.Cos ((cfg.fHarmonic : ℝ)
            * ((rpPhis ev)[i.1] + (rpPhis ev)[j.1] - 2 * (rpPhis ev)[k.1]))
        else 0) =
      ∑ i : Fin (rpPhis ev).length, ∑ j : Fin (rpPhis ev).length,
        ∑ k : Fin (rpPhis ev).length,
          if i ≠ j ∧ i ≠ k ∧ j ≠ k then
            Real.cos ((cfg.fHarmonic : ℝ) * (rpPhis ev)[i.1]
              + (cfg.fHarmonic : ℝ) * (rpPhis ev)[j.1]
              - 2 * ((cfg.fHarmonic : ℝ) * (rpPhis ev)[k.1]))
          else 0 := by
    refine Finset.sum_congr rfl (fun i _ => Finset.sum_congr rfl (fun j _ =>
      Finset.sum_congr rfl (fun k _ => ?_)))
    by_cases h : i ≠ j ∧ i ≠ k ∧ j ≠ k
    · rw [if_pos h, if_pos h]
      show Real.cos _ = Real.cos _
      congr 1
      ring
    · rw [if_neg h, if_neg h]
  constructor
  · unfold three1n1n2n naive3pCorrelator
    rw [hnum, triple_cos (fun i : Fin (rpPhis ev).length =>
      (cfg.fHarmonic : ℝ) * (rpPhis ev)[i.1]), q1, q2, q3, q4, q5, Fintype.card_fin]
  · rw [q5]
    rfl

/-- The fills of the integrated 3-particle profile made by `Make` right after `Init`, with no
particle weights enabled. -/
lemma Make_init_3pFills (cfg : Settings ℝ) (ev : AliFlowEventSimple ℝ) (d : State ℝ)
    (hw : cfg.usesParticleWeights = false)
    (hd : Make realTMath cfg ev (State.init cfg) = some d) :
    d.f3pCorrelatorPro.fills =
      if ev.GetEventNSelTracksRP ≥ 3 then
        [(1 / 2, naive3pCorrelator realTMath cfg.fHarmonic (rpPhis ev), eventWeight3p ev)]
      else [] := by
  obtain ⟨e, he, -⟩ := (Make_eq_some realTMath cfg ev _ d).mp hd
  obtain ⟨hv, hW⟩ := three1n1n2n_eq_naive cfg ev (State.init cfg) e (fun _ _ => rfl)
    (fun _ _ => rfl) (fun _ _ => rfl) he
  rw [Make_3pCorrelatorPro realTMath cfg ev _ e d hw he hd, hv, hW]
  split_ifs <;> simp [TProfile.Fill, State.init, TProfile.book]

/-- The log of the integrated 3-particle profile after a run: one fill per event whose stored
counter is at least 3, in the order of the events. -/
lemma processEvents_3pFills (cfg : Settings ℝ) (hw : cfg.usesParticleWeights = false)
    (evs : List (AliFlowEventSimple ℝ)) (s t : State ℝ)
    (hs : s.prependFills (State.init cfg) = s)
    (h : processEvents realTMath cfg evs s = some t) :
    t.f3pCorrelatorPro.fXaxis = s.f3pCorrelatorPro.fXaxis ∧
    t.f3pCorrelatorPro.fills = s.f3pCorrelatorPro.fills ++
      (evs.filter (fun ev => decide (ev.GetEventNSelTracksRP ≥ 3))).map
        (fun ev => (1 / 2, naive3pCorrelator realTMath cfg.fHarmonic (rpPhis ev),
          eventWeight3p ev)) := by
  induction evs generalizing s with
  | nil =>
    rw [processEvents_nil] at h
    cases h
    simp
  | cons ev evs ih =>
    rw [processEvents_cons] at h
    simp only [Option.bind_eq_some] at h
    obtain ⟨s1, h1, h2⟩ := h
    obtain ⟨d, hd, rfl, hs1⟩ := Make_of_fresh realTMath cfg ev s s1 hs h1
    obtain ⟨a1, a2⟩ := ih (s.prependFills d) hs1 h2
    have hf := Make_init_3pFills cfg ev d hw hd
    refine ⟨a1, ?_⟩
    rw [a2]
    show (s.f3pCorrelatorPro.fills ++ d.f3pCorrelatorPro.fills) ++ _ = _
    rw [hf, List.filter_cons]
    by_cases hc : ev.GetEventNSelTracksRP ≥ 3
    · simp [hc]
    · simp [hc]

/-- The content of the only bin of a profile all of whose fills are at `x = 1/2`. -/
lemma GetBinContent_of_half {α : Type} (l : List α) (c w : α → ℝ) :
    (⟨⟨1, 0, 1⟩, l.map (fun a => (1 / 2, c a, w a))⟩ : TProfile ℝ).GetBinContent 1
      = (l.map (fun a => w a * c a)).sum / (l.map w).sum := by
  have hb : (⟨1, 0, 1⟩ : TAxis ℝ).FindBin (1 / 2) = 1 := by
    have h := TAxis.FindBin_half (⟨1, 0, 1⟩ : TAxis ℝ) rfl (by simp) 0 le_rfl (by simp)
    simpa using h
  have hfilter : (l.map (fun a => ((1 / 2 : ℝ), c a, w a))).filter
      (fun f => decide ((⟨1, 0, 1⟩ : TAxis ℝ).FindBin f.1 = 1))
      = l.map (fun a => ((1 / 2 : ℝ), c a, w a)) := by
    rw [List.filter_eq_self]
    intro f hf
    obtain ⟨a, -, rfl⟩ := List.mem_map.mp hf
    exact decide_eq_true hb
  unfold TProfile.GetBinContent TProfile.GetBinEntries TProfile.binSumwy TProfile.binFills
  simp only [hfilter, List.map_map]
  have e1 : ((fun f : ℝ × ℝ × ℝ => f.2.2) ∘ fun a => ((1 / 2 : ℝ), c a, w a)) = w := rfl
  have e2 : ((fun f : ℝ × ℝ × ℝ => f.2.2 * f.2.1) ∘ fun a => ((1 / 2 : ℝ), c a, w a))
      = fun a => w a * c a := rfl
  rw [e1, e2]
  by_cases h0 : (l.map w).sum = 0
  · rw [if_pos h0, h0, div_zero]
  · rw [if_neg h0]

lemma Make_3p_skip {K : Type} [LinearOrderedField K] [FloorRing K] (tm : TMath K)
    (cfg : Settings K) (ev : AliFlowEventSimple K) (s t : State K)
    (hlt : ev.GetEventNSelTracksRP < 3) (ht : Make tm cfg ev s = some t) :
    t.f3pCorrelatorPro = s.f3pCorrelatorPro := by
  obtain ⟨e, he, rfl⟩ := (Make_eq_some tm cfg ev s t).mp ht
  have ha := accumulate_allEvent tm cfg ev s e he
  simp only [State.allEvent, Prod.mk.injEq] at ha
  rw [(reduceAndReset_3p cfg ev e).1, if_neg (by omega)]
  exact ha.1

/-- C16 (amended): over the reals, with no particle weights enabled, for a run started after
`Init` on a list of events each of whose stored counter `GetEventNSelTracksRP()` equals its
number of (non-null) tracks flagged as reference particles, the content of the only bin of the
integrated 3-particle profile is the sum of `W_e * c_e` over the events with at least 3
reference particles divided by the sum of `W_e` over those events, `c_e` being the average of
`cos[n(phi1+phi2-2phi3)]` over the triples of distinct reference particles of the event and
`W_e = M_e(M_e-1)(M_e-2)` their number; the profile holds one fill `(c_e, W_e)` for each of these
events and none for the others, and a call of `Make` on an event with fewer than 3 reference
particles leaves the profile as it was.  The run returns when the differential mode is off or
no event has a null track. -/
theorem processEvents_integrated_average (cfg : Settings ℝ)
    (evs : List (AliFlowEventSimple ℝ))
    (hPhi : cfg.fUsePhiWeights = false) (hPt : cfg.fUsePtWeights = false)
    (hEta : cfg.fUseEtaWeights = false)
    (hcount : ∀ ev ∈ evs, ev.GetEventNSelTracksRP = ((rpPhis ev).length : Int)) :
    ((cfg.fEvaluateDifferential3pCorrelator = false ∨
        ∀ ev ∈ evs, ∀ o ∈ ev.tracks, o ≠ none) →
      ∃ s, processEvents realTMath cfg evs (State.init cfg) = some s) ∧
    (∀ s, processEvents realTMath cfg evs (State.init cfg) = some s →
      s.f3pCorrelatorPro.GetBinContent 1 = naiveRunAverage realTMath cfg.fHarmonic evs ∧
      s.f3pCorrelatorPro.fills =
        (evs.filter (fun ev => decide (3 ≤ (rpPhis ev).length))).map
          (fun ev => (1 / 2, naive3pCorrelator realTMath cfg.fHarmonic (rpPhis ev),
            eventWeight3p ev))) ∧
    (∀ ev ∈ evs, (rpPhis ev).length < 3 → ∀ s t : State ℝ,
      Make realTMath cfg ev s = some t → t.f3pCorrelatorPro = s.f3pCorrelatorPro) := by
  have hw : cfg.usesParticleWeights = false := by
    simp [Settings.usesParticleWeights, hPhi, hPt, hEta]
  have hfilter : evs.filter (fun ev => decide (ev.GetEventNSelTracksRP ≥ 3))
      = evs.filter (fun ev => decide (3 ≤ (rpPhis ev).length)) := by
    apply List.filter_congr
    intro ev hev
    have := hcount ev hev
    simp only [decide_eq_decide]
    omega
  refine ⟨processEvents_some realTMath cfg evs _, ?_, ?_⟩
  · intro s hs
    obtain ⟨a1, a2⟩ := processEvents_3pFills cfg hw evs _ s (init_fresh cfg) hs
    rw [hfilter] at a2
    have hfills : s.f3pCorrelatorPro.fills =
        (evs.filter (fun ev => decide (3 ≤ (rpPhis ev).length))).map
          (fun ev => (1 / 2, naive3pCorrelator realTMath cfg.fHarmonic (rpPhis ev),
            eventWeight3p ev)) := by
      rw [a2]
      simp [State.init, TProfile.book]
    refine ⟨?_, hfills⟩
    have hp : s.f3pCorrelatorPro = ⟨⟨1, 0, 1⟩,
        (evs.filter (fun ev => decide (3 ≤ (rpPhis ev).length))).map
          (fun ev => (1 / 2, naive3pCorrelator realTMath cfg.fHarmonic (rpPhis ev),
            eventWeight3p ev))⟩ := by
      rw [← hfills]
      have : s.f3pCorrelatorPro.fXaxis = ⟨1, 0, 1⟩ := by
        rw [a1]
        simp [State.init, TProfile.book]
      rw [← this]
    rw [hp, GetBinContent_of_half]
    rfl
  · intro ev hev hlt s t ht
    apply Make_3p_skip realTMath cfg ev s t _ ht
    have := hcount ev hev
    omega

end RunAverage
lemma rpPhis_exampleEvent : rpPhis (exampleEvent ℝ) = [0, 0, 0, 0] := by
  simp [rpPhis, rpTracks_exampleEvent]

/-- Witness for C16: the run on the example event alone (counter 4, four reference
particles). -/
theorem processEvents_integrated_average_witness :
    ∃ s, processEvents realTMath (exampleSettings ℝ) [exampleEvent ℝ]
        (State.init (exampleSettings ℝ)) = some s ∧
      s.f3pCorrelatorPro.GetBinContent 1
        = naiveRunAverage realTMath (exampleSettings ℝ).fHarmonic [exampleEvent ℝ] := by
  have T := processEvents_integrated_average (exampleSettings ℝ) [exampleEvent ℝ] rfl rfl rfl
    (by
      intro ev hev
      rw [List.mem_singleton] at hev
      subst hev
      rw [rpPhis_exampleEvent]
      rfl)
  obtain ⟨s, hs⟩ := T.1 (Or.inr (by simp [exampleEvent]))
  exact ⟨s, hs, (T.2.1 s hs).1⟩

lemma rpTracks_exampleUncountedEvent :
    rpTracks (exampleUncountedEvent ℝ) =
      [⟨0, 1, 0, 1, true, false⟩, ⟨0, 1, 0, 1, true, false⟩, ⟨0, 1, 0, 1, true, false⟩] := by
  simp [rpTracks, exampleUncountedEvent, Option.filter]

/-- The nested-loop 3-particle average of three reference particles at `phi = 0` is 1. -/
lemma naive3pCorrelator_exampleUncountedEvent :
    naive3pCorrelator realTMath (exampleSettings ℝ).fHarmonic
      (rpPhis (exampleUncountedEvent ℝ)) = 1 := by
  obtain ⟨s1, h1⟩ := trackLoop_some realTMath (exampleSettings ℝ) (exampleUncountedEvent ℝ)
    (State.init (exampleSettings ℝ)) (Or.inr (by simp [exampleUncountedEvent]))
  have he : accumulate realTMath (exampleSettings ℝ) (exampleUncountedEvent ℝ)
      (State.init (exampleSettings ℝ)) = some (finalizeSpk s1) :=
    (accumulate_eq_some _ _ _ _ _).mpr ⟨s1, h1, rfl⟩
  obtain ⟨hv, -⟩ := three1n1n2n_eq_naive (exampleSettings ℝ) (exampleUncountedEvent ℝ)
    (State.init (exampleSettings ℝ)) _ (fun _ _ => rfl) (fun _ _ => rfl) (fun _ _ => rfl) he
  rw [← hv]
  obtain ⟨a1, a2, a3⟩ := trackLoop_matrices realTMath _ _ _ s1 h1
  have e1 := a1 0 0 (by norm_num) (by norm_num)
  have e2 := a2 0 0 (by norm_num) (by norm_num)
  have e3 := a1 1 0 (by norm_num) (by norm_num)
  have e4 := a2 1 0 (by norm_num) (by norm_num)
  have e5 := a3 0 0 (by norm_num) (by norm_num)
  rw [rpTracks_exampleUncountedEvent] at e1 e2 e3 e4 e5
  have q1 : (finalizeSpk s1).fReQnk 0 0 = 3 := by
    show s1.fReQnk 0 0 = 3
    rw [e1]; norm_num [State.init, reQTerm, realTMath]
  have q2 : (finalizeSpk s1).fImQnk 0 0 = 0 := by
    show s1.fImQnk 0 0 = 0
    rw [e2]; norm_num [State.init, imQTerm, realTMath]
  have q3 : (finalizeSpk s1).fReQnk 1 0 = 3 := by
    show s1.fReQnk 1 0 = 3
    rw [e3]; norm_num [State.init, reQTerm, realTMath]
  have q4 : (finalizeSpk s1).fImQnk 1 0 = 0 := by
    show s1.fImQnk 1 0 = 0
    rw [e4]; norm_num [State.init, imQTerm, realTMath]
  have q5 : (finalizeSpk s1).fSpk 0 0 = 3 := by
    simp only [finalizeSpk]
    rw [if_pos (by norm_num), e5]; norm_num [State.init]
  rw [q1, q2, q3, q4, q5]
  norm_num [three1n1n2n]

/-- Counterexample to C16 as stated: the run on the single event with three reference particles
at `phi = 0` whose stored counter is 0 leaves the integrated profile empty (content 0), while the
average over the triples of reference particles of the processed events is 1. -/
theorem processEvents_uncounted_event :
    ∃ s, processEvents realTMath (exampleSettings ℝ) [exampleUncountedEvent ℝ]
        (State.init (exampleSettings ℝ)) = some s ∧
      s.f3pCorrelatorPro.fills = [] ∧
      s.f3pCorrelatorPro.GetBinContent 1 = 0 ∧
      naiveRunAverage realTMath (exampleSettings ℝ).fHarmonic [exampleUncountedEvent ℝ] = 1 := by
  obtain ⟨s, hs⟩ := processEvents_some realTMath (exampleSettings ℝ) [exampleUncountedEvent ℝ]
    (State.init (exampleSettings ℝ)) (Or.inr (by simp [exampleUncountedEvent]))
  have hm : Make realTMath (exampleSettings ℝ) (exampleUncountedEvent ℝ)
      (State.init (exampleSettings ℝ)) = some s := by
    rw [processEvents_cons] at hs
    simp only [Option.bind_eq_some] at hs
    obtain ⟨s1, h1, h2⟩ := hs
    rw [processEvents_nil] at h2
    cases h2
    exact h1
  have hp := Make_3p_skip realTMath _ _ _ s (by simp [exampleUncountedEvent]) hm
  have hlen : (rpPhis (exampleUncountedEvent ℝ)).length = 3 := by
    simp [rpPhis, rpTracks_exampleUncountedEvent]
  refine ⟨s, hs, by rw [hp]; rfl, ?_, ?_⟩
  · rw [hp]
    simp [TProfile.GetBinContent, TProfile.GetBinEntries, TProfile.binFills, State.init,
      TProfile.book]
  · unfold naiveRunAverage
    simp only [List.filter_cons, List.filter_nil, hlen, le_refl, decide_True, if_true,
      List.map_cons, List.map_nil, List.sum_cons, List.sum_nil, add_zero,
      naive3pCorrelator_exampleUncountedEvent, eventWeight3p]
    norm_num

/-! ## The bins of the differential fills -/

section DiffBins

variable {K : Type} [LinearOrderedField K] [FloorRing K]

lemma foldl_diffBinStep_eq (cfg : Settings K) (s : State K) (sd : Nat) (l : List Int)
    (p : TProfile K) :
    l.foldl (diffBinStep cfg s sd) p =
      ⟨p.fXaxis, p.fills ++ l.map (fun b =>
        (cfg.fPtMin + ((b - 1 : Int) : K) * cfg.fPtBinWidth, diffValue s sd b,
          diffWeight s sd b))⟩ := by
  induction l generalizing p with
  | nil => simp
  | cons b l ih =>
    rw [List.foldl_cons, ih]
    simp [diffBinStep, TProfile.Fill, List.append_assoc]

/-- The all-event differential profile after `CalculateDifferential3pCorrelator` (no particle
weights): the old fills followed by one fill per loop pass `c = 1 .. fnBinsPt`. -/
lemma CalculateDifferential3pCorrelator_profile (cfg : Settings K) (s : State K) (sd : Nat)
    (hw : cfg.usesParticleWeights = false) (hsd : sd < 2) :
    (CalculateDifferential3pCorrelator cfg s).f3pCorrelatorVsPtSumDiffPro sd =
      ⟨(s.f3pCorrelatorVsPtSumDiffPro sd).fXaxis,
        (s.f3pCorrelatorVsPtSumDiffPro sd).fills ++ (binLoop cfg.fnBinsPt).map (fun b =>
          (cfg.fPtMin + ((b - 1 : Int) : K) * cfg.fPtBinWidth, diffValue s sd b,
            diffWeight s sd b))⟩ := by
  unfold CalculateDifferential3pCorrelator
  simp only [hw, Bool.not_false, if_true, hsd]
  exact foldl_diffBinStep_eq cfg s sd _ _

lemma binLoop_two : binLoop 2 = [1, 2] := by
  simp [binLoop, List.range_succ]

end DiffBins

lemma exampleShifted_FindBin :
    (pairAxis (exampleShiftedSettings ℝ)).FindBin 1 = 2 ∧
    (pairAxis (exampleShiftedSettings ℝ)).FindBin (3 / 2) = 2 ∧
    (pairAxis (exampleShiftedSettings ℝ)).FindBin (1 / 10) = 1 ∧
    (pairAxis (exampleShiftedSettings ℝ)).FindBin (5 / 4) = 2 := by
  have f1 : ⌊(1 : ℝ)⌋ = 1 := by
    rw [Int.floor_eq_iff]; constructor <;> norm_num
  have f2 : ⌊(3 / 2 : ℝ)⌋ = 1 := by
    rw [Int.floor_eq_iff]; constructor <;> norm_num
  have f3 : ⌊(1 / 10 : ℝ)⌋ = 0 := by
    rw [Int.floor_eq_iff]; constructor <;> norm_num
  have f4 : ⌊(5 / 4 : ℝ)⌋ = 1 := by
    rw [Int.floor_eq_iff]; constructor <;> norm_num
  refine ⟨?_, ?_, ?_, ?_⟩ <;>
    · unfold TAxis.FindBin pairAxis exampleShiftedSettings exampleSettings toInt
      norm_num [f1, f2, f3, f4]

/-- Evaluation for C19 at a pt range that does not start at 0 (`fPtMin = 1`, `fPtMax = 2`,
`fnBinsPt = 2`, `fPtBinWidth = 1/2`): `CalculateDifferential3pCorrelator` makes the fill computed
from bin 1 of the per-event profiles at `x = 1` and the fill computed from bin 2 at `x = 3/2`,
and on the axis with which the all-event differential profiles are booked (2 bins over
`[0, 2)`) both positions lie in bin 2: the value of bin 1 is filled into bin 2. -/
theorem CalculateDifferential3pCorrelator_shifted_bins :
    (exampleShiftedSettings ℝ).fPtMin < (exampleShiftedSettings ℝ).fPtMax ∧
    1 ≤ (exampleShiftedSettings ℝ).fnBinsPt ∧
    (exampleShiftedSettings ℝ).fPtBinWidth =
      ((exampleShiftedSettings ℝ).fPtMax - (exampleShiftedSettings ℝ).fPtMin)
        / ((exampleShiftedSettings ℝ).fnBinsPt : ℝ) ∧
    (∀ s : State ℝ,
      ((CalculateDifferential3pCorrelator (exampleShiftedSettings ℝ) s).f3pCorrelatorVsPtSumDiffPro
          0).fills =
        (s.f3pCorrelatorVsPtSumDiffPro 0).fills ++
          [(1, diffValue s 0 1, diffWeight s 0 1), (3 / 2, diffValue s 0 2, diffWeight s 0 2)]) ∧
    ((State.init (exampleShiftedSettings ℝ)).f3pCorrelatorVsPtSumDiffPro 0).fXaxis.FindBin 1 = 2 ∧
    ((State.init (exampleShiftedSettings ℝ)).f3pCorrelatorVsPtSumDiffPro 0).fXaxis.FindBin (3 / 2)
      = 2 := by
  refine ⟨by norm_num [exampleShiftedSettings], by norm_num [exampleShiftedSettings],
    by norm_num [exampleShiftedSettings], ?_, exampleShifted_FindBin.1,
    exampleShifted_FindBin.2.1⟩
  intro s
  rw [CalculateDifferential3pCorrelator_profile (exampleShiftedSettings ℝ) s 0 rfl (by norm_num)]
  have hn : (exampleShiftedSettings ℝ).fnBinsPt = 2 := rfl
  simp only [hn, binLoop_two, List.map_cons, List.map_nil]
  norm_num [exampleShiftedSettings]

lemma trackAt_exampleShiftedEvent :
    trackAt (exampleShiftedEvent ℝ) 0 = ⟨0, 1, 0, 1, true, false⟩ ∧
    trackAt (exampleShiftedEvent ℝ) 1 = ⟨0, 6 / 5, 0, 1, false, true⟩ ∧
    trackAt (exampleShiftedEvent ℝ) 2 = ⟨0, 13 / 10, 0, 1, false, true⟩ := ⟨rfl, rfl, rfl⟩

lemma naiveDiffCount_exampleShiftedEvent :
    naiveDiffCount (exampleShiftedSettings ℝ) (exampleShiftedEvent ℝ) 1 1 = 2 ∧
    naiveDiffCount (exampleShiftedSettings ℝ) (exampleShiftedEvent ℝ) 1 2 = 0 := by
  obtain ⟨t0, t1, t2⟩ := trackAt_exampleShiftedEvent
  have hb := exampleShifted_FindBin.2.2.1
  have ho : (exampleShiftedSettings ℝ).fOppositeChargesPOI = false := rfl
  have hlen : (exampleShiftedEvent ℝ).tracks.length = 3 := rfl
  have hx : |(1 / 10 : ℝ)| = 1 / 10 := abs_of_pos (by norm_num)
  constructor
  · unfold naiveDiffCount
    rw [hlen]
    simp only [Finset.sum_range_succ, Finset.sum_range_zero, tripleCounts, pairPasses, t0, t1,
      t2, pairX, ho]
    norm_num [hb, hx]
  · unfold naiveDiffCount
    rw [hlen]
    simp only [Finset.sum_range_succ, Finset.sum_range_zero, tripleCounts, pairPasses, t0, t1,
      t2, pairX, ho]
    norm_num [hb, hx]

/-- Evaluation for C18 at a pt range that does not start at 0 (`fPtMin = 1`, `fPtMax = 2`,
`fnBinsPt = 2`): for the event with one reference particle and the two particles of interest of
`pt = 6/5` and `13/10`, bin 2 of `|pt1 - pt2|` holds no pair and its effective weight is 0, bin 1
holds both ordered pairs and its weight is 2; the fill computed from bin 1 is made at `x = 1`,
which lies in bin 2 of the all-event profile, so the sum of weights of bin 2 goes from 0 to 2. -/
theorem CalculateDifferential3pCorrelator_shifted_contribution :
    ∃ e, accumulate realTMath (exampleShiftedSettings ℝ) (exampleShiftedEvent ℝ)
        (State.init (exampleShiftedSettings ℝ)) = some e ∧
      (e.fRePEBE 1).GetBinEntries 2 = 0 ∧ (e.fOverlapEBE 0 1).GetBinEntries 2 = 0 ∧
      (e.fOverlapEBE 1 1).GetBinEntries 2 = 0 ∧
      diffWeight e 1 2 = 0 ∧ diffWeight e 1 1 = 2 ∧
      (e.f3pCorrelatorVsPtSumDiffPro 1).GetBinEntries 2 = 0 ∧
      ((CalculateDifferential3pCorrelator (exampleShiftedSettings ℝ)
        e).f3pCorrelatorVsPtSumDiffPro 1).GetBinEntries 2 = 2 := by
  obtain ⟨s1, h1⟩ := trackLoop_some realTMath (exampleShiftedSettings ℝ) (exampleShiftedEvent ℝ)
    (State.init (exampleShiftedSettings ℝ)) (Or.inr (by simp [exampleShiftedEvent]))
  have he : accumulate realTMath (exampleShiftedSettings ℝ) (exampleShiftedEvent ℝ)
      (State.init (exampleShiftedSettings ℝ)) = some (finalizeSpk s1) :=
    (accumulate_eq_some _ _ _ _ _).mpr ⟨s1, h1, rfl⟩
  have hD := fun b => (diff_inputs (exampleShiftedSettings ℝ) (exampleShiftedEvent ℝ)
    (State.init (exampleShiftedSettings ℝ)) (finalizeSpk s1) rfl (fun _ _ => rfl)
    (fun _ _ => rfl) (fun _ _ => rfl) (fun _ _ => ⟨rfl, rfl, rfl, rfl⟩) he 1 (by norm_num) b).1
  have w1 : diffWeight (finalizeSpk s1) 1 1 = 2 := by
    rw [hD 1, naiveDiffCount_exampleShiftedEvent.1]
  have w2 : diffWeight (finalizeSpk s1) 1 2 = 0 := by
    rw [hD 2, naiveDiffCount_exampleShiftedEvent.2]
  have ha := accumulate_allEvent realTMath _ _ _ _ he
  simp only [State.allEvent, Prod.mk.injEq] at ha
  have hold : (finalizeSpk s1).f3pCorrelatorVsPtSumDiffPro 1
      = TProfile.book 2 0 2 := by
    rw [ha.2.2.2.2.1]
    rfl
  have hnew := CalculateDifferential3pCorrelator_profile (exampleShiftedSettings ℝ)
    (finalizeSpk s1) 1 rfl (by norm_num)
  have hn : (exampleShiftedSettings ℝ).fnBinsPt = 2 := rfl
  rw [hold] at hnew
  simp only [hn, binLoop_two, List.map_cons, List.map_nil, w1, w2] at hnew
  have b1 : (⟨2, 0, 2⟩ : TAxis ℝ).FindBin 1 = 2 := exampleShifted_FindBin.1
  have b2 : (⟨2, 0, 2⟩ : TAxis ℝ).FindBin (3 / 2) = 2 := exampleShifted_FindBin.2.1
  have hb := exampleShifted_FindBin.2.2.1
  have hx : |(1 / 10 : ℝ)| = 1 / 10 := abs_of_pos (by norm_num)
  obtain ⟨t0, t1, t2⟩ := trackAt_exampleShiftedEvent
  have ho : (exampleShiftedSettings ℝ).fOppositeChargesPOI = false := rfl
  have hlen : (exampleShiftedEvent ℝ).tracks.length = 3 := rfl
  have hP := fun w => accumulate_pairProfile realTMath (exampleShiftedSettings ℝ)
    (exampleShiftedEvent ℝ) (State.init (exampleShiftedSettings ℝ)) (finalizeSpk s1) rfl
    (fun _ _ => ⟨rfl, rfl, rfl, rfl⟩) he w 1 (by norm_num)
  have hE : ∀ w, w = 0 ∨ w = 2 ∨ w = 3 → (pairProfile (finalizeSpk s1) w 1).GetBinEntries 2 = 0 := by
    intro w hw
    rw [(pairLog_profile_stats realTMath (exampleShiftedSettings ℝ) (exampleShiftedEvent ℝ) w 1
      _ (hP w) 2).1, hlen]
    rcases hw with rfl | rfl | rfl
    · simp only [(loopEntries_binSum realTMath (exampleShiftedSettings ℝ)
        (exampleShiftedEvent ℝ) 1 _ 2 _ _ _).1, Finset.sum_range_succ, Finset.sum_range_zero,
        pairPasses, t0, t1, t2, pairX, ho]
      norm_num [hb, hx]
    · simp only [(loopEntries_binSum realTMath (exampleShiftedSettings ℝ)
        (exampleShiftedEvent ℝ) 1 _ 2 _ _ _).2.2.1, Finset.sum_range_succ, Finset.sum_range_zero,
        pairPasses, t0, t1, t2, pairX, ho]
      norm_num [hb, hx]
    · simp only [(loopEntries_binSum realTMath (exampleShiftedSettings ℝ)
        (exampleShiftedEvent ℝ) 1 _ 2 _ _ _).2.2.2, Finset.sum_range_succ, Finset.sum_range_zero,
        pairPasses, t0, t1, t2, pairX, ho]
      norm_num [hb, hx]
  refine ⟨finalizeSpk s1, he, ?_, ?_, ?_, w2, w1, ?_, ?_⟩
  · exact hE 0 (Or.inl rfl)
  · exact hE 2 (Or.inr (Or.inl rfl))
  · exact hE 3 (Or.inr (Or.inr rfl))
  · rw [hold]
    simp [TProfile.GetBinEntries, TProfile.binFills, TProfile.book]
  · rw [hnew]
    have x1 : (exampleShiftedSettings ℝ).fPtMin
        + (((1 : Int) - 1 : Int) : ℝ) * (exampleShiftedSettings ℝ).fPtBinWidth = 1 := by
      norm_num [exampleShiftedSettings]
    have x2 : (exampleShiftedSettings ℝ).fPtMin
        + (((2 : Int) - 1 : Int) : ℝ) * (exampleShiftedSettings ℝ).fPtBinWidth = 3 / 2 := by
      norm_num [exampleShiftedSettings]
    simp only [TProfile.GetBinEntries, TProfile.binFills, x1, x2, TProfile.book,
      List.nil_append, List.filter_cons, List.filter_nil, b1, b2, decide_True, if_true,
      List.map_cons, List.map_nil, List.sum_cons, List.sum_nil]
    norm_num
section AlignedBins

variable {K : Type} [LinearOrderedField K] [FloorRing K]

/-- For a pt range that starts at 0 the fill position of loop pass `b` lies in bin `b` of the
booked axis. -/
lemma aligned_fill_bin (cfg : Settings K) (h0 : cfg.fPtMin = 0) (hmax : 0 < cfg.fPtMax)
    (hwid : cfg.fPtBinWidth = (cfg.fPtMax - cfg.fPtMin) / (cfg.fnBinsPt : K))
    (b : Int) (hb1 : 1 ≤ b) (hb2 : b ≤ cfg.fnBinsPt) :
    (pairAxis cfg).FindBin (cfg.fPtMin + ((b - 1 : Int) : K) * cfg.fPtBinWidth) = b := by
  have hn : (0 : K) < (cfg.fnBinsPt : K) := by
    have : (0 : Int) < cfg.fnBinsPt := by omega
    exact_mod_cast this
  have hb0 : (0 : K) ≤ ((b - 1 : Int) : K) := by
    have : (0 : Int) ≤ b - 1 := by omega
    exact_mod_cast this
  have hbn : ((b - 1 : Int) : K) < (cfg.fnBinsPt : K) := by
    have : b - 1 < cfg.fnBinsPt := by omega
    exact_mod_cast this
  have hx : cfg.fPtMin + ((b - 1 : Int) : K) * cfg.fPtBinWidth
      = ((b - 1 : Int) : K) * cfg.fPtMax / (cfg.fnBinsPt : K) := by
    rw [hwid, h0]
    ring
  have hx0 : ¬ (((b - 1 : Int) : K) * cfg.fPtMax / (cfg.fnBinsPt : K) < 0) :=
    not_lt.mpr (div_nonneg (mul_nonneg hb0 hmax.le) hn.le)
  have hx1 : ((b - 1 : Int) : K) * cfg.fPtMax / (cfg.fnBinsPt : K) < cfg.fPtMax := by
    rw [div_lt_iff₀ hn]
    nlinarith
  have hq : (cfg.fnBinsPt : K) * (((b - 1 : Int) : K) * cfg.fPtMax / (cfg.fnBinsPt : K) - 0)
      / (cfg.fPtMax - 0) = ((b - 1 : Int) : K) := by
    field_simp
  rw [hx]
  unfold TAxis.FindBin pairAxis
  simp only
  rw [if_neg hx0, if_neg (not_not.mpr hx1), hq, toInt_of_nonneg hb0, Int.floor_intCast]
  ring

/-- For a pt range that starts at 0, a bin `b` whose effective weight is 0 keeps its sum of
weights and its weighted sum across `CalculateDifferential3pCorrelator`. -/
lemma CalculateDifferential3pCorrelator_zero_weight_bin (cfg : Settings K) (s : State K)
    (sd : Nat) (hsd : sd < 2) (hw : cfg.usesParticleWeights = false)
    (h0 : cfg.fPtMin = 0) (hmax : 0 < cfg.fPtMax)
    (hwid : cfg.fPtBinWidth = (cfg.fPtMax - cfg.fPtMin) / (cfg.fnBinsPt : K))
    (hax : (s.f3pCorrelatorVsPtSumDiffPro sd).fXaxis = pairAxis cfg)
    (b : Int) (hb1 : 1 ≤ b) (hb2 : b ≤ cfg.fnBinsPt) (hzero : diffWeight s sd b = 0) :
    ((CalculateDifferential3pCorrelator cfg s).f3pCorrelatorVsPtSumDiffPro sd).GetBinEntries b
      = (s.f3pCorrelatorVsPtSumDiffPro sd).GetBinEntries b ∧
    ((CalculateDifferential3pCorrelator cfg s).f3pCorrelatorVsPtSumDiffPro sd).binSumwy b
      = (s.f3pCorrelatorVsPtSumDiffPro sd).binSumwy b := by
  rw [CalculateDifferential3pCorrelator_profile cfg s sd hw hsd]
  have hnew : ∀ f ∈ ((binLoop cfg.fnBinsPt).map (fun c =>
      (cfg.fPtMin + ((c - 1 : Int) : K) * cfg.fPtBinWidth, diffValue s sd c,
        diffWeight s sd c))).filter
      (fun f => decide ((s.f3pCorrelatorVsPtSumDiffPro sd).fXaxis.FindBin f.1 = b)),
      f.2.2 = 0 := by
    intro f hf
    rw [List.mem_filter, List.mem_map] at hf
    obtain ⟨⟨c, hc, rfl⟩, hfb⟩ := hf
    obtain ⟨hc1, hc2⟩ := (mem_binLoop _ _).mp hc
    rw [hax] at hfb
    have := aligned_fill_bin cfg h0 hmax hwid c hc1 hc2
    simp only [this, decide_eq_true_eq] at hfb
    subst hfb
    exact hzero
  constructor
  · simp only [TProfile.GetBinEntries, TProfile.binFills, List.filter_append, List.map_append,
      List.sum_append]
    rw [add_right_eq_self]
    apply List.sum_eq_zero
    intro x hx
    obtain ⟨f, hf, rfl⟩ := List.mem_map.mp hx
    exact hnew f hf
  · simp only [TProfile.binSumwy, TProfile.binFills, List.filter_append, List.map_append,
      List.sum_append]
    rw [add_right_eq_self]
    apply List.sum_eq_zero
    intro x hx
    obtain ⟨f, hf, rfl⟩ := List.mem_map.mp hx
    rw [hnew f hf, zero_mul]

end AlignedBins

/-! ## The reset at the end of Make and the regular multiplicity bins -/

section ResetAndBins

variable {K : Type} [LinearOrderedField K] [FloorRing K]

/-- C23: every call of `Make` that returns leaves every entry of `fReQnk`, `fImQnk` and `fSpk`
zero and, in differential mode, the per-event pair profiles `fRePEBE[sd]`, `fImPEBE[sd]` and
overlap profiles `fOverlapEBE[fs][sd]` empty, whatever the event (no tracks, fewer than 3
reference particles) and whatever the weight flags; the tables are zero after `Init`; hence in a
run started after `Init` the tables are zero at the start of every event.  `Make` returns when
the differential mode is off or the event has no null track. -/
theorem Make_resets_event_quantities (tm : TMath K) (cfg : Settings K) :
    (∀ (ev : AliFlowEventSimple K) (s t : State K), Make tm cfg ev s = some t →
      (∀ m k, t.fReQnk m k = 0 ∧ t.fImQnk m k = 0 ∧ t.fSpk m k = 0) ∧
      (cfg.fEvaluateDifferential3pCorrelator = true → ∀ sd, sd < 2 →
        (t.fRePEBE sd).fills = [] ∧ (t.fImPEBE sd).fills = [] ∧
        (t.fOverlapEBE 0 sd).fills = [] ∧ (t.fOverlapEBE 1 sd).fills = [])) ∧
    (∀ m k, (State.init cfg).fReQnk m k = 0 ∧ (State.init cfg).fImQnk m k = 0 ∧
      (State.init cfg).fSpk m k = 0) ∧
    (∀ (evs : List (AliFlowEventSimple K)) (s : State K),
      processEvents tm cfg evs (State.init cfg) = some s →
      ∀ m k, s.fReQnk m k = 0 ∧ s.fImQnk m k = 0 ∧ s.fSpk m k = 0) ∧
    (∀ (ev : AliFlowEventSimple K) (s : State K),
      (cfg.fEvaluateDifferential3pCorrelator = false ∨ ∀ o ∈ ev.tracks, o ≠ none) →
      ∃ t, Make tm cfg ev s = some t) := by
  refine ⟨?_, fun _ _ => ⟨rfl, rfl, rfl⟩, ?_, fun ev s h => Make_some tm cfg ev s h⟩
  · intro ev s t ht
    obtain ⟨e, -, rfl⟩ := (Make_eq_some tm cfg ev s t).mp ht
    obtain ⟨m1, m2, m3⟩ := reduceAndReset_matrices cfg ev e
    obtain ⟨p1, p2, p3⟩ := reduceAndReset_pairProfiles cfg ev e
    refine ⟨fun m k => ⟨by rw [m1], by rw [m2], by rw [m3]⟩, ?_⟩
    intro hd sd hsd
    rw [p1, p2, p3]
    simp [hd, hsd, TProfile.Reset]
  · intro evs s hs m k
    have hf := processEvents_fresh tm cfg evs _ s (init_fresh cfg) hs
    have h1 : s.fReQnk = (State.init cfg).fReQnk := by rw [← hf]; rfl
    have h2 : s.fImQnk = (State.init cfg).fImQnk := by rw [← hf]; rfl
    have h3 : s.fSpk = (State.init cfg).fSpk := by rw [← hf]; rfl
    rw [h1, h2, h3]
    exact ⟨rfl, rfl, rfl⟩

/-- C24 (amended): over exact arithmetic (any ordered field with a floor function, such as the
reals), for a bin width `dM > 0`, `nBins ≥ 1` and `Mmin ≤ M < Mmin + nBins*dM`, the index
`i = (Int_t)((M-Mmin)/dM)` used by `Calculate3pCorrelator` and `CalculateNonIsotropicTerms` for
the vs-M fill position `1.5 + i` satisfies `0 ≤ i ≤ nBins-1` and
`Mmin + i*dM ≤ M < Mmin + (i+1)*dM`; on the axis of `nBins+2` unit bins the position lies in bin
`b = i+2`, which is neither the underflow bin 1 nor the overflow bin `nBins+2`; and in a state
with `S[0][0] = M` the vs-M fill of `Calculate3pCorrelator` and every vs-M fill of
`CalculateNonIsotropicTerms` is made at that position. -/
theorem vsM_regular_bin (cfg : Settings K) (M : K)
    (hw : 0 < cfg.fMultipicityBinWidth) (hn : 1 ≤ cfg.fNoOfMultipicityBins)
    (h1 : cfg.fMinMultiplicity ≤ M)
    (h2 : M < cfg.fMinMultiplicity
      + (cfg.fNoOfMultipicityBins : K) * cfg.fMultipicityBinWidth) :
    vsMPosition cfg M
      = 3 / 2 + ((toInt ((M - cfg.fMinMultiplicity) / cfg.fMultipicityBinWidth) : Int) : K) ∧
    0 ≤ toInt ((M - cfg.fMinMultiplicity) / cfg.fMultipicityBinWidth) ∧
    toInt ((M - cfg.fMinMultiplicity) / cfg.fMultipicityBinWidth)
      ≤ cfg.fNoOfMultipicityBins - 1 ∧
    cfg.fMinMultiplicity
      + ((toInt ((M - cfg.fMinMultiplicity) / cfg.fMultipicityBinWidth) : Int) : K)
        * cfg.fMultipicityBinWidth ≤ M ∧
    M < cfg.fMinMultiplicity
      + (((toInt ((M - cfg.fMinMultiplicity) / cfg.fMultipicityBinWidth) : Int) : K) + 1)
        * cfg.fMultipicityBinWidth ∧
    (⟨cfg.fNoOfMultipicityBins + 2, 0, ((cfg.fNoOfMultipicityBins + 2 : Int) : K)⟩
        : TAxis K).FindBin (vsMPosition cfg M)
      = toInt ((M - cfg.fMinMultiplicity) / cfg.fMultipicityBinWidth) + 2 ∧
    1 < toInt ((M - cfg.fMinMultiplicity) / cfg.fMultipicityBinWidth) + 2 ∧
    toInt ((M - cfg.fMinMultiplicity) / cfg.fMultipicityBinWidth) + 2
      < cfg.fNoOfMultipicityBins + 2 ∧
    (∀ s : State K, s.fSpk 0 0 = M → cfg.usesParticleWeights = false →
      (Calculate3pCorrelator cfg s).f3pCorrelatorVsMPro.fills =
        s.f3pCorrelatorVsMPro.fills ++
          [(3 / 2 + ((toInt ((M - cfg.fMinMultiplicity) / cfg.fMultipicityBinWidth) : Int) : K),
            three1n1n2n (s.fReQnk 0 0) (s.fImQnk 0 0) (s.fReQnk 1 0) (s.fImQnk 1 0) M,
            M * (M - 1) * (M - 2))] ∧
      ∃ new, (CalculateNonIsotropicTerms cfg s).fNonIsotropicTermsVsMPro.fills
          = s.fNonIsotropicTermsVsMPro.fills ++ new ∧
        ∀ f ∈ new, f.2.1
          = 3 / 2 + ((toInt ((M - cfg.fMinMultiplicity) / cfg.fMultipicityBinWidth) : Int) : K)) := by
  have hlt : ¬ M < cfg.fMinMultiplicity := not_lt.mpr h1
  have hge : ¬ M ≥ cfg.fMinMultiplicity
      + (cfg.fNoOfMultipicityBins : K) * cfg.fMultipicityBinWidth := not_le.mpr h2
  have hq : 0 ≤ (M - cfg.fMinMultiplicity) / cfg.fMultipicityBinWidth :=
    div_nonneg (by linarith) hw.le
  have hpos : vsMPosition cfg M
      = 3 / 2 + ((toInt ((M - cfg.fMinMultiplicity) / cfg.fMultipicityBinWidth) : Int) : K) := by
    unfold vsMPosition
    rw [if_neg hlt, if_neg hge]
  obtain ⟨b0, b1⟩ := regular_index_bounds cfg M hw hlt hge
  have hbin := vsM_FindBin cfg
    (⟨cfg.fNoOfMultipicityBins + 2, 0, ((cfg.fNoOfMultipicityBins + 2 : Int) : K)⟩ : TAxis K) M
    hw (by omega) rfl
  rw [if_neg hlt, if_neg hge] at hbin
  rw [toInt_of_nonneg hq]
  rw [toInt_of_nonneg hq] at hpos
  have hfl := Int.floor_le ((M - cfg.fMinMultiplicity) / cfg.fMultipicityBinWidth)
  have hfl2 := Int.lt_floor_add_one ((M - cfg.fMinMultiplicity) / cfg.fMultipicityBinWidth)
  rw [le_div_iff₀ hw] at hfl
  rw [div_lt_iff₀ hw] at hfl2
  refine ⟨hpos, b0, by omega, by linarith, by linarith, ?_, by omega, by omega, ?_⟩
  · rw [hbin]; ring
  · intro s hs hwt
    rw [← hpos]
    constructor
    · simp [Calculate3pCorrelator, hwt, TProfile.Fill, hs]
    · unfold CalculateNonIsotropicTerms
      by_cases g0 : s.fSpk 0 0 > 0 <;> by_cases g1 : s.fSpk 0 0 > 1
      · refine ⟨_, by simp [hwt, g0, g1, TProfile2D.Fill]; rfl, ?_⟩
        intro f hf
        simp only [List.mem_cons, List.mem_singleton, List.not_mem_nil, or_false] at hf
        rcases hf with rfl | rfl | rfl | rfl | rfl | rfl | rfl | rfl <;> simp [hs]
      · refine ⟨_, by simp [hwt, g0, g1, TProfile2D.Fill]; rfl, ?_⟩
        intro f hf
        simp only [List.mem_cons, List.mem_singleton, List.not_mem_nil, or_false] at hf
        rcases hf with rfl | rfl | rfl | rfl <;> simp [hs]
      · refine ⟨_, by simp [hwt, g0, g1, TProfile2D.Fill]; rfl, ?_⟩
        intro f hf
        simp only [List.mem_cons, List.mem_singleton, List.not_mem_nil, or_false] at hf
        rcases hf with rfl | rfl | rfl | rfl <;> simp [hs]
      · exact ⟨[], by simp [hwt, g0, g1], by simp⟩

end ResetAndBins
/-- Witness for C23: the example event processed on the example state, whose tables are not zero
at the start. -/
theorem Make_resets_event_quantities_witness :
    ∃ t, Make realTMath (exampleSettings ℝ) (exampleEvent ℝ) (exampleState ℝ) = some t ∧
      (∀ m k, t.fReQnk m k = 0 ∧ t.fImQnk m k = 0 ∧ t.fSpk m k = 0) ∧
      (t.fRePEBE 0).fills = [] ∧ (t.fOverlapEBE 1 1).fills = [] := by
  have T := Make_resets_event_quantities realTMath (exampleSettings ℝ)
  obtain ⟨t, ht⟩ := T.2.2.2 (exampleEvent ℝ) (exampleState ℝ) (Or.inr (by simp [exampleEvent]))
  obtain ⟨h1, h2⟩ := T.1 (exampleEvent ℝ) (exampleState ℝ) t ht
  exact ⟨t, ht, h1, (h2 rfl 0 (by norm_num)).1, (h2 rfl 1 (by norm_num)).2.2.2⟩

/-- Witness for C24: the default binning (`Mmin = 1`, `dM = 2`, `nBins = 10`) and `M = 4`: the
index is 1 and the bin is 3, whose range is `3 ≤ M < 5`. -/
theorem vsM_regular_bin_witness :
    (0 : ℚ) < (exampleSettings ℚ).fMultipicityBinWidth ∧
    (1 : Int) ≤ (exampleSettings ℚ).fNoOfMultipicityBins ∧
    (exampleSettings ℚ).fMinMultiplicity ≤ 4 ∧
    toInt (((4 : ℚ) - (exampleSettings ℚ).fMinMultiplicity)
      / (exampleSettings ℚ).fMultipicityBinWidth) = 1 ∧
    (⟨(exampleSettings ℚ).fNoOfMultipicityBins + 2, 0,
        (((exampleSettings ℚ).fNoOfMultipicityBins + 2 : Int) : ℚ)⟩
        : TAxis ℚ).FindBin (vsMPosition (exampleSettings ℚ) 4) = 3 := by
  have hw : (0 : ℚ) < (exampleSettings ℚ).fMultipicityBinWidth := by
    norm_num [exampleSettings]
  have hn : (1 : Int) ≤ (exampleSettings ℚ).fNoOfMultipicityBins := by
    norm_num [exampleSettings]
  have h1 : (exampleSettings ℚ).fMinMultiplicity ≤ 4 := by norm_num [exampleSettings]
  have h2 : (4 : ℚ) < (exampleSettings ℚ).fMinMultiplicity
      + ((exampleSettings ℚ).fNoOfMultipicityBins : ℚ)
        * (exampleSettings ℚ).fMultipicityBinWidth := by
    norm_num [exampleSettings]
  have T := vsM_regular_bin (exampleSettings ℚ) 4 hw hn h1 h2
  have f : ⌊((4 : ℚ) - 1) / 2⌋ = 1 := by
    rw [Int.floor_eq_iff]; constructor <;> norm_num
  have hi : toInt (((4 : ℚ) - (exampleSettings ℚ).fMinMultiplicity)
      / (exampleSettings ℚ).fMultipicityBinWidth) = 1 := by
    rw [toInt_of_nonneg (by norm_num [exampleSettings])]
    simpa [exampleSettings] using f
  refine ⟨hw, hn, h1, hi, ?_⟩
  rw [T.2.2.2.2.2.1, hi]
  norm_num

/-! ## The effective weight of the differential correlator and the two overlap profiles -/

section DiffWeight

lemma naiveDiffCount_nonneg (cfg : Settings ℝ) (ev : AliFlowEventSimple ℝ) (sd : Nat) (b : Int) :
    0 ≤ naiveDiffCount cfg ev sd b := by
  unfold naiveDiffCount
  refine Finset.sum_nonneg (fun i _ => Finset.sum_nonneg (fun j _ =>
    Finset.sum_nonneg (fun k _ => ?_)))
  split_ifs <;> norm_num

lemma naiveDiffCount_eq_card (cfg : Settings ℝ) (ev : AliFlowEventSimple ℝ) (sd : Nat)
    (b : Int) :
    naiveDiffCount cfg ev sd b =
      (((Finset.range ev.tracks.length ×ˢ Finset.range ev.tracks.length
          ×ˢ Finset.range ev.tracks.length).filter
        (fun t => tripleCounts cfg ev sd b t.1 t.2.1 t.2.2 = true)).card : ℝ) := by
  unfold naiveDiffCount
  rw [Finset.card_filter]
  push_cast
  rw [Finset.sum_product]
  refine Finset.sum_congr rfl (fun i _ => ?_)
  rw [Finset.sum_product]

/-- C26: over the reals, in differential mode, for an event without null tracks accumulated by
`Make` from zeroed tables and freshly booked, empty per-event pair profiles, for either pair
variable `sd` and every bin `b`, the effective weight `mp*M - mOverlap1 - mOverlap2` computed by
`CalculateDifferential3pCorrelator` equals the number of triples `(i, j, k)` with `(i, j)` an
ordered pair of distinct POI tracks counted in bin `b` (passing the charge cut) and `k` an RP
track different from `i` and `j`; it is therefore non-negative, and every fill that
`CalculateDifferential3pCorrelator` makes (no particle weights) has a non-negative weight. -/
theorem CalculateDifferential3pCorrelator_weight_nonneg (cfg : Settings ℝ)
    (ev : AliFlowEventSimple ℝ) (s : State ℝ)
    (hdiff : cfg.fEvaluateDifferential3pCorrelator = true)
    (hnull : ∀ o ∈ ev.tracks, o ≠ none)
    (hRe : ∀ m k, s.fReQnk m k = 0) (hIm : ∀ m k, s.fImQnk m k = 0)
    (hS : ∀ p k, s.fSpk p k = 0)
    (hfresh : ∀ sd, sd < 2 →
      s.fRePEBE sd = TProfile.book cfg.fnBinsPt 0 cfg.fPtMax ∧
      s.fImPEBE sd = TProfile.book cfg.fnBinsPt 0 cfg.fPtMax ∧
      s.fOverlapEBE 0 sd = TProfile.book cfg.fnBinsPt 0 cfg.fPtMax ∧
      s.fOverlapEBE 1 sd = TProfile.book cfg.fnBinsPt 0 cfg.fPtMax) :
    ∃ e, accumulate realTMath cfg ev s = some e ∧
      (∀ sd, sd < 2 → ∀ b : Int,
        (e.fRePEBE sd).GetBinEntries b * e.fSpk 0 0 - (e.fOverlapEBE 0 sd).GetBinEntries b
            - (e.fOverlapEBE 1 sd).GetBinEntries b =
          (((Finset.range ev.tracks.length ×ˢ Finset.range ev.tracks.length
              ×ˢ Finset.range ev.tracks.length).filter
            (fun t => tripleCounts cfg ev sd b t.1 t.2.1 t.2.2 = true)).card : ℝ) ∧
        0 ≤ (e.fRePEBE sd).GetBinEntries b * e.fSpk 0 0 - (e.fOverlapEBE 0 sd).GetBinEntries b
            - (e.fOverlapEBE 1 sd).GetBinEntries b) ∧
      (cfg.usesParticleWeights = false → ∀ sd, sd < 2 →
        ((CalculateDifferential3pCorrelator cfg e).f3pCorrelatorVsPtSumDiffPro sd).fills
          = (e.f3pCorrelatorVsPtSumDiffPro sd).fills ++ (binLoop cfg.fnBinsPt).map (fun c =>
              (cfg.fPtMin + ((c - 1 : Int) : ℝ) * cfg.fPtBinWidth, diffValue e sd c,
                diffWeight e sd c)) ∧
        ∀ c : Int, 0 ≤ diffWeight e sd c) := by
  obtain ⟨s1, h1⟩ := trackLoop_some realTMath cfg ev s (Or.inr hnull)
  have he : accumulate realTMath cfg ev s = some (finalizeSpk s1) :=
    (accumulate_eq_some _ _ _ _ _).mpr ⟨s1, h1, rfl⟩
  have hD := fun sd (hsd : sd < 2) b =>
    (diff_inputs cfg ev s (finalizeSpk s1) hdiff hRe hIm hS hfresh he sd hsd b).1
  refine ⟨finalizeSpk s1, he, ?_, ?_⟩
  · intro sd hsd b
    have h := hD sd hsd b
    unfold diffWeight at h
    simp only at h
    rw [h]
    exact ⟨naiveDiffCount_eq_card cfg ev sd b, naiveDiffCount_nonneg cfg ev sd b⟩
  · intro hw sd hsd
    refine ⟨?_, fun c => ?_⟩
    · rw [CalculateDifferential3pCorrelator_profile cfg _ sd hw hsd]
    · rw [hD sd hsd c]
      exact naiveDiffCount_nonneg cfg ev sd c

end DiffWeight
/-- Witness for C26: the example event in differential mode; bin 21 of `(pT1+pT2)/2`. -/
theorem CalculateDifferential3pCorrelator_weight_nonneg_witness :
    ∃ e, accumulate realTMath (exampleSettings ℝ) (exampleEvent ℝ)
        (State.init (exampleSettings ℝ)) = some e ∧
      0 ≤ (e.fRePEBE 0).GetBinEntries 21 * e.fSpk 0 0 - (e.fOverlapEBE 0 0).GetBinEntries 21
            - (e.fOverlapEBE 1 0).GetBinEntries 21 ∧
      0 ≤ diffWeight e 0 21 := by
  obtain ⟨e, he, h1, h2⟩ := CalculateDifferential3pCorrelator_weight_nonneg (exampleSettings ℝ)
    (exampleEvent ℝ) (State.init (exampleSettings ℝ)) rfl (by simp [exampleEvent])
    (fun _ _ => rfl) (fun _ _ => rfl) (fun _ _ => rfl) (fun _ _ => ⟨rfl, rfl, rfl, rfl⟩)
  exact ⟨e, he, (h1 0 (by norm_num) 21).2, (h2 rfl 0 (by norm_num)).2 21⟩

section Overlaps

lemma pairPasses_symm {K : Type} [LinearOrderedField K] [FloorRing K] (cfg : Settings K)
    (ev : AliFlowEventSimple K) (i j : Nat) :
    pairPasses cfg ev i j = pairPasses cfg ev j i := by
  unfold pairPasses
  have h1 : decide (j ≠ i) = decide (i ≠ j) := by
    by_cases h : i = j <;> simp [h, eq_comm]
  have h2 : decide ((trackAt ev i).Charge = (trackAt ev j).Charge)
      = decide ((trackAt ev j).Charge = (trackAt ev i).Charge) := by
    by_cases h : (trackAt ev i).Charge = (trackAt ev j).Charge <;> simp [h, eq_comm]
  rw [h1, h2]
  cases (trackAt ev i).InPOISelection <;> cases (trackAt ev j).InPOISelection <;> simp

lemma pairX_symm {K : Type} [LinearOrderedField K] [FloorRing K] (sd : Nat)
    (t1 t2 : AliFlowTrackSimple K) : pairX sd t1 t2 = pairX sd t2 t1 := by
  unfold pairX
  split_ifs
  · rw [add_comm]
  · rw [abs_sub_comm]

/-- Entries and summed values of bin `b` of the two overlap profiles in the state the reducers
read (differential mode). -/
lemma overlap_stats_eq (cfg : Settings ℝ) (ev : AliFlowEventSimple ℝ) (s e : State ℝ)
    (hdiff : cfg.fEvaluateDifferential3pCorrelator = true)
    (hfresh : ∀ sd, sd < 2 →
      s.fRePEBE sd = TProfile.book cfg.fnBinsPt 0 cfg.fPtMax ∧
      s.fImPEBE sd = TProfile.book cfg.fnBinsPt 0 cfg.fPtMax ∧
      s.fOverlapEBE 0 sd = TProfile.book cfg.fnBinsPt 0 cfg.fPtMax ∧
      s.fOverlapEBE 1 sd = TProfile.book cfg.fnBinsPt 0 cfg.fPtMax)
    (he : accumulate realTMath cfg ev s = some e) (sd : Nat) (hsd : sd < 2) (b : Int) :
    (e.fOverlapEBE 0 sd).GetBinEntries b = (e.fOverlapEBE 1 sd).GetBinEntries b ∧
    (e.fOverlapEBE 0 sd).GetBinContent b * (e.fOverlapEBE 0 sd).GetBinEntries b
      = (e.fOverlapEBE 1 sd).GetBinContent b * (e.fOverlapEBE 1 sd).GetBinEntries b := by
  have P2 := pairLog_profile_stats realTMath cfg ev 2 sd (e.fOverlapEBE 0 sd)
    (accumulate_pairProfile realTMath cfg ev s e hdiff hfresh he 2 sd hsd) b
  have P3 := pairLog_profile_stats realTMath cfg ev 3 sd (e.fOverlapEBE 1 sd)
    (accumulate_pairProfile realTMath cfg ev s e hdiff hfresh he 3 sd hsd) b
  have E := fun (μ : ℝ × ℝ × ℝ → ℝ) (i j : ℕ) =>
    loopEntries_binSum realTMath cfg ev sd (pairAxis cfg) b μ i j
  simp only [(E _ _ _).2.2.1, (E _ _ _).2.2.2, one_mul] at P2 P3
  have hsw : ∀ (i j : ℕ),
      ((pairPasses cfg ev j i
          && decide ((pairAxis cfg).FindBin (pairX sd (trackAt ev j) (trackAt ev i)) = b)) = true
        ∧ (trackAt ev j).InRPSelection = true) ↔
      ((pairPasses cfg ev i j
          && decide ((pairAxis cfg).FindBin (pairX sd (trackAt ev i) (trackAt ev j)) = b)) = true
        ∧ (trackAt ev j).InRPSelection = true) := by
    intro i j
    rw [pairPasses_symm cfg ev j i, pairX_symm sd (trackAt ev j) (trackAt ev i)]
  constructor
  · rw [P2.1, P3.1, Finset.sum_comm]
    refine Finset.sum_congr rfl (fun i _ => Finset.sum_congr rfl (fun j _ => ?_))
    by_cases h : ((pairPasses cfg ev i j
          && decide ((pairAxis cfg).FindBin (pairX sd (trackAt ev i) (trackAt ev j)) = b)) = true
        ∧ (trackAt ev j).InRPSelection = true)
    · rw [if_pos h, if_pos ((hsw i j).mpr h)]
    · rw [if_neg h, if_neg (fun h' => h ((hsw i j).mp h'))]
  · rw [P2.2, P3.2, Finset.sum_comm]
    refine Finset.sum_congr rfl (fun i _ => Finset.sum_congr rfl (fun j _ => ?_))
    have hc : realTMath.Cos ((cfg.fHarmonic : ℝ) * ((trackAt ev j).Phi - (trackAt ev i).Phi))
        = realTMath.Cos ((cfg.fHarmonic : ℝ) * ((trackAt ev i).Phi - (trackAt ev j).Phi)) := by
      show Real.cos _ = Real.cos _
      rw [← Real.cos_neg]
      congr 1
      ring
    by_cases h : ((pairPasses cfg ev i j
          && decide ((pairAxis cfg).FindBin (pairX sd (trackAt ev i) (trackAt ev j)) = b)) = true
        ∧ (trackAt ev j).InRPSelection = true)
    · rw [if_pos h, if_pos ((hsw i j).mpr h), hc]
    · rw [if_neg h, if_neg (fun h' => h ((hsw i j).mp h'))]

/-- C29 (amended): over the reals, for an event without null tracks processed by `Make` from
freshly booked, empty per-event pair profiles, with or without the opposite-charge cut, at the end of
the track loop the two overlap profiles `fOverlapEBE[0][sd]` (1st POI is also RP) and
`fOverlapEBE[1][sd]` (2nd POI is also RP) of either pair variable `sd` agree in every bin `b`:
same number of entries, same summed `cos[n(psi1-psi2)]` (content times entries) and same
content.  The loop runs to its end for such an event. -/
theorem Make_overlap_profiles_agree (cfg : Settings ℝ) (ev : AliFlowEventSimple ℝ)
    (s : State ℝ) (hnull : ∀ o ∈ ev.tracks, o ≠ none)
    (hfresh : ∀ sd, sd < 2 →
      s.fRePEBE sd = TProfile.book cfg.fnBinsPt 0 cfg.fPtMax ∧
      s.fImPEBE sd = TProfile.book cfg.fnBinsPt 0 cfg.fPtMax ∧
      s.fOverlapEBE 0 sd = TProfile.book cfg.fnBinsPt 0 cfg.fPtMax ∧
      s.fOverlapEBE 1 sd = TProfile.book cfg.fnBinsPt 0 cfg.fPtMax) :
    ∃ s1, trackLoop realTMath cfg ev s = some s1 ∧
      ∀ sd, sd < 2 → ∀ b : Int,
        (s1.fOverlapEBE 0 sd).GetBinEntries b = (s1.fOverlapEBE 1 sd).GetBinEntries b ∧
        (s1.fOverlapEBE 0 sd).GetBinContent b * (s1.fOverlapEBE 0 sd).GetBinEntries b
          = (s1.fOverlapEBE 1 sd).GetBinContent b * (s1.fOverlapEBE 1 sd).GetBinEntries b ∧
        (s1.fOverlapEBE 0 sd).GetBinContent b = (s1.fOverlapEBE 1 sd).GetBinContent b := by
  obtain ⟨s1, h1⟩ := trackLoop_some realTMath cfg ev s (Or.inr hnull)
  have he : accumulate realTMath cfg ev s = some (finalizeSpk s1) :=
    (accumulate_eq_some _ _ _ _ _).mpr ⟨s1, h1, rfl⟩
  refine ⟨s1, h1, ?_⟩
  intro sd hsd b
  have key : (s1.fOverlapEBE 0 sd).GetBinEntries b = (s1.fOverlapEBE 1 sd).GetBinEntries b ∧
      (s1.fOverlapEBE 0 sd).GetBinContent b * (s1.fOverlapEBE 0 sd).GetBinEntries b
        = (s1.fOverlapEBE 1 sd).GetBinContent b * (s1.fOverlapEBE 1 sd).GetBinEntries b := by
    cases hdiff : cfg.fEvaluateDifferential3pCorrelator with
    | true => exact overlap_stats_eq cfg ev s (finalizeSpk s1) hdiff hfresh he sd hsd b
    | false =>
      have a2 := accumulate_pairProfile_off realTMath cfg ev s (finalizeSpk s1) hdiff hfresh he
        2 sd hsd
      have a3 := accumulate_pairProfile_off realTMath cfg ev s (finalizeSpk s1) hdiff hfresh he
        3 sd hsd
      have e2 : s1.fOverlapEBE 0 sd = TProfile.book cfg.fnBinsPt 0 cfg.fPtMax := a2
      have e3 : s1.fOverlapEBE 1 sd = TProfile.book cfg.fnBinsPt 0 cfg.fPtMax := a3
      rw [e2, e3]
      exact ⟨rfl, rfl⟩
  refine ⟨key.1, key.2, ?_⟩
  by_cases h0 : (s1.fOverlapEBE 1 sd).GetBinEntries b = 0
  · have h0' : (s1.fOverlapEBE 0 sd).GetBinEntries b = 0 := by rw [key.1, h0]
    simp [TProfile.GetBinContent, h0, h0']
  · have h2 := key.2
    rw [key.1] at h2
    exact mul_right_cancel₀ h0 h2

end Overlaps

/-- Witness for C29: the example event (one POI that is also an RP, one POI that is not). -/
theorem Make_overlap_profiles_agree_witness :
    ∃ s1, trackLoop realTMath (exampleSettings ℝ) (exampleEvent ℝ)
        (State.init (exampleSettings ℝ)) = some s1 ∧
      (s1.fOverlapEBE 0 0).GetBinEntries 21 = (s1.fOverlapEBE 1 0).GetBinEntries 21 ∧
      (s1.fOverlapEBE 0 0).GetBinContent 21 = (s1.fOverlapEBE 1 0).GetBinContent 21 := by
  obtain ⟨s1, h1, h⟩ := Make_overlap_profiles_agree (exampleSettings ℝ) (exampleEvent ℝ)
    (State.init (exampleSettings ℝ)) (by simp [exampleEvent])
    (fun _ _ => ⟨rfl, rfl, rfl, rfl⟩)
  exact ⟨s1, h1, (h 0 (by norm_num) 21).1, (h 0 (by norm_num) 21).2.2⟩

/-! ## Rotation invariance of the 3-particle correlator -/

section Rotation

lemma rpTracks_rotateEvent {K : Type} [LinearOrderedField K] [FloorRing K] (alpha : K)
    (ev : AliFlowEventSimple K) :
    rpTracks (rotateEvent alpha ev)
      = (rpTracks ev).map (fun t => { t with Phi := t.Phi + alpha }) := by
  unfold rpTracks rotateEvent
  simp only
  induction ev.tracks with
  | nil => rfl
  | cons o l ih =>
    cases o with
    | none => simpa [List.filterMap_cons] using ih
    | some t =>
      cases hr : t.InRPSelection <;>
        simpa [List.filterMap_cons, Option.filter, hr] using ih

lemma rpPhis_rotateEvent {K : Type} [LinearOrderedField K] [FloorRing K] (alpha : K)
    (ev : AliFlowEventSimple K) :
    rpPhis (rotateEvent alpha ev) = (rpPhis ev).map (fun x => x + alpha) := by
  unfold rpPhis
  rw [rpTracks_rotateEvent, List.map_map, List.map_map]
  rfl

lemma rotateEvent_no_null {K : Type} [LinearOrderedField K] [FloorRing K] (alpha : K)
    (ev : AliFlowEventSimple K) (h : ∀ o ∈ ev.tracks, o ≠ none) :
    ∀ o ∈ (rotateEvent alpha ev).tracks, o ≠ none := by
  intro o ho
  simp only [rotateEvent, List.mem_map] at ho
  obtain ⟨p, hp, rfl⟩ := ho
  cases p with
  | none => exact absurd rfl (h none hp)
  | some t => simp

/-- The value of `three1n1n2n` is unchanged when `Q_n` is multiplied by the phase `c + i s` and
`Q_2n` by its square, `c^2 + s^2 = 1`. -/
lemma three1n1n2n_phase (A B C D M c s : ℝ) (h : c ^ 2 + s ^ 2 = 1) :
    three1n1n2n (c * A - s * B) (s * A + c * B) ((c ^ 2 - s ^ 2) * C - 2 * s * c * D)
        (2 * s * c * C + (c ^ 2 - s ^ 2) * D) M
      = three1n1n2n A B C D M := by
  unfold three1n1n2n
  congr 1
  linear_combination ((c ^ 2 + s ^ 2 + 1) * ((A ^ 2 - B ^ 2) * C + 2 * A * B * D)
    - 2 * (A ^ 2 + B ^ 2) - (c ^ 2 + s ^ 2 + 1) * (C ^ 2 + D ^ 2)) * h

lemma sum_fin_get_map (l : List ℝ) (f g : ℝ → ℝ) :
    (∑ i : Fin (l.map f).length, g (l.map f)[i.1]) = ∑ i : Fin l.length, g (f l[i.1]) := by
  rw [Fin.sum_univ_get' (l.map f) g, Fin.sum_univ_get' l (fun x => g (f x)), List.map_map]
  rfl

/-- The quantities read by the reducers for the rotated event, in terms of those of the
event. -/
lemma reducer_inputs_rotateEvent (cfg : Settings ℝ) (ev : AliFlowEventSimple ℝ) (alpha : ℝ)
    (s e e' : State ℝ)
    (hRe : ∀ m k, s.fReQnk m k = 0) (hIm : ∀ m k, s.fImQnk m k = 0)
    (hS : ∀ p k, s.fSpk p k = 0) (he : accumulate realTMath cfg ev s = some e)
    (he' : accumulate realTMath cfg (rotateEvent alpha ev) s = some e') :
    e'.fReQnk 0 0 = Real.cos ((cfg.fHarmonic : ℝ) * alpha) * e.fReQnk 0 0
        - Real.sin ((cfg.fHarmonic : ℝ) * alpha) * e.fImQnk 0 0
    ∧ e'.fImQnk 0 0 = Real.sin ((cfg.fHarmonic : ℝ) * alpha) * e.fReQnk 0 0
        + Real.cos ((cfg.fHarmonic : ℝ) * alpha) * e.fImQnk 0 0
    ∧ e'.fReQnk 1 0 = Real.cos (2 * ((cfg.fHarmonic : ℝ) * alpha)) * e.fReQnk 1 0
        - Real.sin (2 * ((cfg.fHarmonic : ℝ) * alpha)) * e.fImQnk 1 0
    ∧ e'.fImQnk 1 0 = Real.sin (2 * ((cfg.fHarmonic : ℝ) * alpha)) * e.fReQnk 1 0
        + Real.cos (2 * ((cfg.fHarmonic : ℝ) * alpha)) * e.fImQnk 1 0
    ∧ e'.fSpk 0 0 = e.fSpk 0 0 := by
  obtain ⟨q1, q2, q3, q4, q5⟩ := reducer_inputs cfg ev s e hRe hIm hS he
  obtain ⟨r1, r2, r3, r4, r5⟩ :=
    reducer_inputs cfg (rotateEvent alpha ev) s e' hRe hIm hS he'
  have hlen : (rpPhis (rotateEvent alpha ev)).length = (rpPhis ev).length := by
    rw [rpPhis_rotateEvent, List.length_map]
  have conv : ∀ g : ℝ → ℝ,
      (∑ i : Fin (rpPhis (rotateEvent alpha ev)).length, g (rpPhis (rotateEvent alpha ev))[i.1])
        = ∑ i : Fin (rpPhis ev).length, g ((rpPhis ev)[i.1] + alpha) := by
    intro g
    rw [Fin.sum_univ_get' (rpPhis (rotateEvent alpha ev)) g, rpPhis_rotateEvent,
      ← Fin.sum_univ_get' ((rpPhis ev).map (fun x => x + alpha)) g]
    exact sum_fin_get_map (rpPhis ev) (fun x => x + alpha) g
  rw [conv (fun x => Real.cos ((cfg.fHarmonic : ℝ) * x))] at r1
  rw [conv (fun x => Real.sin ((cfg.fHarmonic : ℝ) * x))] at r2
  rw [conv (fun x => Real.cos (2 * ((cfg.fHarmonic : ℝ) * x)))] at r3
  rw [conv (fun x => Real.sin (2 * ((cfg.fHarmonic : ℝ) * x)))] at r4
  refine ⟨?_, ?_, ?_, ?_, ?_⟩
  · rw [r1, q1, q2, Finset.mul_sum, Finset.mul_sum, ← Finset.sum_sub_distrib]
    refine Finset.sum_congr rfl (fun i _ => ?_)
    rw [mul_add, Real.cos_add]
    ring
  · rw [r2, q1, q2, Finset.mul_sum, Finset.mul_sum, ← Finset.sum_add_distrib]
    refine Finset.sum_congr rfl (fun i _ => ?_)
    rw [mul_add, Real.sin_add]
    ring
  · rw [r3, q3, q4, Finset.mul_sum, Finset.mul_sum, ← Finset.sum_sub_distrib]
    refine Finset.sum_congr rfl (fun i _ => ?_)
    rw [mul_add, mul_add, Real.cos_add]
    ring
  · rw [r4, q3, q4, Finset.mul_sum, Finset.mul_sum, ← Finset.sum_add_distrib]
    refine Finset.sum_congr rfl (fun i _ => ?_)
    rw [mul_add, mul_add, Real.sin_add]
    ring
  · rw [r5, q5, hlen]

/-- C27: over the reals, with no particle weights enabled, for every angle `alpha`, every
harmonic and every event with at least 3 reference particles that `Make` processes from zeroed
tables (differential mode off, or no null track): the event rotated by `alpha` is processed as
well, the fill weight `M(M-1)(M-2)` is positive, the value `three1n1n2n` computed from the
rotated event equals the one computed from the event, the multiplicity `S[0][0]` (so the fill
weight and the multiplicity-bin position) is the same, and `Calculate3pCorrelator` leaves the
same integrated profile and the same vs-multiplicity profile for both: the profile before the
call with one more fill of that value with that weight. -/
theorem Calculate3pCorrelator_rotation_invariant (cfg : Settings ℝ)
    (ev : AliFlowEventSimple ℝ) (s : State ℝ) (alpha : ℝ)
    (hw : cfg.usesParticleWeights = false) (hM : 3 ≤ (rpTracks ev).length)
    (hrun : cfg.fEvaluateDifferential3pCorrelator = false ∨ ∀ o ∈ ev.tracks, o ≠ none)
    (hRe : ∀ m k, s.fReQnk m k = 0) (hIm : ∀ m k, s.fImQnk m k = 0)
    (hS : ∀ p k, s.fSpk p k = 0) :
    ∃ e e', accumulate realTMath cfg ev s = some e ∧
      accumulate realTMath cfg (rotateEvent alpha ev) s = some e' ∧
      0 < e.fSpk 0 0 * (e.fSpk 0 0 - 1) * (e.fSpk 0 0 - 2) ∧
      three1n1n2n (e'.fReQnk 0 0) (e'.fImQnk 0 0) (e'.fReQnk 1 0) (e'.fImQnk 1 0) (e'.fSpk 0 0)
        = three1n1n2n (e.fReQnk 0 0) (e.fImQnk 0 0) (e.fReQnk 1 0) (e.fImQnk 1 0) (e.fSpk 0 0) ∧
      e'.fSpk 0 0 = e.fSpk 0 0 ∧
      vsMPosition cfg (e'.fSpk 0 0) = vsMPosition cfg (e.fSpk 0 0) ∧
      (Calculate3pCorrelator cfg e').f3pCorrelatorPro
        = s.f3pCorrelatorPro.Fill (1 / 2)
            (three1n1n2n (e.fReQnk 0 0) (e.fImQnk 0 0) (e.fReQnk 1 0) (e.fImQnk 1 0)
              (e.fSpk 0 0))
            (e.fSpk 0 0 * (e.fSpk 0 0 - 1) * (e.fSpk 0 0 - 2)) ∧
      (Calculate3pCorrelator cfg e').f3pCorrelatorPro
        = (Calculate3pCorrelator cfg e).f3pCorrelatorPro ∧
      (Calculate3pCorrelator cfg e').f3pCorrelatorVsMPro
        = (Calculate3pCorrelator cfg e).f3pCorrelatorVsMPro := by
  obtain ⟨s1, h1⟩ := trackLoop_some realTMath cfg ev s hrun
  have hrun' : cfg.fEvaluateDifferential3pCorrelator = false
      ∨ ∀ o ∈ (rotateEvent alpha ev).tracks, o ≠ none :=
    hrun.imp id (rotateEvent_no_null alpha ev)
  obtain ⟨s1', h1'⟩ := trackLoop_some realTMath cfg (rotateEvent alpha ev) s hrun'
  have he : accumulate realTMath cfg ev s = some (finalizeSpk s1) :=
    (accumulate_eq_some _ _ _ _ _).mpr ⟨s1, h1, rfl⟩
  have he' : accumulate realTMath cfg (rotateEvent alpha ev) s = some (finalizeSpk s1') :=
    (accumulate_eq_some _ _ _ _ _).mpr ⟨s1', h1', rfl⟩
  obtain ⟨r1, r2, r3, r4, r5⟩ :=
    reducer_inputs_rotateEvent cfg ev alpha s _ _ hRe hIm hS he he'
  have hmult := accumulate_multiplicity realTMath cfg ev s _ hS he
  have hval : three1n1n2n ((finalizeSpk s1').fReQnk 0 0) ((finalizeSpk s1').fImQnk 0 0)
      ((finalizeSpk s1').fReQnk 1 0) ((finalizeSpk s1').fImQnk 1 0) ((finalizeSpk s1').fSpk 0 0)
      = three1n1n2n ((finalizeSpk s1).fReQnk 0 0) ((finalizeSpk s1).fImQnk 0 0)
          ((finalizeSpk s1).fReQnk 1 0) ((finalizeSpk s1).fImQnk 1 0)
          ((finalizeSpk s1).fSpk 0 0) := by
    have hc := Real.cos_sq_add_sin_sq ((cfg.fHarmonic : ℝ) * alpha)
    have h2 : Real.cos (2 * ((cfg.fHarmonic : ℝ) * alpha))
        = Real.cos ((cfg.fHarmonic : ℝ) * alpha) ^ 2
          - Real.sin ((cfg.fHarmonic : ℝ) * alpha) ^ 2 := by
      rw [Real.cos_two_mul]
      linarith
    rw [r1, r2, r3, r4, r5, Real.sin_two_mul, h2]
    exact three1n1n2n_phase _ _ _ _ _ _ _ hc
  have ha := accumulate_allEvent realTMath cfg ev s _ he
  have ha' := accumulate_allEvent realTMath cfg (rotateEvent alpha ev) s _ he'
  simp only [State.allEvent, Prod.mk.injEq] at ha ha'
  have hpos : 0 < (finalizeSpk s1).fSpk 0 0 * ((finalizeSpk s1).fSpk 0 0 - 1)
      * ((finalizeSpk s1).fSpk 0 0 - 2) := by
    rw [hmult]
    have h3 : (3 : ℝ) ≤ ((rpTracks ev).length : ℝ) := by exact_mod_cast hM
    have a1 : (0 : ℝ) < ((rpTracks ev).length : ℝ) := by linarith
    have a2 : (0 : ℝ) < ((rpTracks ev).length : ℝ) - 1 := by linarith
    have a3 : (0 : ℝ) < ((rpTracks ev).length : ℝ) - 2 := by linarith
    positivity
  have P' : (Calculate3pCorrelator cfg (finalizeSpk s1')).f3pCorrelatorPro
      = s.f3pCorrelatorPro.Fill (1 / 2)
          (three1n1n2n ((finalizeSpk s1).fReQnk 0 0) ((finalizeSpk s1).fImQnk 0 0)
            ((finalizeSpk s1).fReQnk 1 0) ((finalizeSpk s1).fImQnk 1 0)
            ((finalizeSpk s1).fSpk 0 0))
          ((finalizeSpk s1).fSpk 0 0 * ((finalizeSpk s1).fSpk 0 0 - 1)
            * ((finalizeSpk s1).fSpk 0 0 - 2)) := by
    rw [← hval, ← r5, ← ha'.1]
    simp [Calculate3pCorrelator, hw]
  have P : (Calculate3pCorrelator cfg (finalizeSpk s1)).f3pCorrelatorPro
      = s.f3pCorrelatorPro.Fill (1 / 2)
          (three1n1n2n ((finalizeSpk s1).fReQnk 0 0) ((finalizeSpk s1).fImQnk 0 0)
            ((finalizeSpk s1).fReQnk 1 0) ((finalizeSpk s1).fImQnk 1 0)
            ((finalizeSpk s1).fSpk 0 0))
          ((finalizeSpk s1).fSpk 0 0 * ((finalizeSpk s1).fSpk 0 0 - 1)
            * ((finalizeSpk s1).fSpk 0 0 - 2)) := by
    rw [← ha.1]
    simp [Calculate3pCorrelator, hw]
  have V : (Calculate3pCorrelator cfg (finalizeSpk s1')).f3pCorrelatorVsMPro
      = (Calculate3pCorrelator cfg (finalizeSpk s1)).f3pCorrelatorVsMPro := by
    have e1 : (Calculate3pCorrelator cfg (finalizeSpk s1')).f3pCorrelatorVsMPro
        = (finalizeSpk s1').f3pCorrelatorVsMPro.Fill (vsMPosition cfg ((finalizeSpk s1').fSpk 0 0))
            (three1n1n2n ((finalizeSpk s1').fReQnk 0 0) ((finalizeSpk s1').fImQnk 0 0)
              ((finalizeSpk s1').fReQnk 1 0) ((finalizeSpk s1').fImQnk 1 0)
              ((finalizeSpk s1').fSpk 0 0))
            ((finalizeSpk s1').fSpk 0 0 * ((finalizeSpk s1').fSpk 0 0 - 1)
              * ((finalizeSpk s1').fSpk 0 0 - 2)) := by
      simp [Calculate3pCorrelator, hw]
    have e2 : (Calculate3pCorrelator cfg (finalizeSpk s1)).f3pCorrelatorVsMPro
        = (finalizeSpk s1).f3pCorrelatorVsMPro.Fill (vsMPosition cfg ((finalizeSpk s1).fSpk 0 0))
            (three1n1n2n ((finalizeSpk s1).fReQnk 0 0) ((finalizeSpk s1).fImQnk 0 0)
              ((finalizeSpk s1).fReQnk 1 0) ((finalizeSpk s1).fImQnk 1 0)
              ((finalizeSpk s1).fSpk 0 0))
            ((finalizeSpk s1).fSpk 0 0 * ((finalizeSpk s1).fSpk 0 0 - 1)
              * ((finalizeSpk s1).fSpk 0 0 - 2)) := by
      simp [Calculate3pCorrelator, hw]
    rw [e1, e2, hval, r5, ha.2.2.1, ha'.2.2.1]
  exact ⟨_, _, he, he', hpos, hval, r5, by rw [r5], P', P'.trans P.symm, V⟩

end Rotation

/-- Witness for C27: the example event (4 reference particles) rotated by `1`. -/
theorem Calculate3pCorrelator_rotation_invariant_witness :
    ∃ e e', accumulate realTMath (exampleSettings ℝ) (exampleEvent ℝ)
        (State.init (exampleSettings ℝ)) = some e ∧
      accumulate realTMath (exampleSettings ℝ) (rotateEvent 1 (exampleEvent ℝ))
        (State.init (exampleSettings ℝ)) = some e' ∧
      three1n1n2n (e'.fReQnk 0 0) (e'.fImQnk 0 0) (e'.fReQnk 1 0) (e'.fImQnk 1 0) (e'.fSpk 0 0)
        = three1n1n2n (e.fReQnk 0 0) (e.fImQnk 0 0) (e.fReQnk 1 0) (e.fImQnk 1 0) (e.fSpk 0 0) ∧
      (Calculate3pCorrelator (exampleSettings ℝ) e').f3pCorrelatorPro
        = (Calculate3pCorrelator (exampleSettings ℝ) e).f3pCorrelatorPro := by
  obtain ⟨e, e', h1, h2, -, h4, -, -, -, h8, -⟩ :=
    Calculate3pCorrelator_rotation_invariant (exampleSettings ℝ) (exampleEvent ℝ)
      (State.init (exampleSettings ℝ)) 1 rfl (by simp [rpTracks, exampleEvent, Option.filter])
      (Or.inr (by simp [exampleEvent])) (fun _ _ => rfl) (fun _ _ => rfl) (fun _ _ => rfl)
  exact ⟨e, e', h1, h2, h4, h8⟩

/-! ## Bounds on the correlator and on the non-isotropic terms -/

section Bounds

lemma abs_sum_off_diagonal_le {ι : Type} [Fintype ι] [DecidableEq ι] (f : ι → ι → ℝ)
    (hf : ∀ i j, |f i j| ≤ 1) :
    |∑ i, ∑ j, if i ≠ j then f i j else 0|
      ≤ (Fintype.card ι : ℝ) * ((Fintype.card ι : ℝ) - 1) := by
  have hc : (∑ i : ι, ∑ j : ι, if i ≠ j then (1 : ℝ) else 0)
      = (Fintype.card ι : ℝ) * ((Fintype.card ι : ℝ) - 1) := by
    rw [sum_off_diagonal (fun _ _ => (1 : ℝ))]
    simp
    ring
  rw [← hc]
  refine (Finset.abs_sum_le_sum_abs _ _).trans (Finset.sum_le_sum (fun i _ => ?_))
  refine (Finset.abs_sum_le_sum_abs _ _).trans (Finset.sum_le_sum (fun j _ => ?_))
  by_cases h : i ≠ j
  · rw [if_pos h, if_pos h]
    exact hf i j
  · rw [if_neg h, if_neg h, abs_zero]

lemma abs_sum_distinct_triples_le {ι : Type} [Fintype ι] [DecidableEq ι] (F : ι → ι → ι → ℝ)
    (hF : ∀ i j k, |F i j k| ≤ 1) :
    |∑ i, ∑ j, ∑ k, if i ≠ j ∧ i ≠ k ∧ j ≠ k then F i j k else 0|
      ≤ (Fintype.card ι : ℝ) * ((Fintype.card ι : ℝ) - 1) * ((Fintype.card ι : ℝ) - 2) := by
  have hc : (∑ i : ι, ∑ j : ι, ∑ k : ι, if i ≠ j ∧ i ≠ k ∧ j ≠ k then (1 : ℝ) else 0)
      = (Fintype.card ι : ℝ) * ((Fintype.card ι : ℝ) - 1) * ((Fintype.card ι : ℝ) - 2) := by
    rw [sum_distinct_triples (fun _ _ _ => (1 : ℝ))]
    simp
    ring
  rw [← hc]
  refine (Finset.abs_sum_le_sum_abs _ _).trans (Finset.sum_le_sum (fun i _ => ?_))
  refine (Finset.abs_sum_le_sum_abs _ _).trans (Finset.sum_le_sum (fun j _ => ?_))
  refine (Finset.abs_sum_le_sum_abs _ _).trans (Finset.sum_le_sum (fun k _ => ?_))
  by_cases h : i ≠ j ∧ i ≠ k ∧ j ≠ k
  · rw [if_pos h, if_pos h]
    exact hF i j k
  · rw [if_neg h, if_neg h, abs_zero]

lemma abs_div_le_one_of_abs_le {x d : ℝ} (hd : 0 < d) (hx : |x| ≤ d) :
    -1 ≤ x / d ∧ x / d ≤ 1 := by
  have h := abs_le.mp hx
  constructor
  · rw [le_div_iff₀ hd]
    linarith
  · rw [div_le_one hd]
    exact h.2

/-- The nested-loop 3-particle average of at least 3 angles lies in `[-1, 1]`. -/
lemma naive3pCorrelator_bound (n : Int) (phis : List ℝ) (hM : 3 ≤ phis.length) :
    -1 ≤ naive3pCorrelator realTMath n phis ∧ naive3pCorrelator realTMath n phis ≤ 1 := by
  unfold naive3pCorrelator
  have h3 : (3 : ℝ) ≤ (phis.length : ℝ) := by exact_mod_cast hM
  have hd : (0 : ℝ) < (phis.length : ℝ) * ((phis.length : ℝ) - 1) * ((phis.length : ℝ) - 2) := by
    have a1 : (0 : ℝ) < (phis.length : ℝ) := by linarith
    have a2 : (0 : ℝ) < (phis.length : ℝ) - 1 := by linarith
    have a3 : (0 : ℝ) < (phis.length : ℝ) - 2 := by linarith
    positivity
  refine abs_div_le_one_of_abs_le hd ?_
  have := abs_sum_distinct_triples_le
    (fun i j k : Fin phis.length =>
      realTMath.Cos ((n : ℝ) * (phis[i.1] + phis[j.1] - 2 * phis[k.1])))
    (fun i j k => Real.abs_cos_le_one _)
  rwa [Fintype.card_fin] at this

/-- The nested-loop pair average of a function bounded by 1, over at least 2 angles, lies in
`[-1, 1]`. -/
lemma naivePairAverage_bound (f : ℝ → ℝ → ℝ) (hf : ∀ x y, |f x y| ≤ 1) (phis : List ℝ)
    (hM : 2 ≤ phis.length) :
    -1 ≤ naivePairAverage f phis ∧ naivePairAverage f phis ≤ 1 := by
  unfold naivePairAverage
  have h2 : (2 : ℝ) ≤ (phis.length : ℝ) := by exact_mod_cast hM
  have hd : (0 : ℝ) < (phis.length : ℝ) * ((phis.length : ℝ) - 1) := by
    have a1 : (0 : ℝ) < (phis.length : ℝ) := by linarith
    have a2 : (0 : ℝ) < (phis.length : ℝ) - 1 := by linarith
    positivity
  refine abs_div_le_one_of_abs_le hd ?_
  have := abs_sum_off_diagonal_le (fun i j : Fin phis.length => f phis[i.1] phis[j.1])
    (fun i j => hf _ _)
  rwa [Fintype.card_fin] at this

/-- The four 2-particle expressions of `CalculateNonIsotropicTerms`, for an event accumulated
from zeroed tables, are the nested-loop pair averages. -/
lemma two_particle_terms_eq_naive (cfg : Settings ℝ) (ev : AliFlowEventSimple ℝ)
    (s e : State ℝ)
    (hRe : ∀ m k, s.fReQnk m k = 0) (hIm : ∀ m k, s.fImQnk m k = 0)
    (hS : ∀ p k, s.fSpk p k = 0) (he : accumulate realTMath cfg ev s = some e) :
    (e.fReQnk 0 0 ^ 2 - e.fImQnk 0 0 ^ 2 - e.fReQnk 1 0) / (e.fSpk 0 0 * (e.fSpk 0 0 - 1))
      = naivePairAverage (fun x y => Real.cos ((cfg.fHarmonic : ℝ) * (x + y))) (rpPhis ev)
    ∧ (2 * e.fReQnk 0 0 * e.fImQnk 0 0 - e.fImQnk 1 0) / (e.fSpk 0 0 * (e.fSpk 0 0 - 1))
      = naivePairAverage (fun x y => Real.sin ((cfg.fHarmonic : ℝ) * (x + y))) (rpPhis ev)
    ∧ (e.fReQnk 1 0 * e.fReQnk 0 0 + e.fImQnk 1 0 * e.fImQnk 0 0 - e.fReQnk 0 0)
        / (e.fSpk 0 0 * (e.fSpk 0 0 - 1))
      = naivePairAverage (fun x y => Real.cos ((cfg.fHarmonic : ℝ) * (2 * x - y))) (rpPhis ev)
    ∧ (e.fImQnk 1 0 * e.fReQnk 0 0 - e.fReQnk 1 0 * e.fImQnk 0 0 - e.fImQnk 0 0)
        / (e.fSpk 0 0 * (e.fSpk 0 0 - 1))
      = naivePairAverage (fun x y => Real.sin ((cfg.fHarmonic : ℝ) * (2 * x - y)))
          (rpPhis ev) := by
  obtain ⟨q1, q2, q3, q4, q5⟩ := reducer_inputs cfg ev s e hRe hIm hS he
  refine ⟨?_, ?_, ?_, ?_⟩
  · unfold naivePairAverage
    rw [q1, q2, q3, q5, ← pair_cos_add (fun i : Fin (rpPhis ev).length =>
      (cfg.fHarmonic : ℝ) * (rpPhis ev)[i.1])]
    simp only [mul_add]
  · unfold naivePairAverage
    rw [q1, q2, q4, q5, ← pair_sin_add (fun i : Fin (rpPhis ev).length =>
      (cfg.fHarmonic : ℝ) * (rpPhis ev)[i.1])]
    simp only [mul_add]
  · unfold naivePairAverage
    rw [q1, q2, q3, q4, q5, ← pair_cos_two_sub (fun i : Fin (rpPhis ev).length =>
      (cfg.fHarmonic : ℝ) * (rpPhis ev)[i.1])]
    simp only [mul_sub, mul_left_comm (cfg.fHarmonic : ℝ) 2]
  · unfold naivePairAverage
    rw [q1, q2, q3, q4, q5, ← pair_sin_two_sub (fun i : Fin (rpPhis ev).length =>
      (cfg.fHarmonic : ℝ) * (rpPhis ev)[i.1])]
    simp only [mul_sub, mul_left_comm (cfg.fHarmonic : ℝ) 2]

/-- A sum of `M` cosines or sines divided by `M > 0` lies in `[-1, 1]`. -/
lemma one_particle_bound {ι : Type} [Fintype ι] (g : ι → ℝ) (hg : ∀ i, |g i| ≤ 1)
    (hM : 0 < Fintype.card ι) :
    -1 ≤ (∑ i, g i) / (Fintype.card ι : ℝ) ∧ (∑ i, g i) / (Fintype.card ι : ℝ) ≤ 1 := by
  refine abs_div_le_one_of_abs_le (by exact_mod_cast hM) ?_
  refine (Finset.abs_sum_le_sum_abs _ _).trans ?_
  refine (Finset.sum_le_sum (fun i _ => hg i)).trans ?_
  simp

/-- C28: over the reals, with no particle weights enabled, for every harmonic and every event
that `Make` has accumulated from zeroed tables into the state `e`: (i) with at least 3 reference
particles `Calculate3pCorrelator` appends to the integrated profile and to the vs-multiplicity
profile one fill each, whose value `three1n1n2n` lies in `[-1, 1]`; (ii) with more than one
reference particle `CalculateNonIsotropicTerms` appends eight fills to the integrated profile of
the non-isotropic terms and eight to the vs-multiplicity profile, and the value of each of them
lies in `[-1, 1]`. -/
theorem reducers_values_bounded (cfg : Settings ℝ) (ev : AliFlowEventSimple ℝ)
    (s e : State ℝ) (hw : cfg.usesParticleWeights = false)
    (hRe : ∀ m k, s.fReQnk m k = 0) (hIm : ∀ m k, s.fImQnk m k = 0)
    (hS : ∀ p k, s.fSpk p k = 0) (he : accumulate realTMath cfg ev s = some e) :
    (3 ≤ (rpPhis ev).length →
      ∃ v w : ℝ, -1 ≤ v ∧ v ≤ 1 ∧
        (Calculate3pCorrelator cfg e).f3pCorrelatorPro.fills
          = e.f3pCorrelatorPro.fills ++ [(1 / 2, v, w)] ∧
        (Calculate3pCorrelator cfg e).f3pCorrelatorVsMPro.fills
          = e.f3pCorrelatorVsMPro.fills ++ [(vsMPosition cfg (e.fSpk 0 0), v, w)]) ∧
    (1 < (rpPhis ev).length →
      ∃ (new : List (ℝ × ℝ × ℝ)) (newVsM : List (ℝ × ℝ × ℝ × ℝ)),
        (CalculateNonIsotropicTerms cfg e).fNonIsotropicTermsPro.fills
          = e.fNonIsotropicTermsPro.fills ++ new ∧
        (CalculateNonIsotropicTerms cfg e).fNonIsotropicTermsVsMPro.fills
          = e.fNonIsotropicTermsVsMPro.fills ++ newVsM ∧
        new.length = 8 ∧ newVsM.length = 8 ∧
        (∀ f ∈ new, -1 ≤ f.2.1 ∧ f.2.1 ≤ 1) ∧
        (∀ f ∈ newVsM, -1 ≤ f.2.2.1 ∧ f.2.2.1 ≤ 1)) := by
  obtain ⟨q1, q2, q3, q4, q5⟩ := reducer_inputs cfg ev s e hRe hIm hS he
  constructor
  · intro hM
    refine ⟨three1n1n2n (e.fReQnk 0 0) (e.fImQnk 0 0) (e.fReQnk 1 0) (e.fImQnk 1 0) (e.fSpk 0 0),
      e.fSpk 0 0 * (e.fSpk 0 0 - 1) * (e.fSpk 0 0 - 2), ?_, ?_, ?_, ?_⟩
    · rw [(three1n1n2n_eq_naive cfg ev s e hRe hIm hS he).1]
      exact (naive3pCorrelator_bound _ _ hM).1
    · rw [(three1n1n2n_eq_naive cfg ev s e hRe hIm hS he).1]
      exact (naive3pCorrelator_bound _ _ hM).2
    · simp [Calculate3pCorrelator, hw, TProfile.Fill]
    · simp [Calculate3pCorrelator, hw, TProfile.Fill]
  · intro hM
    have hM1 : (1 : ℝ) < ((rpPhis ev).length : ℝ) := by exact_mod_cast hM
    have g1 : e.fSpk 0 0 > 1 := by rw [q5]; exact hM1
    have g0 : e.fSpk 0 0 > 0 := by linarith
    have hcard : 0 < Fintype.card (Fin (rpPhis ev).length) := by
      rw [Fintype.card_fin]; omega
    have b1 : -1 ≤ e.fReQnk 0 0 / e.fSpk 0 0 ∧ e.fReQnk 0 0 / e.fSpk 0 0 ≤ 1 := by
      have := one_particle_bound (fun i : Fin (rpPhis ev).length =>
        Real.cos ((cfg.fHarmonic : ℝ) * (rpPhis ev)[i.1])) (fun i => Real.abs_cos_le_one _) hcard
      rwa [Fintype.card_fin, ← q1, ← q5] at this
    have b2 : -1 ≤ e.fImQnk 0 0 / e.fSpk 0 0 ∧ e.fImQnk 0 0 / e.fSpk 0 0 ≤ 1 := by
      have := one_particle_bound (fun i : Fin (rpPhis ev).length =>
        Real.sin ((cfg.fHarmonic : ℝ) * (rpPhis ev)[i.1])) (fun i => Real.abs_sin_le_one _) hcard
      rwa [Fintype.card_fin, ← q2, ← q5] at this
    have b3 : -1 ≤ e.fReQnk 1 0 / e.fSpk 0 0 ∧ e.fReQnk 1 0 / e.fSpk 0 0 ≤ 1 := by
      have := one_particle_bound (fun i : Fin (rpPhis ev).length =>
        Real.cos (2 * ((cfg.fHarmonic : ℝ) * (rpPhis ev)[i.1])))
        (fun i => Real.abs_cos_le_one _) hcard
      rwa [Fintype.card_fin, ← q3, ← q5] at this
    have b4 : -1 ≤ e.fImQnk 1 0 / e.fSpk 0 0 ∧ e.fImQnk 1 0 / e.fSpk 0 0 ≤ 1 := by
      have := one_particle_bound (fun i : Fin (rpPhis ev).length =>
        Real.sin (2 * ((cfg.fHarmonic : ℝ) * (rpPhis ev)[i.1])))
        (fun i => Real.abs_sin_le_one _) hcard
      rwa [Fintype.card_fin, ← q4, ← q5] at this
    obtain ⟨n1, n2, n3, n4⟩ := two_particle_terms_eq_naive cfg ev s e hRe hIm hS he
    have c1 := naivePairAverage_bound (fun x y => Real.cos ((cfg.fHarmonic : ℝ) * (x + y)))
      (fun _ _ => Real.abs_cos_le_one _) (rpPhis ev) hM
    have c2 := naivePairAverage_bound (fun x y => Real.sin ((cfg.fHarmonic : ℝ) * (x + y)))
      (fun _ _ => Real.abs_sin_le_one _) (rpPhis ev) hM
    have c3 := naivePairAverage_bound (fun x y => Real.cos ((cfg.fHarmonic : ℝ) * (2 * x - y)))
      (fun _ _ => Real.abs_cos_le_one _) (rpPhis ev) hM
    have c4 := naivePairAverage_bound (fun x y => Real.sin ((cfg.fHarmonic : ℝ) * (2 * x - y)))
      (fun _ _ => Real.abs_sin_le_one _) (rpPhis ev) hM
    rw [← n1] at c1
    rw [← n2] at c2
    rw [← n3] at c3
    rw [← n4] at c4
    refine ⟨[(1 / 2, e.fReQnk 0 0 / e.fSpk 0 0, e.fSpk 0 0),
         (3 / 2, e.fImQnk 0 0 / e.fSpk 0 0, e.fSpk 0 0),
         (5 / 2, e.fReQnk 1 0 / e.fSpk 0 0, e.fSpk 0 0),
         (7 / 2, e.fImQnk 1 0 / e.fSpk 0 0, e.fSpk 0 0),
         (9 / 2, (e.fReQnk 0 0 ^ 2 - e.fImQnk 0 0 ^ 2 - e.fReQnk 1 0)
            / (e.fSpk 0 0 * (e.fSpk 0 0 - 1)), e.fSpk 0 0 * (e.fSpk 0 0 - 1)),
         (11 / 2, (2 * e.fReQnk 0 0 * e.fImQnk 0 0 - e.fImQnk 1 0)
            / (e.fSpk 0 0 * (e.fSpk 0 0 - 1)), e.fSpk 0 0 * (e.fSpk 0 0 - 1)),
         (13 / 2, (e.fReQnk 1 0 * e.fReQnk 0 0 + e.fImQnk 1 0 * e.fImQnk 0 0 - e.fReQnk 0 0)
            / (e.fSpk 0 0 * (e.fSpk 0 0 - 1)), e.fSpk 0 0 * (e.fSpk 0 0 - 1)),
         (15 / 2, (e.fImQnk 1 0 * e.fReQnk 0 0 - e.fReQnk 1 0 * e.fImQnk 0 0 - e.fImQnk 0 0)
            / (e.fSpk 0 0 * (e.fSpk 0 0 - 1)), e.fSpk 0 0 * (e.fSpk 0 0 - 1))],
        [(1 / 2, vsMPosition cfg (e.fSpk 0 0), e.fReQnk 0 0 / e.fSpk 0 0, e.fSpk 0 0),
         (3 / 2, vsMPosition cfg (e.fSpk 0 0), e.fImQnk 0 0 / e.fSpk 0 0, e.fSpk 0 0),
         (5 / 2, vsMPosition cfg (e.fSpk 0 0), e.fReQnk 1 0 / e.fSpk 0 0, e.fSpk 0 0),
         (7 / 2, vsMPosition cfg (e.fSpk 0 0), e.fImQnk 1 0 / e.fSpk 0 0, e.fSpk 0 0),
         (9 / 2, vsMPosition cfg (e.fSpk 0 0),
            (e.fReQnk 0 0 ^ 2 - e.fImQnk 0 0 ^ 2 - e.fReQnk 1 0)
            / (e.fSpk 0 0 * (e.fSpk 0 0 - 1)), e.fSpk 0 0 * (e.fSpk 0 0 - 1)),
         (11 / 2, vsMPosition cfg (e.fSpk 0 0),
            (2 * e.fReQnk 0 0 * e.fImQnk 0 0 - e.fImQnk 1 0)
            / (e.fSpk 0 0 * (e.fSpk 0 0 - 1)), e.fSpk 0 0 * (e.fSpk 0 0 - 1)),
         (13 / 2, vsMPosition cfg (e.fSpk 0 0),
            (e.fReQnk 1 0 * e.fReQnk 0 0 + e.fImQnk 1 0 * e.fImQnk 0 0 - e.fReQnk 0 0)
            / (e.fSpk 0 0 * (e.fSpk 0 0 - 1)), e.fSpk 0 0 * (e.fSpk 0 0 - 1)),
         (15 / 2, vsMPosition cfg (e.fSpk 0 0),
            (e.fImQnk 1 0 * e.fReQnk 0 0 - e.fReQnk 1 0 * e.fImQnk 0 0 - e.fImQnk 0 0)
            / (e.fSpk 0 0 * (e.fSpk 0 0 - 1)), e.fSpk 0 0 * (e.fSpk 0 0 - 1))],
        ?_, ?_, rfl, rfl, ?_, ?_⟩
    · simp [CalculateNonIsotropicTerms, hw, g0, g1, TProfile.Fill]
    · simp [CalculateNonIsotropicTerms, hw, g0, g1, TProfile2D.Fill]
    · intro f hf
      simp only [List.mem_cons, List.mem_singleton, List.not_mem_nil, or_false] at hf
      rcases hf with rfl | rfl | rfl | rfl | rfl | rfl | rfl | rfl
      · exact b1
      · exact b2
      · exact b3
      · exact b4
      · exact c1
      · exact c2
      · exact c3
      · exact c4
    · intro f hf
      simp only [List.mem_cons, List.mem_singleton, List.not_mem_nil, or_false] at hf
      rcases hf with rfl | rfl | rfl | rfl | rfl | rfl | rfl | rfl
      · exact b1
      · exact b2
      · exact b3
      · exact b4
      · exact c1
      · exact c2
      · exact c3
      · exact c4

end Bounds

/-- Witness for C28: the example event (`M = 4`), accumulated right after `Init`. -/
theorem reducers_values_bounded_witness :
    ∃ e, accumulate realTMath (exampleSettings ℝ) (exampleEvent ℝ)
        (State.init (exampleSettings ℝ)) = some e ∧
      (∃ v w : ℝ, -1 ≤ v ∧ v ≤ 1 ∧
        (Calculate3pCorrelator (exampleSettings ℝ) e).f3pCorrelatorPro.fills
          = e.f3pCorrelatorPro.fills ++ [(1 / 2, v, w)]) ∧
      (∃ new : List (ℝ × ℝ × ℝ),
        (CalculateNonIsotropicTerms (exampleSettings ℝ) e).fNonIsotropicTermsPro.fills
          = e.fNonIsotropicTermsPro.fills ++ new ∧
        new.length = 8 ∧ ∀ f ∈ new, -1 ≤ f.2.1 ∧ f.2.1 ≤ 1) := by
  obtain ⟨s1, h1⟩ := trackLoop_some realTMath (exampleSettings ℝ) (exampleEvent ℝ)
    (State.init (exampleSettings ℝ)) (Or.inr (by simp [exampleEvent]))
  have he : accumulate realTMath (exampleSettings ℝ) (exampleEvent ℝ)
      (State.init (exampleSettings ℝ)) = some (finalizeSpk s1) :=
    (accumulate_eq_some _ _ _ _ _).mpr ⟨s1, h1, rfl⟩
  have T := reducers_values_bounded (exampleSettings ℝ) (exampleEvent ℝ)
    (State.init (exampleSettings ℝ)) (finalizeSpk s1) rfl (fun _ _ => rfl) (fun _ _ => rfl)
    (fun _ _ => rfl) he
  obtain ⟨v, w, hv1, hv2, hf, -⟩ := T.1 (by simp [rpPhis, rpTracks_exampleEvent])
  obtain ⟨new, -, hn, -, hl, -, hb, -⟩ := T.2 (by simp [rpPhis, rpTracks_exampleEvent])
  exact ⟨_, he, ⟨v, w, hv1, hv2, hf⟩, ⟨new, hn, hl, hb⟩⟩

/-! ## The particle weights of `Make` -/

section Weights
variable {K : Type} [LinearOrderedField K] [FloorRing K]

/-- C22 (amended): for every reference particle `t`, each of the three weights used in the
accumulation is 1 when its table is disabled, that is when its flag is off, or the table is
missing (null pointer), or the guarding bin count (`fnBinsPhi`, `fnBinsPt`) or bin width
(`fEtaBinWidth`) is zero; with the flag on, the table attached and the guarding number non-zero
it is what `GetBinContent` of the table returns for the bin number `1+floor(...)` of the track,
with no test whether that bin lies inside the table; and the accumulation adds the `k`-th power
of the product of the three weights to `S[p][k]` and that power times the cosine or sine to
`Q[m][k]`. -/
theorem Make_track_weights (tm : TMath K) (cfg : Settings K) (t : AliFlowTrackSimple K)
    (s : State K) :
    (cfg.fUsePhiWeights = false ∨ cfg.fPhiWeights = none ∨ cfg.fnBinsPhi = 0 →
      wPhi tm cfg t = 1) ∧
    (cfg.fUsePtWeights = false ∨ cfg.fPtWeights = none ∨ cfg.fnBinsPt = 0 →
      wPt cfg t = 1) ∧
    (cfg.fUseEtaWeights = false ∨ cfg.fEtaWeights = none ∨ cfg.fEtaBinWidth = 0 →
      wEta cfg t = 1) ∧
    (∀ h, cfg.fUsePhiWeights = true → cfg.fPhiWeights = some h → cfg.fnBinsPhi ≠ 0 →
      wPhi tm cfg t = h (1 + ⌊t.Phi * (cfg.fnBinsPhi : K) / tm.TwoPi⌋)) ∧
    (∀ h, cfg.fUsePtWeights = true → cfg.fPtWeights = some h → cfg.fnBinsPt ≠ 0 →
      wPt cfg t = h (1 + ⌊(t.Pt - cfg.fPtMin) / cfg.fPtBinWidth⌋)) ∧
    (∀ h, cfg.fUseEtaWeights = true → cfg.fEtaWeights = some h → cfg.fEtaBinWidth ≠ 0 →
      wEta cfg t = h (1 + ⌊(t.Eta - cfg.fEtaMin) / cfg.fEtaBinWidth⌋)) ∧
    (∀ p k, p < 4 → k < 4 →
      (accumulateRP tm cfg t s).fSpk p k
        = s.fSpk p k + (wPhi tm cfg t * wPt cfg t * wEta cfg t) ^ k) ∧
    (∀ m k, m < 2 → k < 4 →
      (accumulateRP tm cfg t s).fReQnk m k
        = s.fReQnk m k + (wPhi tm cfg t * wPt cfg t * wEta cfg t) ^ k
            * tm.Cos (((((m : Int) + 1) * cfg.fHarmonic : Int) : K) * t.Phi) ∧
      (accumulateRP tm cfg t s).fImQnk m k
        = s.fImQnk m k + (wPhi tm cfg t * wPt cfg t * wEta cfg t) ^ k
            * tm.Sin (((((m : Int) + 1) * cfg.fHarmonic : Int) : K) * t.Phi)) := by
  refine ⟨?_, ?_, ?_, ?_, ?_, ?_, ?_, ?_⟩
  · intro h
    unfold wPhi
    cases hT : cfg.fPhiWeights with
    | none => rfl
    | some g =>
      rcases h with h | h | h
      · simp [h]
      · rw [hT] at h; cases h
      · simp [h]
  · intro h
    unfold wPt
    cases hT : cfg.fPtWeights with
    | none => rfl
    | some g =>
      rcases h with h | h | h
      · simp [h]
      · rw [hT] at h; cases h
      · simp [h]
  · intro h
    unfold wEta
    cases hT : cfg.fEtaWeights with
    | none => rfl
    | some g =>
      rcases h with h | h | h
      · simp [h]
      · rw [hT] at h; cases h
      · simp [h]
  · intro h hf ht hn
    unfold wPhi
    rw [ht]
    simp [hf, hn]
  · intro h hf ht hn
    unfold wPt
    rw [ht]
    simp [hf, hn]
  · intro h hf ht hn
    unfold wEta
    rw [ht]
    simp [hf, hn]
  · intro p k hp hk
    simp [accumulateRP, trackWeight, hp, hk]
  · intro m k hm hk
    simp [accumulateRP, reQTerm, imQTerm, trackWeight, hm, hk]

end Weights

/-- Witness for C22: the example table settings and the track of `pt = 12` (the flags of the phi
and eta tables are off, the pt table is attached with `fnBinsPt = 100`), and the example
settings with the phi flag set and no phi table attached. -/
theorem Make_track_weights_witness :
    wPhi realTMath (exampleTableSettings ℝ) (exampleFastTrack ℝ) = 1 ∧
    wEta (exampleTableSettings ℝ) (exampleFastTrack ℝ) = 1 ∧
    wPt (exampleTableSettings ℝ) (exampleFastTrack ℝ)
      = (fun b : Int => if 1 ≤ b ∧ b ≤ 100 then (2 : ℝ) else 0)
          (1 + ⌊((exampleFastTrack ℝ).Pt - (exampleTableSettings ℝ).fPtMin)
            / (exampleTableSettings ℝ).fPtBinWidth⌋) ∧
    (exampleWeightedSettings ℝ).fUsePhiWeights = true ∧
    wPhi realTMath (exampleWeightedSettings ℝ) (exampleFastTrack ℝ) = 1 := by
  have T := Make_track_weights realTMath (exampleTableSettings ℝ) (exampleFastTrack ℝ)
    (State.init (exampleTableSettings ℝ))
  have U := Make_track_weights realTMath (exampleWeightedSettings ℝ) (exampleFastTrack ℝ)
    (State.init (exampleWeightedSettings ℝ))
  exact ⟨T.1 (Or.inl rfl), T.2.2.1 (Or.inl rfl), T.2.2.2.2.1 _ rfl rfl (by decide), rfl,
    U.1 (Or.inr (Or.inl rfl))⟩

/-- Counterexample for C22: with the pt table of the example table settings enabled (100 bins
over `[0, 10)`, every bin holding 2, overflow empty), the reference particle of `pt = 12` has the
bin number `1 + floor((12 - 0)/(1/10)) = 121`, outside the bins `1..100` of the table, and its pt
weight is the content 0 of the overflow bin, not 1. -/
theorem wPt_outside_table_not_one :
    (exampleTableSettings ℚ).fUsePtWeights = true ∧
    (exampleTableSettings ℚ).fnBinsPt = 100 ∧
    1 + ⌊((exampleFastTrack ℚ).Pt - (exampleTableSettings ℚ).fPtMin)
        / (exampleTableSettings ℚ).fPtBinWidth⌋ = 121 ∧
    wPt (exampleTableSettings ℚ) (exampleFastTrack ℚ) = 0 ∧
    wPt (exampleTableSettings ℚ) (exampleFastTrack ℚ) ≠ 1 := by
  have f : ⌊((12 : ℚ) - 0) / (1 / 10)⌋ = 120 := by
    rw [Int.floor_eq_iff]; constructor <;> norm_num
  have hb : 1 + ⌊((exampleFastTrack ℚ).Pt - (exampleTableSettings ℚ).fPtMin)
      / (exampleTableSettings ℚ).fPtBinWidth⌋ = 121 := by
    show 1 + ⌊((12 : ℚ) - 0) / (1 / 10)⌋ = 121
    rw [f]
    rfl
  have hw : wPt (exampleTableSettings ℚ) (exampleFastTrack ℚ) = 0 := by
    show (if (true = true ∧ (100 : Int) ≠ 0) then
      (fun b : Int => if 1 ≤ b ∧ b ≤ 100 then (2 : ℚ) else 0)
        (1 + ⌊((12 : ℚ) - 0) / (1 / 10)⌋) else 1) = 0
    rw [f]
    simp
  exact ⟨rfl, rfl, hb, hw, by rw [hw]; norm_num⟩

/-! ## The settings written by `BookProfileHoldingSettings` and read by `AccessSettings` -/

section SettingsProfile
variable {K : Type} [LinearOrderedField K] [FloorRing K]

lemma settingsAxis_FindBin (i : Int) (hi0 : 0 ≤ i) (hi1 : i < 8) :
    (⟨8, 0, 8⟩ : TAxis K).FindBin ((i : K) + 1 / 2) = i + 1 :=
  TAxis.FindBin_half (⟨8, 0, 8⟩ : TAxis K) rfl (by simp) i hi0 hi1

lemma settingsAxis_bins :
    (⟨8, 0, 8⟩ : TAxis K).FindBin (1 / 2) = 1 ∧ (⟨8, 0, 8⟩ : TAxis K).FindBin (3 / 2) = 2 ∧
    (⟨8, 0, 8⟩ : TAxis K).FindBin (5 / 2) = 3 ∧ (⟨8, 0, 8⟩ : TAxis K).FindBin (7 / 2) = 4 ∧
    (⟨8, 0, 8⟩ : TAxis K).FindBin (9 / 2) = 5 ∧ (⟨8, 0, 8⟩ : TAxis K).FindBin (11 / 2) = 6 ∧
    (⟨8, 0, 8⟩ : TAxis K).FindBin (13 / 2) = 7 ∧ (⟨8, 0, 8⟩ : TAxis K).FindBin (15 / 2) = 8 := by
  have h0 := settingsAxis_FindBin (K := K) 0 (by norm_num) (by norm_num)
  have h1 := settingsAxis_FindBin (K := K) 1 (by norm_num) (by norm_num)
  have h2 := settingsAxis_FindBin (K := K) 2 (by norm_num) (by norm_num)
  have h3 := settingsAxis_FindBin (K := K) 3 (by norm_num) (by norm_num)
  have h4 := settingsAxis_FindBin (K := K) 4 (by norm_num) (by norm_num)
  have h5 := settingsAxis_FindBin (K := K) 5 (by norm_num) (by norm_num)
  have h6 := settingsAxis_FindBin (K := K) 6 (by norm_num) (by norm_num)
  have h7 := settingsAxis_FindBin (K := K) 7 (by norm_num) (by norm_num)
  norm_num at h0 h1 h2 h3 h4 h5 h6 h7
  exact ⟨h0, h1, h2, h3, h4, h5, h6, h7⟩

/-- The contents of bins 1..8 of the profile booked by `BookProfileHoldingSettings`. -/
lemma BookProfileHoldingSettings_content (cfg : Settings K) :
    (BookProfileHoldingSettings cfg).GetBinContent 1
      = boolToDouble cfg.fCorrectForDetectorEffects ∧
    (BookProfileHoldingSettings cfg).GetBinContent 2 = (cfg.fNoOfMultipicityBins : K) ∧
    (BookProfileHoldingSettings cfg).GetBinContent 3 = cfg.fMultipicityBinWidth ∧
    (BookProfileHoldingSettings cfg).GetBinContent 4 = cfg.fMinMultiplicity ∧
    (BookProfileHoldingSettings cfg).GetBinContent 5 = boolToDouble cfg.fPrintOnTheScreen ∧
    (BookProfileHoldingSettings cfg).GetBinContent 6 = (cfg.fHarmonic : K) ∧
    (BookProfileHoldingSettings cfg).GetBinContent 7 = boolToDouble cfg.fOppositeChargesPOI ∧
    (BookProfileHoldingSettings cfg).GetBinContent 8
      = boolToDouble cfg.fOppositeChargesPOI := by
  obtain ⟨h1, h2, h3, h4, h5, h6, h7, h8⟩ := settingsAxis_bins (K := K)
  have h1' : (⟨8, 0, 8⟩ : TAxis K).FindBin 2⁻¹ = 1 := by simpa using h1
  refine ⟨?_, ?_, ?_, ?_, ?_, ?_, ?_, ?_⟩ <;>
    simp [BookProfileHoldingSettings, TProfile.book, TProfile.Fill, TProfile.GetBinContent,
      TProfile.GetBinEntries, TProfile.binSumwy, TProfile.binFills, List.filter_cons,
      h1', h2, h3, h4, h5, h6, h7, h8]

lemma toInt_intCast (n : Int) : toInt ((n : Int) : K) = n := by
  unfold toInt
  split_ifs <;> simp

lemma boolToDouble_ne_zero (b : Bool) : decide ((boolToDouble b : K) ≠ 0) = b := by
  cases b <;> simp [boolToDouble]

/-- What `AccessSettings` recovers from the profile booked by `BookProfileHoldingSettings`
with the same configuration: the first seven settings are recovered, the eighth,
`fEvaluateDifferential3pCorrelator`, becomes `fOppositeChargesPOI`; all other members are
untouched. -/
lemma AccessSettings_BookProfileHoldingSettings (cfg : Settings K) :
    AccessSettings (BookProfileHoldingSettings cfg) cfg
      = { cfg with fEvaluateDifferential3pCorrelator := cfg.fOppositeChargesPOI } := by
  obtain ⟨h1, h2, h3, h4, h5, h6, h7, h8⟩ := BookProfileHoldingSettings_content cfg
  unfold AccessSettings
  rw [h1, h2, h3, h4, h5, h6, h7, h8]
  simp only [toInt_intCast, boolToDouble_ne_zero]

end SettingsProfile

/-- Evaluation for C25 at the example settings (`fOppositeChargesPOI = kFALSE`,
`fEvaluateDifferential3pCorrelator = kTRUE`): `AccessSettings` applied to the profile that
`BookProfileHoldingSettings` books for these settings recovers the first seven settings and sets
`fEvaluateDifferential3pCorrelator` to `kFALSE`, the value of `fOppositeChargesPOI`. -/
theorem AccessSettings_loses_differential_flag :
    (exampleSettings ℚ).fEvaluateDifferential3pCorrelator = true ∧
    (exampleSettings ℚ).fOppositeChargesPOI = false ∧
    (BookProfileHoldingSettings (exampleSettings ℚ)).GetBinContent 8 = 0 ∧
    AccessSettings (BookProfileHoldingSettings (exampleSettings ℚ)) (exampleSettings ℚ)
      = { exampleSettings ℚ with fEvaluateDifferential3pCorrelator := false } ∧
    (AccessSettings (BookProfileHoldingSettings (exampleSettings ℚ))
      (exampleSettings ℚ)).fEvaluateDifferential3pCorrelator = false := by
  have h := AccessSettings_BookProfileHoldingSettings (exampleSettings ℚ)
  have c := (BookProfileHoldingSettings_content (exampleSettings ℚ)).2.2.2.2.2.2.2
  refine ⟨rfl, rfl, ?_, h, ?_⟩
  · rw [c]
    rfl
  · rw [h]
    rfl

/-! ## Bounds of the accesses to the tables -/

section Tables
variable {K : Type} [LinearOrderedField K] [FloorRing K]

lemma makeQnkIndices_eq :
    makeQnkIndices = [(0, 0), (0, 1), (0, 2), (0, 3), (1, 0), (1, 1), (1, 2), (1, 3)] := by
  decide

lemma makeSpkIndices_eq :
    makeSpkIndices = [(0, 0), (0, 1), (0, 2), (0, 3), (1, 0), (1, 1), (1, 2), (1, 3),
      (2, 0), (2, 1), (2, 2), (2, 3), (3, 0), (3, 1), (3, 2), (3, 3)] := by
  decide

lemma mem_makeQnkIndices (rc : Int × Int) :
    rc ∈ makeQnkIndices ↔ (0 ≤ rc.1 ∧ rc.1 < 2) ∧ (0 ≤ rc.2 ∧ rc.2 < 4) := by
  obtain ⟨r, c⟩ := rc
  rw [makeQnkIndices_eq]
  simp only [List.mem_cons, List.mem_singleton, List.not_mem_nil, or_false, Prod.mk.injEq]
  omega

lemma mem_makeSpkIndices (rc : Int × Int) :
    rc ∈ makeSpkIndices ↔ (0 ≤ rc.1 ∧ rc.1 < 4) ∧ (0 ≤ rc.2 ∧ rc.2 < 4) := by
  obtain ⟨r, c⟩ := rc
  rw [makeSpkIndices_eq]
  simp only [List.mem_cons, List.mem_singleton, List.not_mem_nil, or_false, Prod.mk.injEq]
  constructor
  · intro h
    casesm* _ ∨ _ <;> casesm* _ ∧ _ <;> subst_vars <;> norm_num
  · rintro ⟨⟨h1, h2⟩, ⟨h3, h4⟩⟩
    interval_cases r <;> interval_cases c <;> simp

/-- C30: for every harmonic `n ≥ 1` every index pair used for `fReQnk` and `fImQnk` (rows 0, 1
and columns 0..3 in `Make`, the elements `(0,0)` and `(1,0)` in the three reducers) lies inside
the `2n × 9` tables allocated by `BookAllEventByEventQuantities`; every index pair used for
`fSpk` (`p, k` in 0..3 in `Make`, `(0,0)` in the reducers) lies inside the `4 × 4` table, for any
harmonic; for `n = 0` the tables `fReQnk` and `fImQnk` have no rows and none of the index pairs
used for them lies inside.  The index sets are those of the embedded code: the accumulation step
and the final power of `Make` change no element outside them. -/
theorem table_accesses_in_bounds (tm : TMath K) (cfg : Settings K) (t : AliFlowTrackSimple K)
    (s : State K) :
    (1 ≤ cfg.fHarmonic →
      ∀ rc ∈ makeQnkIndices ++ reducerQnkIndices, inBounds (qnkDims cfg) rc = true) ∧
    (∀ rc ∈ makeSpkIndices ++ reducerSpkIndices, inBounds spkDims rc = true) ∧
    (cfg.fHarmonic = 0 →
      (qnkDims cfg).1 = 0 ∧
      ∀ rc ∈ makeQnkIndices ++ reducerQnkIndices, inBounds (qnkDims cfg) rc = false) ∧
    (∀ m k : Nat, ((m : Int), (k : Int)) ∉ makeQnkIndices →
      (accumulateRP tm cfg t s).fReQnk m k = s.fReQnk m k ∧
      (accumulateRP tm cfg t s).fImQnk m k = s.fImQnk m k) ∧
    (∀ p k : Nat, ((p : Int), (k : Int)) ∉ makeSpkIndices →
      (accumulateRP tm cfg t s).fSpk p k = s.fSpk p k ∧ (finalizeSpk s).fSpk p k = s.fSpk p k) := by
  refine ⟨?_, ?_, ?_, ?_, ?_⟩
  · intro hn rc hrc
    rw [List.mem_append] at hrc
    have hq : (0 ≤ rc.1 ∧ rc.1 < 2) ∧ (0 ≤ rc.2 ∧ rc.2 < 4) := by
      rcases hrc with h | h
      · exact (mem_makeQnkIndices rc).mp h
      · simp only [reducerQnkIndices, List.mem_cons, List.mem_singleton, List.not_mem_nil,
          or_false] at h
        rcases h with rfl | rfl <;> simp
    simp only [inBounds, qnkDims, decide_eq_true_eq]
    obtain ⟨h1, h2⟩ := hq
    refine ⟨?_, ?_, ?_, ?_⟩ <;> omega
  · intro rc hrc
    rw [List.mem_append] at hrc
    have hq : (0 ≤ rc.1 ∧ rc.1 < 4) ∧ (0 ≤ rc.2 ∧ rc.2 < 4) := by
      rcases hrc with h | h
      · exact (mem_makeSpkIndices rc).mp h
      · simp only [reducerSpkIndices, List.mem_singleton] at h
        subst h
        simp
    simp only [inBounds, spkDims, decide_eq_true_eq]
    exact ⟨hq.1.1, hq.1.2, hq.2.1, hq.2.2⟩
  · intro hn
    refine ⟨by simp [qnkDims, hn], ?_⟩
    intro rc _
    simp only [inBounds, qnkDims, hn, decide_eq_false_iff_not]
    omega
  · intro m k hmk
    have h : ¬ (m < 2 ∧ k < 4) := by
      intro h
      apply hmk
      rw [mem_makeQnkIndices]
      constructor <;> simp only <;> omega
    simp [accumulateRP, h]
  · intro p k hpk
    have h : ¬ (p < 4 ∧ k < 4) := by
      intro h
      apply hpk
      rw [mem_makeSpkIndices]
      constructor <;> simp only <;> omega
    simp [accumulateRP, finalizeSpk, h]

end Tables

/-- Witness for C30: harmonic 2 of the example settings; the element `(1, 3)` of the `4 × 9`
tables and the element `(3, 3)` of the `4 × 4` table are used by `Make` and lie inside. -/
theorem table_accesses_in_bounds_witness :
    inBounds (qnkDims (exampleSettings ℚ)) (1, 3) = true ∧ inBounds spkDims (3, 3) = true := by
  have T := table_accesses_in_bounds (⟨id, id, 1⟩ : TMath ℚ) (exampleSettings ℚ)
    (exampleFastTrack ℚ) (State.init (exampleSettings ℚ))
  exact ⟨T.1 (by decide) (1, 3) (by decide), T.2.1 (3, 3) (by decide)⟩

/-! ## Finish and the pointer check -/

section FinishCheck
variable {K : Type} [LinearOrderedField K] [FloorRing K]

/-- The pointer check passes exactly when the eight tested members are set and, in differential
mode, the two differential profiles; `fDetectorBiasVsMHist` plays no part. -/
lemma CheckPointersUsedInFinish_eq_true (cfg : Settings K) (p : FinishPointers) :
    CheckPointersUsedInFinish cfg p = true ↔
      p.fAnalysisSettings = true ∧ p.f3pCorrelatorPro = true ∧ p.fNonIsotropicTermsPro = true ∧
      p.f3pCorrelatorVsMPro = true ∧ p.f3pCorrelatorVsMHist = true ∧
      p.fNonIsotropicTermsVsMPro = true ∧ p.f3pCorrelatorHist = true ∧
      p.fDetectorBiasHist = true ∧
      (cfg.fEvaluateDifferential3pCorrelator = true →
        p.f3pCorrelatorVsPtSumDiffPro 0 = true ∧ p.f3pCorrelatorVsPtSumDiffPro 1 = true) := by
  unfold CheckPointersUsedInFinish
  cases p.fAnalysisSettings <;> cases p.f3pCorrelatorPro <;> cases p.fNonIsotropicTermsPro <;>
    cases p.f3pCorrelatorVsMPro <;> cases p.f3pCorrelatorVsMHist <;>
    cases p.fNonIsotropicTermsVsMPro <;> cases p.f3pCorrelatorHist <;>
    cases p.fDetectorBiasHist <;> cases cfg.fEvaluateDifferential3pCorrelator <;>
    cases p.f3pCorrelatorVsPtSumDiffPro 0 <;> cases p.f3pCorrelatorVsPtSumDiffPro 1 <;> simp

/-- When the pointer check fails, `Finish` ends with `exit(0)` before anything is computed. -/
lemma Finish_exited (cfg : Settings K) (p : FinishPointers) (fAnalysisSettings : TProfile K)
    (s : State K) (h : CheckPointersUsedInFinish cfg p = false) :
    Finish cfg p fAnalysisSettings s = FinishResult.exited := by
  simp [Finish, h]

lemma correctVsMStepChecked_of_zero (allocated : Bool) (s : State K) (b : Int)
    (h : s.f3pCorrelatorVsMPro.GetBinContent b = 0) :
    correctVsMStepChecked allocated s b = Except.ok (correctVsMStep s b) := by
  simp [correctVsMStepChecked, correctVsMStep, h]

lemma correctVsMStepChecked_allocated (s : State K) (b : Int) :
    correctVsMStepChecked true s b = Except.ok (correctVsMStep s b) := by
  by_cases h : s.f3pCorrelatorVsMPro.GetBinContent b = 0 <;>
    simp [correctVsMStepChecked, correctVsMStep, h]

lemma correctVsMStepChecked_null (s : State K) (b : Int)
    (h : s.f3pCorrelatorVsMPro.GetBinContent b ≠ 0) :
    correctVsMStepChecked false s b = Except.error
      { s with
        f3pCorrelatorVsMHist := s.f3pCorrelatorVsMHist.SetBinContent b
          (corrected3pCorrelatorVsM (s.f3pCorrelatorVsMPro.GetBinContent b)
            (fun nit => if nit < 10 then
              s.fNonIsotropicTermsVsMPro.GetBinContent ((nit : Int) + 1) b else 0)) } := by
  simp [correctVsMStepChecked, h]

/-- With the bias histogram allocated the loop always runs to its end. -/
lemma foldlM_correctVsMStepChecked_allocated (l : List Int) (s : State K) :
    l.foldlM (correctVsMStepChecked true) s = Except.ok (l.foldl correctVsMStep s) := by
  induction l generalizing s with
  | nil => rfl
  | cons a l ih =>
    rw [List.foldlM_cons, correctVsMStepChecked_allocated, List.foldl_cons]
    exact ih _

/-- The loop runs to its end, whether or not the bias histogram is allocated, when no bin
of the loop has a non-zero measured value. -/
lemma foldlM_correctVsMStepChecked_of_zero (allocated : Bool) (l : List Int) (s : State K)
    (h : ∀ b ∈ l, s.f3pCorrelatorVsMPro.GetBinContent b = 0) :
    l.foldlM (correctVsMStepChecked allocated) s = Except.ok (l.foldl correctVsMStep s) := by
  induction l generalizing s with
  | nil => rfl
  | cons a l ih =>
    rw [List.foldlM_cons, correctVsMStepChecked_of_zero allocated s a (h a (by simp)),
      List.foldl_cons]
    refine ih _ (fun b hb => ?_)
    rw [(correctVsMStep_pro s a).1]
    exact h b (by simp [hb])

/-- With the bias histogram not allocated the loop stops at the first bin with a non-zero
measured value, after the corrected value of that bin has been stored. -/
lemma foldlM_correctVsMStepChecked_null (l1 l2 : List Int) (b : Int) (s : State K)
    (h1 : ∀ a ∈ l1, s.f3pCorrelatorVsMPro.GetBinContent a = 0)
    (hb : s.f3pCorrelatorVsMPro.GetBinContent b ≠ 0) :
    (l1 ++ b :: l2).foldlM (correctVsMStepChecked false) s = Except.error
      { l1.foldl correctVsMStep s with
        f3pCorrelatorVsMHist := (l1.foldl correctVsMStep s).f3pCorrelatorVsMHist.SetBinContent b
          (corrected3pCorrelatorVsM (s.f3pCorrelatorVsMPro.GetBinContent b)
            (fun nit => if nit < 10 then
              s.fNonIsotropicTermsVsMPro.GetBinContent ((nit : Int) + 1) b else 0)) } := by
  induction l1 generalizing s with
  | nil =>
    rw [List.nil_append, List.foldlM_cons, correctVsMStepChecked_null s b hb]
    rfl
  | cons a l ih =>
    rw [List.cons_append, List.foldlM_cons,
      correctVsMStepChecked_of_zero false s a (h1 a (by simp)), List.foldl_cons]
    have := ih (correctVsMStep s a)
      (fun c hc => by rw [(correctVsMStep_pro s a).1]; exact h1 c (by simp [hc]))
      (by rw [(correctVsMStep_pro s a).1]; exact hb)
    rw [(correctVsMStep_pro s a).1, (correctVsMStep_pro s a).2] at this
    exact this

lemma foldl_correctVsMStep_integrated (l : List Int) (s : State K) :
    (l.foldl correctVsMStep s).f3pCorrelatorHist = s.f3pCorrelatorHist ∧
    (l.foldl correctVsMStep s).fDetectorBiasHist = s.fDetectorBiasHist := by
  induction l generalizing s with
  | nil => exact ⟨rfl, rfl⟩
  | cons a l ih =>
    rw [List.foldl_cons]
    obtain ⟨h1, h2⟩ := ih (correctVsMStep s a)
    rw [h1, h2]
    unfold correctVsMStep
    by_cases h : s.f3pCorrelatorVsMPro.GetBinContent a = 0 <;> simp [h]

/-- With every pointer set, `Finish` ends normally with the state that the two corrections
leave (or the unchanged state when the correction is switched off). -/
lemma Finish_finished (cfg : Settings K) (p : FinishPointers) (fAnalysisSettings : TProfile K)
    (s : State K) (hc : CheckPointersUsedInFinish cfg p = true)
    (hb : p.fDetectorBiasVsMHist = true) :
    Finish cfg p fAnalysisSettings s =
      FinishResult.finished (AccessSettings fAnalysisSettings cfg)
        (if (AccessSettings fAnalysisSettings cfg).fCorrectForDetectorEffects then
          CorrectForDetectorEffectsVsM (AccessSettings fAnalysisSettings cfg)
            (CorrectForDetectorEffects s)
        else s) := by
  unfold Finish
  rw [if_pos hc]
  simp only
  cases hf : (AccessSettings fAnalysisSettings cfg).fCorrectForDetectorEffects with
  | false => simp
  | true =>
    simp only [if_true, CorrectForDetectorEffectsVsMChecked, hb,
      foldlM_correctVsMStepChecked_allocated]
    rfl

end FinishCheck

section FinishExample

lemma exampleState_vsM_profile :
    (Calculate3pCorrelator (exampleSettings ℚ) (exampleState ℚ)).f3pCorrelatorVsMPro
      = ⟨⟨12, 0, 12⟩, [(5 / 2, 1, 24)]⟩ ∧
    (Calculate3pCorrelator (exampleSettings ℚ) (exampleState ℚ)).f3pCorrelatorPro
      = ⟨⟨1, 0, 1⟩, [(1 / 2, 1, 24)]⟩ ∧
    (⟨12, 0, 12⟩ : TAxis ℚ).FindBin (5 / 2) = 3 := by
  have f : ⌊((4 : ℚ) - 1) / 2⌋ = 1 := by
    rw [Int.floor_eq_iff]; constructor <;> norm_num
  refine ⟨?_, ?_, ?_⟩
  · simp [Calculate3pCorrelator, Settings.usesParticleWeights, exampleSettings, exampleState,
      State.init, TProfile.book, TProfile.Fill, three1n1n2n, vsMPosition, toInt, f]
    norm_num [f]
  · simp [Calculate3pCorrelator, Settings.usesParticleWeights, exampleSettings, exampleState,
      State.init, TProfile.book, TProfile.Fill, three1n1n2n]
    norm_num
  · have h := TAxis.FindBin_half (⟨12, 0, 12⟩ : TAxis ℚ) rfl (by simp) 2 (by norm_num)
      (by norm_num)
    norm_num at h
    exact h

lemma exampleState_nonIsotropic (b : Int) :
    (Calculate3pCorrelator (exampleSettings ℚ) (exampleState ℚ)).fNonIsotropicTermsPro.GetBinContent
      b = 0 := by
  have h : (Calculate3pCorrelator (exampleSettings ℚ) (exampleState ℚ)).fNonIsotropicTermsPro
      = TProfile.book 8 0 8 := by
    simp [Calculate3pCorrelator, Settings.usesParticleWeights, exampleSettings, exampleState,
      State.init]
  rw [h]
  simp [TProfile.book, TProfile.GetBinContent, TProfile.GetBinEntries, TProfile.binFills]

lemma exampleState_nonIsotropicVsM (a b : Int) :
    (Calculate3pCorrelator (exampleSettings ℚ)
      (exampleState ℚ)).fNonIsotropicTermsVsMPro.GetBinContent a b = 0 := by
  have h : (Calculate3pCorrelator (exampleSettings ℚ) (exampleState ℚ)).fNonIsotropicTermsVsMPro
      = TProfile2D.book 8 0 8 12 0 12 := by
    simp [Calculate3pCorrelator, Settings.usesParticleWeights, exampleSettings, exampleState,
      State.init]
  rw [h]
  simp [TProfile2D.book, TProfile2D.GetBinContent, TProfile2D.GetBinEntries,
    TProfile2D.binFills]

end FinishExample

/-- Evaluation for C21 with `fDetectorBiasVsMHist` null and every other pointer set, the
correction enabled, the settings profile booked for the example settings, and the example state
after one call of `Calculate3pCorrelator` (measured correlator 1 in the integrated bin and in
multiplicity bin 3): the pointer check passes; `Finish` does not end with `exit(0)` but with the
dereference of the null pointer in the pass `b = 3` of the per-bin correction, and at that moment
the integrated correction has been computed and stored (bin 1 of `f3pCorrelatorHist` and of
`fDetectorBiasHist` hold 1, both 0 before) and so has the corrected value of multiplicity bin 3
(`f3pCorrelatorVsMHist`).  On the state right after `Init` (nothing measured) `Finish` with the
same pointers ends normally. -/
theorem Finish_unchecked_bias_histogram :
    exampleFinishPointers.fDetectorBiasVsMHist = false ∧
    CheckPointersUsedInFinish (exampleSettings ℚ) exampleFinishPointers = true ∧
    (Calculate3pCorrelator (exampleSettings ℚ) (exampleState ℚ)).f3pCorrelatorHist.GetBinContent 1
      = 0 ∧
    (∃ s2, Finish (exampleSettings ℚ) exampleFinishPointers
        (BookProfileHoldingSettings (exampleSettings ℚ))
        (Calculate3pCorrelator (exampleSettings ℚ) (exampleState ℚ))
          = FinishResult.nullDereference s2 ∧
      s2.f3pCorrelatorHist.GetBinContent 1 = 1 ∧
      s2.fDetectorBiasHist.GetBinContent 1 = 1 ∧
      s2.f3pCorrelatorVsMHist.GetBinContent 3 = 1) ∧
    (∃ cfg1 s2, Finish (exampleSettings ℚ) exampleFinishPointers
        (BookProfileHoldingSettings (exampleSettings ℚ)) (State.init (exampleSettings ℚ))
          = FinishResult.finished cfg1 s2) := by
  have hA := AccessSettings_BookProfileHoldingSettings (exampleSettings ℚ)
  have hcorr : (AccessSettings (BookProfileHoldingSettings (exampleSettings ℚ))
      (exampleSettings ℚ)).fCorrectForDetectorEffects = true := by rw [hA]; rfl
  have hn : (AccessSettings (BookProfileHoldingSettings (exampleSettings ℚ))
      (exampleSettings ℚ)).fNoOfMultipicityBins + 2 = 12 := by rw [hA]; rfl
  have hloop : binLoop 12 = [1, 2] ++ 3 :: [4, 5, 6, 7, 8, 9, 10, 11, 12] := by decide
  obtain ⟨pV, pI, fb⟩ := exampleState_vsM_profile
  have hVsM : (CorrectForDetectorEffects
      (Calculate3pCorrelator (exampleSettings ℚ) (exampleState ℚ))).f3pCorrelatorVsMPro
      = ⟨⟨12, 0, 12⟩, [(5 / 2, 1, 24)]⟩ := by
    rw [← pV]
    unfold CorrectForDetectorEffects
    by_cases h : (Calculate3pCorrelator (exampleSettings ℚ)
      (exampleState ℚ)).f3pCorrelatorPro.GetBinContent 1 = 0 <;> simp [h]
  have hNI : (CorrectForDetectorEffects
      (Calculate3pCorrelator (exampleSettings ℚ) (exampleState ℚ))).fNonIsotropicTermsVsMPro
      = (Calculate3pCorrelator (exampleSettings ℚ) (exampleState ℚ)).fNonIsotropicTermsVsMPro := by
    unfold CorrectForDetectorEffects
    by_cases h : (Calculate3pCorrelator (exampleSettings ℚ)
      (exampleState ℚ)).f3pCorrelatorPro.GetBinContent 1 = 0 <;> simp [h]
  have c3 : (⟨⟨12, 0, 12⟩, [(5 / 2, 1, 24)]⟩ : TProfile ℚ).GetBinContent 3 = 1 :=
    TProfile.GetBinContent_singleton _ _ _ _ _ fb (by norm_num)
  have c12 : ∀ a ∈ ([1, 2] : List Int),
      (⟨⟨12, 0, 12⟩, [(5 / 2, 1, 24)]⟩ : TProfile ℚ).GetBinContent a = 0 := by
    intro a ha
    simp only [List.mem_cons, List.mem_singleton, List.not_mem_nil, or_false] at ha
    rcases ha with rfl | rfl <;>
      simp [TProfile.GetBinContent, TProfile.GetBinEntries, TProfile.binFills, fb]
  have m1 : (Calculate3pCorrelator (exampleSettings ℚ)
      (exampleState ℚ)).f3pCorrelatorPro.GetBinContent 1 = 1 := exampleState_3p.1
  have hI : (CorrectForDetectorEffects
      (Calculate3pCorrelator (exampleSettings ℚ) (exampleState ℚ))).f3pCorrelatorHist.GetBinContent
        1 = 1 ∧
      (CorrectForDetectorEffects
      (Calculate3pCorrelator (exampleSettings ℚ) (exampleState ℚ))).fDetectorBiasHist.GetBinContent
        1 = 1 := by
    unfold CorrectForDetectorEffects
    simp [m1, exampleState_nonIsotropic, corrected3pCorrelator, TH1D.SetBinContent,
      TH1D.GetBinContent]
  refine ⟨rfl, by decide, rfl, ?_, ?_⟩
  · have key := foldlM_correctVsMStepChecked_null [1, 2] [4, 5, 6, 7, 8, 9, 10, 11, 12] 3
      (CorrectForDetectorEffects (Calculate3pCorrelator (exampleSettings ℚ) (exampleState ℚ)))
      (by rw [hVsM]; exact c12) (by rw [hVsM, c3]; norm_num)
    have key' : ∃ s2, ([1, 2] ++ 3 :: [4, 5, 6, 7, 8, 9, 10, 11, 12] : List Int).foldlM
          (correctVsMStepChecked false)
          (CorrectForDetectorEffects (Calculate3pCorrelator (exampleSettings ℚ) (exampleState ℚ)))
          = Except.error s2 ∧
        s2.f3pCorrelatorHist.GetBinContent 1 = 1 ∧ s2.fDetectorBiasHist.GetBinContent 1 = 1 ∧
        s2.f3pCorrelatorVsMHist.GetBinContent 3 = 1 := by
      refine ⟨_, key, ?_, ?_, ?_⟩
      · show ((List.foldl correctVsMStep _ [1, 2]).f3pCorrelatorHist).GetBinContent 1 = 1
        rw [(foldl_correctVsMStep_integrated _ _).1]
        exact hI.1
      · show ((List.foldl correctVsMStep _ [1, 2]).fDetectorBiasHist).GetBinContent 1 = 1
        rw [(foldl_correctVsMStep_integrated _ _).2]
        exact hI.2
      · simp [TH1D.SetBinContent, TH1D.GetBinContent, hVsM, hNI, c3,
          exampleState_nonIsotropicVsM, corrected3pCorrelatorVsM]
    obtain ⟨s2, k1, k2, k3, k4⟩ := key'
    refine ⟨s2, ?_, k2, k3, k4⟩
    unfold Finish
    rw [if_pos (by decide)]
    simp only [hcorr, if_true, CorrectForDetectorEffectsVsMChecked, hn, hloop]
    rw [show exampleFinishPointers.fDetectorBiasVsMHist = false from rfl, k1]
  · have hz : ∀ b ∈ binLoop 12, (CorrectForDetectorEffects
        (State.init (exampleSettings ℚ))).f3pCorrelatorVsMPro.GetBinContent b = 0 := by
      intro b _
      have h : (CorrectForDetectorEffects
          (State.init (exampleSettings ℚ))).f3pCorrelatorVsMPro
          = (State.init (exampleSettings ℚ)).f3pCorrelatorVsMPro := by
        unfold CorrectForDetectorEffects
        by_cases h : (State.init (exampleSettings ℚ)).f3pCorrelatorPro.GetBinContent 1 = 0 <;>
          simp [h]
      rw [h]
      simp [State.init, TProfile.book, TProfile.GetBinContent, TProfile.GetBinEntries,
        TProfile.binFills]
    refine ⟨AccessSettings (BookProfileHoldingSettings (exampleSettings ℚ)) (exampleSettings ℚ),
      (binLoop 12).foldl correctVsMStep (CorrectForDetectorEffects
        (State.init (exampleSettings ℚ))), ?_⟩
    unfold Finish
    rw [if_pos (by decide)]
    simp only [hcorr, if_true, CorrectForDetectorEffectsVsMChecked, hn]
    rw [foldlM_correctVsMStepChecked_of_zero _ _ _ hz]

/-! ## The multiplicity bin and the overlap sums in `Double_t` arithmetic -/

section Binary64Examples

lemma exampleBinary64_values :
    exampleBinary64Mmin = ⟨5404319552844595, -54⟩ ∧
    exampleBinary64Width = ⟨2476979795053773, -51⟩ := by
  decide!

lemma exampleBinary64_toRat :
    exampleBinary64Mmin.toRat = 5404319552844595 / 18014398509481984 ∧
    exampleBinary64Width.toRat = 2476979795053773 / 2251799813685248 ∧
    (Binary64.ofInt 8).toRat = 8 := by
  have h8 : Binary64.ofInt 8 = ⟨1, 3⟩ := by decide!
  rw [exampleBinary64_values.1, exampleBinary64_values.2, h8]
  simp only [Binary64.toRat]
  norm_num

/-- The code at `Mmin = 0.3`, `dM = 1.1`, `nBins = 7`, `M = 8` in `Double_t` arithmetic: both
branch tests fail, the quotient `(dMult-fMinMultiplicity)/fMultipicityBinWidth` is `7.0`, the
fill position is `8.5`, and on the axis booked as `(9, 0, 9)` it lies in bin 9. -/
lemma vsMPositionBinary64_example :
    Binary64.lt (Binary64.ofInt 8) exampleBinary64Mmin = false ∧
    Binary64.lt (Binary64.ofInt 8)
      (Binary64.add exampleBinary64Mmin
        (Binary64.mul (Binary64.ofInt 7) exampleBinary64Width)) = true ∧
    Binary64.div (Binary64.sub (Binary64.ofInt 8) exampleBinary64Mmin) exampleBinary64Width
      = Binary64.ofInt 7 ∧
    vsMPositionBinary64 exampleBinary64Mmin exampleBinary64Width 7 (Binary64.ofInt 8)
      = ⟨17, -1⟩ ∧
    FindBinBinary64 9 (Binary64.ofInt 0) (Binary64.ofInt 9) ⟨17, -1⟩ = 9 := by
  decide!

end Binary64Examples

/-- Counterexample for C3, in `Double_t` arithmetic, at `Mmin = 0.3`, `dM = 1.1`, `nBins = 7`,
`M = 8` (the `Double_t` values of the literals): `dM > 0`, `M ≥ Mmin` and
`M < Mmin + nBins*dM` hold for the exact values, and `floor((M-Mmin)/dM) = 6`, so the bin of the
claim is the regular bin of index 6, bin 8; the code takes the regular branch, fills at
`1.5 + 7 = 8.5`, and that position lies in bin `9 = nBins+2`, the overflow bin. -/
theorem vsM_fill_binary64_overflow :
    0 < exampleBinary64Width.toRat ∧
    exampleBinary64Mmin.toRat ≤ (Binary64.ofInt 8).toRat ∧
    (Binary64.ofInt 8).toRat < exampleBinary64Mmin.toRat + 7 * exampleBinary64Width.toRat ∧
    ⌊((Binary64.ofInt 8).toRat - exampleBinary64Mmin.toRat) / exampleBinary64Width.toRat⌋ = 6 ∧
    FindBinBinary64 (7 + 2) (Binary64.ofInt 0) (Binary64.ofInt (7 + 2))
      (vsMPositionBinary64 exampleBinary64Mmin exampleBinary64Width 7 (Binary64.ofInt 8))
        = 7 + 2 ∧
    FindBinBinary64 (7 + 2) (Binary64.ofInt 0) (Binary64.ofInt (7 + 2))
      (vsMPositionBinary64 exampleBinary64Mmin exampleBinary64Width 7 (Binary64.ofInt 8))
        ≠ 2 + 6 := by
  obtain ⟨r1, r2, r3⟩ := exampleBinary64_toRat
  have hb : FindBinBinary64 (7 + 2) (Binary64.ofInt 0) (Binary64.ofInt (7 + 2))
      (vsMPositionBinary64 exampleBinary64Mmin exampleBinary64Width 7 (Binary64.ofInt 8))
        = 7 + 2 := by
    rw [vsMPositionBinary64_example.2.2.2.1]
    exact vsMPositionBinary64_example.2.2.2.2
  refine ⟨?_, ?_, ?_, ?_, hb, ?_⟩
  · rw [r2]; norm_num
  · rw [r1, r3]; norm_num
  · rw [r1, r2, r3]; norm_num
  · rw [r1, r2, r3, Int.floor_eq_iff]
    constructor <;> norm_num
  · rw [hb]; norm_num

/-- Counterexample for C24, in `Double_t` arithmetic, at `Mmin = 0.3`, `dM = 1.1`, `nBins = 7`,
`M = 8`: the hypotheses `dM > 0`, `nBins ≥ 1`, `Mmin ≤ M < Mmin + nBins*dM` hold for the exact
values and as the code evaluates them, yet the index computed by the reducers,
`(Int_t)((dMult-fMinMultiplicity)/fMultipicityBinWidth)`, is `7 = nBins`, not at most `nBins-1`;
`Mmin + 7*dM ≤ M` fails; and the fill position `1.5 + 7` is `0.5+nBins+1`, the position of the
overflow fill. -/
theorem vsM_index_binary64_overflow :
    0 < exampleBinary64Width.toRat ∧ (1 : Int) ≤ 7 ∧
    exampleBinary64Mmin.toRat ≤ (Binary64.ofInt 8).toRat ∧
    (Binary64.ofInt 8).toRat < exampleBinary64Mmin.toRat + 7 * exampleBinary64Width.toRat ∧
    Binary64.lt (Binary64.ofInt 8) exampleBinary64Mmin = false ∧
    Binary64.lt (Binary64.ofInt 8)
      (Binary64.add exampleBinary64Mmin
        (Binary64.mul (Binary64.ofInt 7) exampleBinary64Width)) = true ∧
    Binary64.toInt
      (Binary64.div (Binary64.sub (Binary64.ofInt 8) exampleBinary64Mmin) exampleBinary64Width)
        = 7 ∧
    ¬ ((7 : Int) ≤ 7 - 1) ∧
    ¬ (exampleBinary64Mmin.toRat + 7 * exampleBinary64Width.toRat ≤ (Binary64.ofInt 8).toRat) ∧
    vsMPositionBinary64 exampleBinary64Mmin exampleBinary64Width 7 (Binary64.ofInt 8)
      = Binary64.add (Binary64.add ⟨1, -1⟩ (Binary64.ofInt 7)) (Binary64.ofInt 1) := by
  obtain ⟨r1, r2, r3⟩ := exampleBinary64_toRat
  obtain ⟨e1, e2, e3, e4, -⟩ := vsMPositionBinary64_example
  refine ⟨?_, by norm_num, ?_, ?_, e1, e2, ?_, by norm_num, ?_, ?_⟩
  · rw [r2]; norm_num
  · rw [r1, r3]; norm_num
  · rw [r1, r2, r3]; norm_num
  · rw [e3]; decide!
  · rw [r1, r2, r3]; norm_num
  · rw [e4]; decide!

/-- Counterexample for C29, in `Double_t` arithmetic: for the example event (harmonic 2, no
charge cut, per-event profiles booked as `(100, 0., 10.)`), every overlap fill of the pair
variable `(pT1+pT2)/2` goes to bin 11 and both overlap profiles have 4 entries there, made of the
same values in a different order; the sums `fArray[11]` are `3998969939916659 * 2^-50` for the
profile `1st POI is also RP` and `7997939879833319 * 2^-51` for the profile `2nd POI is also RP`:
they differ by `2^-51`. -/
theorem overlap_sums_binary64_differ :
    (binArraysBinary64 100 (Binary64.ofInt 0) (Binary64.ofInt 10)
      (overlapFillsBinary64 2 false exampleTracksBinary64 0 0) 11).2 = Binary64.ofInt 4 ∧
    (binArraysBinary64 100 (Binary64.ofInt 0) (Binary64.ofInt 10)
      (overlapFillsBinary64 2 false exampleTracksBinary64 1 0) 11).2 = Binary64.ofInt 4 ∧
    (binArraysBinary64 100 (Binary64.ofInt 0) (Binary64.ofInt 10)
      (overlapFillsBinary64 2 false exampleTracksBinary64 0 0) 11).1
        = ⟨3998969939916659, -50⟩ ∧
    (binArraysBinary64 100 (Binary64.ofInt 0) (Binary64.ofInt 10)
      (overlapFillsBinary64 2 false exampleTracksBinary64 1 0) 11).1
        = ⟨7997939879833319, -51⟩ ∧
    (binArraysBinary64 100 (Binary64.ofInt 0) (Binary64.ofInt 10)
      (overlapFillsBinary64 2 false exampleTracksBinary64 0 0) 11).1
      ≠ (binArraysBinary64 100 (Binary64.ofInt 0) (Binary64.ofInt 10)
          (overlapFillsBinary64 2 false exampleTracksBinary64 1 0) 11).1 ∧
    (⟨7997939879833319, -51⟩ : Binary64).toRat - (⟨3998969939916659, -50⟩ : Binary64).toRat
      = 2 ^ (-51 : Int) := by
  have h0 : binArraysBinary64 100 (Binary64.ofInt 0) (Binary64.ofInt 10)
      (overlapFillsBinary64 2 false exampleTracksBinary64 0 0) 11
      = (⟨3998969939916659, -50⟩, Binary64.ofInt 4) := by decide!
  have h1 : binArraysBinary64 100 (Binary64.ofInt 0) (Binary64.ofInt 10)
      (overlapFillsBinary64 2 false exampleTracksBinary64 1 0) 11
      = (⟨7997939879833319, -51⟩, Binary64.ofInt 4) := by decide!
  refine ⟨by rw [h0], by rw [h1], by rw [h0], by rw [h1], ?_, ?_⟩
  · rw [h0, h1]
    decide
  · simp only [Binary64.toRat]
    norm_num

end MixedHarmonics
